import Mathlib

/-! Verification development for the RethinkDB key-value store core.

Shallow embedding of `src/btree/key_value_store.cc` (store lifecycle, key
hashing and slice selection, superblock initializer, slice lifecycle, CAS
generation), of the garbage collector state of
`src/serializer/log/data_block_manager.hpp` (`gc_state_t::set_step`, the
constructors of `gc_entry`, the accessors of the garbage ratio) and of the
large-value messages of `src/buffer_cache/large_buf.hpp` (`NUM_SEGMENTS`,
`fill_large_value_msg_t`, `write_large_value_msg_t`), and theorems about them.

Conventions of the embedding:

* `uint32_t` values are natural numbers kept below `2^32` by `u32`;
  `int` values that may go negative are integers.
* Memory is a list of byte cells; a cell is read modulo 256.
* `assert`, `check` and `fail` abort the process: a handler returns
  `Outcome.fatal` carrying the message and the state at the moment of the abort.
* Cores are not modelled in the store. `do_on_cpu` runs a task on the core it
  names and a collaborator invokes a callback on its own core, so the four
  `assert_cpu()` calls of the file (`on_serializer_ready`,
  `have_created_a_serializer`, `have_created_a_slice`, `finish_start`) hold and
  are left out. The large-value messages take the core they run on as an
  argument and compare it with `rh_cpu` and `home_cpu` as the code does.
-/

namespace RethinkDB

/-! ## Key hashing (`hash`, `get16bits`) -/

/-- Wrap a natural number to a `uint32_t`. -/
def u32 (x : Nat) : Nat := x % 4294967296

/-- Conversion of an `int` to `uint32_t` (value modulo `2^32`). -/
def int_to_u32 (i : Int) : Nat := (i % 4294967296).toNat

/-- The struct `btree_key`: a `uint8_t size` followed by `char contents[]`.
`contents = none` stands for a NULL `contents` pointer. -/
structure btree_key where
  size : Nat
  contents : Option (List Nat)
deriving DecidableEq, Repr

/-- Read of the memory cell at address `p` as a `uint8_t`. -/
def byte_at (data : List Nat) (p : Nat) : Nat := (data.getD p 0) % 256

/-- Read of the memory cell at address `p` through a plain `char`, promoted to
`int`. Whether `char` is signed is the platform's choice (`char_signed`). -/
def char_at (char_signed : Bool) (data : List Nat) (p : Nat) : Int :=
  if char_signed && decide (128 ≤ byte_at data p) then (byte_at data p : Int) - 256
  else (byte_at data p : Int)

/-- The macro `get16bits(d)`:
`(((uint32_t)(((const uint8_t *)(d))[1])) << 8) + (uint32_t)(((const uint8_t *)(d))[0])`. -/
def get16bits (data : List Nat) (d : Nat) : Nat :=
  u32 (u32 ((byte_at data (d + 1)) <<< 8) + byte_at data d)

/-- The main loop of `hash`: `for (;len > 0; len--) { ... }`; the state is the
pointer `data` (as an offset) and the accumulator `hash`. -/
def hash_rounds (data : List Nat) : Nat → Nat → Nat → Nat × Nat
  | 0, d, h => (d, h)
  | len + 1, d, h =>
    let h1 := u32 (h + get16bits data d)
    let tmp := u32 ((get16bits data (d + 2)) <<< 11) ^^^ h1
    let h2 := u32 (h1 <<< 16) ^^^ tmp
    let d1 := d + 4
    let h3 := u32 (h2 + (h2 >>> 11))
    hash_rounds data len d1 h3

/-- The `switch (rem)` of `hash`. The bytes `*data` and `data[sizeof (uint16_t)]`
are read through `const char *`. -/
def hash_rem (char_signed : Bool) (data : List Nat) (rem d h : Nat) : Nat :=
  if rem = 3 then
    let h1 := u32 (h + get16bits data d)
    let h2 := h1 ^^^ u32 (h1 <<< 16)
    let h3 := h2 ^^^ int_to_u32 (char_at char_signed data (d + 2) * 262144)
    u32 (h3 + (h3 >>> 11))
  else if rem = 2 then
    let h1 := u32 (h + get16bits data d)
    let h2 := h1 ^^^ u32 (h1 <<< 11)
    u32 (h2 + (h2 >>> 17))
  else if rem = 1 then
    let h1 := u32 (h + int_to_u32 (char_at char_signed data d))
    let h2 := h1 ^^^ u32 (h1 <<< 10)
    u32 (h2 + (h2 >>> 1))
  else h

/-- The tail of `hash` ("Force avalanching of final 127 bits"). -/
def hash_avalanche (h : Nat) : Nat :=
  let h1 := h ^^^ u32 (h <<< 3)
  let h2 := u32 (h1 + (h1 >>> 5))
  let h3 := h2 ^^^ u32 (h2 <<< 4)
  let h4 := u32 (h3 + (h3 >>> 17))
  let h5 := h4 ^^^ u32 (h4 <<< 25)
  u32 (h5 + (h5 >>> 6))

/-- The function `uint32_t hash(btree_key *key)`. -/
def hash (char_signed : Bool) (key : btree_key) : Nat :=
  let len := key.size
  if len ≤ 0 || key.contents.isNone then 0
  else
    let data := key.contents.getD []
    let rem := len &&& 3
    let len1 := len >>> 2
    let r := hash_rounds data len1 0 (u32 len)
    hash_avalanche (hash_rem char_signed data rem r.1 r.2)

/-! ### The pseudocode of the specification, section 6 -/

/-- Specification side: `u16le`, the little-endian two-byte load. -/
def spec_u16le (d : List Nat) : Nat := d.getD 0 0 + 256 * d.getD 1 0

/-- Specification side: one round of the `while n-- > 0` loop; the state is
`(h, data)`. -/
def spec_round (s : Nat × List Nat) : Nat × List Nat :=
  let h1 := u32 (s.1 + spec_u16le s.2)
  let tmp := u32 (spec_u16le (s.2.drop 2) <<< 11) ^^^ h1
  let h2 := u32 (h1 <<< 16) ^^^ tmp
  (u32 (h2 + (h2 >>> 11)), s.2.drop 4)

/-- Specification side: the `switch rem` block. `widen` says how the single
bytes `d[0]` and `d[2]` become 32-bit values. -/
def spec_switch (widen : Nat → Nat) (rem h : Nat) (d : List Nat) : Nat :=
  match rem with
  | 3 =>
    let h1 := u32 (h + spec_u16le d)
    let h2 := h1 ^^^ u32 (h1 <<< 16)
    let h3 := h2 ^^^ u32 (widen (d.getD 2 0) <<< 18)
    u32 (h3 + (h3 >>> 11))
  | 2 =>
    let h1 := u32 (h + spec_u16le d)
    let h2 := h1 ^^^ u32 (h1 <<< 11)
    u32 (h2 + (h2 >>> 17))
  | 1 =>
    let h1 := u32 (h + widen (d.getD 0 0))
    let h2 := h1 ^^^ u32 (h1 <<< 10)
    u32 (h2 + (h2 >>> 1))
  | _ => h

/-- Specification side: the last line of the pseudocode, shifts 3,5,4,17,25,6. -/
def spec_tail (h : Nat) : Nat :=
  let h1 := h ^^^ u32 (h <<< 3)
  let h2 := u32 (h1 + (h1 >>> 5))
  let h3 := h2 ^^^ u32 (h2 <<< 4)
  let h4 := u32 (h3 + (h3 >>> 17))
  let h5 := h4 ^^^ u32 (h4 <<< 25)
  u32 (h5 + (h5 >>> 6))

/-- Specification side: the whole pseudocode, for a key of `len` bytes `key`,
with the widening of the single remainder bytes left open. -/
def spec_hash_with (widen : Nat → Nat) (len : Nat) (key : List Nat) : Nat :=
  let s := spec_round^[len >>> 2] (u32 len, key)
  spec_tail (spec_switch widen (len &&& 3) s.1 s.2)

/-- Specification side: the pseudocode as written, `d[0]` and `d[2]` taken as
unsigned 8-bit values. -/
def spec_hash (len : Nat) (key : List Nat) : Nat := spec_hash_with id len key

/-- Widening of a byte read through plain `char` to 32 bits: sign extension
where `char` is signed, zero extension otherwise. -/
def char_widen (char_signed : Bool) (b : Nat) : Nat :=
  if char_signed && decide (128 ≤ b) then b + 4294967040 else b

/-! ## Outcomes of handlers -/

/-- Result of running a handler: either it returns `ret` leaving state `s`, or
the process aborts (`assert`, `check`, `fail`) with a message, in state `s`. -/
inductive Outcome (α σ : Type) where
  | ok (ret : α) (s : σ)
  | fatal (msg : String) (s : σ)

/-- The state carried by an outcome. -/
def Outcome.state {α σ : Type} : Outcome α σ → σ
  | .ok _ s => s
  | .fatal _ s => s

/-- The value the handler returned, if it returned. -/
def Outcome.returned {α σ : Type} : Outcome α σ → Option α
  | .ok a _ => some a
  | .fatal _ _ => none

/-- Whether the handler returned. -/
def Outcome.is_ok {α σ : Type} : Outcome α σ → Bool
  | .ok _ _ => true
  | .fatal _ _ => false

/-! ## Constants declared outside the sources shown -/

/-- Constants that `key_value_store.cc` uses and that are declared in headers
outside the sources shown; they are parameters of the embedding. -/
structure constants where
  MAX_DB_FILE_NAME : Nat
  NULL_BLOCK_ID : Nat
  ENOENT : Int
  DATA_DIRECTORY : List Char

/-! ## The transactional cache (external collaborator) -/

/-- The struct `btree_superblock_t`: the two fields the initializer inspects. -/
structure btree_superblock_t where
  database_exists : Nat
  root_block : Nat
deriving DecidableEq, Repr

/-- Cache operations that take a callback and may suspend. -/
inductive cache_op where
  | start
  | begin_transaction
  | acquire
  | commit
  | shutdown
deriving DecidableEq, Repr

/-- Calls received by a cache and by the superblock buffer. -/
inductive cache_call where
  | start
  | begin_transaction_write
  | acquire_superblock_write
  | get_data_read
  | get_data_write
  | release
  | commit
  | shutdown
deriving DecidableEq, Repr

/-- The choices of the cache: whether each operation completes inline (`true`)
or suspends and completes later through its callback (`false`). -/
structure cache_oracle where
  start_inline : Bool
  begin_inline : Bool
  acquire_inline : Bool
  commit_inline : Bool
  shutdown_inline : Bool

/-- The cache of a slice, as far as `key_value_store.cc` depends on it: its
constructor arguments, the data of the superblock block, the operation it has
accepted with a callback and not yet completed, and the calls it has received
(newest first). -/
structure cache_t where
  serializer : Nat
  id_on_serializer : Nat
  count_on_serializer : Nat
  max_size : Nat
  wait_for_flush : Bool
  flush_timer_ms : Nat
  flush_threshold_percent : Nat
  superblock : btree_superblock_t
  pending : Option cache_op
  calls : List cache_call
deriving DecidableEq, Repr

/-- A call that completes at once. -/
def cache_t.call (c : cache_t) (what : cache_call) : cache_t :=
  { c with calls := what :: c.calls }

/-- A call of operation `op` that either completes inline or suspends. -/
def cache_t.call_op (c : cache_t) (what : cache_call) (op : cache_op) (inline : Bool) :
    cache_t :=
  { c with calls := what :: c.calls, pending := if inline then c.pending else some op }

/-! ## The superblock initializer (`initialize_superblock_fsm_t`) -/

/-- The enum `initialize_superblock_fsm_t::state_t`. -/
inductive sb_state_t where
  | state_unstarted
  | state_begin_transaction
  | state_beginning_transaction
  | state_acquire_superblock
  | state_acquiring_superblock
  | state_make_change
  | state_commit_transaction
  | state_committing_transaction
  | state_finish
  | state_done
deriving DecidableEq, Repr

/-- The fields of `initialize_superblock_fsm_t`. Pointers are recorded by whether
they are non-NULL; `callback` can only point to the owning slice. -/
structure initialize_superblock_fsm_t where
  state : sb_state_t
  sb_buf : Bool
  txn : Bool
  callback : Bool
deriving DecidableEq, Repr

/-- The constructor `initialize_superblock_fsm_t(cache_t *cache)`. -/
def initialize_superblock_fsm_t.new : initialize_superblock_fsm_t :=
  { state := .state_unstarted, sb_buf := false, txn := false, callback := false }

/-- The initializer together with the cache it points to. -/
structure sb_machine where
  fsm : initialize_superblock_fsm_t
  cache : cache_t
deriving DecidableEq, Repr

/-- What a step of the initializer reports: the value it returns, and whether it
invoked `callback->on_initialize_superblock()` (its last action before returning). -/
structure sb_ret where
  done : Bool
  notified : Bool
deriving DecidableEq, Repr

namespace initialize_superblock_fsm_t

/-- Last block of `next_initialize_superblock_step`: `if (state == state_finish)`,
then `fail("Unexpected state")`. -/
def step_finish (m : sb_machine) : Outcome sb_ret sb_machine :=
  if m.fsm.state = .state_finish then
    .ok ⟨true, m.fsm.callback⟩ { m with fsm := { m.fsm with state := .state_done } }
  else .fatal "Unexpected state" m

/-- Block `if (state == state_commit_transaction)` and what follows it. -/
def step_commit (o : cache_oracle) (m : sb_machine) : Outcome sb_ret sb_machine :=
  if m.fsm.state = .state_commit_transaction then
    if o.commit_inline then
      step_finish { fsm := { m.fsm with state := .state_finish },
                    cache := m.cache.call_op .commit .commit true }
    else
      .ok ⟨false, false⟩
        { fsm := { m.fsm with state := .state_committing_transaction },
          cache := m.cache.call_op .commit .commit false }
  else step_finish m

/-- Block `if (state == state_make_change)` and what follows it. -/
def step_make_change (NULL_BLOCK_ID : Nat) (o : cache_oracle) (m : sb_machine) :
    Outcome sb_ret sb_machine :=
  if m.fsm.state = .state_make_change then
    let c1 := m.cache.call .get_data_read
    let c2 :=
      if c1.superblock.database_exists = 0 then
        { (c1.call .get_data_write) with
          superblock := { database_exists := 1, root_block := NULL_BLOCK_ID } }
      else c1
    let c3 := c2.call .release
    step_commit o { fsm := { m.fsm with state := .state_commit_transaction }, cache := c3 }
  else step_commit o m

/-- Block `if (state == state_acquire_superblock)` and what follows it. -/
def step_acquire (NULL_BLOCK_ID : Nat) (o : cache_oracle) (m : sb_machine) :
    Outcome sb_ret sb_machine :=
  if m.fsm.state = .state_acquire_superblock then
    if o.acquire_inline then
      step_make_change NULL_BLOCK_ID o
        { fsm := { m.fsm with sb_buf := true, state := .state_make_change },
          cache := m.cache.call_op .acquire_superblock_write .acquire true }
    else
      .ok ⟨false, false⟩
        { fsm := { m.fsm with sb_buf := false, state := .state_acquiring_superblock },
          cache := m.cache.call_op .acquire_superblock_write .acquire false }
  else step_make_change NULL_BLOCK_ID o m

/-- The method `next_initialize_superblock_step`. -/
def next_initialize_superblock_step (NULL_BLOCK_ID : Nat) (o : cache_oracle) (m : sb_machine) :
    Outcome sb_ret sb_machine :=
  if m.fsm.state = .state_begin_transaction then
    if o.begin_inline then
      step_acquire NULL_BLOCK_ID o
        { fsm := { m.fsm with txn := true, state := .state_acquire_superblock },
          cache := m.cache.call_op .begin_transaction_write .begin_transaction true }
    else
      .ok ⟨false, false⟩
        { fsm := { m.fsm with txn := false, state := .state_beginning_transaction },
          cache := m.cache.call_op .begin_transaction_write .begin_transaction false }
  else step_acquire NULL_BLOCK_ID o m

/-- The method `initialize_superblock_if_necessary(btree_slice_t *cb)`. -/
def initialize_superblock_if_necessary (NULL_BLOCK_ID : Nat) (o : cache_oracle)
    (m : sb_machine) : Outcome sb_ret sb_machine :=
  if m.fsm.state ≠ .state_unstarted then .fatal "assert(state == state_unstarted)" m
  else
    match next_initialize_superblock_step NULL_BLOCK_ID o
        { m with fsm := { m.fsm with state := .state_begin_transaction, callback := false } } with
    | .fatal msg m1 => .fatal msg m1
    | .ok r m1 =>
      if r.done then .ok r m1
      else .ok r { m1 with fsm := { m1.fsm with callback := true } }

/-- The callback `on_txn_begin`. -/
def on_txn_begin (NULL_BLOCK_ID : Nat) (o : cache_oracle) (m : sb_machine) :
    Outcome sb_ret sb_machine :=
  if m.fsm.state ≠ .state_beginning_transaction then
    .fatal "assert(state == state_beginning_transaction)" m
  else
    next_initialize_superblock_step NULL_BLOCK_ID o
      { m with fsm := { m.fsm with txn := true, state := .state_acquire_superblock } }

/-- The callback `on_txn_commit`. -/
def on_txn_commit (NULL_BLOCK_ID : Nat) (o : cache_oracle) (m : sb_machine) :
    Outcome sb_ret sb_machine :=
  if m.fsm.state ≠ .state_committing_transaction then
    .fatal "assert(state == state_committing_transaction)" m
  else
    next_initialize_superblock_step NULL_BLOCK_ID o
      { m with fsm := { m.fsm with state := .state_finish } }

/-- The callback `on_block_available`. -/
def on_block_available (NULL_BLOCK_ID : Nat) (o : cache_oracle) (m : sb_machine) :
    Outcome sb_ret sb_machine :=
  if m.fsm.state ≠ .state_acquiring_superblock then
    .fatal "assert(state == state_acquiring_superblock)" m
  else
    next_initialize_superblock_step NULL_BLOCK_ID o
      { m with fsm := { m.fsm with sb_buf := true, state := .state_make_change } }

/-- The cache completes the operation it has pending and invokes the matching
callback of the initializer; with nothing pending nothing happens. -/
def complete_pending (NULL_BLOCK_ID : Nat) (o : cache_oracle) (m : sb_machine) :
    Outcome sb_ret sb_machine :=
  let m1 : sb_machine := { m with cache := { m.cache with pending := none } }
  match m.cache.pending with
  | some .begin_transaction => on_txn_begin NULL_BLOCK_ID o m1
  | some .acquire => on_block_available NULL_BLOCK_ID o m1
  | some .commit => on_txn_commit NULL_BLOCK_ID o m1
  | _ => .ok ⟨false, false⟩ m

/-- Delivery of up to `n` pending completions, stopping at an abort. -/
def drain (NULL_BLOCK_ID : Nat) (o : cache_oracle) :
    Nat → Outcome sb_ret sb_machine → Outcome sb_ret sb_machine
  | 0, r => r
  | _ + 1, .fatal msg m => .fatal msg m
  | n + 1, .ok r m =>
    match complete_pending NULL_BLOCK_ID o m with
    | .fatal msg m1 => .fatal msg m1
    | .ok r1 m1 => drain NULL_BLOCK_ID o n (.ok ⟨r.done || r1.done, r.notified || r1.notified⟩ m1)

/-- A complete run of the initializer on a cache: a fresh fsm is started with
`initialize_superblock_if_necessary`, then the (at most three) suspended cache
operations complete one after the other. -/
def complete_run (NULL_BLOCK_ID : Nat) (o : cache_oracle) (c : cache_t) :
    Outcome sb_ret sb_machine :=
  drain NULL_BLOCK_ID o 3
    (initialize_superblock_if_necessary NULL_BLOCK_ID o { fsm := .new, cache := c })

end initialize_superblock_fsm_t

/-! ## The slice (`btree_slice_t`) -/

/-- The states of `btree_slice_t`. -/
inductive slice_state_t where
  | state_unstarted
  | state_starting_up_start_cache
  | state_starting_up_waiting_for_cache
  | state_starting_up_initialize_superblock
  | state_starting_up_waiting_for_superblock
  | state_starting_up_finish
  | state_ready
  | state_shutting_down_shutdown_cache
  | state_shutting_down_waiting_for_cache
  | state_shutting_down_finish
  | state_shut_down
deriving DecidableEq, Repr

/-- The fields of `btree_slice_t` that `key_value_store.cc` uses. The callbacks
can only point to the store, so they are recorded by whether they are non-NULL;
`sb_fsm = none` is a pointer to no live object. -/
structure btree_slice_t where
  cas_counter : Nat
  state : slice_state_t
  cache : cache_t
  sb_fsm : Option initialize_superblock_fsm_t
  ready_callback : Bool
  shutdown_callback : Bool
deriving DecidableEq, Repr

/-- The callbacks a slice invokes on the store. -/
inductive slice_upcall where
  | on_slice_ready
  | on_slice_shutdown
deriving DecidableEq, Repr

/-- What a step of a slice reports: the value it returns, and the callback it
invoked on the store (its last action before returning), if any. -/
structure slice_ret where
  done : Bool
  upcall : Option slice_upcall
deriving DecidableEq, Repr

namespace btree_slice_t

/-- The constructor `btree_slice_t::btree_slice_t`; `sb` is the content of the
superblock block that the cache will hand out. -/
def new (serializer id_on_serializer count_on_serializer max_size : Nat) (wait_for_flush : Bool)
    (flush_timer_ms flush_threshold_percent : Nat) (sb : btree_superblock_t) : btree_slice_t :=
  { cas_counter := 0,
    state := .state_unstarted,
    cache :=
      { serializer := serializer, id_on_serializer := id_on_serializer,
        count_on_serializer := count_on_serializer, max_size := max_size,
        wait_for_flush := wait_for_flush, flush_timer_ms := flush_timer_ms,
        flush_threshold_percent := flush_threshold_percent,
        superblock := sb, pending := none, calls := [] },
    sb_fsm := none,
    ready_callback := false,
    shutdown_callback := false }

/-- The destructor `~btree_slice_t`: its assertion holds. -/
def destructor_ok (s : btree_slice_t) : Bool :=
  decide (s.state = .state_unstarted ∨ s.state = .state_shut_down)

/-- The destructor `~initialize_superblock_fsm_t` run by `delete sb_fsm`: its
assertion holds (deleting a pointer to no object does nothing). -/
def sb_fsm_destructor_ok (s : btree_slice_t) : Bool :=
  match s.sb_fsm with
  | some f => decide (f.state = .state_unstarted ∨ f.state = .state_done)
  | none => true

/-- Last block of `next_starting_up_step`: `if (state == state_starting_up_finish)`,
then `fail("Unexpected state")`. -/
def step_starting_up_finish (s : btree_slice_t) : Outcome slice_ret btree_slice_t :=
  if s.state = .state_starting_up_finish then
    if sb_fsm_destructor_ok s then
      .ok ⟨true, if s.ready_callback then some .on_slice_ready else none⟩
        { s with sb_fsm := none, state := .state_ready }
    else .fatal "assert(state == state_unstarted || state == state_done)" s
  else .fatal "Unexpected state" s

/-- Block `if (state == state_starting_up_initialize_superblock)` and what follows. -/
def step_starting_up_initialize_superblock (NULL_BLOCK_ID : Nat) (o : cache_oracle)
    (s : btree_slice_t) : Outcome slice_ret btree_slice_t :=
  if s.state = .state_starting_up_initialize_superblock then
    match initialize_superblock_fsm_t.initialize_superblock_if_necessary NULL_BLOCK_ID o
        { fsm := .new, cache := s.cache } with
    | .fatal msg m => .fatal msg { s with sb_fsm := some m.fsm, cache := m.cache }
    | .ok r m =>
      if r.done then
        step_starting_up_finish
          { s with sb_fsm := some m.fsm, cache := m.cache, state := .state_starting_up_finish }
      else
        .ok ⟨false, none⟩
          { s with sb_fsm := some m.fsm, cache := m.cache,
                   state := .state_starting_up_waiting_for_superblock }
  else step_starting_up_finish s

/-- The method `btree_slice_t::next_starting_up_step`. -/
def next_starting_up_step (NULL_BLOCK_ID : Nat) (o : cache_oracle) (s : btree_slice_t) :
    Outcome slice_ret btree_slice_t :=
  if s.state = .state_starting_up_start_cache then
    if o.start_inline then
      step_starting_up_initialize_superblock NULL_BLOCK_ID o
        { s with cache := s.cache.call_op .start .start true,
                 state := .state_starting_up_initialize_superblock }
    else
      .ok ⟨false, none⟩
        { s with cache := s.cache.call_op .start .start false,
                 state := .state_starting_up_waiting_for_cache }
  else step_starting_up_initialize_superblock NULL_BLOCK_ID o s

/-- The method `btree_slice_t::start(ready_callback_t *cb)`. -/
def start (NULL_BLOCK_ID : Nat) (o : cache_oracle) (s : btree_slice_t) :
    Outcome slice_ret btree_slice_t :=
  if s.state ≠ .state_unstarted then .fatal "assert(state == state_unstarted)" s
  else
    match next_starting_up_step NULL_BLOCK_ID o
        { s with state := .state_starting_up_start_cache, ready_callback := false } with
    | .fatal msg s1 => .fatal msg s1
    | .ok r s1 =>
      if r.done then .ok r s1
      else .ok r { s1 with ready_callback := true }

/-- The callback `btree_slice_t::on_cache_ready`. -/
def on_cache_ready (NULL_BLOCK_ID : Nat) (o : cache_oracle) (s : btree_slice_t) :
    Outcome slice_ret btree_slice_t :=
  if s.state ≠ .state_starting_up_waiting_for_cache then
    .fatal "assert(state == state_starting_up_waiting_for_cache)" s
  else
    next_starting_up_step NULL_BLOCK_ID o
      { s with state := .state_starting_up_initialize_superblock }

/-- The callback `btree_slice_t::on_initialize_superblock`. -/
def on_initialize_superblock (NULL_BLOCK_ID : Nat) (o : cache_oracle) (s : btree_slice_t) :
    Outcome slice_ret btree_slice_t :=
  if s.state ≠ .state_starting_up_waiting_for_superblock then
    .fatal "assert(state == state_starting_up_waiting_for_superblock)" s
  else
    next_starting_up_step NULL_BLOCK_ID o { s with state := .state_starting_up_finish }

/-- Last block of `next_shutting_down_step`: `if (state == state_shutting_down_finish)`,
then `fail("Invalid state.")`. -/
def step_shutting_down_finish (s : btree_slice_t) : Outcome slice_ret btree_slice_t :=
  if s.state = .state_shutting_down_finish then
    .ok ⟨true, if s.shutdown_callback then some .on_slice_shutdown else none⟩
      { s with state := .state_shut_down }
  else .fatal "Invalid state." s

/-- The method `btree_slice_t::next_shutting_down_step`. -/
def next_shutting_down_step (o : cache_oracle) (s : btree_slice_t) :
    Outcome slice_ret btree_slice_t :=
  if s.state = .state_shutting_down_shutdown_cache then
    if o.shutdown_inline then
      step_shutting_down_finish
        { s with cache := s.cache.call_op .shutdown .shutdown true,
                 state := .state_shutting_down_finish }
    else
      .ok ⟨false, none⟩
        { s with cache := s.cache.call_op .shutdown .shutdown false,
                 state := .state_shutting_down_waiting_for_cache }
  else step_shutting_down_finish s

/-- The method `btree_slice_t::shutdown(shutdown_callback_t *cb)`. -/
def shutdown (o : cache_oracle) (s : btree_slice_t) : Outcome slice_ret btree_slice_t :=
  if s.state ≠ .state_ready then .fatal "assert(state == state_ready)" s
  else
    match next_shutting_down_step o
        { s with state := .state_shutting_down_shutdown_cache, shutdown_callback := false } with
    | .fatal msg s1 => .fatal msg s1
    | .ok r s1 =>
      if r.done then .ok r s1
      else .ok r { s1 with shutdown_callback := true }

/-- The callback `btree_slice_t::on_cache_shutdown`. -/
def on_cache_shutdown (o : cache_oracle) (s : btree_slice_t) :
    Outcome slice_ret btree_slice_t :=
  if s.state ≠ .state_shutting_down_waiting_for_cache then
    .fatal "assert(state == state_shutting_down_waiting_for_cache)" s
  else
    next_shutting_down_step o { s with state := .state_shutting_down_finish }

/-- A callback of the superblock initializer owned by the slice is invoked by the
cache; when the initializer in turn invokes `on_initialize_superblock`, that
method runs. -/
def sb_fsm_callback (NULL_BLOCK_ID : Nat) (o : cache_oracle)
    (cb : Nat → cache_oracle → sb_machine → Outcome sb_ret sb_machine) (s : btree_slice_t) :
    Outcome slice_ret btree_slice_t :=
  match s.sb_fsm with
  | none => .fatal "callback on a destroyed initialize_superblock_fsm_t" s
  | some f =>
    match cb NULL_BLOCK_ID o { fsm := f, cache := s.cache } with
    | .fatal msg m => .fatal msg { s with sb_fsm := some m.fsm, cache := m.cache }
    | .ok r m =>
      if r.notified then
        on_initialize_superblock NULL_BLOCK_ID o { s with sb_fsm := some m.fsm, cache := m.cache }
      else .ok ⟨false, none⟩ { s with sb_fsm := some m.fsm, cache := m.cache }

/-- The cache of the slice completes operation `op` and invokes the callback it
was given for it. -/
def cache_callback (NULL_BLOCK_ID : Nat) (o : cache_oracle) (op : cache_op) (s : btree_slice_t) :
    Outcome slice_ret btree_slice_t :=
  let s1 : btree_slice_t := { s with cache := { s.cache with pending := none } }
  match op with
  | .start => on_cache_ready NULL_BLOCK_ID o s1
  | .begin_transaction =>
    sb_fsm_callback NULL_BLOCK_ID o initialize_superblock_fsm_t.on_txn_begin s1
  | .acquire =>
    sb_fsm_callback NULL_BLOCK_ID o initialize_superblock_fsm_t.on_block_available s1
  | .commit =>
    sb_fsm_callback NULL_BLOCK_ID o initialize_superblock_fsm_t.on_txn_commit s1
  | .shutdown => on_cache_shutdown o s1

end btree_slice_t

/-! ## The store (`btree_key_value_store_t`) -/

/-- The states of the store. -/
inductive store_state_t where
  | state_off
  | state_starting_up
  | state_ready
  | state_shutting_down
deriving DecidableEq, Repr

/-- The fields of `cmd_config_t` that the store consumes. -/
structure cmd_config_t where
  db_file_name : List Char
  n_serializers : Nat
  n_slices : Nat
  max_cache_size : Nat
  wait_for_flush : Bool
  flush_timer_ms : Nat
  flush_threshold_percent : Nat
deriving DecidableEq, Repr

/-- How a serializer was started. -/
inductive serializer_start_t where
  | start_existing
  | start_new
deriving DecidableEq, Repr

/-- A serializer (external collaborator): the file name it was constructed with,
the start call it received, and whether `shutdown` was called on it. -/
structure serializer_t where
  name : List Char
  started : Option serializer_start_t
  shutdown_called : Bool
deriving DecidableEq, Repr

/-- The fields of `btree_key_value_store_t`. The arrays `serializers` and `slices`
map an index to the object the entry points to, if any. -/
structure btree_key_value_store_t where
  cmd_config : cmd_config_t
  state : store_state_t
  messages_out : Int
  ready_callback : Option Nat
  shutdown_callback : Option Nat
  serializers : Nat → Option serializer_t
  slices : Nat → Option btree_slice_t

/-- The methods of the store that are run through `do_on_cpu`. -/
inductive task_t where
  | create_a_serializer_on_this_core (id : Nat)
  | have_created_a_serializer
  | create_a_slice_on_this_core (id : Nat)
  | have_created_a_slice
  | shutdown_a_slice (id : Nat)
  | have_shutdown_a_slice
  | shutdown_a_serializer (id : Nat)
  | have_shutdown_a_serializer
deriving DecidableEq, Repr

/-- What is in flight towards the store: a dispatched task that has not run yet,
a serializer that will report through its callback, or a cache operation of a
slice that will complete through its callback. -/
inductive message where
  | task (t : task_t)
  | serializer_ready (id : Nat)
  | serializer_shutdown (id : Nat)
  | cache_completion (id : Nat) (op : cache_op)
deriving DecidableEq, Repr

/-- Observable steps of the store, recorded in the trace. -/
inductive event where
  | mkdir_data_directory
  | dispatched (t : task_t)
  | executed (t : task_t)
  | state_changed (old new : store_state_t)
  | on_store_ready (cb : Nat)
  | on_store_shutdown (cb : Nat)
  | slice_deleted (id : Nat)
  | serializer_deleted (id : Nat)
deriving DecidableEq, Repr

/-- The store together with what is in flight towards it and the trace of its
steps (newest first). -/
structure world where
  store : btree_key_value_store_t
  in_flight : List message
  trace : List event

/-- The choices of the environment during one handler: whether a `do_on_cpu`
issued for task `t` on behalf of object `id` runs on the spot, what `access`
returns for the file of a serializer, whether a serializer call completes inline,
the choices of the cache of each slice, and the superblock held by the file of
each slice. -/
structure env_t where
  run_inline : task_t → Nat → Bool
  access_res : Nat → Int
  access_errno : Nat → Int
  serializer_start_inline : Nat → Bool
  serializer_shutdown_inline : Nat → Bool
  cache : Nat → cache_oracle
  disk_superblock : Nat → btree_superblock_t

/-- Continue with return value `b` after a call, unless it aborted. -/
def Outcome.then_return {α β σ : Type} (b : β) : Outcome α σ → Outcome β σ
  | .ok _ s => .ok b s
  | .fatal msg s => .fatal msg s

namespace world

/-- Append an event to the trace. -/
def log (ev : event) (w : world) : world := { w with trace := ev :: w.trace }

/-- Put a message in flight. -/
def send (m : message) (w : world) : world := { w with in_flight := w.in_flight ++ [m] }

/-- Assignment to `slices[id]`. -/
def set_slice (id : Nat) (s : Option btree_slice_t) (w : world) : world :=
  { w with store := { w.store with slices := Function.update w.store.slices id s } }

/-- Assignment to `serializers[id]`. -/
def set_serializer (id : Nat) (s : Option serializer_t) (w : world) : world :=
  { w with store := { w.store with serializers := Function.update w.store.serializers id s } }

/-- Assignment to `state`, recorded in the trace. -/
def set_state (st : store_state_t) (w : world) : world :=
  { w with store := { w.store with state := st },
           trace := .state_changed w.store.state st :: w.trace }

/-- Assignment to `messages_out`. -/
def set_messages_out (n : Int) (w : world) : world :=
  { w with store := { w.store with messages_out := n } }

/-- If the cache of slice `id` has accepted an operation with a callback, its
completion is in flight. -/
def await_cache (id : Nat) (s : btree_slice_t) (w : world) : world :=
  match s.cache.pending with
  | some op => w.send (.cache_completion id op)
  | none => w

end world

/-- Modelled from the spec: `check(msg, err)` is declared outside the sources
shown. Per the error-handling section (configuration errors and file failures
are fatal, "abort with message") it aborts with `msg` exactly when its second
argument, the error condition, is true. -/
def check_aborts (err : Bool) : Bool := err

/-- Modelled from the spec: `do_on_cpu(cpu, obj, method, args)` is declared outside
the sources shown. Per the cross-core dispatch contract it runs a one-shot task on
the given core: `method` runs on the spot when the environment says so (the
caller is already on that core), and is put in flight otherwise. `who` is the
object on whose behalf the task is issued. -/
def do_on_cpu (e : env_t) (t : task_t) (who : Nat) (method : world → Outcome Bool world)
    (w : world) : Outcome Unit world :=
  if e.run_inline t who then (method (w.log (.dispatched t))).then_return ()
  else .ok () ((w.log (.dispatched t)).send (.task t))

/-- A loop `for (int id = 0; id < n; id++) body(id)`, given the list of the ids. -/
def for_ids (body : Nat → world → Outcome Unit world) : List Nat → world → Outcome Unit world
  | [], w => .ok () w
  | id :: ids, w =>
    match body id w with
    | .fatal msg w1 => .fatal msg w1
    | .ok _ w1 => for_ids body ids w1

/-- The loop of `create_a_slice_on_this_core` that computes `count_on_serializer`. -/
def count_on_serializer (n_serializers n_slices id : Nat) : Nat :=
  (List.range n_slices).foldl
    (fun c i => if i % n_serializers = id % n_serializers then c + 1 else c) 0

/-- The text that `snprintf(name, MAX_DB_FILE_NAME, "%s_%d", db_file_name, id)`
formats, before truncation. -/
def formatted_name (db_file_name : List Char) (id : Nat) : List Char :=
  db_file_name ++ '_' :: Nat.toDigits 10 id

namespace btree_key_value_store_t

/-- The constructor `btree_key_value_store_t(cmd_config_t *cmd_config)`. -/
def new (cmd_config : cmd_config_t) : Outcome Unit world :=
  let w : world :=
    { store :=
        { cmd_config := cmd_config, state := .state_off, messages_out := 0,
          ready_callback := none, shutdown_callback := none,
          serializers := fun _ => none, slices := fun _ => none },
      in_flight := [], trace := [] }
  if ¬ cmd_config.n_serializers > 0 then .fatal "assert(cmd_config->n_serializers > 0)" w
  else if ¬ cmd_config.n_slices > 0 then .fatal "assert(cmd_config->n_slices > 0)" w
  else .ok () w

/-- The method `finish_start`. Its `assert_cpu()` holds (the method is reached only from
`have_created_a_slice`, on the home core) and is left out. -/
def finish_start (w : world) : Outcome Unit world :=
  if w.store.state ≠ .state_starting_up then .fatal "assert(state == state_starting_up)" w
  else
    let w1 := w.set_state .state_ready
    match w1.store.ready_callback with
    | some cb => .ok () (w1.log (.on_store_ready cb))
    | none => .ok () w1

/-- The method `have_created_a_slice`; its `assert_cpu()` is left out. -/
def have_created_a_slice (w : world) : Outcome Bool world :=
  let w1 := (w.log (.executed .have_created_a_slice)).set_messages_out (w.store.messages_out - 1)
  if w1.store.messages_out = 0 then (finish_start w1).then_return true
  else .ok true w1

/-- The method `on_slice_ready`; `id` is the slice that reports. -/
def on_slice_ready (e : env_t) (id : Nat) (w : world) : Outcome Unit world :=
  do_on_cpu e .have_created_a_slice id have_created_a_slice w

/-- The method `create_a_slice_on_this_core(int id)`. -/
def create_a_slice_on_this_core (K : constants) (e : env_t) (id : Nat) (w : world) :
    Outcome Bool world :=
  let w0 := w.log (.executed (.create_a_slice_on_this_core id))
  let cfg := w0.store.cmd_config
  let serializer := id % cfg.n_serializers
  let id_on_serializer := id / cfg.n_serializers
  let count := count_on_serializer cfg.n_serializers cfg.n_slices id
  if ¬ count ≥ 1 then .fatal "assert(count_on_serializer >= 1)" w0
  else if ¬ count ≥ cfg.n_slices / cfg.n_serializers then
    .fatal "assert(count_on_serializer >= cmd_config->n_slices / cmd_config->n_serializers)" w0
  else if ¬ count ≤ cfg.n_slices / cfg.n_serializers + 1 then
    .fatal "assert(count_on_serializer <= cmd_config->n_slices / cmd_config->n_serializers + 1)" w0
  else
    let slice := btree_slice_t.new serializer id_on_serializer count
      (cfg.max_cache_size / cfg.n_slices) cfg.wait_for_flush cfg.flush_timer_ms
      cfg.flush_threshold_percent (e.disk_superblock id)
    match btree_slice_t.start K.NULL_BLOCK_ID (e.cache id) slice with
    | .fatal msg s1 => .fatal msg (w0.set_slice id (some s1))
    | .ok r s1 =>
      let w1 := (w0.set_slice id (some s1)).await_cache id s1
      if r.done then (on_slice_ready e id w1).then_return true
      else .ok true w1

/-- The method `create_slices`. -/
def create_slices (K : constants) (e : env_t) (w : world) : Outcome Unit world :=
  for_ids
    (fun id => do_on_cpu e (.create_a_slice_on_this_core id) id (create_a_slice_on_this_core K e id))
    (List.range w.store.cmd_config.n_slices)
    (w.set_messages_out w.store.cmd_config.n_slices)

/-- The method `have_created_a_serializer`; its `assert_cpu()` is left out. -/
def have_created_a_serializer (K : constants) (e : env_t) (w : world) : Outcome Bool world :=
  let w1 :=
    (w.log (.executed .have_created_a_serializer)).set_messages_out (w.store.messages_out - 1)
  if w1.store.messages_out = 0 then (create_slices K e w1).then_return true
  else .ok true w1

/-- The method `on_serializer_ready(serializer_t *ser)`; `id` is the index of `ser`.
Its `ser->assert_cpu()` is left out. -/
def on_serializer_ready (K : constants) (e : env_t) (id : Nat) (w : world) : Outcome Unit world :=
  do_on_cpu e .have_created_a_serializer id (have_created_a_serializer K e) w

/-- The method `create_a_serializer_on_this_core(int id)`. -/
def create_a_serializer_on_this_core (K : constants) (e : env_t) (id : Nat) (w : world) :
    Outcome Bool world :=
  let w0 := w.log (.executed (.create_a_serializer_on_this_core id))
  let formatted := formatted_name w0.store.cmd_config.db_file_name id
  let len := formatted.length
  let name := formatted.take (K.MAX_DB_FILE_NAME - 1)
  if check_aborts (decide (len = K.MAX_DB_FILE_NAME)) then .fatal "Name too long" w0
  else
    let w1 := w0.set_serializer id (some { name := name, started := none, shutdown_called := false })
    let res := e.access_res id
    if res = 0 then
      let w2 := w1.set_serializer id
        (some { name := name, started := some .start_existing, shutdown_called := false })
      if e.serializer_start_inline id then (on_serializer_ready K e id w2).then_return true
      else .ok true (w2.send (.serializer_ready id))
    else if res = -1 ∧ e.access_errno id = K.ENOENT then
      let w2 := w1.set_serializer id
        (some { name := name, started := some .start_new, shutdown_called := false })
      if e.serializer_start_inline id then (on_serializer_ready K e id w2).then_return true
      else .ok true (w2.send (.serializer_ready id))
    else .fatal "access() failed" w1

/-- The method `create_serializers`. -/
def create_serializers (K : constants) (e : env_t) (w : world) : Outcome Unit world :=
  let w0 :=
    if K.DATA_DIRECTORY.isPrefixOf w.store.cmd_config.db_file_name then
      w.log .mkdir_data_directory
    else w
  for_ids
    (fun id =>
      do_on_cpu e (.create_a_serializer_on_this_core id) id (create_a_serializer_on_this_core K e id))
    (List.range w0.store.cmd_config.n_serializers)
    (w0.set_messages_out w0.store.cmd_config.n_serializers)

/-- The method `start(ready_callback_t *cb)`. -/
def start (K : constants) (e : env_t) (cb : Nat) (w : world) : Outcome Bool world :=
  if w.store.state ≠ .state_off then .fatal "assert(state == state_off)" w
  else
    let w1 := w.set_state .state_starting_up
    let w2 : world := { w1 with store := { w1.store with ready_callback := none } }
    match create_serializers K e w2 with
    | .fatal msg w3 => .fatal msg w3
    | .ok _ w3 =>
      if w3.store.state = .state_ready then .ok true w3
      else .ok false { w3 with store := { w3.store with ready_callback := some cb } }

/-- The index computed by `slice_for_key`: `hash(key) % cmd_config->n_slices`, the
`int` operand converted to `uint32_t`. -/
def slice_index_for_key (char_signed : Bool) (n_slices : Nat) (key : btree_key) : Nat :=
  hash char_signed key % u32 n_slices

/-- The method `slice_for_key(btree_key *key)`. -/
def slice_for_key (char_signed : Bool) (st : btree_key_value_store_t) (key : btree_key) :
    Option btree_slice_t :=
  st.slices (slice_index_for_key char_signed st.cmd_config.n_slices key)

/-- The method `finish_shutdown`. -/
def finish_shutdown (w : world) : Outcome Unit world :=
  if w.store.state ≠ .state_shutting_down then .fatal "assert(state == state_shutting_down)" w
  else
    let w1 := w.set_state .state_off
    match w1.store.shutdown_callback with
    | some cb => .ok () (w1.log (.on_store_shutdown cb))
    | none => .ok () w1

/-- The method `have_shutdown_a_serializer`. -/
def have_shutdown_a_serializer (w : world) : Outcome Bool world :=
  let w1 :=
    (w.log (.executed .have_shutdown_a_serializer)).set_messages_out (w.store.messages_out - 1)
  if w1.store.messages_out = 0 then (finish_shutdown w1).then_return true
  else .ok true w1

/-- The method `on_serializer_shutdown(serializer_t *serializer)`; `id` is the index
of `serializer`. `gdelete` destroys the object. -/
def on_serializer_shutdown (e : env_t) (id : Nat) (w : world) : Outcome Unit world :=
  do_on_cpu e .have_shutdown_a_serializer id have_shutdown_a_serializer
    ((w.set_serializer id none).log (.serializer_deleted id))

/-- The method `shutdown_a_serializer(int id)`. -/
def shutdown_a_serializer (e : env_t) (id : Nat) (w : world) : Outcome Bool world :=
  let w0 := w.log (.executed (.shutdown_a_serializer id))
  match w0.store.serializers id with
  | none => .fatal "serializers[id] points to no serializer" w0
  | some ser =>
    let w1 := w0.set_serializer id (some { ser with shutdown_called := true })
    if e.serializer_shutdown_inline id then (on_serializer_shutdown e id w1).then_return true
    else .ok true (w1.send (.serializer_shutdown id))

/-- The method `shutdown_serializers`; the target core is read from
`serializers[id]->home_cpu`. -/
def shutdown_serializers (e : env_t) (w : world) : Outcome Unit world :=
  for_ids
    (fun id w1 =>
      match w1.store.serializers id with
      | none => .fatal "serializers[id] points to no serializer" w1
      | some _ => do_on_cpu e (.shutdown_a_serializer id) id (shutdown_a_serializer e id) w1)
    (List.range w.store.cmd_config.n_serializers)
    (w.set_messages_out w.store.cmd_config.n_serializers)

/-- The method `have_shutdown_a_slice`. -/
def have_shutdown_a_slice (e : env_t) (w : world) : Outcome Bool world :=
  let w1 := (w.log (.executed .have_shutdown_a_slice)).set_messages_out (w.store.messages_out - 1)
  if w1.store.messages_out = 0 then (shutdown_serializers e w1).then_return true
  else .ok true w1

/-- The method `on_slice_shutdown(btree_slice_t *slice)`; `id` is the index of
`slice`. `delete slice` runs the destructor of the slice. -/
def on_slice_shutdown (e : env_t) (id : Nat) (w : world) : Outcome Unit world :=
  match w.store.slices id with
  | none => .fatal "slices[id] points to no slice" w
  | some s =>
    if s.destructor_ok then
      do_on_cpu e .have_shutdown_a_slice id (have_shutdown_a_slice e)
        ((w.set_slice id none).log (.slice_deleted id))
    else .fatal "assert(state == state_unstarted || state == state_shut_down)" w

/-- The method `shutdown_a_slice(int id)`. -/
def shutdown_a_slice (e : env_t) (id : Nat) (w : world) : Outcome Bool world :=
  let w0 := w.log (.executed (.shutdown_a_slice id))
  match w0.store.slices id with
  | none => .fatal "slices[id] points to no slice" w0
  | some s =>
    match btree_slice_t.shutdown (e.cache id) s with
    | .fatal msg s1 => .fatal msg (w0.set_slice id (some s1))
    | .ok r s1 =>
      let w1 := (w0.set_slice id (some s1)).await_cache id s1
      if r.done then (on_slice_shutdown e id w1).then_return true
      else .ok true w1

/-- The method `shutdown_slices`; the target core is read from `slices[id]->home_cpu`. -/
def shutdown_slices (e : env_t) (w : world) : Outcome Unit world :=
  for_ids
    (fun id w1 =>
      match w1.store.slices id with
      | none => .fatal "slices[id] points to no slice" w1
      | some _ => do_on_cpu e (.shutdown_a_slice id) id (shutdown_a_slice e id) w1)
    (List.range w.store.cmd_config.n_slices)
    (w.set_messages_out w.store.cmd_config.n_slices)

/-- The method `shutdown(shutdown_callback_t *cb)`. -/
def shutdown (e : env_t) (cb : Nat) (w : world) : Outcome Bool world :=
  if w.store.state ≠ .state_ready then .fatal "assert(state == state_ready)" w
  else
    let w1 := w.set_state .state_shutting_down
    let w2 : world := { w1 with store := { w1.store with shutdown_callback := none } }
    match shutdown_slices e w2 with
    | .fatal msg w3 => .fatal msg w3
    | .ok _ w3 =>
      if w3.store.state = .state_off then .ok true w3
      else .ok false { w3 with store := { w3.store with shutdown_callback := some cb } }

/-- The destructor `~btree_key_value_store_t`. -/
def destructor (w : world) : Outcome Unit world :=
  if w.store.state ≠ .state_off then .fatal "assert(state == state_off)" w
  else .ok () w

/-- The cache of slice `id` completes operation `op` and invokes the callback it
was given; when the slice in turn invokes `on_slice_ready` or
`on_slice_shutdown` on the store, that method runs. -/
def cache_completion (K : constants) (e : env_t) (id : Nat) (op : cache_op) (w : world) :
    Outcome Unit world :=
  match w.store.slices id with
  | none => .fatal "callback on a destroyed slice" w
  | some s =>
    match btree_slice_t.cache_callback K.NULL_BLOCK_ID (e.cache id) op s with
    | .fatal msg s1 => .fatal msg (w.set_slice id (some s1))
    | .ok r s1 =>
      let w1 := (w.set_slice id (some s1)).await_cache id s1
      match r.upcall with
      | none => .ok () w1
      | some .on_slice_ready => on_slice_ready e id w1
      | some .on_slice_shutdown => on_slice_shutdown e id w1

/-- The method that a task names. -/
def run_task (K : constants) (e : env_t) : task_t → world → Outcome Bool world
  | .create_a_serializer_on_this_core id => create_a_serializer_on_this_core K e id
  | .have_created_a_serializer => have_created_a_serializer K e
  | .create_a_slice_on_this_core id => create_a_slice_on_this_core K e id
  | .have_created_a_slice => have_created_a_slice
  | .shutdown_a_slice id => shutdown_a_slice e id
  | .have_shutdown_a_slice => have_shutdown_a_slice e
  | .shutdown_a_serializer id => shutdown_a_serializer e id
  | .have_shutdown_a_serializer => have_shutdown_a_serializer

/-- Delivery of the `k`-th message in flight: the task runs on its core, or the
serializer or cache invokes its callback. With no such message nothing happens. -/
def deliver (K : constants) (e : env_t) (k : Nat) (w : world) : Outcome Unit world :=
  match w.in_flight[k]? with
  | none => .ok () w
  | some m =>
    let w1 : world := { w with in_flight := w.in_flight.eraseIdx k }
    match m with
    | .task t => (run_task K e t w1).then_return ()
    | .serializer_ready id => on_serializer_ready K e id w1
    | .serializer_shutdown id => on_serializer_shutdown e id w1
    | .cache_completion id op => cache_completion K e id op w1

/-- A sequence of deliveries, each with its own choices of the environment,
stopping at an abort. -/
def deliveries (K : constants) : List (env_t × Nat) → world → Outcome Unit world
  | [], w => .ok () w
  | (e, k) :: rest, w =>
    match deliver K e k w with
    | .fatal msg w1 => .fatal msg w1
    | .ok _ w1 => deliveries K rest w1

/-- An execution of the startup protocol: `start(cb)`, then a sequence of deliveries. -/
def startup_execution (K : constants) (e : env_t) (cb : Nat) (sched : List (env_t × Nat))
    (w : world) : Outcome Unit world :=
  match start K e cb w with
  | .fatal msg w1 => .fatal msg w1
  | .ok _ w1 => deliveries K sched w1

/-- An execution of the shutdown protocol: `shutdown(cb)`, then a sequence of deliveries. -/
def shutdown_execution (K : constants) (e : env_t) (cb : Nat) (sched : List (env_t × Nat))
    (w : world) : Outcome Unit world :=
  match shutdown e cb w with
  | .fatal msg w1 => .fatal msg w1
  | .ok _ w1 => deliveries K sched w1

/-- What can happen to a store: a call of `start`, a call of `shutdown`, or the delivery
of a message in flight. -/
inductive store_op where
  | start (cb : Nat)
  | shutdown (cb : Nat)
  | deliver (k : Nat)
deriving DecidableEq, Repr

/-- One operation on the store. -/
def run_op (K : constants) (e : env_t) : store_op → world → Outcome Unit world
  | .start cb, w => (start K e cb w).then_return ()
  | .shutdown cb, w => (shutdown e cb w).then_return ()
  | .deliver k, w => deliver K e k w

/-- A sequence of operations, each with its own choices of the environment, stopping at
an abort. -/
def run_ops (K : constants) : List (env_t × store_op) → world → Outcome Unit world
  | [], w => .ok () w
  | (e, op) :: rest, w =>
    match run_op K e op w with
    | .fatal msg w1 => .fatal msg w1
    | .ok _ w1 => run_ops K rest w1

end btree_key_value_store_t

/-- A cache holding superblock content `sb`, with nothing pending and no call
received yet. -/
def cache_t.holding (sb : btree_superblock_t) : cache_t :=
  { serializer := 0, id_on_serializer := 0, count_on_serializer := 1, max_size := 0,
    wait_for_flush := false, flush_timer_ms := 0, flush_threshold_percent := 0,
    superblock := sb, pending := none, calls := [] }

/-! ## Predicates used by the theorems -/

/-- Two caches hold the same constructor arguments. -/
def same_cache_args (c1 c2 : cache_t) : Prop :=
  c1.serializer = c2.serializer ∧ c1.id_on_serializer = c2.id_on_serializer ∧
    c1.count_on_serializer = c2.count_on_serializer ∧ c1.max_size = c2.max_size

/-! ## Invariants of the startup and shutdown protocols -/

/-- Postcondition of a handler: `P` on the value it returns and the state it returns
in, `Q` on the state it aborts in. -/
def Outcome.sat {α σ : Type} (P : α → σ → Prop) (Q : σ → Prop) : Outcome α σ → Prop
  | .ok a s => P a s
  | .fatal _ s => Q s

/-- Number of times method `t` has started running, according to the trace. -/
def executed_count (t : task_t) (tr : List event) : Nat := tr.count (.executed t)

/-- Whether an event is the destruction of a slice. -/
def event.is_slice_deleted : event → Bool
  | .slice_deleted _ => true
  | _ => false

/-- Number of slices destroyed, according to the trace. -/
def deleted_slices (tr : List event) : Nat := tr.countP event.is_slice_deleted

/-- Whether an event completes a protocol: the state becomes `ready` or `off`, or a
completion callback of the store's user is invoked. -/
def event.is_completion : event → Bool
  | .state_changed _ .state_ready => true
  | .state_changed _ .state_off => true
  | .on_store_ready _ => true
  | .on_store_shutdown _ => true
  | _ => false

/-- What must have happened before an event for the barriers to be respected; `older`
is the trace before the event. A slice-creation task is dispatched only after
`n_serializers` runs of `have_created_a_serializer`; the state becomes `ready` only
after, in addition, `n_slices` runs of `have_created_a_slice`, and `on_store_ready` is
invoked right after that state change; symmetrically for shutdown, where a serializer
shutdown task is dispatched only after `n_slices` runs of `have_shutdown_a_slice` and
`n_slices` slice destructions. -/
def event_ok (cfg : cmd_config_t) (ev : event) (older : List event) : Prop :=
  match ev with
  | .dispatched (.create_a_slice_on_this_core _) =>
    executed_count .have_created_a_serializer older = cfg.n_serializers
  | .state_changed _ .state_ready =>
    executed_count .have_created_a_serializer older = cfg.n_serializers ∧
      executed_count .have_created_a_slice older = cfg.n_slices
  | .on_store_ready _ =>
    executed_count .have_created_a_serializer older = cfg.n_serializers ∧
      executed_count .have_created_a_slice older = cfg.n_slices ∧
      older.head? = some (.state_changed .state_starting_up .state_ready)
  | .dispatched (.shutdown_a_serializer _) =>
    executed_count .have_shutdown_a_slice older = cfg.n_slices ∧
      deleted_slices older = cfg.n_slices
  | .state_changed _ .state_off =>
    executed_count .have_shutdown_a_slice older = cfg.n_slices ∧
      executed_count .have_shutdown_a_serializer older = cfg.n_serializers
  | .on_store_shutdown _ =>
    executed_count .have_shutdown_a_slice older = cfg.n_slices ∧
      executed_count .have_shutdown_a_serializer older = cfg.n_serializers ∧
      older.head? = some (.state_changed .state_shutting_down .state_off)
  | _ => True

/-- Every event of the trace respects the barriers. -/
def trace_ok (cfg : cmd_config_t) : List event → Prop
  | [] => True
  | ev :: older => event_ok cfg ev older ∧ trace_ok cfg older

/-- Whether the initializer is suspended, waiting for a callback of the cache. -/
def sb_state_t.suspended : sb_state_t → Bool
  | .state_beginning_transaction => true
  | .state_acquiring_superblock => true
  | .state_committing_transaction => true
  | _ => false

/-- Whether a slice is waiting for a callback of its cache or of its initializer. -/
def slice_state_t.waiting : slice_state_t → Bool
  | .state_starting_up_waiting_for_cache => true
  | .state_starting_up_waiting_for_superblock => true
  | .state_shutting_down_waiting_for_cache => true
  | _ => false

/-- Whether the cache has accepted, and not yet completed, an operation of the startup
of a slice (`start`, `begin_transaction`, `acquire` or `commit`). -/
def cache_t.pending_startup (c : cache_t) : Bool :=
  match c.pending with
  | some .shutdown => false
  | some _ => true
  | none => false

/-- Whether the cache has accepted, and not yet completed, an operation of the
superblock initializer (`begin_transaction`, `acquire` or `commit`). -/
def cache_t.pending_initializer (c : cache_t) : Bool :=
  match c.pending with
  | some .begin_transaction => true
  | some .acquire => true
  | some .commit => true
  | _ => false

/-- Local invariant of a slice: while it waits for a callback of its cache or of its
superblock initializer, the callback it will invoke in turn is set; a suspended
initializer has its callback set and its slice waits for it; and the cache has an
operation pending only while the slice waits. -/
def slice_ok (s : btree_slice_t) : Prop :=
  (s.state = .state_starting_up_waiting_for_cache ∨
      s.state = .state_starting_up_waiting_for_superblock → s.ready_callback = true) ∧
  (∀ f, s.sb_fsm = some f → f.state.suspended = true →
    f.callback = true ∧ s.state = .state_starting_up_waiting_for_superblock) ∧
  (s.state = .state_shutting_down_waiting_for_cache → s.shutdown_callback = true) ∧
  (s.cache.pending ≠ none → s.state.waiting = true)

/-- The four phases of the lifecycle protocols. -/
inductive phase_t where
  | creating_serializers
  | creating_slices
  | shutting_down_slices
  | shutting_down_serializers
deriving DecidableEq, Repr

namespace phase_t

/-- The store state during a phase. -/
def state : phase_t → store_state_t
  | .creating_serializers => .state_starting_up
  | .creating_slices => .state_starting_up
  | .shutting_down_slices => .state_shutting_down
  | .shutting_down_serializers => .state_shutting_down

/-- The method that processes a report of the phase on the home core. -/
def report : phase_t → task_t
  | .creating_serializers => .have_created_a_serializer
  | .creating_slices => .have_created_a_slice
  | .shutting_down_slices => .have_shutdown_a_slice
  | .shutting_down_serializers => .have_shutdown_a_serializer

/-- The number of reports a phase waits for. -/
def total (cfg : cmd_config_t) : phase_t → Nat
  | .creating_serializers => cfg.n_serializers
  | .creating_slices => cfg.n_slices
  | .shutting_down_slices => cfg.n_slices
  | .shutting_down_serializers => cfg.n_serializers

/-- The messages that can be in flight during a phase; each stands for one report
still outstanding. -/
def carries : phase_t → message → Bool
  | .creating_serializers, .task (.create_a_serializer_on_this_core _) => true
  | .creating_serializers, .serializer_ready _ => true
  | .creating_serializers, .task .have_created_a_serializer => true
  | .creating_slices, .task (.create_a_slice_on_this_core _) => true
  | .creating_slices, .cache_completion _ op => decide (op ≠ .shutdown)
  | .creating_slices, .task .have_created_a_slice => true
  | .shutting_down_slices, .task (.shutdown_a_slice _) => true
  | .shutting_down_slices, .cache_completion _ .shutdown => true
  | .shutting_down_slices, .task .have_shutdown_a_slice => true
  | .shutting_down_serializers, .task (.shutdown_a_serializer _) => true
  | .shutting_down_serializers, .serializer_shutdown _ => true
  | .shutting_down_serializers, .task .have_shutdown_a_serializer => true
  | _, _ => false

/-- What the trace already holds when a phase is entered. -/
def entered (cfg : cmd_config_t) : phase_t → List event → Prop
  | .creating_serializers, tr => executed_count .have_created_a_slice tr = 0
  | .creating_slices, tr => executed_count .have_created_a_serializer tr = cfg.n_serializers
  | .shutting_down_slices, tr => executed_count .have_shutdown_a_serializer tr = 0
  | .shutting_down_serializers, tr =>
    executed_count .have_shutdown_a_slice tr = cfg.n_slices ∧ deleted_slices tr = cfg.n_slices

/-- The completion callback that the protocol of a phase will invoke. -/
def callback (st : btree_key_value_store_t) : phase_t → Option Nat
  | .creating_serializers => st.ready_callback
  | .creating_slices => st.ready_callback
  | .shutting_down_slices => st.shutdown_callback
  | .shutting_down_serializers => st.shutdown_callback

end phase_t

/-- Invariant of a phase. `r` is the number of reports owed by the handler that is
running (tasks it has still to dispatch, and the chain it is executing); between
handlers `r = 0`. `cb` is the stored completion callback. -/
structure in_phase (cfg : cmd_config_t) (cb : Option Nat) (P : phase_t) (r : Nat)
    (w : world) : Prop where
  cfg_eq : w.store.cmd_config = cfg
  state_eq : w.store.state = P.state
  cb_eq : P.callback w.store = cb
  slices_ok : ∀ id s, w.store.slices id = some s → slice_ok s
  tr_ok : trace_ok cfg w.trace
  no_completion : ∀ ev ∈ w.trace, ev.is_completion = false
  mo : w.store.messages_out = ((w.in_flight.length + r : Nat) : Int)
  pos : 1 ≤ w.in_flight.length + r
  msgs : ∀ m ∈ w.in_flight, P.carries m = true
  reports : executed_count P.report w.trace + (w.in_flight.length + r) = P.total cfg
  entered : P.entered cfg w.trace

/-- The events with which a protocol completes, newest first: the callback, if one is
stored, right after the state change. -/
def completion_events (cb : Option Nat) (st : store_state_t) : List event :=
  match st, cb with
  | .state_ready, some c => [.on_store_ready c, .state_changed .state_starting_up .state_ready]
  | .state_ready, none => [.state_changed .state_starting_up .state_ready]
  | .state_off, some c => [.on_store_shutdown c, .state_changed .state_shutting_down .state_off]
  | .state_off, none => [.state_changed .state_shutting_down .state_off]
  | _, _ => []

/-- The completion callback stored for the protocol that ends in state `st`. -/
def completion_callback (store : btree_key_value_store_t) : store_state_t → Option Nat
  | .state_ready => store.ready_callback
  | _ => store.shutdown_callback

/-- Invariant of a store whose startup (`st = state_ready`) or shutdown
(`st = state_off`) protocol has completed: nothing is in flight, all reports were
processed, and the trace ends with the completion events, which occur nowhere before. -/
structure completed (cfg : cmd_config_t) (cb : Option Nat) (st : store_state_t)
    (w : world) : Prop where
  cfg_eq : w.store.cmd_config = cfg
  state_eq : w.store.state = st
  cb_eq : completion_callback w.store st = cb
  slices_ok : ∀ id s, w.store.slices id = some s → slice_ok s
  tr_ok : trace_ok cfg w.trace
  quiet : w.in_flight = []
  mo : w.store.messages_out = 0
  once : ∃ older, w.trace = completion_events cb st ++ older ∧
    ∀ ev ∈ older, ev.is_completion = false


/-- Whether a task is one of the four methods that process a report. -/
def task_t.is_report : task_t → Bool
  | .have_created_a_serializer => true
  | .have_created_a_slice => true
  | .have_shutdown_a_slice => true
  | .have_shutdown_a_serializer => true
  | _ => false

/-- Events that count for no barrier: dispatches, runs of methods other than the
report methods, the destruction of a serializer and the `mkdir`. -/
def event.is_plain : event → Bool
  | .dispatched _ => true
  | .executed t => !t.is_report
  | .serializer_deleted _ => true
  | .mkdir_data_directory => true
  | _ => false

/-- Invariant of the startup protocol between handlers: the store is creating its
serializers, or creating its slices, or has become ready. -/
def startup_inv (cfg : cmd_config_t) (cb : Option Nat) (w : world) : Prop :=
  in_phase cfg cb .creating_serializers 0 w ∨ in_phase cfg cb .creating_slices 0 w ∨
    completed cfg cb .state_ready w

/-- Whether a message stands for a slice that is not destroyed yet: a queued
`shutdown_a_slice` task or a pending completion of its cache. -/
def message.holds_slice : message → Bool
  | .task (.shutdown_a_slice _) => true
  | .cache_completion _ _ => true
  | _ => false

/-- During the shutdown of the slices: the slices destroyed so far, those that a message
in flight stands for, and the `r` that the running handler has still to destroy, are
`n_slices` together. -/
def slices_to_delete (cfg : cmd_config_t) (r : Nat) (w : world) : Prop :=
  deleted_slices w.trace + w.in_flight.countP message.holds_slice + r = cfg.n_slices

/-- Invariant of the shutdown protocol between handlers: the store is shutting down
its slices, or shutting down its serializers, or has become off. -/
def shutdown_inv (cfg : cmd_config_t) (cb : Option Nat) (w : world) : Prop :=
  (in_phase cfg cb .shutting_down_slices 0 w ∧ slices_to_delete cfg 0 w) ∨
    in_phase cfg cb .shutting_down_serializers 0 w ∨ completed cfg cb .state_off w

/-- The transitions of the store state machine:
`off -> starting_up -> ready -> shutting_down -> off`. -/
def store_state_t.next : store_state_t → store_state_t
  | .state_off => .state_starting_up
  | .state_starting_up => .state_ready
  | .state_ready => .state_shutting_down
  | .state_shutting_down => .state_off

/-- The state reached by following the state changes recorded in a trace (newest
first) from `s0`, if they form a path along the cycle: every change leaves the state
reached so far and enters its successor. -/
def state_path (s0 : store_state_t) : List event → Option store_state_t
  | [] => some s0
  | .state_changed a b :: tr =>
    if state_path s0 tr = some a ∧ b = a.next then some b else none
  | _ :: tr => state_path s0 tr

/-- The state changes recorded in the trace form a path along the cycle from `s0` to
the present state of the store. -/
def history_ok (s0 : store_state_t) (w : world) : Prop :=
  state_path s0 w.trace = some w.store.state

/-! ## Measure of the work in flight -/

/-- Rank of a cache operation in the life of a slice: the operations of the startup
complete in decreasing rank. -/
def cache_op.rank : cache_op → Nat
  | .start => 5
  | .begin_transaction => 4
  | .acquire => 3
  | .commit => 2
  | .shutdown => 2

/-- An upper bound on the number of deliveries that a message in flight can cause:
its own, and those of the messages that its handler, and their handlers in turn, can
put in flight. The last report of a phase starts the next phase, so a message of the
creation of serializers accounts for the creation of every slice, and a message of
the shutdown of slices for the shutdown of every serializer. -/
def message.weight (cfg : cmd_config_t) : message → Nat
  | .task (.create_a_serializer_on_this_core _) => 3 + 6 * cfg.n_slices
  | .serializer_ready _ => 2 + 6 * cfg.n_slices
  | .task .have_created_a_serializer => 1 + 6 * cfg.n_slices
  | .task (.create_a_slice_on_this_core _) => 6
  | .cache_completion _ op => op.rank + (if op = .shutdown then 3 * cfg.n_serializers else 0)
  | .task .have_created_a_slice => 1
  | .task (.shutdown_a_slice _) => 3 + 3 * cfg.n_serializers
  | .task .have_shutdown_a_slice => 1 + 3 * cfg.n_serializers
  | .task (.shutdown_a_serializer _) => 3
  | .serializer_shutdown _ => 2
  | .task .have_shutdown_a_serializer => 1

/-- An upper bound on the number of deliveries still to come: the sum of the weights of
the messages in flight. -/
def work (cfg : cmd_config_t) (w : world) : Nat :=
  (w.in_flight.map (message.weight cfg)).sum

/-- Every delivery of the schedule picks a message that is in flight, as long as there
is one. -/
def productive (K : constants) : List (env_t × Nat) → world → Bool
  | [], _ => true
  | (e, k) :: rest, w =>
    (decide (k < w.in_flight.length) || w.in_flight.isEmpty) &&
      match btree_key_value_store_t.deliver K e k w with
      | .ok _ w1 => productive K rest w1
      | .fatal _ _ => true

/-- The handler leaves the configuration alone and adds at most `c` to the work. -/
def work_within (cfg : cmd_config_t) (c : Nat) (w w1 : world) : Prop :=
  w1.store.cmd_config = cfg ∧ work cfg w1 ≤ work cfg w + c

/-! ## Calls of the superblock initializer -/

/-- The calls by which the initializer drives the transaction, as opposed to its reads
and writes of the data of the acquired buffer. -/
def cache_call.is_get_data : cache_call → Bool
  | .get_data_read => true
  | .get_data_write => true
  | _ => false

/-! ## The slice with the history of its states -/

/-- Position of a state in the life of a slice, in the order of the enum
`btree_slice_t::state_t`. -/
def slice_state_t.rank : slice_state_t → Nat
  | .state_unstarted => 0
  | .state_starting_up_start_cache => 1
  | .state_starting_up_waiting_for_cache => 2
  | .state_starting_up_initialize_superblock => 3
  | .state_starting_up_waiting_for_superblock => 4
  | .state_starting_up_finish => 5
  | .state_ready => 6
  | .state_shutting_down_shutdown_cache => 7
  | .state_shutting_down_waiting_for_cache => 8
  | .state_shutting_down_finish => 9
  | .state_shut_down => 10

/-- The state of an outcome seen through `f`. -/
def Outcome.map_state {α σ τ : Type} (f : σ → τ) : Outcome α σ → Outcome α τ
  | .ok a s => .ok a (f s)
  | .fatal msg s => .fatal msg (f s)

/-- A slice together with the values its field `state` has held, newest first; the
first one is the present state. -/
structure traced_slice where
  slice : btree_slice_t
  visited : List slice_state_t
deriving DecidableEq, Repr

namespace traced_slice

/-- A slice as its constructor leaves it, or as it is found: its history is its
present state. -/
def observe (s : btree_slice_t) : traced_slice := { slice := s, visited := [s.state] }

/-- Assignment `state = st`, recorded in the history. -/
def enter (st : slice_state_t) (t : traced_slice) : traced_slice :=
  { slice := { t.slice with state := st }, visited := st :: t.visited }

/-- Assignments to fields other than `state`. -/
def update (f : btree_slice_t → btree_slice_t) (t : traced_slice) : traced_slice :=
  { t with slice := { f t.slice with state := t.slice.state } }

/-- Last block of `next_starting_up_step`, with the history. -/
def step_starting_up_finish (t : traced_slice) : Outcome slice_ret traced_slice :=
  if t.slice.state = .state_starting_up_finish then
    if t.slice.sb_fsm_destructor_ok then
      .ok ⟨true, if t.slice.ready_callback then some .on_slice_ready else none⟩
        ((t.update fun s => { s with sb_fsm := none }).enter .state_ready)
    else .fatal "assert(state == state_unstarted || state == state_done)" t
  else .fatal "Unexpected state" t

/-- Block `if (state == state_starting_up_initialize_superblock)` and what follows, with
the history. -/
def step_starting_up_initialize_superblock (NULL_BLOCK_ID : Nat) (o : cache_oracle)
    (t : traced_slice) : Outcome slice_ret traced_slice :=
  if t.slice.state = .state_starting_up_initialize_superblock then
    match initialize_superblock_fsm_t.initialize_superblock_if_necessary NULL_BLOCK_ID o
        { fsm := .new, cache := t.slice.cache } with
    | .fatal msg m => .fatal msg (t.update fun s => { s with sb_fsm := some m.fsm, cache := m.cache })
    | .ok r m =>
      if r.done then
        step_starting_up_finish
          ((t.update fun s => { s with sb_fsm := some m.fsm, cache := m.cache }).enter
            .state_starting_up_finish)
      else
        .ok ⟨false, none⟩
          ((t.update fun s => { s with sb_fsm := some m.fsm, cache := m.cache }).enter
            .state_starting_up_waiting_for_superblock)
  else step_starting_up_finish t

/-- The method `btree_slice_t::next_starting_up_step`, with the history. -/
def next_starting_up_step (NULL_BLOCK_ID : Nat) (o : cache_oracle) (t : traced_slice) :
    Outcome slice_ret traced_slice :=
  if t.slice.state = .state_starting_up_start_cache then
    if o.start_inline then
      step_starting_up_initialize_superblock NULL_BLOCK_ID o
        ((t.update fun s => { s with cache := s.cache.call_op .start .start true }).enter
          .state_starting_up_initialize_superblock)
    else
      .ok ⟨false, none⟩
        ((t.update fun s => { s with cache := s.cache.call_op .start .start false }).enter
          .state_starting_up_waiting_for_cache)
  else step_starting_up_initialize_superblock NULL_BLOCK_ID o t

/-- The method `btree_slice_t::start(ready_callback_t *cb)`, with the history. -/
def start (NULL_BLOCK_ID : Nat) (o : cache_oracle) (t : traced_slice) :
    Outcome slice_ret traced_slice :=
  if t.slice.state ≠ .state_unstarted then .fatal "assert(state == state_unstarted)" t
  else
    match next_starting_up_step NULL_BLOCK_ID o
        ((t.enter .state_starting_up_start_cache).update fun s =>
          { s with ready_callback := false }) with
    | .fatal msg t1 => .fatal msg t1
    | .ok r t1 =>
      if r.done then .ok r t1
      else .ok r (t1.update fun s => { s with ready_callback := true })

/-- The callback `btree_slice_t::on_cache_ready`, with the history. -/
def on_cache_ready (NULL_BLOCK_ID : Nat) (o : cache_oracle) (t : traced_slice) :
    Outcome slice_ret traced_slice :=
  if t.slice.state ≠ .state_starting_up_waiting_for_cache then
    .fatal "assert(state == state_starting_up_waiting_for_cache)" t
  else
    next_starting_up_step NULL_BLOCK_ID o (t.enter .state_starting_up_initialize_superblock)

/-- The callback `btree_slice_t::on_initialize_superblock`, with the history. -/
def on_initialize_superblock (NULL_BLOCK_ID : Nat) (o : cache_oracle) (t : traced_slice) :
    Outcome slice_ret traced_slice :=
  if t.slice.state ≠ .state_starting_up_waiting_for_superblock then
    .fatal "assert(state == state_starting_up_waiting_for_superblock)" t
  else
    next_starting_up_step NULL_BLOCK_ID o (t.enter .state_starting_up_finish)

/-- Last block of `next_shutting_down_step`, with the history. -/
def step_shutting_down_finish (t : traced_slice) : Outcome slice_ret traced_slice :=
  if t.slice.state = .state_shutting_down_finish then
    .ok ⟨true, if t.slice.shutdown_callback then some .on_slice_shutdown else none⟩
      (t.enter .state_shut_down)
  else .fatal "Invalid state." t

/-- The method `btree_slice_t::next_shutting_down_step`, with the history. -/
def next_shutting_down_step (o : cache_oracle) (t : traced_slice) :
    Outcome slice_ret traced_slice :=
  if t.slice.state = .state_shutting_down_shutdown_cache then
    if o.shutdown_inline then
      step_shutting_down_finish
        ((t.update fun s => { s with cache := s.cache.call_op .shutdown .shutdown true }).enter
          .state_shutting_down_finish)
    else
      .ok ⟨false, none⟩
        ((t.update fun s => { s with cache := s.cache.call_op .shutdown .shutdown false }).enter
          .state_shutting_down_waiting_for_cache)
  else step_shutting_down_finish t

/-- The method `btree_slice_t::shutdown(shutdown_callback_t *cb)`, with the history. -/
def shutdown (o : cache_oracle) (t : traced_slice) : Outcome slice_ret traced_slice :=
  if t.slice.state ≠ .state_ready then .fatal "assert(state == state_ready)" t
  else
    match next_shutting_down_step o
        ((t.enter .state_shutting_down_shutdown_cache).update fun s =>
          { s with shutdown_callback := false }) with
    | .fatal msg t1 => .fatal msg t1
    | .ok r t1 =>
      if r.done then .ok r t1
      else .ok r (t1.update fun s => { s with shutdown_callback := true })

/-- The callback `btree_slice_t::on_cache_shutdown`, with the history. -/
def on_cache_shutdown (o : cache_oracle) (t : traced_slice) :
    Outcome slice_ret traced_slice :=
  if t.slice.state ≠ .state_shutting_down_waiting_for_cache then
    .fatal "assert(state == state_shutting_down_waiting_for_cache)" t
  else
    next_shutting_down_step o (t.enter .state_shutting_down_finish)

/-- A callback of the superblock initializer owned by the slice is invoked by the
cache, with the history of the slice. -/
def sb_fsm_callback (NULL_BLOCK_ID : Nat) (o : cache_oracle)
    (cb : Nat → cache_oracle → sb_machine → Outcome sb_ret sb_machine) (t : traced_slice) :
    Outcome slice_ret traced_slice :=
  match t.slice.sb_fsm with
  | none => .fatal "callback on a destroyed initialize_superblock_fsm_t" t
  | some f =>
    match cb NULL_BLOCK_ID o { fsm := f, cache := t.slice.cache } with
    | .fatal msg m =>
      .fatal msg (t.update fun s => { s with sb_fsm := some m.fsm, cache := m.cache })
    | .ok r m =>
      if r.notified then
        on_initialize_superblock NULL_BLOCK_ID o
          (t.update fun s => { s with sb_fsm := some m.fsm, cache := m.cache })
      else .ok ⟨false, none⟩ (t.update fun s => { s with sb_fsm := some m.fsm, cache := m.cache })

/-- The cache of the slice completes operation `op` and invokes the callback it
was given for it, with the history of the slice. -/
def cache_callback (NULL_BLOCK_ID : Nat) (o : cache_oracle) (op : cache_op) (t : traced_slice) :
    Outcome slice_ret traced_slice :=
  let t1 := t.update fun s => { s with cache := { s.cache with pending := none } }
  match op with
  | .start => on_cache_ready NULL_BLOCK_ID o t1
  | .begin_transaction =>
    sb_fsm_callback NULL_BLOCK_ID o initialize_superblock_fsm_t.on_txn_begin t1
  | .acquire =>
    sb_fsm_callback NULL_BLOCK_ID o initialize_superblock_fsm_t.on_block_available t1
  | .commit =>
    sb_fsm_callback NULL_BLOCK_ID o initialize_superblock_fsm_t.on_txn_commit t1
  | .shutdown => on_cache_shutdown o t1

/-- Delivery of the completions of the cache that are pending, one after the other, at
most `n` of them, stopping at an abort; returns the callbacks invoked on the store. -/
def drain (NULL_BLOCK_ID : Nat) (o : cache_oracle) :
    Nat → traced_slice → Outcome (List slice_upcall) traced_slice
  | 0, t => .ok [] t
  | n + 1, t =>
    match t.slice.cache.pending with
    | none => .ok [] t
    | some op =>
      match cache_callback NULL_BLOCK_ID o op t with
      | .fatal msg t1 => .fatal msg t1
      | .ok r t1 =>
        match drain NULL_BLOCK_ID o n t1 with
        | .fatal msg t2 => .fatal msg t2
        | .ok ups t2 => .ok (r.upcall.toList ++ ups) t2

/-- A complete startup of a slice: `start`, then the completions of the (at most four)
cache operations that suspended. Returns what `start` returned and the callbacks
invoked on the store. -/
def complete_startup (NULL_BLOCK_ID : Nat) (o : cache_oracle) (t : traced_slice) :
    Outcome (Bool × List slice_upcall) traced_slice :=
  match start NULL_BLOCK_ID o t with
  | .fatal msg t1 => .fatal msg t1
  | .ok r t1 =>
    match drain NULL_BLOCK_ID o 4 t1 with
    | .fatal msg t2 => .fatal msg t2
    | .ok ups t2 => .ok (r.done, r.upcall.toList ++ ups) t2

/-- A complete shutdown of a slice: `shutdown`, then the completion of the shutdown of
the cache if it suspended. -/
def complete_shutdown (NULL_BLOCK_ID : Nat) (o : cache_oracle) (t : traced_slice) :
    Outcome (Bool × List slice_upcall) traced_slice :=
  match shutdown o t with
  | .fatal msg t1 => .fatal msg t1
  | .ok r t1 =>
    match drain NULL_BLOCK_ID o 1 t1 with
    | .fatal msg t2 => .fatal msg t2
    | .ok ups t2 => .ok (r.done, r.upcall.toList ++ ups) t2

end traced_slice

/-- What can happen to a slice: a call of `start`, a call of `shutdown`, or its cache
completing an operation and invoking the callback for it. -/
inductive slice_op where
  | start
  | shutdown
  | cache_completion (op : cache_op)
deriving DecidableEq, Repr

/-- One operation on a slice. -/
def traced_slice.run_op (NULL_BLOCK_ID : Nat) (o : cache_oracle) :
    slice_op → traced_slice → Outcome slice_ret traced_slice
  | .start, t => traced_slice.start NULL_BLOCK_ID o t
  | .shutdown, t => traced_slice.shutdown o t
  | .cache_completion op, t => traced_slice.cache_callback NULL_BLOCK_ID o op t

/-- A sequence of operations on a slice, each with its own choices of the cache,
stopping at an abort. The state carries the operations accepted so far (those that
passed their assertions and returned), newest first. -/
def traced_slice.run_ops (NULL_BLOCK_ID : Nat) :
    List (cache_oracle × slice_op) → traced_slice × List slice_op →
      Outcome Unit (traced_slice × List slice_op)
  | [], ta => .ok () ta
  | (o, op) :: rest, (t, accepted) =>
    match traced_slice.run_op NULL_BLOCK_ID o op t with
    | .fatal msg t1 => .fatal msg (t1, accepted)
    | .ok _ t1 => traced_slice.run_ops NULL_BLOCK_ID rest (t1, op :: accepted)

/-- The history of a slice is in the order of its life: every state it has entered
comes later in the enum than all the states it was in before, and the newest one is
its present state. -/
def traced_slice.in_order (t : traced_slice) : Prop :=
  t.visited.head? = some t.slice.state ∧
    t.visited.Pairwise (fun newer older => older.rank < newer.rank)

/-- The history of `t1` continues the history of `t` in the order of the life of a
slice. -/
def traced_slice.continues (t t1 : traced_slice) : Prop :=
  t1.in_order ∧ t.visited <:+ t1.visited

/-! ## CAS generation (`btree_slice_t::gen_cas`) -/

/-- The method `btree_slice_t::gen_cas`: `(time(NULL) << 32) | (++cas_counter)` as a
64-bit `cas_t`. `now` is what `time(NULL)` returns; `counter_bits` is the width of
`cas_counter`, whose declaration is outside the sources shown. Returns the value and
the slice with its counter incremented. -/
def btree_slice_t.gen_cas (counter_bits : Nat) (now : Nat) (s : btree_slice_t) :
    Nat × btree_slice_t :=
  let c := (s.cas_counter + 1) % 2 ^ counter_bits
  (((now <<< 32) ||| c) % 2 ^ 64, { s with cas_counter := c })

/-- Successive calls of `gen_cas` on one slice, the clock returning the given values;
returns the values generated, in the order of the calls. -/
def btree_slice_t.gen_cas_calls (counter_bits : Nat) :
    List Nat → btree_slice_t → List Nat × btree_slice_t
  | [], s => ([], s)
  | now :: rest, s =>
    ((s.gen_cas counter_bits now).1 ::
        (gen_cas_calls counter_bits rest (s.gen_cas counter_bits now).2).1,
      (gen_cas_calls counter_bits rest (s.gen_cas counter_bits now).2).2)

/-! ## The garbage collector state of the data block manager
(`data_block_manager_t::gc_state_t`, `data_block_manager_t::gc_entry`) -/

/-- The enum `data_block_manager_t::gc_step`. -/
inductive gc_step where
  | gc_reconstruct
  | gc_ready
  | gc_read
  | gc_write
deriving DecidableEq, Repr

/-- The fields of `gc_state_t` that `set_step` reads or writes, and `refcount`.
`gc_disable_callback` is the callback the pointer points to, `none` for NULL. -/
structure gc_state_t where
  step_ : gc_step
  should_be_stopped : Bool
  refcount : Int
  gc_disable_callback : Option Nat
deriving DecidableEq, Repr

namespace gc_state_t

/-- The method `gc_state_t::step`. -/
def step (g : gc_state_t) : gc_step := g.step_

/-- The method `gc_state_t::set_step`. Returns the callbacks on which `on_gc_disabled`
was invoked. -/
def set_step (next_step : gc_step) (g : gc_state_t) : Outcome (List Nat) gc_state_t :=
  if g.should_be_stopped ∧ next_step = .gc_ready ∧
      (g.step_ = .gc_read ∨ g.step_ = .gc_write) then
    match g.gc_disable_callback with
    | none => .fatal "assert(gc_disable_callback)" g
    | some cb => .ok [cb] { g with gc_disable_callback := none, step_ := next_step }
  else .ok [] { g with step_ := next_step }

/-- A sequence of `set_step` calls, stopping at an abort; returns the callbacks on which
`on_gc_disabled` was invoked, in the order of the invocations. -/
def set_steps : List gc_step → gc_state_t → Outcome (List Nat) gc_state_t
  | [], g => .ok [] g
  | next_step :: rest, g =>
    match g.set_step next_step with
    | .fatal msg g1 => .fatal msg g1
    | .ok invoked g1 =>
      match set_steps rest g1 with
      | .fatal msg g2 => .fatal msg g2
      | .ok invoked1 g2 => .ok (invoked ++ invoked1) g2

end gc_state_t

/-- Modelled from the spec: `bitset_t` (containers/bitset.hpp) is declared outside the
sources shown. Per the data model, `g_array` is a "bitset of length
`blocks_per_extent`": a bitset is the list of its bits, `bitset_t(size)` has `size`
bits whose initial values `initial` are not relied upon, `set()` sets every bit, and
`size()` and `test(i)` read it. -/
structure bitset_t where
  bits : List Bool
deriving DecidableEq, Repr

namespace bitset_t

/-- The constructor `bitset_t(size)`. -/
def new (size : Nat) (initial : Nat → Bool) : bitset_t := ⟨(List.range size).map initial⟩

/-- The method `bitset_t::set()`, which sets every bit. -/
def set (b : bitset_t) : bitset_t := ⟨b.bits.map fun _ => true⟩

/-- The method `bitset_t::size()`. -/
def size (b : bitset_t) : Nat := b.bits.length

/-- The method `bitset_t::test(i)`. -/
def test (b : bitset_t) (i : Nat) : Bool := b.bits.getD i false

end bitset_t

/-- Conversion of a signed integer to `uint64_t`. -/
def int_to_u64 (i : Int) : Nat := (i % 18446744073709551616).toNat

/-- The enum `gc_entry::state_t`. -/
inductive gc_entry_state_t where
  | state_reconstructing
  | state_active
  | state_young
  | state_old
  | state_in_gc
deriving DecidableEq, Repr

/-- The fields of `data_block_manager_t::gc_entry`. `our_pq_entry` is the priority
queue entry the pointer points to, `none` for NULL. -/
structure gc_entry where
  offset : Int
  g_array : bitset_t
  timestamp : Nat
  our_pq_entry : Option Nat
  state : gc_entry_state_t
deriving DecidableEq, Repr

namespace gc_entry

/-- The function `gc_entry::current_timestamp`: `res` is what `gettimeofday` returns,
`tv_sec` and `tv_usec` what it stores. -/
def current_timestamp (res tv_sec tv_usec : Int) : Outcome Nat Unit :=
  if ¬ 0 = res then .fatal "assert(0 == gettimeofday(&t, NULL))" ()
  else .ok (int_to_u64 ((int_to_u64 tv_sec : Int) * (1000 * 1000) + tv_usec)) ()

/-- The constructor `gc_entry(extent_manager_t *em, size_t blocks_per_extent)` for a
new extent. `extent` is what `em->gen_extent()` returns; `initial` are the bits of the
newly constructed bitset. -/
def new_extent (extent : Int) (blocks_per_extent : Nat) (initial : Nat → Bool)
    (res tv_sec tv_usec : Int) : Outcome gc_entry Unit :=
  let g_array := bitset_t.new blocks_per_extent initial
  let offset := extent
  let g_array := g_array.set
  match current_timestamp res tv_sec tv_usec with
  | .fatal msg _ => .fatal msg ()
  | .ok timestamp _ =>
    .ok { offset := offset, g_array := g_array, timestamp := timestamp,
          state := .state_active, our_pq_entry := none } ()

/-- The constructor `gc_entry(off64_t off, size_t blocks_per_extent)` for an extent
that the LBA says contained data blocks. -/
def reconstructed (off : Int) (blocks_per_extent : Nat) (initial : Nat → Bool) : gc_entry :=
  let g_array := bitset_t.new blocks_per_extent initial
  { offset := off, g_array := g_array.set, timestamp := int_to_u64 (-1),
    state := .state_reconstructing, our_pq_entry := none }

end gc_entry

/-! ## Large values (`buffer_cache/large_buf.hpp`) -/

/-- The macro `NUM_SEGMENTS(total_size, seg_size)`:
`( ( ((total_size)-1) / (seg_size) ) + 1 )`. The operands are integer constants and `/`
is the division of C, which truncates toward zero. -/
def NUM_SEGMENTS (total_size seg_size : Int) : Int :=
  (total_size - 1).tdiv seg_size + 1

/-- The macro `MAX_LARGE_BUF_SEGMENTS`: `(NUM_SEGMENTS((MAX_VALUE_SIZE), (4*KILOBYTE)))`.
`MAX_VALUE_SIZE` and `KILOBYTE` are declared in `config/args.hpp`, outside the sources
shown, and are parameters. -/
def MAX_LARGE_BUF_SEGMENTS (MAX_VALUE_SIZE KILOBYTE : Int) : Int :=
  NUM_SEGMENTS MAX_VALUE_SIZE (4 * KILOBYTE)

/-- The struct `large_buf_index`. The array `blocks[MAX_LARGE_BUF_SEGMENTS]` is the list
of its elements, together with the fact that it has `MAX_LARGE_BUF_SEGMENTS` of them. -/
structure large_buf_index (MAX_VALUE_SIZE KILOBYTE : Int) where
  num_segments : Nat
  first_block_offset : Nat
  blocks : List Nat
  blocks_length : (blocks.length : Int) = MAX_LARGE_BUF_SEGMENTS MAX_VALUE_SIZE KILOBYTE

/-- An index none of whose entries is in use (`n` zeroed entries); it exists whenever
`MAX_LARGE_BUF_SEGMENTS` is the natural number `n`. -/
def large_buf_index.zeroed (MAX_VALUE_SIZE KILOBYTE : Int) (n : Nat)
    (h : MAX_LARGE_BUF_SEGMENTS MAX_VALUE_SIZE KILOBYTE = n) :
    large_buf_index MAX_VALUE_SIZE KILOBYTE :=
  { num_segments := 0, first_block_offset := 0, blocks := List.replicate n 0,
    blocks_length := by rw [List.length_replicate, h] }

/-! ## Statistics of the data block manager (`data_block_manager_t::gc_stats_t`) -/

/-- The struct `data_block_manager_t::gc_stats_t`. -/
structure gc_stats_t where
  old_total_blocks : Int
  old_garbage_blocks : Int
deriving DecidableEq, Repr

/-- The constructor `gc_stats_t()`. -/
def gc_stats_t.new : gc_stats_t := { old_total_blocks := 0, old_garbage_blocks := 0 }

/-- The data block manager, as far as the accessors of the garbage ratio read it. -/
structure data_block_manager_t where
  gc_state : gc_state_t
  gc_stats : gc_stats_t
deriving DecidableEq, Repr

/-- The method `garbage_ratio_total_blocks`: `return gc_stats.old_garbage_blocks;`. -/
def data_block_manager_t.garbage_ratio_total_blocks (m : data_block_manager_t) : Int :=
  m.gc_stats.old_garbage_blocks

/-- The method `garbage_ratio_garbage_blocks`: `return gc_stats.old_garbage_blocks;`. -/
def data_block_manager_t.garbage_ratio_garbage_blocks (m : data_block_manager_t) : Int :=
  m.gc_stats.old_garbage_blocks
/-! ## Runs of the superblock initializer, step by step -/

namespace initialize_superblock_fsm_t

/-- Delivery of the pending completions of the cache, at most `n` of them, one after
the other, until nothing is pending or a step aborts; returns what each callback of the
initializer reported, in the order of the deliveries. -/
def drain_log (NULL_BLOCK_ID : Nat) (o : cache_oracle) :
    Nat → sb_machine → Outcome (List sb_ret) sb_machine
  | 0, m => .ok [] m
  | n + 1, m =>
    match m.cache.pending with
    | none => .ok [] m
    | some _ =>
      match complete_pending NULL_BLOCK_ID o m with
      | .fatal msg m1 => .fatal msg m1
      | .ok r m1 =>
        match drain_log NULL_BLOCK_ID o n m1 with
        | .fatal msg m2 => .fatal msg m2
        | .ok rs m2 => .ok (r :: rs) m2

/-- A complete run of the initializer, step by step: a fresh fsm is started with
`initialize_superblock_if_necessary`, then the callbacks `on_txn_begin`,
`on_block_available`, `on_txn_commit` are delivered for the operations that suspended.
Returns what `initialize_superblock_if_necessary` reported and what each callback
reported. -/
def run_log (NULL_BLOCK_ID : Nat) (o : cache_oracle) (c : cache_t) :
    Outcome (sb_ret × List sb_ret) sb_machine :=
  match initialize_superblock_if_necessary NULL_BLOCK_ID o { fsm := .new, cache := c } with
  | .fatal msg m => .fatal msg m
  | .ok r m =>
    match drain_log NULL_BLOCK_ID o 3 m with
    | .fatal msg m1 => .fatal msg m1
    | .ok rs m1 => .ok (r, rs) m1

end initialize_superblock_fsm_t

/-- The number of the three calls `begin_transaction`, `acquire`, `commit` that suspend. -/
def cache_oracle.suspensions (o : cache_oracle) : Nat :=
  (if o.begin_inline then 0 else 1) + (if o.acquire_inline then 0 else 1) +
    (if o.commit_inline then 0 else 1)
/-! ## Messages that move a large value (`fill_large_value_msg_t`,
`write_large_value_msg_t`) -/

/-- Subtraction of two `uint32_t` values, wrapping. -/
def u32_sub (a b : Nat) : Nat := (u32 a + 4294967296 - u32 b) % 4294967296

/-- Conversion to `uint16_t`. -/
def u16 (x : Nat) : Nat := x % 65536

/-- The methods of `large_buf_t` that the two messages call. The class declares them and
their bodies are outside the sources shown, so what they return is a parameter:
`get_num_segments()`, the length that `get_segment(num, &seg_size)` and
`get_segment_write(num, &seg_size)` store in `seg_size`, `pos_to_ix(pos)` and
`pos_to_seg_pos(pos)`. -/
structure large_buf_t where
  get_num_segments : Nat
  get_segment_size : Nat → Nat
  pos_to_ix : Nat → Nat
  pos_to_seg_pos : Nat → Nat

/-- The enum of `fill_large_value_msg_t::mode`. -/
inductive fill_mode_t where
  | fill
  | consume
deriving DecidableEq, Repr

/-- The fields of `fill_large_value_msg_t`, with `home_cpu` of `home_cpu_mixin_t`;
`buf` is recorded by whether it is non-NULL. -/
structure fill_large_value_msg_t where
  mode : fill_mode_t
  rh_cpu : Int
  home_cpu : Int
  buf : Bool
  completed : Bool
  success : Bool
  pos : Nat
  length : Nat
deriving DecidableEq, Repr

/-- What a `fill_large_value_msg_t` does to its collaborators. `fill_value` carries the
destination (`none` for the I/O buffer of the message, `some (ix, seg_pos)` for a place
in the large value) and the number of bytes requested. -/
inductive fill_event where
  | fill_value (destination : Option (Nat × Nat)) (bytes : Nat)
  | fill_lv_msg_set
  | continue_on_cpu (cpu : Int)
  | on_large_value_completed (success : Bool)
  | deleted
deriving DecidableEq, Repr

/-- A `fill_large_value_msg_t` with its surroundings: the events it has caused (newest
first) and whether the request handler holds a `fill_value` request that will call
`on_data_transferred`. -/
structure fill_run where
  msg : fill_large_value_msg_t
  events : List fill_event
  transfer_pending : Bool
deriving DecidableEq, Repr

namespace fill_large_value_msg_t

/-- The constructor for fill mode. -/
def new_fill (rh_cpu home_cpu : Int) (pos length : Nat) : fill_large_value_msg_t :=
  { mode := .fill, rh_cpu := rh_cpu, home_cpu := home_cpu, buf := false, completed := false,
    success := false, pos := u32 pos, length := u32 length }

/-- The constructor for consume mode. It leaves `success` and `pos` uninitialized:
`success` and `pos` are what the memory holds. -/
def new_consume (rh_cpu home_cpu : Int) (length : Nat) (success : Bool) (pos : Nat) :
    fill_large_value_msg_t :=
  { mode := .consume, rh_cpu := rh_cpu, home_cpu := home_cpu, buf := true, completed := false,
    success := success, pos := u32 pos, length := u32 length }

/-- The method `do_consume`. `IO_BUFFER_SIZE` (the `size` of `iobuf_t`) is declared
outside the sources shown. -/
def do_consume (IO_BUFFER_SIZE : Nat) (w : fill_run) : fill_run :=
  if w.msg.length > 0 then
    let bytes_to_transfer := min (u32 IO_BUFFER_SIZE) w.msg.length
    { msg := { w.msg with length := u32_sub w.msg.length bytes_to_transfer },
      events := .fill_value none bytes_to_transfer :: w.events,
      transfer_pending := true }
  else if w.msg.length = 0 then { w with events := .fill_lv_msg_set :: w.events }
  else w

/-- The method `do_fill`. -/
def do_fill (large_value : large_buf_t) (w : fill_run) : fill_run :=
  if w.msg.length > 0 then
    let ix := u16 (large_value.pos_to_ix w.msg.pos)
    let seg_pos := u16 (large_value.pos_to_seg_pos w.msg.pos)
    let seg_len := u16 (large_value.get_segment_size ix)
    let bytes_to_transfer := u16 (min (u32_sub seg_len seg_pos) w.msg.length)
    { msg := { w.msg with pos := u32 (w.msg.pos + bytes_to_transfer),
                          length := u32_sub w.msg.length bytes_to_transfer },
      events := .fill_value (some (ix, seg_pos)) bytes_to_transfer :: w.events,
      transfer_pending := true }
  else { w with events := .fill_lv_msg_set :: w.events }

/-- The method `step`. -/
def step (IO_BUFFER_SIZE : Nat) (large_value : large_buf_t) (w : fill_run) :
    Outcome Unit fill_run :=
  if w.msg.completed then .fatal "assert(!completed)" w
  else
    match w.msg.mode with
    | .fill => .ok () (do_fill large_value w)
    | .consume => .ok () (do_consume IO_BUFFER_SIZE w)

/-- The method `on_data_transferred`. -/
def on_data_transferred (IO_BUFFER_SIZE : Nat) (large_value : large_buf_t) (w : fill_run) :
    Outcome Unit fill_run :=
  step IO_BUFFER_SIZE large_value w

/-- The method `on_cpu_switch`, run on core `cpu`; in its second branch `delete this`
runs the destructor. -/
def on_cpu_switch (IO_BUFFER_SIZE : Nat) (large_value : large_buf_t) (cpu : Int)
    (w : fill_run) : Outcome Unit fill_run :=
  if ¬ w.msg.completed then
    if cpu ≠ w.msg.rh_cpu then .fatal "assert(get_cpu_id() == rh_cpu)" w
    else step IO_BUFFER_SIZE large_value w
  else
    if cpu ≠ w.msg.home_cpu then .fatal "assert(get_cpu_id() == home_cpu)" w
    else
      let w1 := { w with events := .on_large_value_completed w.msg.success :: w.events }
      if w1.msg.buf ∧ w1.msg.mode ≠ .consume then .fatal "assert(mode == consume)" w1
      else .ok () { w1 with events := .deleted :: w1.events }

/-- The method `fill_complete`. Whether `continue_on_cpu` finds the message on its home
core already or not, the message is run there later. -/
def fill_complete (success : Bool) (w : fill_run) : fill_run :=
  { w with msg := { w.msg with success := success, completed := true },
           events := .continue_on_cpu w.msg.home_cpu :: w.events }

/-- The request handler completes the transfers it is asked for, at most `n` of them,
each time calling `on_data_transferred`. -/
def transfers (IO_BUFFER_SIZE : Nat) (large_value : large_buf_t) :
    Nat → fill_run → Outcome Unit fill_run
  | 0, w => .ok () w
  | n + 1, w =>
    if w.transfer_pending then
      match on_data_transferred IO_BUFFER_SIZE large_value
          { w with transfer_pending := false } with
      | .fatal msg w1 => .fatal msg w1
      | .ok _ w1 => transfers IO_BUFFER_SIZE large_value n w1
    else .ok () w

/-- A call of `step`, then up to `n` completed transfers. -/
def steps (IO_BUFFER_SIZE : Nat) (large_value : large_buf_t) (n : Nat) (w : fill_run) :
    Outcome Unit fill_run :=
  match step IO_BUFFER_SIZE large_value w with
  | .fatal msg w1 => .fatal msg w1
  | .ok _ w1 => transfers IO_BUFFER_SIZE large_value n w1

/-- The message is run on the core of the request handler, then up to `n` transfers
complete. -/
def run (IO_BUFFER_SIZE : Nat) (large_value : large_buf_t) (n : Nat) (w : fill_run) :
    Outcome Unit fill_run :=
  match on_cpu_switch IO_BUFFER_SIZE large_value w.msg.rh_cpu w with
  | .fatal msg w1 => .fatal msg w1
  | .ok _ w1 => transfers IO_BUFFER_SIZE large_value n w1

end fill_large_value_msg_t

/-- The amounts that `do_consume` requests from a remaining length, in at most `n`
calls: the recursion of the code, without the message around it. -/
def consume_chunks (B : Nat) : Nat → Nat → List Nat
  | 0, _ => []
  | n + 1, remaining =>
    if remaining = 0 then []
    else min B remaining :: consume_chunks B n (remaining - min B remaining)

/-- The requests of a message that consumes `L` bytes through a buffer of `B` bytes,
as the claim describes them: `ceil(L / B)` requests, the `k`-th (from 0) of
`min(B, L - k * B)` bytes. -/
def consume_requests (B L : Nat) : List Nat :=
  (List.range ((L + B - 1) / B)).map fun k => min B (L - k * B)

/-- The enum of `write_large_value_msg_t::state`. -/
inductive write_state_t where
  | ready
  | reading
  | completed
deriving DecidableEq, Repr

/-- The fields of `write_large_value_msg_t` that its methods read or write, with
`home_cpu` of `home_cpu_mixin_t`. -/
structure write_large_value_msg_t where
  rh_cpu : Int
  home_cpu : Int
  next_segment : Nat
  state : write_state_t
deriving DecidableEq, Repr

/-- What a `write_large_value_msg_t` does to its collaborators. `write_value` carries
the number of the segment whose buffer is passed and the length passed with it. -/
inductive write_event where
  | on_fsm_ready
  | write_value (segment : Nat) (seg_len : Nat)
  | continue_on_cpu (cpu : Int)
  | on_large_value_completed (success : Bool)
  | deleted
deriving DecidableEq, Repr

/-- A `write_large_value_msg_t` with its surroundings: the events it has caused (newest
first) and whether the request handler holds a `write_value` request that will call
`on_data_transferred`. -/
structure write_run where
  msg : write_large_value_msg_t
  events : List write_event
  transfer_pending : Bool
deriving DecidableEq, Repr

namespace write_large_value_msg_t

/-- The constructor. -/
def new (rh_cpu home_cpu : Int) : write_large_value_msg_t :=
  { rh_cpu := rh_cpu, home_cpu := home_cpu, next_segment := 0, state := .ready }

/-- The method `dispatch`, run on core `cpu`. -/
def dispatch (cpu : Int) (w : write_run) : Outcome Unit write_run :=
  if cpu ≠ w.msg.home_cpu then .fatal "assert(get_cpu_id() == home_cpu)" w
  else .ok () { w with events := .continue_on_cpu w.msg.rh_cpu :: w.events }

/-- The method `read_segments`. -/
def read_segments (large_value : large_buf_t) (w : write_run) : Outcome Unit write_run :=
  if w.msg.state ≠ .reading then .fatal "assert(state == reading)" w
  else if w.msg.next_segment < u16 large_value.get_num_segments then
    let seg_len := u16 (large_value.get_segment_size w.msg.next_segment)
    .ok () { w with events := .write_value w.msg.next_segment seg_len :: w.events,
                    transfer_pending := true }
  else if w.msg.next_segment ≠ u16 large_value.get_num_segments then
    .fatal "assert(next_segment == large_value->get_num_segments())" w
  else
    .ok () { w with msg := { w.msg with state := .completed },
                    events := .continue_on_cpu w.msg.home_cpu :: .on_fsm_ready :: w.events }

/-- The method `on_cpu_switch`, run on core `cpu`. -/
def on_cpu_switch (large_value : large_buf_t) (cpu : Int) (w : write_run) :
    Outcome Unit write_run :=
  match w.msg.state with
  | .ready =>
    if cpu ≠ w.msg.rh_cpu then .fatal "assert(get_cpu_id() == rh_cpu)" w
    else .ok () { w with events := .on_fsm_ready :: w.events }
  | .reading =>
    if cpu ≠ w.msg.rh_cpu then .fatal "assert(get_cpu_id() == rh_cpu)" w
    else read_segments large_value w
  | .completed =>
    if cpu ≠ w.msg.home_cpu then .fatal "assert(get_cpu_id() == home_cpu)" w
    else .ok () { w with events := .deleted :: .on_large_value_completed true :: w.events }

/-- The method `begin_write`, run on core `cpu`. -/
def begin_write (large_value : large_buf_t) (cpu : Int) (w : write_run) :
    Outcome Unit write_run :=
  on_cpu_switch large_value cpu { w with msg := { w.msg with state := .reading } }

/-- The method `on_data_transferred`. -/
def on_data_transferred (large_value : large_buf_t) (w : write_run) :
    Outcome Unit write_run :=
  read_segments large_value
    { w with msg := { w.msg with next_segment := u32 (w.msg.next_segment + 1) } }

/-- The request handler completes the `write_value` requests it is given, at most `n`
of them, each time calling `on_data_transferred`. -/
def transfers (large_value : large_buf_t) : Nat → write_run → Outcome Unit write_run
  | 0, w => .ok () w
  | n + 1, w =>
    if w.transfer_pending then
      match on_data_transferred large_value { w with transfer_pending := false } with
      | .fatal msg w1 => .fatal msg w1
      | .ok _ w1 => transfers large_value n w1
    else .ok () w

/-- A call of `read_segments`, then up to `n` completed transfers. -/
def segments_from (large_value : large_buf_t) (n : Nat) (w : write_run) :
    Outcome Unit write_run :=
  match read_segments large_value w with
  | .fatal msg w1 => .fatal msg w1
  | .ok _ w1 => transfers large_value n w1

/-- The call `begin_write` on the core of the request handler, followed by up to `n`
completed transfers. -/
def write_segments (large_value : large_buf_t) (n : Nat) (w : write_run) :
    Outcome Unit write_run :=
  match begin_write large_value w.msg.rh_cpu w with
  | .fatal msg w1 => .fatal msg w1
  | .ok _ w1 => transfers large_value n w1

/-- The whole write: `write_segments`, then the message is run on the core that
`continue_on_cpu` named. -/
def write_all (large_value : large_buf_t) (n : Nat) (w : write_run) :
    Outcome Unit write_run :=
  match write_segments large_value n w with
  | .fatal msg w1 => .fatal msg w1
  | .ok _ w1 =>
    match w1.events with
    | .continue_on_cpu cpu :: _ => on_cpu_switch large_value cpu w1
    | _ => .ok () w1

end write_large_value_msg_t

/-! ## What the shutdown protocol relies on -/

/-- Whether `slices[id]` points to a slice that is in state `st`. -/
def btree_key_value_store_t.slice_in_state (store : btree_key_value_store_t) (id : Nat)
    (st : slice_state_t) : Bool :=
  match store.slices id with
  | some s => decide (s.state = st)
  | none => false

/-- The slice that a message of the shutdown protocol will act on. -/
def message.slice_ref : message → Option Nat
  | .task (.shutdown_a_slice id) => some id
  | .cache_completion id _ => some id
  | _ => none

/-- The serializer that a message of the shutdown protocol will act on. -/
def message.serializer_ref : message → Option Nat
  | .task (.shutdown_a_serializer id) => some id
  | .serializer_shutdown id => some id
  | _ => none

/-- What the handler of a message of the shutdown protocol needs to find in the store:
`shutdown_a_slice(id)` a slice in state ready, the completion of a cache shutdown a slice
that waits for it, `shutdown_a_serializer(id)` a serializer. -/
def message.deliverable (store : btree_key_value_store_t) : message → Bool
  | .task (.shutdown_a_slice id) => store.slice_in_state id .state_ready
  | .cache_completion id _ => store.slice_in_state id .state_shutting_down_waiting_for_cache
  | .task (.shutdown_a_serializer id) => (store.serializers id).isSome
  | _ => true

/-- Invariant of the shutdown protocol that keeps its handlers from aborting.
`slices_left` and `serializers_left` are the objects that the loop of the running
handler has still to visit. Every message in flight finds what its handler needs; no two
messages, and no message and no later iteration of a loop, act on the same slice or on
the same serializer; and the serializers are all there until the last slice has
reported. -/
structure stoppable (cfg : cmd_config_t) (slices_left serializers_left : List Nat)
    (w : world) : Prop where
  deliverable : ∀ m ∈ w.in_flight, m.deliverable w.store = true
  slice_refs : (w.in_flight.filterMap message.slice_ref ++ slices_left).Nodup
  slices_ready : ∀ id ∈ slices_left, w.store.slice_in_state id .state_ready = true
  serializer_refs : (w.in_flight.filterMap message.serializer_ref ++ serializers_left).Nodup
  serializers_there : ∀ id ∈ serializers_left, (w.store.serializers id).isSome = true
  serializers_kept : executed_count .have_shutdown_a_slice w.trace < cfg.n_slices →
    ∀ id, id < cfg.n_serializers → (w.store.serializers id).isSome = true

/-- A store that has been started: each of its `n_slices` slices exists and is in state
ready, and each of its `n_serializers` serializers exists. The startup protocol leaves
the store so when it has brought it to state ready, and the shutdown protocol relies on
it. -/
def store_started (cfg : cmd_config_t) (store : btree_key_value_store_t) : Prop :=
  (∀ id, id < cfg.n_slices → store.slice_in_state id .state_ready = true) ∧
  (∀ id, id < cfg.n_serializers → (store.serializers id).isSome = true)

instance store_started.decidable (cfg : cmd_config_t) (store : btree_key_value_store_t) :
    Decidable (store_started cfg store) := by
  unfold store_started
  infer_instance

/-! ## What the startup protocol builds -/

/-- Whether a message of the startup protocol stands for slice `id`, which its handler
will create or bring further towards state ready. -/
def message.builds_slice (id : Nat) : message → Bool
  | .task (.create_a_slice_on_this_core id1) => decide (id1 = id)
  | .cache_completion id1 _ => decide (id1 = id)
  | _ => false

/-- Whether a message of the startup protocol stands for serializer `id`, which its
handler will create. -/
def message.builds_serializer (id : Nat) : message → Bool
  | .task (.create_a_serializer_on_this_core id1) => decide (id1 = id)
  | _ => false

/-- Invariant of the startup protocol that tells what it has built.
`slices_left` and `serializers_left` are the objects that the loop of the running
handler has still to visit. Every serializer is there, or a message in flight stands
for it, or the loop has still to visit it; and once all serializers have reported, every
slice is in state ready, or a message in flight stands for it, or the loop has still to
visit it. -/
structure built (cfg : cmd_config_t) (slices_left serializers_left : List Nat)
    (w : world) : Prop where
  serializers : ∀ id, id < cfg.n_serializers →
    id ∈ serializers_left ∨ (∃ m ∈ w.in_flight, m.builds_serializer id = true) ∨
      (w.store.serializers id).isSome = true
  slices : executed_count .have_created_a_serializer w.trace = cfg.n_serializers →
    ∀ id, id < cfg.n_slices →
      id ∈ slices_left ∨ (∃ m ∈ w.in_flight, m.builds_slice id = true) ∨
        w.store.slice_in_state id .state_ready = true

/-! ## What the startup protocol relies on -/

/-- Whether the slice waits for its cache to complete operation `op` of its startup:
`op` is the operation that the cache has accepted, the callback of the slice is set, and
the slice, and for an operation of the superblock initializer the initializer, are in the
state in which the callback for `op` finds them. -/
def btree_slice_t.awaits (s : btree_slice_t) (op : cache_op) : Bool :=
  decide (s.cache.pending = some op) && s.ready_callback &&
  match op, s.sb_fsm with
  | .start, _ => decide (s.state = .state_starting_up_waiting_for_cache)
  | .begin_transaction, some f =>
    decide (s.state = .state_starting_up_waiting_for_superblock) &&
      decide (f.state = .state_beginning_transaction) && f.callback
  | .acquire, some f =>
    decide (s.state = .state_starting_up_waiting_for_superblock) &&
      decide (f.state = .state_acquiring_superblock) && f.callback
  | .commit, some f =>
    decide (s.state = .state_starting_up_waiting_for_superblock) &&
      decide (f.state = .state_committing_transaction) && f.callback
  | _, _ => false

/-- Whether the slice waits for the operation that its cache has accepted. -/
def btree_slice_t.waits_well (s : btree_slice_t) : Bool :=
  match s.cache.pending with
  | some op => s.awaits op
  | none => false

/-- The slice that a message of the startup protocol will act on. -/
def message.slice_to_build : message → Option Nat
  | .task (.create_a_slice_on_this_core id) => some id
  | .cache_completion id _ => some id
  | _ => none

/-- What the handler of a message of the startup protocol needs to find:
`create_a_serializer_on_this_core(id)` and `create_a_slice_on_this_core(id)` an index
within the configuration, the completion of a cache operation the slice that waits for
it. -/
def message.runnable (cfg : cmd_config_t) (store : btree_key_value_store_t) : message → Bool
  | .task (.create_a_serializer_on_this_core id) => decide (id < cfg.n_serializers)
  | .task (.create_a_slice_on_this_core id) => decide (id < cfg.n_slices)
  | .cache_completion id op =>
    match store.slices id with
    | some s => s.awaits op
    | none => false
  | _ => true

/-- Invariant of the startup protocol that keeps its handlers from aborting.
`slices_left` and `serializers_left` are the objects that the loop of the running
handler has still to visit. Every message in flight finds what its handler needs; no two
messages, and no message and no later iteration of a loop, act on the same slice; and
the loops visit indices within the configuration. -/
structure startable (cfg : cmd_config_t) (slices_left serializers_left : List Nat)
    (w : world) : Prop where
  runnable : ∀ m ∈ w.in_flight, m.runnable cfg w.store = true
  slice_refs : (w.in_flight.filterMap message.slice_to_build ++ slices_left).Nodup
  slices_within : ∀ id ∈ slices_left, id < cfg.n_slices
  serializers_within : ∀ id ∈ serializers_left, id < cfg.n_serializers

/-- The file names of the serializers pass the length check of
`create_a_serializer_on_this_core`. -/
def names_fit (K : constants) (cfg : cmd_config_t) : Prop :=
  ∀ id, id < cfg.n_serializers →
    (formatted_name cfg.db_file_name id).length ≠ K.MAX_DB_FILE_NAME

instance names_fit.decidable (K : constants) (cfg : cmd_config_t) :
    Decidable (names_fit K cfg) := by
  unfold names_fit
  infer_instance

/-- The environment lets `access` find the file of each serializer, or report that
there is none. -/
def env_t.files_ok (K : constants) (cfg : cmd_config_t) (e : env_t) : Prop :=
  ∀ id, id < cfg.n_serializers →
    e.access_res id = 0 ∨ (e.access_res id = -1 ∧ e.access_errno id = K.ENOENT)

instance env_t.files_ok.decidable (K : constants) (cfg : cmd_config_t) (e : env_t) :
    Decidable (e.files_ok K cfg) := by
  unfold env_t.files_ok
  infer_instance

/-! ## Sample values used by the witnesses -/

/-- Sample constants: a 256-byte name buffer, `NULL_BLOCK_ID = 2^32 - 1`, `ENOENT = 2`,
data directory `data/`. -/
def sample_constants : constants :=
  { MAX_DB_FILE_NAME := 256, NULL_BLOCK_ID := 4294967295, ENOENT := 2,
    DATA_DIRECTORY := ['d', 'a', 't', 'a', '/'] }

/-- The configuration of scenario S3: 2 serializers, 4 slices. -/
def sample_config : cmd_config_t :=
  { db_file_name := ['d', 'b'], n_serializers := 2, n_slices := 4, max_cache_size := 1000,
    wait_for_flush := false, flush_timer_ms := 10, flush_threshold_percent := 30 }

/-- An environment in which every dispatch runs on the spot and every call completes
inline; no file exists yet and the superblocks are zero-filled. -/
def env_inline : env_t :=
  { run_inline := fun _ _ => true, access_res := fun _ => -1, access_errno := fun _ => 2,
    serializer_start_inline := fun _ => true, serializer_shutdown_inline := fun _ => true,
    cache := fun _ => ⟨true, true, true, true, true⟩,
    disk_superblock := fun _ => ⟨0, 0⟩ }

/-- An environment in which every dispatch is queued and every call suspends; no file
exists yet and the superblocks are zero-filled. -/
def env_queued : env_t :=
  { run_inline := fun _ _ => false, access_res := fun _ => -1, access_errno := fun _ => 2,
    serializer_start_inline := fun _ => false, serializer_shutdown_inline := fun _ => false,
    cache := fun _ => ⟨false, false, false, false, false⟩,
    disk_superblock := fun _ => ⟨0, 0⟩ }

/-- The store that the constructor builds from the sample configuration. -/
def sample_world : world := (btree_key_value_store_t.new sample_config).state

/-- A schedule that delivers, `n` times, the oldest message in flight, every dispatch
queued and every call suspending. -/
def sample_schedule (n : Nat) : List (env_t × Nat) := List.replicate n (env_queued, 0)

/-- The sample store after a complete startup in which everything was queued or
suspended (30 deliveries), its trace emptied. -/
def sample_ready_world : world :=
  { (btree_key_value_store_t.startup_execution sample_constants env_queued 7
      (sample_schedule 30) sample_world).state with trace := [] }

/-- A sample slice, as its constructor leaves it on a newly created file. -/
def sample_slice : btree_slice_t := btree_slice_t.new 0 0 1 1000 false 10 30 ⟨0, 0⟩

/-- A life of the sample slice in which every cache operation suspends: `start`, the
four completions of the startup, `shutdown`, the completion of the cache shutdown; then
a second `start` and a second `shutdown` are attempted. -/
def sample_slice_ops : List (cache_oracle × slice_op) :=
  [.start, .cache_completion .start, .cache_completion .begin_transaction,
    .cache_completion .acquire, .cache_completion .commit, .shutdown,
    .cache_completion .shutdown, .start, .shutdown].map
    fun op => (⟨false, false, false, false, false⟩, op)

/-- A configuration whose file name has 255 characters: with the serializer id the
formatted path has 257, more than the 256 bytes of the sample name buffer. -/
def long_name_config : cmd_config_t :=
  { sample_config with db_file_name := List.replicate 255 'a' }

/-- The store that the constructor builds from `long_name_config`. -/
def long_name_world : world := (btree_key_value_store_t.new long_name_config).state

open btree_key_value_store_t

/-! ## Theorems: general lemmas -/

@[simp] theorem Outcome.state_ok {α σ : Type} (a : α) (s : σ) : (Outcome.ok a s).state = s := rfl
@[simp] theorem Outcome.state_fatal {α σ : Type} (m : String) (s : σ) :
    (Outcome.fatal m s : Outcome α σ).state = s := rfl
@[simp] theorem Outcome.state_then_return {α β σ : Type} (b : β) (o : Outcome α σ) :
    (o.then_return b).state = o.state := by cases o <;> rfl
@[simp] theorem Outcome.then_return_ok {α β σ : Type} (b : β) (a : α) (s : σ) :
    (Outcome.ok a s).then_return b = Outcome.ok b s := rfl
@[simp] theorem Outcome.then_return_fatal {α β σ : Type} (b : β) (m : String) (s : σ) :
    (Outcome.fatal m s : Outcome α σ).then_return b = Outcome.fatal m s := rfl

@[simp] theorem world.log_store (ev : event) (w : world) : (w.log ev).store = w.store := rfl
@[simp] theorem world.log_in_flight (ev : event) (w : world) :
    (w.log ev).in_flight = w.in_flight := rfl
@[simp] theorem world.log_trace (ev : event) (w : world) :
    (w.log ev).trace = ev :: w.trace := rfl
@[simp] theorem world.send_store (m : message) (w : world) : (w.send m).store = w.store := rfl
@[simp] theorem world.send_in_flight (m : message) (w : world) :
    (w.send m).in_flight = w.in_flight ++ [m] := rfl
@[simp] theorem world.send_trace (m : message) (w : world) : (w.send m).trace = w.trace := rfl
@[simp] theorem world.set_slice_in_flight (id : Nat) (s : Option btree_slice_t) (w : world) :
    (w.set_slice id s).in_flight = w.in_flight := rfl
@[simp] theorem world.set_slice_trace (id : Nat) (s : Option btree_slice_t) (w : world) :
    (w.set_slice id s).trace = w.trace := rfl
@[simp] theorem world.set_slice_state (id : Nat) (s : Option btree_slice_t) (w : world) :
    (w.set_slice id s).store.state = w.store.state := rfl
@[simp] theorem world.set_slice_cfg (id : Nat) (s : Option btree_slice_t) (w : world) :
    (w.set_slice id s).store.cmd_config = w.store.cmd_config := rfl
@[simp] theorem world.set_slice_mo (id : Nat) (s : Option btree_slice_t) (w : world) :
    (w.set_slice id s).store.messages_out = w.store.messages_out := rfl
@[simp] theorem world.set_slice_rc (id : Nat) (s : Option btree_slice_t) (w : world) :
    (w.set_slice id s).store.ready_callback = w.store.ready_callback := rfl
@[simp] theorem world.set_slice_sc (id : Nat) (s : Option btree_slice_t) (w : world) :
    (w.set_slice id s).store.shutdown_callback = w.store.shutdown_callback := rfl
@[simp] theorem world.set_slice_slices (id : Nat) (s : Option btree_slice_t) (w : world) :
    (w.set_slice id s).store.slices = Function.update w.store.slices id s := rfl
@[simp] theorem world.set_slice_serializers (id : Nat) (s : Option btree_slice_t) (w : world) :
    (w.set_slice id s).store.serializers = w.store.serializers := rfl

@[simp] theorem world.await_cache_store (id : Nat) (s : btree_slice_t) (w : world) :
    (w.await_cache id s).store = w.store := by
  unfold world.await_cache; split <;> rfl
@[simp] theorem world.await_cache_trace (id : Nat) (s : btree_slice_t) (w : world) :
    (w.await_cache id s).trace = w.trace := by
  unfold world.await_cache; split <;> rfl

@[simp] theorem world.set_state_store_state (st : store_state_t) (w : world) :
    (w.set_state st).store.state = st := rfl
@[simp] theorem world.set_state_cfg (st : store_state_t) (w : world) :
    (w.set_state st).store.cmd_config = w.store.cmd_config := rfl
@[simp] theorem world.set_state_mo (st : store_state_t) (w : world) :
    (w.set_state st).store.messages_out = w.store.messages_out := rfl
@[simp] theorem world.set_state_rc (st : store_state_t) (w : world) :
    (w.set_state st).store.ready_callback = w.store.ready_callback := rfl
@[simp] theorem world.set_state_sc (st : store_state_t) (w : world) :
    (w.set_state st).store.shutdown_callback = w.store.shutdown_callback := rfl
@[simp] theorem world.set_state_slices (st : store_state_t) (w : world) :
    (w.set_state st).store.slices = w.store.slices := rfl
@[simp] theorem world.set_state_serializers (st : store_state_t) (w : world) :
    (w.set_state st).store.serializers = w.store.serializers := rfl
@[simp] theorem world.set_state_in_flight (st : store_state_t) (w : world) :
    (w.set_state st).in_flight = w.in_flight := rfl
@[simp] theorem world.set_state_trace (st : store_state_t) (w : world) :
    (w.set_state st).trace = .state_changed w.store.state st :: w.trace := rfl

@[simp] theorem world.set_mo_state (n : Int) (w : world) :
    (w.set_messages_out n).store.state = w.store.state := rfl
@[simp] theorem world.set_mo_cfg (n : Int) (w : world) :
    (w.set_messages_out n).store.cmd_config = w.store.cmd_config := rfl
@[simp] theorem world.set_mo_mo (n : Int) (w : world) :
    (w.set_messages_out n).store.messages_out = n := rfl
@[simp] theorem world.set_mo_rc (n : Int) (w : world) :
    (w.set_messages_out n).store.ready_callback = w.store.ready_callback := rfl
@[simp] theorem world.set_mo_sc (n : Int) (w : world) :
    (w.set_messages_out n).store.shutdown_callback = w.store.shutdown_callback := rfl
@[simp] theorem world.set_mo_slices (n : Int) (w : world) :
    (w.set_messages_out n).store.slices = w.store.slices := rfl
@[simp] theorem world.set_mo_serializers (n : Int) (w : world) :
    (w.set_messages_out n).store.serializers = w.store.serializers := rfl
@[simp] theorem world.set_mo_in_flight (n : Int) (w : world) :
    (w.set_messages_out n).in_flight = w.in_flight := rfl
@[simp] theorem world.set_mo_trace (n : Int) (w : world) :
    (w.set_messages_out n).trace = w.trace := rfl

@[simp] theorem Outcome.sat_ok {α σ : Type} (P : α → σ → Prop) (Q : σ → Prop) (a : α)
    (s : σ) : (Outcome.ok a s).sat P Q = P a s := rfl
@[simp] theorem Outcome.sat_fatal {α σ : Type} (P : α → σ → Prop) (Q : σ → Prop)
    (m : String) (s : σ) : (Outcome.fatal m s : Outcome α σ).sat P Q = Q s := rfl
@[simp] theorem Outcome.sat_then_return {α β σ : Type} (P : β → σ → Prop) (Q : σ → Prop)
    (b : β) (o : Outcome α σ) :
    (o.then_return b).sat P Q = o.sat (fun _ s => P b s) Q := by cases o <;> rfl

theorem Outcome.sat_mono {α σ : Type} {P P2 : α → σ → Prop} {Q Q2 : σ → Prop}
    {o : Outcome α σ} (h : o.sat P Q) (hP : ∀ a s, P a s → P2 a s)
    (hQ : ∀ s, Q s → Q2 s) : o.sat P2 Q2 := by
  cases o with
  | ok a s => exact hP a s h
  | fatal m s => exact hQ s h

@[simp] theorem executed_count_nil (t : task_t) : executed_count t [] = 0 := rfl
@[simp] theorem executed_count_cons (t : task_t) (ev : event) (tr : List event) :
    executed_count t (ev :: tr) = executed_count t tr + if ev = .executed t then 1 else 0 := by
  unfold executed_count
  rw [List.count_cons]
  simp
@[simp] theorem deleted_slices_cons (ev : event) (tr : List event) :
    deleted_slices (ev :: tr) = deleted_slices tr + if ev.is_slice_deleted then 1 else 0 := by
  unfold deleted_slices
  rw [List.countP_cons]

@[simp] theorem trace_ok_cons (cfg : cmd_config_t) (ev : event) (tr : List event) :
    trace_ok cfg (ev :: tr) = (event_ok cfg ev tr ∧ trace_ok cfg tr) := rfl

@[simp] theorem world.set_serializer_in_flight (id : Nat) (s : Option serializer_t) (w : world) :
    (w.set_serializer id s).in_flight = w.in_flight := rfl
@[simp] theorem world.set_serializer_trace (id : Nat) (s : Option serializer_t) (w : world) :
    (w.set_serializer id s).trace = w.trace := rfl
@[simp] theorem world.set_serializer_state (id : Nat) (s : Option serializer_t) (w : world) :
    (w.set_serializer id s).store.state = w.store.state := rfl
@[simp] theorem world.set_serializer_cfg (id : Nat) (s : Option serializer_t) (w : world) :
    (w.set_serializer id s).store.cmd_config = w.store.cmd_config := rfl
@[simp] theorem world.set_serializer_mo (id : Nat) (s : Option serializer_t) (w : world) :
    (w.set_serializer id s).store.messages_out = w.store.messages_out := rfl
@[simp] theorem world.set_serializer_rc (id : Nat) (s : Option serializer_t) (w : world) :
    (w.set_serializer id s).store.ready_callback = w.store.ready_callback := rfl
@[simp] theorem world.set_serializer_sc (id : Nat) (s : Option serializer_t) (w : world) :
    (w.set_serializer id s).store.shutdown_callback = w.store.shutdown_callback := rfl
@[simp] theorem world.set_serializer_slices (id : Nat) (s : Option serializer_t) (w : world) :
    (w.set_serializer id s).store.slices = w.store.slices := rfl
@[simp] theorem world.set_serializer_serializers (id : Nat) (s : Option serializer_t)
    (w : world) :
    (w.set_serializer id s).store.serializers = Function.update w.store.serializers id s := rfl

/-! ## Theorems: key hashing -/

theorem getD_lt_of_bytes (data : List Nat) (hb : ∀ b ∈ data, b < 256) (p : Nat) :
    data.getD p 0 < 256 := by
  rw [List.getD_eq_getElem?_getD]
  cases h : data[p]? with
  | none => simp
  | some b => simpa using hb b (List.getElem?_mem h)

theorem byte_at_drop (data : List Nat) (hb : ∀ b ∈ data, b < 256) (d i : Nat) :
    byte_at data (d + i) = (data.drop d).getD i 0 := by
  unfold byte_at
  rw [Nat.mod_eq_of_lt (getD_lt_of_bytes data hb (d + i))]
  simp [List.getElem?_drop]

theorem get16bits_drop (data : List Nat) (hb : ∀ b ∈ data, b < 256) (d : Nat) :
    get16bits data d = spec_u16le (data.drop d) := by
  have h0 := byte_at_drop data hb d 0
  have h1 := byte_at_drop data hb d 1
  have hd : ∀ b ∈ data.drop d, b < 256 := fun b hm => hb b (List.mem_of_mem_drop hm)
  have b0 := getD_lt_of_bytes (data.drop d) hd 0
  have b1 := getD_lt_of_bytes (data.drop d) hd 1
  rw [Nat.add_zero] at h0
  unfold get16bits spec_u16le u32
  rw [h0, h1, Nat.shiftLeft_eq]
  omega

theorem spec_round_drop (data : List Nat) (hb : ∀ b ∈ data, b < 256) (d h : Nat) :
    spec_round (h, data.drop d) =
      (u32 ((u32 (u32 (h + get16bits data d) <<< 16) ^^^
          (u32 (get16bits data (d + 2) <<< 11) ^^^ u32 (h + get16bits data d))) +
        ((u32 (u32 (h + get16bits data d) <<< 16) ^^^
          (u32 (get16bits data (d + 2) <<< 11) ^^^ u32 (h + get16bits data d))) >>> 11)),
       data.drop (d + 4)) := by
  simp only [spec_round, get16bits_drop data hb, List.drop_drop]

theorem hash_rounds_eq_iterate (data : List Nat) (hb : ∀ b ∈ data, b < 256) :
    ∀ n d h, hash_rounds data n d h =
      (d + 4 * n, (spec_round^[n] (h, data.drop d)).1) ∧
      (spec_round^[n] (h, data.drop d)).2 = data.drop (d + 4 * n) := by
  intro n
  induction n with
  | zero => intro d h; simp [hash_rounds]
  | succ n ih =>
    intro d h
    rw [Function.iterate_succ_apply, spec_round_drop data hb d h]
    have e : d + 4 * (n + 1) = d + 4 + 4 * n := by omega
    rw [e]
    constructor
    · simp only [hash_rounds]
      exact (ih (d + 4) _).1
    · exact (ih (d + 4) _).2

theorem int_to_u32_char_at (cs : Bool) (data : List Nat) (p : Nat) :
    int_to_u32 (char_at cs data p) = char_widen cs (byte_at data p) := by
  have hlt : byte_at data p < 256 := Nat.mod_lt _ (by decide)
  unfold int_to_u32 char_at char_widen
  by_cases h : (cs && decide (128 ≤ byte_at data p)) = true
  · simp only [h, if_true]
    simp only [Bool.and_eq_true, decide_eq_true_eq] at h
    omega
  · simp only [h]
    simp only [Bool.false_eq_true, if_false]
    omega

theorem int_to_u32_char_at_shl (cs : Bool) (data : List Nat) (p : Nat) :
    int_to_u32 (char_at cs data p * 262144) = u32 (char_widen cs (byte_at data p) <<< 18) := by
  have hlt : byte_at data p < 256 := Nat.mod_lt _ (by decide)
  unfold int_to_u32 char_at char_widen u32
  rw [Nat.shiftLeft_eq]
  by_cases h : (cs && decide (128 ≤ byte_at data p)) = true
  · simp only [h, if_true]
    simp only [Bool.and_eq_true, decide_eq_true_eq] at h
    omega
  · simp only [h]
    simp only [Bool.false_eq_true, if_false]
    omega

theorem hash_rem_eq_spec_switch (cs : Bool) (data : List Nat) (hb : ∀ b ∈ data, b < 256)
    (rem d h : Nat) :
    hash_rem cs data rem d h = spec_switch (char_widen cs) rem h (data.drop d) := by
  have hc0 : byte_at data d = (data.drop d).getD 0 0 := by
    simpa using byte_at_drop data hb d 0
  have hc2 := byte_at_drop data hb d 2
  rcases rem with _ | _ | _ | _ | r
  · simp [hash_rem, spec_switch]
  · simp [hash_rem, spec_switch, int_to_u32_char_at, hc0]
  · simp [hash_rem, spec_switch, get16bits_drop data hb]
  · simp [hash_rem, spec_switch, get16bits_drop data hb, int_to_u32_char_at_shl, hc2]
  · simp [hash_rem, spec_switch]

theorem hash_avalanche_eq_spec_tail (h : Nat) : hash_avalanche h = spec_tail h := rfl

theorem hash_eq_spec_hash_with (cs : Bool) (size : Nat) (bytes : List Nat) (h1 : 1 ≤ size)
    (hb : ∀ b ∈ bytes, b < 256) :
    hash cs ⟨size, some bytes⟩ = spec_hash_with (char_widen cs) size bytes := by
  have hr := hash_rounds_eq_iterate bytes hb (size >>> 2) 0 (u32 size)
  have hne : ¬ size ≤ 0 := by omega
  simp only [hash, spec_hash_with, hne, Option.isNone_some, Bool.or_false, decide_False,
    Bool.false_eq_true, if_false, Option.getD_some, List.drop_zero] at hr ⊢
  rw [hr.1, hash_rem_eq_spec_switch cs bytes hb, hash_avalanche_eq_spec_tail]
  rw [← hr.2]

theorem spec_hash_zero (d : List Nat) : spec_hash 0 d = 0 := by
  simp [spec_hash, spec_hash_with, spec_switch, spec_tail, u32]

theorem hash_lt (cs : Bool) (key : btree_key) : hash cs key < 4294967296 := by
  simp only [hash]
  split
  · decide
  · exact Nat.mod_lt _ (by decide)

/-- C1 (as amended): for every key of length 1..255 with arbitrary byte values, `hash`
equals the section-6 pseudocode in which the single remainder bytes `d[0]` (case 1) and
`d[2]` (case 3) are widened the way the platform widens a plain `char`: sign-extended to
32 bits where `char` is signed, zero-extended where it is unsigned. Where `char` is
unsigned this is the pseudocode as written. -/
theorem C1_hash_matches_pseudocode_with_char_widening (char_signed : Bool) (key : btree_key)
    (bytes : List Nat) (hc : key.contents = some bytes) (hs : key.size = bytes.length)
    (h1 : 1 ≤ key.size) (_h255 : key.size ≤ 255) (hb : ∀ b ∈ bytes, b < 256) :
    hash char_signed key = spec_hash_with (char_widen char_signed) bytes.length bytes ∧
      (char_signed = false → hash char_signed key = spec_hash bytes.length bytes) := by
  obtain ⟨size, contents⟩ := key
  simp only at hc hs h1
  subst hc
  have h := hash_eq_spec_hash_with char_signed size bytes h1 hb
  rw [hs] at h
  refine ⟨by rw [hs]; exact h, ?_⟩
  intro hcs
  subst hcs
  rw [hs, h]
  have hw : char_widen false = id := by
    funext b
    simp [char_widen]
  rw [hw]
  rfl

/-- C1, witness: the key `66 6f c8` (three bytes, the last one above `0x7f`) on a
platform with signed `char`. -/
theorem C1_hash_matches_pseudocode_with_char_widening_witness :
    hash true ⟨3, some [102, 111, 200]⟩ =
        spec_hash_with (char_widen true) [102, 111, 200].length [102, 111, 200] ∧
      (true = false → hash true ⟨3, some [102, 111, 200]⟩ =
        spec_hash [102, 111, 200].length [102, 111, 200]) :=
  C1_hash_matches_pseudocode_with_char_widening true ⟨3, some [102, 111, 200]⟩
    [102, 111, 200] rfl rfl (by decide) (by decide) (by decide)

/-- C1, counterexample: where plain `char` is signed, the one-byte key `0x80` hashes to a
value different from the one the section-6 pseudocode computes with `d[0]` taken as an
unsigned 8-bit value. -/
theorem C1_hash_differs_from_unsigned_pseudocode :
    hash true ⟨1, some [128]⟩ ≠ spec_hash 1 [128] := by decide

/-- C2: for every key with size 0 or NULL contents `hash` returns 0, and the section-6
pseudocode computes 0 for `len = 0` whatever the data. -/
theorem C2_hash_of_empty_key_is_zero (char_signed : Bool) (key : btree_key)
    (h : key.size = 0 ∨ key.contents = none) :
    hash char_signed key = 0 ∧ ∀ d : List Nat, spec_hash 0 d = 0 := by
  refine ⟨?_, spec_hash_zero⟩
  unfold hash
  rcases h with h | h
  · simp [h]
  · simp [h]

/-- C2, witness: the key of size 0 with no bytes. -/
theorem C2_hash_of_empty_key_is_zero_witness :
    hash true ⟨0, some []⟩ = 0 ∧ ∀ d : List Nat, spec_hash 0 d = 0 :=
  C2_hash_of_empty_key_is_zero true ⟨0, some []⟩ (Or.inl rfl)

/-- C3: for every key and every `n_slices > 0` (an `int`), `slice_for_key` returns
`slices[i]` with `i = hash(key) mod n_slices`, where `hash(key)` is below `2^32` and
`i < n_slices`; two stores with the same `n_slices` pick the same index for the same key. -/
theorem C3_slice_for_key_index (char_signed : Bool) (st st2 : btree_key_value_store_t)
    (key : btree_key) (hpos : 0 < st.cmd_config.n_slices)
    (hint : st.cmd_config.n_slices ≤ 2147483647)
    (hsame : st2.cmd_config.n_slices = st.cmd_config.n_slices) :
    slice_for_key char_signed st key =
        st.slices (hash char_signed key % st.cmd_config.n_slices) ∧
      hash char_signed key < 4294967296 ∧
      hash char_signed key % st.cmd_config.n_slices < st.cmd_config.n_slices ∧
      slice_for_key char_signed st2 key =
        st2.slices (hash char_signed key % st.cmd_config.n_slices) := by
  have hu : u32 st.cmd_config.n_slices = st.cmd_config.n_slices := by
    unfold u32
    omega
  refine ⟨?_, hash_lt _ _, Nat.mod_lt _ hpos, ?_⟩
  · simp only [slice_for_key, slice_index_for_key, hu]
  · simp only [slice_for_key, slice_index_for_key, hsame, hu]

/-- C3, witness: the key `foo` on two copies of the sample store (4 slices). -/
theorem C3_slice_for_key_index_witness :
    slice_for_key true sample_world.store ⟨3, some [102, 111, 111]⟩ =
        sample_world.store.slices
          (hash true ⟨3, some [102, 111, 111]⟩ % sample_world.store.cmd_config.n_slices) ∧
      hash true ⟨3, some [102, 111, 111]⟩ < 4294967296 ∧
      hash true ⟨3, some [102, 111, 111]⟩ % sample_world.store.cmd_config.n_slices <
        sample_world.store.cmd_config.n_slices ∧
      slice_for_key true sample_world.store ⟨3, some [102, 111, 111]⟩ =
        sample_world.store.slices
          (hash true ⟨3, some [102, 111, 111]⟩ % sample_world.store.cmd_config.n_slices) :=
  C3_slice_for_key_index true sample_world.store sample_world.store ⟨3, some [102, 111, 111]⟩
    (by decide) (by decide) rfl

/-! ## Theorems: slice assignment -/

theorem finish_start_slices (w : world) :
    (finish_start w).state.store.slices = w.store.slices := by
  unfold finish_start
  split
  · rfl
  · simp only []
    split <;> rfl

theorem have_created_a_slice_slices (w : world) :
    (have_created_a_slice w).state.store.slices = w.store.slices := by
  unfold have_created_a_slice
  simp only []
  split
  · rw [Outcome.state_then_return, finish_start_slices]; rfl
  · rfl

theorem on_slice_ready_slices (e : env_t) (id : Nat) (w : world) :
    (on_slice_ready e id w).state.store.slices = w.store.slices := by
  unfold on_slice_ready do_on_cpu
  split
  · rw [Outcome.state_then_return, have_created_a_slice_slices]; rfl
  · rfl

theorem count_on_serializer_eq_count (n N id : Nat) :
    count_on_serializer n N id = Nat.count (fun j => j % n = id % n) N := by
  unfold count_on_serializer
  induction N with
  | zero => simp
  | succ N ih =>
    rw [List.range_succ, List.foldl_append, ih, Nat.count_succ]
    simp only [List.foldl_cons, List.foldl_nil]
    split <;> rfl

theorem count_on_serializer_eq_card (n N id : Nat) :
    count_on_serializer n N id =
      ((Finset.range N).filter (fun j => j % n = id % n)).card := by
  rw [count_on_serializer_eq_count, Nat.count_eq_card_filter_range]

theorem count_on_serializer_formula (n N id : Nat) (hn : 0 < n) :
    count_on_serializer n N id = N / n + if id % n < N % n then 1 else 0 := by
  rw [count_on_serializer_eq_count]
  exact Nat.count_modEq_card N hn id

theorem count_on_serializer_bounds (n N id : Nat) (hn : 0 < n) (hid : id < N) :
    1 ≤ count_on_serializer n N id ∧ N / n ≤ count_on_serializer n N id ∧
      count_on_serializer n N id ≤ N / n + 1 := by
  rw [count_on_serializer_formula n N id hn]
  refine ⟨?_, ?_, ?_⟩
  · by_cases h : N / n = 0
    · have hN : N < n := (Nat.div_eq_zero_iff hn).mp h
      rw [Nat.mod_eq_of_lt hN, Nat.mod_eq_of_lt (lt_trans hid hN), if_pos hid]
      omega
    · have : 1 ≤ N / n := Nat.one_le_iff_ne_zero.mpr h
      omega
  · omega
  · split <;> omega


theorem slice_start_cache_args (nil : Nat) (o : cache_oracle) (s : btree_slice_t) :
    same_cache_args (btree_slice_t.start nil o s).state.cache s.cache := by
  rcases o with ⟨a, b, c, d, x⟩
  unfold same_cache_args
  by_cases hs : s.state = .state_unstarted
  · cases a <;> cases b <;> cases c <;> cases d <;>
    simp [btree_slice_t.start, hs, btree_slice_t.next_starting_up_step,
      btree_slice_t.step_starting_up_initialize_superblock, 
      btree_slice_t.step_starting_up_finish,
      initialize_superblock_fsm_t.initialize_superblock_if_necessary,
      initialize_superblock_fsm_t.next_initialize_superblock_step,
      initialize_superblock_fsm_t.step_acquire, initialize_superblock_fsm_t.step_make_change,
      initialize_superblock_fsm_t.step_commit, initialize_superblock_fsm_t.step_finish,
      initialize_superblock_fsm_t.new, cache_t.call_op, cache_t.call,
      btree_slice_t.sb_fsm_destructor_ok, apply_ite cache_t.serializer,
      apply_ite cache_t.id_on_serializer, apply_ite cache_t.count_on_serializer,
      apply_ite cache_t.max_size]
  · simp [btree_slice_t.start, hs]

theorem create_a_slice_binding (K : constants) (e : env_t) (w : world) (i : Nat)
    (hn : 0 < w.store.cmd_config.n_serializers) (hi : i < w.store.cmd_config.n_slices) :
    ∃ s, (create_a_slice_on_this_core K e i w).state.store.slices i = some s ∧
      s.cache.serializer = i % w.store.cmd_config.n_serializers ∧
      s.cache.id_on_serializer = i / w.store.cmd_config.n_serializers ∧
      s.cache.count_on_serializer =
        count_on_serializer w.store.cmd_config.n_serializers w.store.cmd_config.n_slices i := by
  obtain ⟨b1, b2, b3⟩ := count_on_serializer_bounds _ _ i hn hi
  unfold create_a_slice_on_this_core
  simp only [world.log_store, ge_iff_le, b1, b2, b3, not_true_eq_false, if_false]
  have hargs := slice_start_cache_args K.NULL_BLOCK_ID (e.cache i)
    (btree_slice_t.new (i % w.store.cmd_config.n_serializers)
      (i / w.store.cmd_config.n_serializers)
      (count_on_serializer w.store.cmd_config.n_serializers w.store.cmd_config.n_slices i)
      (w.store.cmd_config.max_cache_size / w.store.cmd_config.n_slices)
      w.store.cmd_config.wait_for_flush w.store.cmd_config.flush_timer_ms
      w.store.cmd_config.flush_threshold_percent (e.disk_superblock i))
  cases hst : btree_slice_t.start K.NULL_BLOCK_ID (e.cache i)
    (btree_slice_t.new (i % w.store.cmd_config.n_serializers)
      (i / w.store.cmd_config.n_serializers)
      (count_on_serializer w.store.cmd_config.n_serializers w.store.cmd_config.n_slices i)
      (w.store.cmd_config.max_cache_size / w.store.cmd_config.n_slices)
      w.store.cmd_config.wait_for_flush w.store.cmd_config.flush_timer_ms
      w.store.cmd_config.flush_threshold_percent (e.disk_superblock i)) with
  | fatal msg s1 =>
    rw [hst] at hargs
    refine ⟨s1, by simp, ?_⟩
    exact ⟨hargs.1, hargs.2.1, hargs.2.2.1⟩
  | ok r s1 =>
    rw [hst] at hargs
    refine ⟨s1, ?_, ?_⟩
    · simp only []
      split
      · rw [Outcome.state_then_return, on_slice_ready_slices]; simp
      · simp
    · exact ⟨hargs.1, hargs.2.1, hargs.2.2.1⟩


/-- C4: for `n_serializers > 0`, `n_slices > 0` and a slice id `i < n_slices`,
`create_a_slice_on_this_core(i)` stores in `slices[i]` a slice whose cache is bound to
serializer `i mod n_serializers`, with rank `i / n_serializers` and with
`count_on_serializer` equal to the number of `j < n_slices` with
`j mod n_serializers = i mod n_serializers`; for 4 slices on 2 serializers the
(serializer, rank) pairs of slices 0,1,2,3 are (0,0), (1,0), (0,1), (1,1). -/
theorem C4_slice_binding (K : constants) (e : env_t) (w : world) (i : Nat)
    (hn : 0 < w.store.cmd_config.n_serializers) (_hN : 0 < w.store.cmd_config.n_slices)
    (hi : i < w.store.cmd_config.n_slices) :
    ∃ s, (create_a_slice_on_this_core K e i w).state.store.slices i = some s ∧
      s.cache.serializer = i % w.store.cmd_config.n_serializers ∧
      s.cache.id_on_serializer = i / w.store.cmd_config.n_serializers ∧
      s.cache.count_on_serializer =
        ((Finset.range w.store.cmd_config.n_slices).filter
          (fun j => j % w.store.cmd_config.n_serializers =
            i % w.store.cmd_config.n_serializers)).card ∧
      (w.store.cmd_config.n_serializers = 2 → w.store.cmd_config.n_slices = 4 →
        (s.cache.serializer, s.cache.id_on_serializer) =
          [(0, 0), (1, 0), (0, 1), (1, 1)].getD i (0, 0)) := by
  obtain ⟨s, h1, h2, h3, h4⟩ := create_a_slice_binding K e w i hn hi
  refine ⟨s, h1, h2, h3, ?_, ?_⟩
  · rw [h4, count_on_serializer_eq_card]
  · intro e2 e4
    rw [h2, h3, e2]
    rw [e4] at hi
    interval_cases i <;> rfl

/-- C4, witness: slice 3 of the sample store (4 slices, 2 serializers). -/
theorem C4_slice_binding_witness :
    ∃ s, (create_a_slice_on_this_core sample_constants env_inline 3
        sample_world).state.store.slices 3 = some s ∧
      s.cache.serializer = 3 % sample_world.store.cmd_config.n_serializers ∧
      s.cache.id_on_serializer = 3 / sample_world.store.cmd_config.n_serializers ∧
      s.cache.count_on_serializer =
        ((Finset.range sample_world.store.cmd_config.n_slices).filter
          (fun j => j % sample_world.store.cmd_config.n_serializers =
            3 % sample_world.store.cmd_config.n_serializers)).card ∧
      (sample_world.store.cmd_config.n_serializers = 2 →
        sample_world.store.cmd_config.n_slices = 4 →
        (s.cache.serializer, s.cache.id_on_serializer) =
          [(0, 0), (1, 0), (0, 1), (1, 1)].getD 3 (0, 0)) :=
  C4_slice_binding sample_constants env_inline sample_world 3 (by decide) (by decide)
    (by decide)

/-! ## Theorems: superblock initializer -/

open initialize_superblock_fsm_t in
theorem sb_complete_run_spec (nil : Nat) (o : cache_oracle) (c : cache_t)
    (hp : c.pending = none) :
    (complete_run nil o c).is_ok = true ∧
    (complete_run nil o c).state.fsm.state = .state_done ∧
    (c.superblock.database_exists = 0 →
      (complete_run nil o c).state.cache.superblock =
        { database_exists := 1, root_block := nil }) ∧
    (c.superblock.database_exists ≠ 0 →
      (complete_run nil o c).state.cache.superblock = c.superblock ∧
      (complete_run nil o c).state.cache.calls =
        [.commit, .release, .get_data_read, .acquire_superblock_write,
          .begin_transaction_write] ++ c.calls) ∧
    (complete_run nil o c).state.cache.superblock.database_exists ≠ 0 := by
  rcases o with ⟨a, b1, b2, b3, x⟩
  by_cases hd : c.superblock.database_exists = 0 <;>
  cases b1 <;> cases b2 <;> cases b3 <;>
  simp [complete_run, drain, complete_pending, initialize_superblock_if_necessary,
    next_initialize_superblock_step, step_acquire, step_make_change, step_commit, step_finish,
    on_txn_begin, on_block_available, on_txn_commit,
    initialize_superblock_fsm_t.new, cache_t.call_op, cache_t.call, hp, hd, Outcome.is_ok,
    Outcome.state]


/-- C9: for every superblock content held by an idle cache, a complete run of the
initializer succeeds, ends in `state_done`, leaves the superblock equal to
`{database_exists = 1, root_block = NULL_BLOCK_ID}` if `database_exists` was 0, and leaves
it equal to what it was, without calling `get_data_write`, if `database_exists` was
non-zero; in both cases `database_exists` is non-zero afterwards. -/
theorem C9_initializer_effect_on_superblock (NULL_BLOCK_ID : Nat) (o : cache_oracle)
    (c : cache_t) (hp : c.pending = none) :
    (initialize_superblock_fsm_t.complete_run NULL_BLOCK_ID o c).is_ok = true ∧
    (initialize_superblock_fsm_t.complete_run NULL_BLOCK_ID o c).state.fsm.state =
      .state_done ∧
    (c.superblock.database_exists = 0 →
      (initialize_superblock_fsm_t.complete_run NULL_BLOCK_ID o c).state.cache.superblock =
        { database_exists := 1, root_block := NULL_BLOCK_ID }) ∧
    (c.superblock.database_exists ≠ 0 →
      (initialize_superblock_fsm_t.complete_run NULL_BLOCK_ID o c).state.cache.superblock =
        c.superblock ∧
      (initialize_superblock_fsm_t.complete_run NULL_BLOCK_ID o c).state.cache.calls =
        [.commit, .release, .get_data_read, .acquire_superblock_write,
          .begin_transaction_write] ++ c.calls) ∧
    (initialize_superblock_fsm_t.complete_run NULL_BLOCK_ID o
      c).state.cache.superblock.database_exists ≠ 0 :=
  sb_complete_run_spec NULL_BLOCK_ID o c hp

/-- C9, witness: a zero-filled superblock, with `begin_transaction` and `commit`
suspending. -/
theorem C9_initializer_effect_on_superblock_witness :
    (initialize_superblock_fsm_t.complete_run 4294967295 ⟨true, false, true, false, true⟩
      (cache_t.holding ⟨0, 0⟩)).is_ok = true ∧
    (initialize_superblock_fsm_t.complete_run 4294967295 ⟨true, false, true, false, true⟩
      (cache_t.holding ⟨0, 0⟩)).state.fsm.state = .state_done ∧
    ((cache_t.holding ⟨0, 0⟩).superblock.database_exists = 0 →
      (initialize_superblock_fsm_t.complete_run 4294967295 ⟨true, false, true, false, true⟩
        (cache_t.holding ⟨0, 0⟩)).state.cache.superblock =
        { database_exists := 1, root_block := 4294967295 }) ∧
    ((cache_t.holding ⟨0, 0⟩).superblock.database_exists ≠ 0 →
      (initialize_superblock_fsm_t.complete_run 4294967295 ⟨true, false, true, false, true⟩
        (cache_t.holding ⟨0, 0⟩)).state.cache.superblock =
        (cache_t.holding ⟨0, 0⟩).superblock ∧
      (initialize_superblock_fsm_t.complete_run 4294967295 ⟨true, false, true, false, true⟩
        (cache_t.holding ⟨0, 0⟩)).state.cache.calls =
        [.commit, .release, .get_data_read, .acquire_superblock_write,
          .begin_transaction_write] ++ (cache_t.holding ⟨0, 0⟩).calls) ∧
    (initialize_superblock_fsm_t.complete_run 4294967295 ⟨true, false, true, false, true⟩
      (cache_t.holding ⟨0, 0⟩)).state.cache.superblock.database_exists ≠ 0 :=
  C9_initializer_effect_on_superblock 4294967295 ⟨true, false, true, false, true⟩
    (cache_t.holding ⟨0, 0⟩) rfl

/-- C10 (as amended): for every superblock content with `database_exists` non-zero, held
by an idle cache, `root_block` after a complete run of the initializer equals
`root_block` before it, whatever its value; when `database_exists` is 0 the run sets
`root_block` to `NULL_BLOCK_ID`, whatever it held. -/
theorem C10_root_block_kept_when_database_exists (NULL_BLOCK_ID : Nat) (o : cache_oracle)
    (c : cache_t) (hp : c.pending = none) :
    (c.superblock.database_exists ≠ 0 →
      (initialize_superblock_fsm_t.complete_run NULL_BLOCK_ID o
        c).state.cache.superblock.root_block = c.superblock.root_block) ∧
    (c.superblock.database_exists = 0 →
      (initialize_superblock_fsm_t.complete_run NULL_BLOCK_ID o
        c).state.cache.superblock.root_block = NULL_BLOCK_ID) := by
  obtain ⟨_, _, h0, h1, _⟩ := sb_complete_run_spec NULL_BLOCK_ID o c hp
  constructor
  · intro hd
    rw [(h1 hd).1]
  · intro hd
    rw [h0 hd]

/-- C10, witness: an initialized superblock with root block 5. -/
theorem C10_root_block_kept_when_database_exists_witness :
    ((cache_t.holding ⟨1, 5⟩).superblock.database_exists ≠ 0 →
      (initialize_superblock_fsm_t.complete_run 4294967295 ⟨true, true, false, true, true⟩
        (cache_t.holding ⟨1, 5⟩)).state.cache.superblock.root_block =
          (cache_t.holding ⟨1, 5⟩).superblock.root_block) ∧
    ((cache_t.holding ⟨1, 5⟩).superblock.database_exists = 0 →
      (initialize_superblock_fsm_t.complete_run 4294967295 ⟨true, true, false, true, true⟩
        (cache_t.holding ⟨1, 5⟩)).state.cache.superblock.root_block = 4294967295) :=
  C10_root_block_kept_when_database_exists 4294967295 ⟨true, true, false, true, true⟩
    (cache_t.holding ⟨1, 5⟩) rfl

/-- C10, counterexample: the zero-filled superblock of a newly created file has
`root_block = 0`, which is not `NULL_BLOCK_ID`, and `database_exists = 0`; a complete
run of the initializer overwrites that `root_block` with `NULL_BLOCK_ID`. -/
theorem C10_initializer_overwrites_root_block_of_new_file :
    (cache_t.holding ⟨0, 0⟩).superblock.root_block ≠ sample_constants.NULL_BLOCK_ID ∧
    (initialize_superblock_fsm_t.complete_run sample_constants.NULL_BLOCK_ID
      ⟨true, true, true, true, true⟩ (cache_t.holding ⟨0, 0⟩)).state.cache.superblock.root_block
        ≠ (cache_t.holding ⟨0, 0⟩).superblock.root_block := by
  decide

/-! ## Theorems: slice lifecycle -/

section slice_lemmas
open initialize_superblock_fsm_t

theorem sb_next_step_spec (nil : Nat) (o : cache_oracle) (m : sb_machine)
    (hp : m.cache.pending = none) :
    (next_initialize_superblock_step nil o m).sat
      (fun r m1 => m1.fsm.callback = m.fsm.callback ∧
        ((r.done = true ∧ r.notified = m.fsm.callback ∧ m1.fsm.state = .state_done ∧
            m1.cache.pending = none) ∨
         (r.done = false ∧ r.notified = false ∧ m1.fsm.state.suspended = true ∧
            m1.cache.pending_initializer = true)))
      (fun _ => True) := by
  obtain ⟨⟨st, buf, txn, cbk⟩, c⟩ := m
  obtain ⟨o1, o2, o3, o4, o5⟩ := o
  simp only at hp
  cases st <;> cases o2 <;> cases o3 <;> cases o4 <;>
    simp [next_initialize_superblock_step, step_acquire, step_make_change, step_commit,
      step_finish, cache_t.call_op, cache_t.call, hp, sb_state_t.suspended,
      cache_t.pending_initializer, apply_ite cache_t.pending]

theorem sb_init_spec (nil : Nat) (o : cache_oracle) (c : cache_t) (hp : c.pending = none) :
    (initialize_superblock_if_necessary nil o { fsm := .new, cache := c }).sat
      (fun r m1 => r.notified = false ∧
        ((r.done = true ∧ m1.fsm.state = .state_done ∧ m1.cache.pending = none) ∨
         (r.done = false ∧ m1.fsm.state.suspended = true ∧ m1.fsm.callback = true ∧
            m1.cache.pending_initializer = true)))
      (fun _ => False) := by
  obtain ⟨o1, o2, o3, o4, o5⟩ := o
  cases o2 <;> cases o3 <;> cases o4 <;>
    simp [initialize_superblock_if_necessary, initialize_superblock_fsm_t.new,
      next_initialize_superblock_step, step_acquire, step_make_change, step_commit,
      step_finish, cache_t.call_op, cache_t.call, hp, sb_state_t.suspended,
      cache_t.pending_initializer, apply_ite cache_t.pending]

/-- The three callbacks of the initializer. -/
theorem sb_callback_spec (nil : Nat) (o : cache_oracle) (m : sb_machine)
    (hp : m.cache.pending = none)
    (cb : Nat → cache_oracle → sb_machine → Outcome sb_ret sb_machine)
    (hcb : cb = on_txn_begin ∨ cb = on_block_available ∨ cb = on_txn_commit) :
    (cb nil o m).sat
      (fun r m1 => m.fsm.state.suspended = true ∧ m1.fsm.callback = m.fsm.callback ∧
        ((r.notified = m.fsm.callback ∧ m1.fsm.state = .state_done ∧
            m1.cache.pending = none) ∨
         (r.notified = false ∧ m1.fsm.state.suspended = true ∧
            m1.cache.pending_initializer = true)))
      (fun _ => True) := by
  obtain ⟨⟨st, buf, txn, cbk⟩, c⟩ := m
  obtain ⟨o1, o2, o3, o4, o5⟩ := o
  simp only at hp
  rcases hcb with rfl | rfl | rfl <;>
  cases st <;> cases o2 <;> cases o3 <;> cases o4 <;>
    simp [on_txn_begin, on_block_available, on_txn_commit,
      next_initialize_superblock_step, step_acquire, step_make_change, step_commit,
      step_finish, cache_t.call_op, cache_t.call, hp, sb_state_t.suspended,
      cache_t.pending_initializer, apply_ite cache_t.pending]

theorem slice_start_spec (nil : Nat) (o : cache_oracle) (s : btree_slice_t) (hs : slice_ok s) :
    (btree_slice_t.start nil o s).sat
      (fun r s1 => slice_ok s1 ∧ r.upcall = none ∧
        ((r.done = true ∧ s1.cache.pending = none) ∨
         (r.done = false ∧ s1.cache.pending_startup = true)))
      (fun _ => True) := by
  by_cases hst : s.state = .state_unstarted
  · have hp : s.cache.pending = none := by
      by_contra hne
      have := hs.2.2.2 hne
      rw [hst] at this
      simp [slice_state_t.waiting] at this
    have hf : ∀ f, s.sb_fsm = some f → f.state.suspended = false := by
      intro f hf
      by_contra hne
      have := (hs.2.1 f hf (by simpa using hne)).2
      rw [hst] at this
      simp at this
    obtain ⟨o1, o2, o3, o4, o5⟩ := o
    cases o1
    · simp only [btree_slice_t.start, hst, ne_eq, not_true_eq_false, if_false,
        btree_slice_t.next_starting_up_step, if_true, Bool.false_eq_true, Outcome.sat_ok,
        cache_t.call_op, hp]
      refine ⟨⟨?_, ?_, ?_, ?_⟩, ?_⟩
      · simp
      · intro f h1 h2
        simp only at h1
        rw [hf f h1] at h2
        simp at h2
      · simp
      · simp [slice_state_t.waiting]
      · simp [cache_t.pending_startup]
    · have hi := sb_init_spec nil ⟨true, o2, o3, o4, o5⟩ (s.cache.call_op .start .start true)
        (by simp [cache_t.call_op, hp])
      simp only [btree_slice_t.start, hst, ne_eq, not_true_eq_false, if_false,
        btree_slice_t.next_starting_up_step, if_true,
        btree_slice_t.step_starting_up_initialize_superblock]
      cases hinit : initialize_superblock_if_necessary nil ⟨true, o2, o3, o4, o5⟩
          { fsm := initialize_superblock_fsm_t.new,
            cache := s.cache.call_op .start .start true } with
      | fatal msg m1 =>
        rw [hinit] at hi
        simp at hi
      | ok r m1 =>
        rw [hinit] at hi
        simp only [Outcome.sat_ok] at hi
        obtain ⟨hn, hcase⟩ := hi
        rcases hcase with ⟨hd, hdone, hpend⟩ | ⟨hd, hsus, hcbk, hpend⟩
        · simp [hd, btree_slice_t.step_starting_up_finish, btree_slice_t.sb_fsm_destructor_ok,
            hdone, slice_ok, hpend, slice_state_t.waiting]
        · simp [hd, slice_ok, hsus, hcbk, slice_state_t.waiting, cache_t.pending_startup]
          simp only [cache_t.pending_initializer] at hpend
          split at hpend <;> simp_all
  · simp [btree_slice_t.start, hst]


theorem slice_finish_spec (s : btree_slice_t) (hrc : s.ready_callback = true)
    (hp : s.cache.pending = none)
    (hf : ∀ f, s.sb_fsm = some f → f.state = .state_done) 
    (hst : s.state = .state_starting_up_finish) :
    (btree_slice_t.step_starting_up_finish s).sat
      (fun r s1 => slice_ok s1 ∧ r.upcall = some .on_slice_ready ∧ s1.cache.pending = none)
      (fun _ => True) := by
  have hd : btree_slice_t.sb_fsm_destructor_ok s = true := by
    unfold btree_slice_t.sb_fsm_destructor_ok
    cases hsb : s.sb_fsm with
    | none => rfl
    | some f => simp [hf f hsb]
  simp [btree_slice_t.step_starting_up_finish, hst, hd, hrc, slice_ok, hp, slice_state_t.waiting]

theorem slice_on_cache_ready_spec (nil : Nat) (o : cache_oracle) (s : btree_slice_t)
    (hs : slice_ok s) (hp : s.cache.pending = none) :
    (btree_slice_t.on_cache_ready nil o s).sat
      (fun r s1 => slice_ok s1 ∧
        ((r.upcall = some .on_slice_ready ∧ s1.cache.pending = none) ∨
         (r.upcall = none ∧ s1.cache.pending_startup = true)))
      (fun _ => True) := by
  by_cases hst : s.state = .state_starting_up_waiting_for_cache
  · have hrc : s.ready_callback = true := hs.1 (Or.inl hst)
    have hi := sb_init_spec nil o s.cache hp
    simp only [btree_slice_t.on_cache_ready, hst, ne_eq, not_true_eq_false, if_false,
      btree_slice_t.next_starting_up_step, if_true, reduceCtorEq,
      btree_slice_t.step_starting_up_initialize_superblock]
    cases hinit : initialize_superblock_fsm_t.initialize_superblock_if_necessary nil o
        { fsm := initialize_superblock_fsm_t.new, cache := s.cache } with
    | fatal msg m1 =>
      rw [hinit] at hi
      simp at hi
    | ok r m1 =>
      rw [hinit] at hi
      simp only [Outcome.sat_ok] at hi
      obtain ⟨hn, hcase⟩ := hi
      rcases hcase with ⟨hd, hdone, hpend⟩ | ⟨hd, hsus, hcbk, hpend⟩
      · simp only [hd, if_true]
        refine Outcome.sat_mono (slice_finish_spec _ hrc hpend ?_ rfl)
          (fun r s1 h => ⟨h.1, Or.inl ⟨h.2.1, h.2.2⟩⟩) (fun _ h => h)
        intro f hf
        simp only [Option.some.injEq] at hf
        rw [← hf, hdone]
      · simp [hd, slice_ok, hsus, hcbk, slice_state_t.waiting, cache_t.pending_startup, hrc]
        simp only [cache_t.pending_initializer] at hpend
        split at hpend <;> simp_all
  · simp [btree_slice_t.on_cache_ready, hst]

theorem slice_sb_fsm_callback_spec (nil : Nat) (o : cache_oracle) (s : btree_slice_t)
    (hs : slice_ok s) (hp : s.cache.pending = none)
    (cb : Nat → cache_oracle → sb_machine → Outcome sb_ret sb_machine)
    (hcb : cb = initialize_superblock_fsm_t.on_txn_begin ∨
      cb = initialize_superblock_fsm_t.on_block_available ∨
      cb = initialize_superblock_fsm_t.on_txn_commit) :
    (btree_slice_t.sb_fsm_callback nil o cb s).sat
      (fun r s1 => slice_ok s1 ∧
        ((r.upcall = some .on_slice_ready ∧ s1.cache.pending = none) ∨
         (r.upcall = none ∧ s1.cache.pending_startup = true)))
      (fun _ => True) := by
  unfold btree_slice_t.sb_fsm_callback
  cases hf : s.sb_fsm with
  | none => simp
  | some f =>
    have hc := sb_callback_spec nil o { fsm := f, cache := s.cache } hp cb hcb
    simp only []
    cases hrun : cb nil o { fsm := f, cache := s.cache } with
    | fatal msg m1 => simp
    | ok r m1 =>
      rw [hrun] at hc
      simp only [Outcome.sat_ok] at hc
      obtain ⟨hsus, hsame, hcase⟩ := hc
      obtain ⟨hcbk, hwait⟩ := hs.2.1 f hf hsus
      have hrc : s.ready_callback = true := hs.1 (Or.inr hwait)
      rcases hcase with ⟨hn, hdone, hpend⟩ | ⟨hn, hsus1, hpend⟩
      · simp only [hcbk] at hn
        simp only [hn, if_true, btree_slice_t.on_initialize_superblock, hwait, ne_eq,
          not_true_eq_false, if_false, btree_slice_t.next_starting_up_step, reduceCtorEq,
          btree_slice_t.step_starting_up_initialize_superblock]
        refine Outcome.sat_mono (slice_finish_spec _ hrc hpend ?_ rfl)
          (fun r s1 h => ⟨h.1, Or.inl ⟨h.2.1, h.2.2⟩⟩) (fun _ h => h)
        intro f1 hf1
        simp only [Option.some.injEq] at hf1
        rw [← hf1, hdone]
      · simp [hn, slice_ok, hsus1, hsame, hcbk, hwait, slice_state_t.waiting,
          cache_t.pending_startup, hrc]
        simp only [cache_t.pending_initializer] at hpend
        split at hpend <;> simp_all

theorem slice_shutdown_finish_spec (s : btree_slice_t)
    (hp : s.cache.pending = none) (hst : s.state = .state_shutting_down_finish)
    (hf : ∀ f, s.sb_fsm = some f → f.state.suspended = false) :
    (btree_slice_t.step_shutting_down_finish s).sat
      (fun r s1 => slice_ok s1 ∧ r.done = true ∧
        r.upcall = (if s.shutdown_callback then some .on_slice_shutdown else none) ∧
        s1.cache.pending = none ∧ s1.destructor_ok = true)
      (fun _ => True) := by
  simp only [btree_slice_t.step_shutting_down_finish, hst, if_true, Outcome.sat_ok, slice_ok,
    hp, btree_slice_t.destructor_ok]
  simp [slice_state_t.waiting]
  exact hf

theorem slice_not_suspended (s : btree_slice_t) (hs : slice_ok s)
    (hst : s.state ≠ .state_starting_up_waiting_for_superblock) :
    ∀ f, s.sb_fsm = some f → f.state.suspended = false := by
  intro f hf
  by_contra hne
  exact hst (hs.2.1 f hf (by simpa using hne)).2

theorem slice_shutdown_spec (o : cache_oracle) (s : btree_slice_t) (hs : slice_ok s) :
    (btree_slice_t.shutdown o s).sat
      (fun r s1 => slice_ok s1 ∧ r.upcall = none ∧
        ((r.done = true ∧ s1.cache.pending = none ∧ s1.destructor_ok = true) ∨
         (r.done = false ∧ s1.cache.pending = some .shutdown)))
      (fun _ => True) := by
  by_cases hst : s.state = .state_ready
  · have hp : s.cache.pending = none := by
      by_contra hne
      have := hs.2.2.2 hne
      rw [hst] at this
      simp [slice_state_t.waiting] at this
    have hf := slice_not_suspended s hs (by rw [hst]; simp)
    obtain ⟨o1, o2, o3, o4, o5⟩ := o
    cases o5
    · simp only [btree_slice_t.shutdown, hst, ne_eq, not_true_eq_false, if_false,
        btree_slice_t.next_shutting_down_step, if_true, Bool.false_eq_true, Outcome.sat_ok,
        cache_t.call_op, hp]
      refine ⟨⟨?_, ?_, ?_, ?_⟩, ?_⟩
      · simp
      · intro f h1 h2
        simp only at h1
        rw [hf f h1] at h2
        simp at h2
      · simp
      · simp [slice_state_t.waiting]
      · simp
    · simp only [btree_slice_t.shutdown, hst, ne_eq, not_true_eq_false, if_false,
        btree_slice_t.next_shutting_down_step, if_true]
      have hfin := slice_shutdown_finish_spec
        { s with state := .state_shutting_down_finish, shutdown_callback := false,
                 cache := s.cache.call_op .shutdown .shutdown true }
        (by simp [cache_t.call_op, hp]) rfl hf
      cases hrun : btree_slice_t.step_shutting_down_finish
        { s with state := .state_shutting_down_finish, shutdown_callback := false,
                 cache := s.cache.call_op .shutdown .shutdown true } with
      | fatal msg s1 => simp
      | ok r s1 =>
        rw [hrun] at hfin
        simp only [Outcome.sat_ok, Bool.false_eq_true, if_false] at hfin
        obtain ⟨h1, h2, h3, h4, h5⟩ := hfin
        simp [h2, h1, h3, h4, h5]
  · simp [btree_slice_t.shutdown, hst]

theorem slice_on_cache_shutdown_spec (o : cache_oracle) (s : btree_slice_t) (hs : slice_ok s)
    (hp : s.cache.pending = none) :
    (btree_slice_t.on_cache_shutdown o s).sat
      (fun r s1 => slice_ok s1 ∧ r.upcall = some .on_slice_shutdown ∧
        s1.cache.pending = none ∧ s1.destructor_ok = true)
      (fun _ => True) := by
  by_cases hst : s.state = .state_shutting_down_waiting_for_cache
  · have hsc : s.shutdown_callback = true := hs.2.2.1 hst
    have hf := slice_not_suspended s hs (by rw [hst]; simp)
    simp only [btree_slice_t.on_cache_shutdown, hst, ne_eq, not_true_eq_false, if_false,
      btree_slice_t.next_shutting_down_step, reduceCtorEq]
    refine Outcome.sat_mono
      (slice_shutdown_finish_spec { s with state := .state_shutting_down_finish } hp rfl hf)
      (fun r s1 h => ⟨h.1, ?_, h.2.2.2.1, h.2.2.2.2⟩) (fun _ h => h)
    rw [h.2.2.1]
    simp [hsc]
  · simp [btree_slice_t.on_cache_shutdown, hst]

theorem slice_ok_clear_pending (s : btree_slice_t) (hs : slice_ok s) :
    slice_ok { s with cache := { s.cache with pending := none } } :=
  ⟨hs.1, hs.2.1, hs.2.2.1, fun h => absurd rfl h⟩

theorem slice_cache_callback_startup_spec (nil : Nat) (o : cache_oracle) (op : cache_op)
    (s : btree_slice_t) (hs : slice_ok s) (hop : op ≠ .shutdown) :
    (btree_slice_t.cache_callback nil o op s).sat
      (fun r s1 => slice_ok s1 ∧
        ((r.upcall = some .on_slice_ready ∧ s1.cache.pending = none) ∨
         (r.upcall = none ∧ s1.cache.pending_startup = true)))
      (fun _ => True) := by
  have hs1 := slice_ok_clear_pending s hs
  unfold btree_slice_t.cache_callback
  cases op with
  | start => exact slice_on_cache_ready_spec nil o _ hs1 rfl
  | begin_transaction => exact slice_sb_fsm_callback_spec nil o _ hs1 rfl _ (Or.inl rfl)
  | acquire => exact slice_sb_fsm_callback_spec nil o _ hs1 rfl _ (Or.inr (Or.inl rfl))
  | commit => exact slice_sb_fsm_callback_spec nil o _ hs1 rfl _ (Or.inr (Or.inr rfl))
  | shutdown => exact absurd rfl hop

theorem slice_cache_callback_shutdown_spec (nil : Nat) (o : cache_oracle)
    (s : btree_slice_t) (hs : slice_ok s) :
    (btree_slice_t.cache_callback nil o .shutdown s).sat
      (fun r s1 => slice_ok s1 ∧ r.upcall = some .on_slice_shutdown ∧
        s1.cache.pending = none ∧ s1.destructor_ok = true)
      (fun _ => True) :=
  slice_on_cache_shutdown_spec o _ (slice_ok_clear_pending s hs) rfl

end slice_lemmas

/-! ## Theorems: store lifecycle protocols -/

@[simp] theorem phase_callback_eq (P : phase_t) (st st2 : btree_key_value_store_t)
    (h1 : st.ready_callback = st2.ready_callback)
    (h2 : st.shutdown_callback = st2.shutdown_callback) :
    P.callback st = P.callback st2 := by
  cases P <;> simp [phase_t.callback, h1, h2]

theorem executed_count_cons_plain (t : task_t) (ht : t.is_report = true) (ev : event)
    (hev : ev.is_plain = true) (tr : List event) :
    executed_count t (ev :: tr) = executed_count t tr := by
  rw [executed_count_cons]
  have : ev ≠ .executed t := by
    rintro rfl
    simp [event.is_plain, ht] at hev
  simp [this]

theorem deleted_slices_cons_plain (ev : event) (hev : ev.is_plain = true) (tr : List event) :
    deleted_slices (ev :: tr) = deleted_slices tr := by
  rw [deleted_slices_cons]
  cases ev <;> simp [event.is_plain, event.is_slice_deleted] at hev ⊢

theorem is_completion_of_plain (ev : event) (hev : ev.is_plain = true) :
    ev.is_completion = false := by
  cases ev <;> simp [event.is_plain, event.is_completion] at hev ⊢

theorem phase_report_is_report (P : phase_t) : P.report.is_report = true := by
  cases P <;> rfl

theorem phase_entered_cons_plain (cfg : cmd_config_t) (P : phase_t) (ev : event)
    (hev : ev.is_plain = true) (tr : List event) (h : P.entered cfg tr) :
    P.entered cfg (ev :: tr) := by
  cases P <;> simp only [phase_t.entered] at h ⊢
  · rw [executed_count_cons_plain .have_created_a_slice rfl ev hev]
    exact h
  · rw [executed_count_cons_plain .have_created_a_serializer rfl ev hev]
    exact h
  · rw [executed_count_cons_plain .have_shutdown_a_serializer rfl ev hev]
    exact h
  · rw [executed_count_cons_plain .have_shutdown_a_slice rfl ev hev,
      deleted_slices_cons_plain ev hev]
    exact h

theorem in_phase.log {cfg : cmd_config_t} {cb : Option Nat} {P : phase_t} {r : Nat}
    {w : world} (h : in_phase cfg cb P r w) (ev : event)
    (hok : event_ok cfg ev w.trace) (hev : ev.is_plain = true) :
    in_phase cfg cb P r (w.log ev) where
  cfg_eq := h.cfg_eq
  state_eq := h.state_eq
  cb_eq := h.cb_eq
  slices_ok := h.slices_ok
  tr_ok := ⟨hok, h.tr_ok⟩
  no_completion := by
    intro e he
    simp only [world.log_trace, List.mem_cons] at he
    rcases he with rfl | he
    · exact is_completion_of_plain _ hev
    · exact h.no_completion e he
  mo := h.mo
  pos := h.pos
  msgs := h.msgs
  reports := by
    simp only [world.log_trace, world.log_in_flight,
      executed_count_cons_plain _ (phase_report_is_report P) ev hev]
    exact h.reports
  entered := phase_entered_cons_plain cfg P ev hev _ h.entered

theorem in_phase.send {cfg : cmd_config_t} {cb : Option Nat} {P : phase_t} {r : Nat}
    {w : world} (h : in_phase cfg cb P (r + 1) w) (m : message) (hm : P.carries m = true) :
    in_phase cfg cb P r (w.send m) where
  cfg_eq := h.cfg_eq
  state_eq := h.state_eq
  cb_eq := h.cb_eq
  slices_ok := h.slices_ok
  tr_ok := h.tr_ok
  no_completion := h.no_completion
  mo := by
    have := h.mo
    simp only [world.send_store, world.send_in_flight, List.length_append, List.length_singleton]
    rw [this]
    congr 1
    omega
  pos := by
    simp only [world.send_in_flight, List.length_append, List.length_singleton]
    omega
  msgs := by
    intro m1 hm1
    simp only [world.send_in_flight, List.mem_append, List.mem_singleton] at hm1
    rcases hm1 with hm1 | rfl
    · exact h.msgs m1 hm1
    · exact hm
  reports := by
    have := h.reports
    simp only [world.send_trace, world.send_in_flight, List.length_append,
      List.length_singleton]
    omega
  entered := h.entered

theorem in_phase.set_slice {cfg : cmd_config_t} {cb : Option Nat} {P : phase_t} {r : Nat}
    {w : world} (h : in_phase cfg cb P r w) (id : Nat) (so : Option btree_slice_t)
    (hso : ∀ s, so = some s → slice_ok s) :
    in_phase cfg cb P r (w.set_slice id so) where
  cfg_eq := h.cfg_eq
  state_eq := h.state_eq
  cb_eq := by
    rw [← h.cb_eq]
    exact phase_callback_eq _ _ _ rfl rfl
  slices_ok := by
    intro id1 s1 hs1
    simp only [world.set_slice_slices, Function.update_apply] at hs1
    split at hs1
    · exact hso s1 hs1
    · exact h.slices_ok id1 s1 hs1
  tr_ok := h.tr_ok
  no_completion := h.no_completion
  mo := h.mo
  pos := h.pos
  msgs := h.msgs
  reports := h.reports
  entered := h.entered

theorem in_phase.set_serializer {cfg : cmd_config_t} {cb : Option Nat} {P : phase_t} {r : Nat}
    {w : world} (h : in_phase cfg cb P r w) (id : Nat) (so : Option serializer_t) :
    in_phase cfg cb P r (w.set_serializer id so) where
  cfg_eq := h.cfg_eq
  state_eq := h.state_eq
  cb_eq := by
    rw [← h.cb_eq]
    exact phase_callback_eq _ _ _ rfl rfl
  slices_ok := h.slices_ok
  tr_ok := h.tr_ok
  no_completion := h.no_completion
  mo := h.mo
  pos := h.pos
  msgs := h.msgs
  reports := h.reports
  entered := h.entered

theorem in_phase.take {cfg : cmd_config_t} {cb : Option Nat} {P : phase_t}
    {w : world} (h : in_phase cfg cb P 0 w) (k : Nat) (m : message)
    (hk : w.in_flight[k]? = some m) :
    in_phase cfg cb P 1 { w with in_flight := w.in_flight.eraseIdx k } ∧
      P.carries m = true := by
  have hlt : k < w.in_flight.length := by
    by_contra hge
    rw [List.getElem?_eq_none (by omega)] at hk
    simp at hk
  have hlen : (w.in_flight.eraseIdx k).length + 1 = w.in_flight.length := by
    rw [List.length_eraseIdx]
    simp [hlt]
    omega
  refine ⟨⟨h.cfg_eq, h.state_eq, h.cb_eq, h.slices_ok, h.tr_ok, h.no_completion, ?_, ?_, ?_,
    ?_, h.entered⟩, h.msgs m (List.getElem?_mem hk)⟩
  · have := h.mo
    simp only [Nat.add_zero] at this
    simp only [hlen]
    exact this
  · simp
  · intro m1 hm1
    exact h.msgs m1 ((List.eraseIdx_sublist _ _).subset hm1)
  · have := h.reports
    simp only [hlen]
    simpa using this

theorem for_ids_inv (body : Nat → world → Outcome Unit world) (Inv : Nat → world → Prop)
    (Done : world → Prop) (Q : world → Prop)
    (hbody : ∀ id r w, Inv (r + 1) w →
      (body id w).sat (fun _ w1 => Inv r w1 ∨ (r = 0 ∧ Done w1)) Q) :
    ∀ ids w, Inv ids.length w → (for_ids body ids w).sat (fun _ w1 => Inv 0 w1 ∨ Done w1) Q := by
  intro ids
  induction ids with
  | nil =>
    intro w h
    exact Or.inl h
  | cons id rest ih =>
    intro w h
    have hb := hbody id rest.length w h
    unfold for_ids
    cases hrun : body id w with
    | fatal msg w1 =>
      rw [hrun] at hb
      exact hb
    | ok u w1 =>
      rw [hrun] at hb
      simp only [Outcome.sat_ok] at hb
      rcases hb with hb | ⟨h0, hd⟩
      · exact ih w1 hb
      · have : rest = [] := List.eq_nil_of_length_eq_zero h0
        subst this
        exact Or.inr hd

/-- The method `finish_start`, entered when the last slice has reported. -/
theorem finish_start_completes (cfg : cmd_config_t) (cb : Option Nat) (w : world)
    (hcfg : w.store.cmd_config = cfg) (hst : w.store.state = .state_starting_up)
    (hcb : w.store.ready_callback = cb)
    (hsl : ∀ id s, w.store.slices id = some s → slice_ok s)
    (htr : trace_ok cfg w.trace) (hnc : ∀ ev ∈ w.trace, ev.is_completion = false)
    (hq : w.in_flight = []) (hmo : w.store.messages_out = 0)
    (hS : executed_count .have_created_a_serializer w.trace = cfg.n_serializers)
    (hL : executed_count .have_created_a_slice w.trace = cfg.n_slices) :
    (finish_start w).sat (fun _ w1 => completed cfg cb .state_ready w1)
      (fun w1 => trace_ok cfg w1.trace) := by
  unfold finish_start
  rw [if_neg (by simp [hst])]
  simp only [world.set_state_rc, hcb]
  cases cb with
  | none =>
    simp only [Outcome.sat_ok]
    exact ⟨hcfg, rfl, hcb, hsl, by simp [event_ok, hS, hL, htr], hq, hmo,
      w.trace, by simp [completion_events, hst], hnc⟩
  | some c =>
    simp only [Outcome.sat_ok]
    exact ⟨hcfg, rfl, hcb, hsl, by simp [event_ok, hS, hL, htr, hst], hq, hmo,
      w.trace, by simp [completion_events, hst], hnc⟩

theorem have_created_a_slice_inv (cfg : cmd_config_t) (cb : Option Nat) (r : Nat) (w : world)
    (h : in_phase cfg cb .creating_slices (r + 1) w) :
    (have_created_a_slice w).sat
      (fun _ w1 => in_phase cfg cb .creating_slices r w1 ∨
        (r = 0 ∧ completed cfg cb .state_ready w1))
      (fun w1 => trace_ok cfg w1.trace) := by
  have hmo := h.mo
  have hrep := h.reports
  have hent := h.entered
  simp only [phase_t.report, phase_t.total, phase_t.entered] at hrep hent
  unfold have_created_a_slice
  simp only [world.set_mo_mo, world.log_store]
  split
  · rename_i h0
    have hr : r = 0 := by omega
    have hq : w.in_flight = [] := by
      apply List.eq_nil_of_length_eq_zero
      omega
    rw [Outcome.sat_then_return]
    refine Outcome.sat_mono (finish_start_completes cfg cb _ ?_ ?_ ?_ ?_ ?_ ?_ ?_ ?_ ?_ ?_)
      (fun _ s hs => Or.inr ⟨hr, hs⟩) (fun s hs => hs)
    · simpa using h.cfg_eq
    · simpa using h.state_eq
    · simpa using h.cb_eq
    · simpa using h.slices_ok
    · simpa [event_ok] using h.tr_ok
    · intro ev hev
      simp at hev
      rcases hev with rfl | hev
      · rfl
      · exact h.no_completion ev hev
    · simpa using hq
    · simpa using h0
    · simpa using hent
    · simp
      omega
  · rename_i h0
    simp only [Outcome.sat_ok]
    left
    refine ⟨?_, ?_, ?_, ?_, ?_, ?_, ?_, ?_, ?_, ?_, ?_⟩
    · simpa using h.cfg_eq
    · simpa using h.state_eq
    · simpa using h.cb_eq
    · simpa using h.slices_ok
    · simpa [event_ok] using h.tr_ok
    · intro ev hev
      simp at hev
      rcases hev with rfl | hev
      · rfl
      · exact h.no_completion ev hev
    · simp
      omega
    · simp
      omega
    · simpa using h.msgs
    · simp [phase_t.report, phase_t.total]
      omega
    · simpa [phase_t.entered] using hent


theorem world.await_cache_none (id : Nat) (s : btree_slice_t) (w : world)
    (h : s.cache.pending = none) : w.await_cache id s = w := by
  unfold world.await_cache
  rw [h]

theorem world.await_cache_some (id : Nat) (s : btree_slice_t) (w : world) (op : cache_op)
    (h : s.cache.pending = some op) : w.await_cache id s = w.send (.cache_completion id op) := by
  unfold world.await_cache
  rw [h]

theorem pending_startup_iff (c : cache_t) (h : c.pending_startup = true) :
    ∃ op, c.pending = some op ∧ op ≠ .shutdown := by
  unfold cache_t.pending_startup at h
  cases hp : c.pending with
  | none => simp [hp] at h
  | some op =>
    refine ⟨op, rfl, ?_⟩
    rintro rfl
    simp [hp] at h

theorem slice_ok_new (a b c d : Nat) (x : Bool) (y z : Nat) (sb : btree_superblock_t) :
    slice_ok (btree_slice_t.new a b c d x y z sb) := by
  simp [slice_ok, btree_slice_t.new]

/-- A dispatch through `do_on_cpu` in a phase: the method runs on the spot, or the task
is put in flight. -/
theorem do_on_cpu_inv {cfg : cmd_config_t} {cb : Option Nat} {P : phase_t} {r : Nat}
    {w : world} (e : env_t) (t : task_t) (who : Nat) (method : world → Outcome Bool world)
    (Post : world → Prop) (Q : world → Prop)
    (h : in_phase cfg cb P (r + 1) w) (hok : event_ok cfg (.dispatched t) w.trace)
    (hcar : P.carries (.task t) = true)
    (hmeth : ∀ w1, in_phase cfg cb P (r + 1) w1 → (method w1).sat (fun _ w2 => Post w2) Q)
    (hq : ∀ w1, in_phase cfg cb P r w1 → Post w1) :
    (do_on_cpu e t who method w).sat (fun _ w2 => Post w2) Q := by
  unfold do_on_cpu
  split
  · rw [Outcome.sat_then_return]
    exact hmeth _ (h.log _ hok rfl)
  · exact hq _ ((h.log _ hok rfl).send _ hcar)

theorem on_slice_ready_inv (cfg : cmd_config_t) (cb : Option Nat) (e : env_t) (id r : Nat)
    (w : world) (h : in_phase cfg cb .creating_slices (r + 1) w) :
    (on_slice_ready e id w).sat
      (fun _ w1 => in_phase cfg cb .creating_slices r w1 ∨
        (r = 0 ∧ completed cfg cb .state_ready w1))
      (fun w1 => trace_ok cfg w1.trace) :=
  do_on_cpu_inv e _ id _ _ _ h trivial rfl
    (fun w1 h1 => have_created_a_slice_inv cfg cb r w1 h1) (fun _ h1 => Or.inl h1)

theorem create_a_slice_on_this_core_inv (K : constants) (cfg : cmd_config_t) (cb : Option Nat)
    (e : env_t) (id r : Nat) (w : world) (h : in_phase cfg cb .creating_slices (r + 1) w) :
    (create_a_slice_on_this_core K e id w).sat
      (fun _ w1 => in_phase cfg cb .creating_slices r w1 ∨
        (r = 0 ∧ completed cfg cb .state_ready w1))
      (fun w1 => trace_ok cfg w1.trace) := by
  have h0 := h.log (.executed (.create_a_slice_on_this_core id)) trivial rfl
  unfold create_a_slice_on_this_core
  simp only []
  split
  · exact h0.tr_ok
  split
  · exact h0.tr_ok
  split
  · exact h0.tr_ok
  have hsp := slice_start_spec K.NULL_BLOCK_ID (e.cache id) _
    (slice_ok_new (id % (w.log (.executed (.create_a_slice_on_this_core id))).store.cmd_config.n_serializers)
      (id / (w.log (.executed (.create_a_slice_on_this_core id))).store.cmd_config.n_serializers)
      (count_on_serializer (w.log (.executed (.create_a_slice_on_this_core id))).store.cmd_config.n_serializers
        (w.log (.executed (.create_a_slice_on_this_core id))).store.cmd_config.n_slices id)
      ((w.log (.executed (.create_a_slice_on_this_core id))).store.cmd_config.max_cache_size /
        (w.log (.executed (.create_a_slice_on_this_core id))).store.cmd_config.n_slices)
      (w.log (.executed (.create_a_slice_on_this_core id))).store.cmd_config.wait_for_flush
      (w.log (.executed (.create_a_slice_on_this_core id))).store.cmd_config.flush_timer_ms
      (w.log (.executed (.create_a_slice_on_this_core id))).store.cmd_config.flush_threshold_percent
      (e.disk_superblock id))
  split
  · exact h0.tr_ok
  · rename_i r1 s1 hrun
    rw [hrun] at hsp
    simp only [Outcome.sat_ok] at hsp
    obtain ⟨hs1, _, hcase⟩ := hsp
    have h1 := h0.set_slice id (some s1) (fun s hs => by cases hs; exact hs1)
    rcases hcase with ⟨hd, hp⟩ | ⟨hd, hp⟩
    · rw [world.await_cache_none _ _ _ hp]
      simp only [hd, if_true, Outcome.sat_then_return]
      exact on_slice_ready_inv cfg cb e id r _ h1
    · obtain ⟨op, hop, hne⟩ := pending_startup_iff _ hp
      rw [world.await_cache_some _ _ _ op hop]
      simp only [hd, Bool.false_eq_true, if_false, Outcome.sat_ok]
      left
      exact h1.send _ (by simp [phase_t.carries, hne])

theorem create_slices_inv (K : constants) (cfg : cmd_config_t) (cb : Option Nat) (e : env_t)
    (w : world) (hN : 0 < cfg.n_slices)
    (hcfg : w.store.cmd_config = cfg) (hst : w.store.state = .state_starting_up)
    (hcb : w.store.ready_callback = cb)
    (hsl : ∀ id s, w.store.slices id = some s → slice_ok s)
    (htr : trace_ok cfg w.trace) (hnc : ∀ ev ∈ w.trace, ev.is_completion = false)
    (hq : w.in_flight = [])
    (hS : executed_count .have_created_a_serializer w.trace = cfg.n_serializers)
    (hL : executed_count .have_created_a_slice w.trace = 0) :
    (create_slices K e w).sat
      (fun _ w1 => in_phase cfg cb .creating_slices 0 w1 ∨ completed cfg cb .state_ready w1)
      (fun w1 => trace_ok cfg w1.trace) := by
  unfold create_slices
  apply for_ids_inv _ (fun r w1 => in_phase cfg cb .creating_slices r w1)
    (fun w1 => completed cfg cb .state_ready w1)
  · intro id r w1 h1
    exact do_on_cpu_inv e _ id _ _ _ h1 h1.entered rfl
      (fun w2 h2 => create_a_slice_on_this_core_inv K cfg cb e id r w2 h2)
      (fun _ h2 => Or.inl h2)
  · rw [List.length_range, hcfg]
    exact ⟨hcfg, hst, hcb, hsl, htr, hnc, by simp [hq], by simp [hq]; omega,
      by simp [hq], by simp [hq, phase_t.report, phase_t.total, hL], hS⟩

theorem have_created_a_serializer_inv (K : constants) (cfg : cmd_config_t) (cb : Option Nat)
    (e : env_t) (r : Nat) (w : world) (hN : 0 < cfg.n_slices)
    (h : in_phase cfg cb .creating_serializers (r + 1) w) :
    (have_created_a_serializer K e w).sat
      (fun _ w1 => in_phase cfg cb .creating_serializers r w1 ∨ (r = 0 ∧ startup_inv cfg cb w1))
      (fun w1 => trace_ok cfg w1.trace) := by
  have hmo := h.mo
  have hrep := h.reports
  have hent := h.entered
  simp only [phase_t.report, phase_t.total, phase_t.entered] at hrep hent
  unfold have_created_a_serializer
  simp only [world.set_mo_mo, world.log_store]
  split
  · rename_i h0
    have hr : r = 0 := by omega
    have hq : w.in_flight = [] := by
      apply List.eq_nil_of_length_eq_zero
      omega
    rw [Outcome.sat_then_return]
    refine Outcome.sat_mono (create_slices_inv K cfg cb e _ hN ?_ ?_ ?_ ?_ ?_ ?_ ?_ ?_ ?_)
      (fun _ s hs => Or.inr ⟨hr, Or.inr hs⟩) (fun s hs => hs)
    · simpa using h.cfg_eq
    · simpa using h.state_eq
    · simpa using h.cb_eq
    · simpa using h.slices_ok
    · simpa [event_ok] using h.tr_ok
    · intro ev hev
      simp at hev
      rcases hev with rfl | hev
      · rfl
      · exact h.no_completion ev hev
    · simpa using hq
    · simp
      omega
    · simpa using hent
  · rename_i h0
    simp only [Outcome.sat_ok]
    left
    refine ⟨?_, ?_, ?_, ?_, ?_, ?_, ?_, ?_, ?_, ?_, ?_⟩
    · simpa using h.cfg_eq
    · simpa using h.state_eq
    · simpa using h.cb_eq
    · simpa using h.slices_ok
    · simpa [event_ok] using h.tr_ok
    · intro ev hev
      simp at hev
      rcases hev with rfl | hev
      · rfl
      · exact h.no_completion ev hev
    · simp
      omega
    · simp
      omega
    · simpa using h.msgs
    · simp [phase_t.report, phase_t.total]
      omega
    · simpa [phase_t.entered] using hent

theorem on_serializer_ready_inv (K : constants) (cfg : cmd_config_t) (cb : Option Nat)
    (e : env_t) (id r : Nat) (w : world) (hN : 0 < cfg.n_slices)
    (h : in_phase cfg cb .creating_serializers (r + 1) w) :
    (on_serializer_ready K e id w).sat
      (fun _ w1 => in_phase cfg cb .creating_serializers r w1 ∨ (r = 0 ∧ startup_inv cfg cb w1))
      (fun w1 => trace_ok cfg w1.trace) :=
  do_on_cpu_inv e _ id _ _ _ h trivial rfl
    (fun w1 h1 => have_created_a_serializer_inv K cfg cb e r w1 hN h1) (fun _ h1 => Or.inl h1)

theorem create_a_serializer_on_this_core_inv (K : constants) (cfg : cmd_config_t)
    (cb : Option Nat) (e : env_t) (id r : Nat) (w : world) (hN : 0 < cfg.n_slices)
    (h : in_phase cfg cb .creating_serializers (r + 1) w) :
    (create_a_serializer_on_this_core K e id w).sat
      (fun _ w1 => in_phase cfg cb .creating_serializers r w1 ∨ (r = 0 ∧ startup_inv cfg cb w1))
      (fun w1 => trace_ok cfg w1.trace) := by
  have h0 := h.log (.executed (.create_a_serializer_on_this_core id)) trivial rfl
  unfold create_a_serializer_on_this_core
  simp only []
  split
  · exact h0.tr_ok
  split
  · split
    · rw [Outcome.sat_then_return]
      exact on_serializer_ready_inv K cfg cb e id r _ hN
        ((h0.set_serializer id _).set_serializer id _)
    · exact Or.inl (((h0.set_serializer id _).set_serializer id _).send _ rfl)
  split
  · split
    · rw [Outcome.sat_then_return]
      exact on_serializer_ready_inv K cfg cb e id r _ hN
        ((h0.set_serializer id _).set_serializer id _)
    · exact Or.inl (((h0.set_serializer id _).set_serializer id _).send _ rfl)
  · exact h0.tr_ok

theorem create_serializers_inv (K : constants) (cfg : cmd_config_t) (cb : Option Nat) (e : env_t)
    (w : world) (hn : 0 < cfg.n_serializers) (hN : 0 < cfg.n_slices)
    (hcfg : w.store.cmd_config = cfg) (hst : w.store.state = .state_starting_up)
    (hcb : w.store.ready_callback = cb)
    (hsl : ∀ id s, w.store.slices id = some s → slice_ok s)
    (htr : trace_ok cfg w.trace) (hnc : ∀ ev ∈ w.trace, ev.is_completion = false)
    (hq : w.in_flight = [])
    (hS : executed_count .have_created_a_serializer w.trace = 0)
    (hL : executed_count .have_created_a_slice w.trace = 0) :
    (create_serializers K e w).sat (fun _ w1 => startup_inv cfg cb w1)
      (fun w1 => trace_ok cfg w1.trace) := by
  have key : ∀ w0 : world, w0.store = w.store → w0.in_flight = [] → trace_ok cfg w0.trace →
      (∀ ev ∈ w0.trace, ev.is_completion = false) →
      executed_count .have_created_a_serializer w0.trace = 0 →
      executed_count .have_created_a_slice w0.trace = 0 →
      (for_ids
        (fun id => do_on_cpu e (.create_a_serializer_on_this_core id) id
          (create_a_serializer_on_this_core K e id))
        (List.range w0.store.cmd_config.n_serializers)
        (w0.set_messages_out w0.store.cmd_config.n_serializers)).sat
        (fun _ w1 => startup_inv cfg cb w1) (fun w1 => trace_ok cfg w1.trace) := by
    intro w0 hw0 hq0 htr0 hnc0 hS0 hL0
    refine Outcome.sat_mono
      (for_ids_inv _ (fun r w1 => in_phase cfg cb .creating_serializers r w1)
        (fun w1 => startup_inv cfg cb w1) (fun w1 => trace_ok cfg w1.trace) ?_ _ _ ?_)
      (fun _ s hs => ?_) (fun s hs => hs)
    · intro id r w1 h1
      exact do_on_cpu_inv e _ id _ _ _ h1 trivial rfl
        (fun w2 h2 => create_a_serializer_on_this_core_inv K cfg cb e id r w2 hN h2)
        (fun _ h2 => Or.inl h2)
    · rw [List.length_range, hw0, hcfg]
      refine ⟨?_, ?_, ?_, ?_, htr0, hnc0, ?_, ?_, ?_, ?_, ?_⟩
      · simpa [hw0] using hcfg
      · simpa [hw0] using hst
      · simpa [hw0, phase_t.callback] using hcb
      · simpa [hw0] using hsl
      · simp [hq0]
      · simp [hq0]
        omega
      · simp [hq0]
      · simp [hq0, phase_t.report, phase_t.total, hS0]
      · simpa [phase_t.entered] using hL0
    · rcases hs with hs | hs
      · exact Or.inl hs
      · exact hs
  unfold create_serializers
  simp only []
  split
  · exact key (w.log .mkdir_data_directory) rfl hq ⟨trivial, htr⟩
      (by
        intro ev hev
        simp at hev
        rcases hev with rfl | hev
        · rfl
        · exact hnc ev hev)
      (by simpa using hS) (by simpa using hL)
  · exact key w rfl hq htr hnc hS hL

theorem in_phase.set_ready_callback {cfg : cmd_config_t} {cb : Option Nat} {P : phase_t}
    {r : Nat} {w : world} (h : in_phase cfg cb P r w) (cb1 : Option Nat)
    (hP : P = .creating_serializers ∨ P = .creating_slices) :
    in_phase cfg cb1 P r { w with store := { w.store with ready_callback := cb1 } } where
  cfg_eq := h.cfg_eq
  state_eq := h.state_eq
  cb_eq := by rcases hP with rfl | rfl <;> rfl
  slices_ok := h.slices_ok
  tr_ok := h.tr_ok
  no_completion := h.no_completion
  mo := h.mo
  pos := h.pos
  msgs := h.msgs
  reports := h.reports
  entered := h.entered

theorem in_phase_state_ne_ready {cfg : cmd_config_t} {cb : Option Nat} {P : phase_t}
    {r : Nat} {w : world} (h : in_phase cfg cb P r w) : w.store.state ≠ .state_ready := by
  rw [h.state_eq]
  cases P <;> simp [phase_t.state]

theorem in_phase_state_ne_off {cfg : cmd_config_t} {cb : Option Nat} {P : phase_t}
    {r : Nat} {w : world} (h : in_phase cfg cb P r w) : w.store.state ≠ .state_off := by
  rw [h.state_eq]
  cases P <;> simp [phase_t.state]

/-- The method `start`, called on a quiescent store in state off whose trace is empty. -/
theorem start_inv (K : constants) (cfg : cmd_config_t) (e : env_t) (cb : Nat) (w : world)
    (hn : 0 < cfg.n_serializers) (hN : 0 < cfg.n_slices)
    (hcfg : w.store.cmd_config = cfg) (hst : w.store.state = .state_off)
    (hsl : ∀ id s, w.store.slices id = some s → slice_ok s)
    (htr : w.trace = []) (hq : w.in_flight = []) :
    (start K e cb w).sat
      (fun b w1 =>
        (b = true ∧ completed cfg none .state_ready w1 ∧ w1.store.ready_callback = none) ∨
        (b = false ∧ w1.store.ready_callback = some cb ∧
          (in_phase cfg (some cb) .creating_serializers 0 w1 ∨
            in_phase cfg (some cb) .creating_slices 0 w1)))
      (fun w1 => trace_ok cfg w1.trace) := by
  unfold start
  rw [if_neg (by simp [hst])]
  simp only []
  have hcs := create_serializers_inv K cfg none e
    { w.set_state .state_starting_up with
      store := { (w.set_state .state_starting_up).store with ready_callback := none } }
    hn hN hcfg rfl rfl hsl (by simp [htr, event_ok, trace_ok])
    (by simp [htr, event.is_completion]) hq (by simp [htr]) (by simp [htr])
  split
  · rename_i msg w3 hrun
    rw [hrun] at hcs
    exact hcs
  · rename_i u w3 hrun
    rw [hrun] at hcs
    simp only [Outcome.sat_ok] at hcs
    rcases hcs with h1 | h2 | h3
    · rw [if_neg (in_phase_state_ne_ready h1)]
      exact Or.inr ⟨rfl, rfl, Or.inl (h1.set_ready_callback (some cb) (Or.inl rfl))⟩
    · rw [if_neg (in_phase_state_ne_ready h2)]
      exact Or.inr ⟨rfl, rfl, Or.inr (h2.set_ready_callback (some cb) (Or.inr rfl))⟩
    · rw [if_pos h3.state_eq]
      exact Or.inl ⟨rfl, h3, h3.cb_eq⟩

theorem cache_completion_startup_inv (K : constants) (cfg : cmd_config_t) (cb : Option Nat)
    (e : env_t) (id : Nat) (op : cache_op) (r : Nat) (w : world) (hop : op ≠ .shutdown)
    (h : in_phase cfg cb .creating_slices (r + 1) w) :
    (cache_completion K e id op w).sat
      (fun _ w1 => in_phase cfg cb .creating_slices r w1 ∨
        (r = 0 ∧ completed cfg cb .state_ready w1))
      (fun w1 => trace_ok cfg w1.trace) := by
  unfold cache_completion
  split
  · exact h.tr_ok
  · rename_i s hs
    have hsp := slice_cache_callback_startup_spec K.NULL_BLOCK_ID (e.cache id) op s
      (h.slices_ok id s hs) hop
    split
    · exact h.tr_ok
    · rename_i r1 s1 hrun
      rw [hrun] at hsp
      simp only [Outcome.sat_ok] at hsp
      obtain ⟨hs1, hcase⟩ := hsp
      have h1 := h.set_slice id (some s1) (fun s hs => by cases hs; exact hs1)
      rcases hcase with ⟨hu, hp⟩ | ⟨hu, hp⟩
      · rw [world.await_cache_none _ _ _ hp]
        simp only [hu]
        exact on_slice_ready_inv cfg cb e id r _ h1
      · obtain ⟨op1, hop1, hne⟩ := pending_startup_iff _ hp
        rw [world.await_cache_some _ _ _ op1 hop1]
        simp only [hu, Outcome.sat_ok]
        left
        exact h1.send _ (by simp [phase_t.carries, hne])

theorem deliver_startup_inv (K : constants) (cfg : cmd_config_t) (cb : Option Nat)
    (e : env_t) (k : Nat) (w : world) (hN : 0 < cfg.n_slices) (h : startup_inv cfg cb w) :
    (deliver K e k w).sat (fun _ w1 => startup_inv cfg cb w1)
      (fun w1 => trace_ok cfg w1.trace) := by
  unfold deliver
  cases hk : w.in_flight[k]? with
  | none => exact h
  | some m =>
    simp only []
    rcases h with h | h | h
    · obtain ⟨h1, hc⟩ := h.take k m hk
      cases m with
      | task t =>
        cases t <;> simp [phase_t.carries] at hc
        · simp only [run_task, Outcome.sat_then_return]
          exact Outcome.sat_mono (create_a_serializer_on_this_core_inv K cfg cb e _ 0 _ hN h1)
            (fun _ s hs => hs.elim Or.inl (fun x => x.2)) (fun _ hs => hs)
        · simp only [run_task, Outcome.sat_then_return]
          exact Outcome.sat_mono (have_created_a_serializer_inv K cfg cb e 0 _ hN h1)
            (fun _ s hs => hs.elim Or.inl (fun x => x.2)) (fun _ hs => hs)
      | serializer_ready id =>
        exact Outcome.sat_mono (on_serializer_ready_inv K cfg cb e id 0 _ hN h1)
          (fun _ s hs => hs.elim Or.inl (fun x => x.2)) (fun _ hs => hs)
      | serializer_shutdown id => simp [phase_t.carries] at hc
      | cache_completion id op => simp [phase_t.carries] at hc
    · obtain ⟨h1, hc⟩ := h.take k m hk
      cases m with
      | task t =>
        cases t <;> simp [phase_t.carries] at hc
        · simp only [run_task, Outcome.sat_then_return]
          exact Outcome.sat_mono (create_a_slice_on_this_core_inv K cfg cb e _ 0 _ h1)
            (fun _ s hs => hs.elim (fun x => Or.inr (Or.inl x)) (fun x => Or.inr (Or.inr x.2)))
            (fun _ hs => hs)
        · simp only [run_task, Outcome.sat_then_return]
          exact Outcome.sat_mono (have_created_a_slice_inv cfg cb 0 _ h1)
            (fun _ s hs => hs.elim (fun x => Or.inr (Or.inl x)) (fun x => Or.inr (Or.inr x.2)))
            (fun _ hs => hs)
      | serializer_ready id => simp [phase_t.carries] at hc
      | serializer_shutdown id => simp [phase_t.carries] at hc
      | cache_completion id op =>
        have hop : op ≠ .shutdown := by simpa [phase_t.carries] using hc
        exact Outcome.sat_mono (cache_completion_startup_inv K cfg cb e id op 0 _ hop h1)
          (fun _ s hs => hs.elim (fun x => Or.inr (Or.inl x)) (fun x => Or.inr (Or.inr x.2)))
          (fun _ hs => hs)
    · have := h.quiet
      rw [this] at hk
      simp at hk

theorem deliveries_startup_inv (K : constants) (cfg : cmd_config_t) (cb : Option Nat)
    (hN : 0 < cfg.n_slices) :
    ∀ (sched : List (env_t × Nat)) (w : world), startup_inv cfg cb w →
      (deliveries K sched w).sat (fun _ w1 => startup_inv cfg cb w1)
        (fun w1 => trace_ok cfg w1.trace) := by
  intro sched
  induction sched with
  | nil => intro w h; exact h
  | cons ek rest ih =>
    intro w h
    obtain ⟨e, k⟩ := ek
    have hd := deliver_startup_inv K cfg cb e k w hN h
    unfold deliveries
    cases hrun : deliver K e k w with
    | fatal msg w1 =>
      rw [hrun] at hd
      exact hd
    | ok u w1 =>
      rw [hrun] at hd
      exact ih w1 hd

/-- A dispatch through `do_on_cpu`, for any precondition that holds once the dispatch
is recorded. -/
theorem do_on_cpu_sat (e : env_t) (t : task_t) (who : Nat)
    (method : world → Outcome Bool world) (Pre Post Q : world → Prop) (w : world)
    (hpre : Pre (w.log (.dispatched t)))
    (hmeth : ∀ w1, Pre w1 → (method w1).sat (fun _ w2 => Post w2) Q)
    (hq : ∀ w1, Pre w1 → Post (w1.send (.task t))) :
    (do_on_cpu e t who method w).sat (fun _ w2 => Post w2) Q := by
  unfold do_on_cpu
  split
  · rw [Outcome.sat_then_return]
    exact hmeth _ hpre
  · exact hq _ hpre

theorem countP_eraseIdx {α : Type} (p : α → Bool) :
    ∀ (l : List α) (k : Nat) (m : α), l[k]? = some m →
      (l.eraseIdx k).countP p + (if p m then 1 else 0) = l.countP p := by
  intro l
  induction l with
  | nil => intro k m h; simp at h
  | cons a l ih =>
    intro k m h
    cases k with
    | zero =>
      simp only [List.getElem?_cons_zero, Option.some.injEq] at h
      subst h
      simp [List.countP_cons]
    | succ k =>
      simp only [List.getElem?_cons_succ] at h
      have := ih k m h
      simp only [List.eraseIdx_cons_succ, List.countP_cons]
      omega

/-- The method `finish_shutdown`, entered when the last serializer has reported. -/
theorem finish_shutdown_completes (cfg : cmd_config_t) (cb : Option Nat) (w : world)
    (hcfg : w.store.cmd_config = cfg) (hst : w.store.state = .state_shutting_down)
    (hcb : w.store.shutdown_callback = cb)
    (hsl : ∀ id s, w.store.slices id = some s → slice_ok s)
    (htr : trace_ok cfg w.trace) (hnc : ∀ ev ∈ w.trace, ev.is_completion = false)
    (hq : w.in_flight = []) (hmo : w.store.messages_out = 0)
    (hL : executed_count .have_shutdown_a_slice w.trace = cfg.n_slices)
    (hS : executed_count .have_shutdown_a_serializer w.trace = cfg.n_serializers) :
    (finish_shutdown w).sat (fun _ w1 => completed cfg cb .state_off w1)
      (fun w1 => trace_ok cfg w1.trace) := by
  unfold finish_shutdown
  rw [if_neg (by simp [hst])]
  simp only [world.set_state_sc, hcb]
  cases cb with
  | none =>
    simp only [Outcome.sat_ok]
    exact ⟨hcfg, rfl, hcb, hsl, by simp [event_ok, hS, hL, htr], hq, hmo,
      w.trace, by simp [completion_events, hst], hnc⟩
  | some c =>
    simp only [Outcome.sat_ok]
    exact ⟨hcfg, rfl, hcb, hsl, by simp [event_ok, hS, hL, htr, hst], hq, hmo,
      w.trace, by simp [completion_events, hst], hnc⟩

theorem have_shutdown_a_serializer_inv (cfg : cmd_config_t) (cb : Option Nat) (r : Nat)
    (w : world) (h : in_phase cfg cb .shutting_down_serializers (r + 1) w) :
    (have_shutdown_a_serializer w).sat
      (fun _ w1 => in_phase cfg cb .shutting_down_serializers r w1 ∨
        (r = 0 ∧ completed cfg cb .state_off w1))
      (fun w1 => trace_ok cfg w1.trace) := by
  have hmo := h.mo
  have hrep := h.reports
  have hent := h.entered
  simp only [phase_t.report, phase_t.total, phase_t.entered] at hrep hent
  unfold have_shutdown_a_serializer
  simp only [world.set_mo_mo, world.log_store]
  split
  · rename_i h0
    have hr : r = 0 := by omega
    have hq : w.in_flight = [] := by
      apply List.eq_nil_of_length_eq_zero
      omega
    rw [Outcome.sat_then_return]
    refine Outcome.sat_mono (finish_shutdown_completes cfg cb _ ?_ ?_ ?_ ?_ ?_ ?_ ?_ ?_ ?_ ?_)
      (fun _ s hs => Or.inr ⟨hr, hs⟩) (fun s hs => hs)
    · simpa using h.cfg_eq
    · simpa using h.state_eq
    · simpa using h.cb_eq
    · simpa using h.slices_ok
    · simpa [event_ok] using h.tr_ok
    · intro ev hev
      simp at hev
      rcases hev with rfl | hev
      · rfl
      · exact h.no_completion ev hev
    · simpa using hq
    · simpa using h0
    · simpa using hent.1
    · simp
      omega
  · rename_i h0
    simp only [Outcome.sat_ok]
    left
    refine ⟨?_, ?_, ?_, ?_, ?_, ?_, ?_, ?_, ?_, ?_, ?_⟩
    · simpa using h.cfg_eq
    · simpa using h.state_eq
    · simpa using h.cb_eq
    · simpa using h.slices_ok
    · simpa [event_ok] using h.tr_ok
    · intro ev hev
      simp at hev
      rcases hev with rfl | hev
      · rfl
      · exact h.no_completion ev hev
    · simp
      omega
    · simp
      omega
    · simpa using h.msgs
    · simp [phase_t.report, phase_t.total]
      omega
    · simpa [phase_t.entered, event.is_slice_deleted] using hent

theorem on_serializer_shutdown_inv (cfg : cmd_config_t) (cb : Option Nat)
    (e : env_t) (id r : Nat) (w : world)
    (h : in_phase cfg cb .shutting_down_serializers (r + 1) w) :
    (on_serializer_shutdown e id w).sat
      (fun _ w1 => in_phase cfg cb .shutting_down_serializers r w1 ∨
        (r = 0 ∧ completed cfg cb .state_off w1))
      (fun w1 => trace_ok cfg w1.trace) :=
  do_on_cpu_inv e _ id _ _ _ ((h.set_serializer id none).log (.serializer_deleted id) trivial rfl)
    trivial rfl
    (fun w1 h1 => have_shutdown_a_serializer_inv cfg cb r w1 h1) (fun _ h1 => Or.inl h1)

theorem shutdown_a_serializer_inv (cfg : cmd_config_t) (cb : Option Nat)
    (e : env_t) (id r : Nat) (w : world)
    (h : in_phase cfg cb .shutting_down_serializers (r + 1) w) :
    (shutdown_a_serializer e id w).sat
      (fun _ w1 => in_phase cfg cb .shutting_down_serializers r w1 ∨
        (r = 0 ∧ completed cfg cb .state_off w1))
      (fun w1 => trace_ok cfg w1.trace) := by
  have h0 := h.log (.executed (.shutdown_a_serializer id)) trivial rfl
  unfold shutdown_a_serializer
  simp only []
  split
  · exact h0.tr_ok
  · split
    · rw [Outcome.sat_then_return]
      exact on_serializer_shutdown_inv cfg cb e id r _ (h0.set_serializer id _)
    · exact Or.inl ((h0.set_serializer id _).send _ rfl)

theorem shutdown_serializers_inv (cfg : cmd_config_t) (cb : Option Nat) (e : env_t)
    (w : world) (hn : 0 < cfg.n_serializers)
    (hcfg : w.store.cmd_config = cfg) (hst : w.store.state = .state_shutting_down)
    (hcb : w.store.shutdown_callback = cb)
    (hsl : ∀ id s, w.store.slices id = some s → slice_ok s)
    (htr : trace_ok cfg w.trace) (hnc : ∀ ev ∈ w.trace, ev.is_completion = false)
    (hq : w.in_flight = [])
    (hL : executed_count .have_shutdown_a_slice w.trace = cfg.n_slices)
    (hD : deleted_slices w.trace = cfg.n_slices)
    (hS : executed_count .have_shutdown_a_serializer w.trace = 0) :
    (shutdown_serializers e w).sat
      (fun _ w1 => in_phase cfg cb .shutting_down_serializers 0 w1 ∨
        completed cfg cb .state_off w1)
      (fun w1 => trace_ok cfg w1.trace) := by
  unfold shutdown_serializers
  apply for_ids_inv _ (fun r w1 => in_phase cfg cb .shutting_down_serializers r w1)
    (fun w1 => completed cfg cb .state_off w1)
  · intro id r w1 h1
    split
    · exact h1.tr_ok
    · exact do_on_cpu_inv e _ id _ _ _ h1 h1.entered rfl
        (fun w2 h2 => shutdown_a_serializer_inv cfg cb e id r w2 h2)
        (fun _ h2 => Or.inl h2)
  · rw [List.length_range, hcfg]
    exact ⟨hcfg, hst, hcb, hsl, htr, hnc, by simp [hq], by simp [hq]; omega,
      by simp [hq], by simp [hq, phase_t.report, phase_t.total, hS], ⟨hL, hD⟩⟩

theorem in_phase.log_slice_deleted {cfg : cmd_config_t} {cb : Option Nat} {r : Nat}
    {w : world} (h : in_phase cfg cb .shutting_down_slices r w) (id : Nat) :
    in_phase cfg cb .shutting_down_slices r (w.log (.slice_deleted id)) where
  cfg_eq := h.cfg_eq
  state_eq := h.state_eq
  cb_eq := h.cb_eq
  slices_ok := h.slices_ok
  tr_ok := ⟨trivial, h.tr_ok⟩
  no_completion := by
    intro e he
    simp only [world.log_trace, List.mem_cons] at he
    rcases he with rfl | he
    · rfl
    · exact h.no_completion e he
  mo := h.mo
  pos := h.pos
  msgs := h.msgs
  reports := by
    have := h.reports
    simpa [phase_t.report] using this
  entered := by
    have := h.entered
    simpa [phase_t.entered] using this

theorem slices_to_delete.log_plain {cfg : cmd_config_t} {r : Nat} {w : world}
    (h : slices_to_delete cfg r w) (ev : event) (hev : ev.is_plain = true) :
    slices_to_delete cfg r (w.log ev) := by
  unfold slices_to_delete at h ⊢
  rw [world.log_trace, deleted_slices_cons_plain ev hev]
  exact h

theorem slices_to_delete.slice_deleted_logged {cfg : cmd_config_t} {r : Nat} {w : world}
    (h : slices_to_delete cfg (r + 1) w) (id : Nat) :
    slices_to_delete cfg r (w.log (.slice_deleted id)) := by
  unfold slices_to_delete at h ⊢
  simp only [world.log_trace, deleted_slices_cons, event.is_slice_deleted, if_true,
    world.log_in_flight]
  omega

theorem slices_to_delete.send_holding {cfg : cmd_config_t} {r : Nat} {w : world}
    (h : slices_to_delete cfg (r + 1) w) (m : message) (hm : m.holds_slice = true) :
    slices_to_delete cfg r (w.send m) := by
  unfold slices_to_delete at h ⊢
  simp only [world.send_trace, world.send_in_flight, List.countP_append, List.countP_cons,
    List.countP_nil, hm, if_true]
  omega

theorem slices_to_delete.send_other {cfg : cmd_config_t} {r : Nat} {w : world}
    (h : slices_to_delete cfg r w) (m : message) (hm : m.holds_slice = false) :
    slices_to_delete cfg r (w.send m) := by
  unfold slices_to_delete at h ⊢
  simp only [world.send_trace, world.send_in_flight, List.countP_append, List.countP_cons,
    List.countP_nil, hm]
  simpa using h

theorem slices_to_delete.slice_assigned {cfg : cmd_config_t} {r : Nat} {w : world}
    (h : slices_to_delete cfg r w) (id : Nat) (so : Option btree_slice_t) :
    slices_to_delete cfg r (w.set_slice id so) := h

theorem slices_to_delete.message_taken {cfg : cmd_config_t} {w : world}
    (h : slices_to_delete cfg 0 w) (k : Nat) (m : message) (hk : w.in_flight[k]? = some m) :
    slices_to_delete cfg (if m.holds_slice then 1 else 0)
      { w with in_flight := w.in_flight.eraseIdx k } := by
  unfold slices_to_delete at h ⊢
  have := countP_eraseIdx message.holds_slice w.in_flight k m hk
  simp only
  omega

theorem have_shutdown_a_slice_inv (cfg : cmd_config_t) (cb : Option Nat) (e : env_t) (r : Nat)
    (w : world) (hn : 0 < cfg.n_serializers)
    (h : in_phase cfg cb .shutting_down_slices (r + 1) w) (hd : slices_to_delete cfg r w) :
    (have_shutdown_a_slice e w).sat
      (fun _ w1 => (in_phase cfg cb .shutting_down_slices r w1 ∧ slices_to_delete cfg r w1) ∨
        (r = 0 ∧ shutdown_inv cfg cb w1))
      (fun w1 => trace_ok cfg w1.trace) := by
  have hmo := h.mo
  have hrep := h.reports
  have hent := h.entered
  simp only [phase_t.report, phase_t.total, phase_t.entered] at hrep hent
  unfold have_shutdown_a_slice
  simp only [world.set_mo_mo, world.log_store]
  split
  · rename_i h0
    have hr : r = 0 := by omega
    have hq : w.in_flight = [] := by
      apply List.eq_nil_of_length_eq_zero
      omega
    have hD : deleted_slices w.trace = cfg.n_slices := by
      unfold slices_to_delete at hd
      rw [hq, hr] at hd
      simpa using hd
    rw [Outcome.sat_then_return]
    refine Outcome.sat_mono (shutdown_serializers_inv cfg cb e _ hn ?_ ?_ ?_ ?_ ?_ ?_ ?_ ?_ ?_ ?_)
      (fun _ s hs => Or.inr ⟨hr, Or.inr hs⟩) (fun s hs => hs)
    · simpa using h.cfg_eq
    · simpa using h.state_eq
    · simpa using h.cb_eq
    · simpa using h.slices_ok
    · simpa [event_ok] using h.tr_ok
    · intro ev hev
      simp at hev
      rcases hev with rfl | hev
      · rfl
      · exact h.no_completion ev hev
    · simpa using hq
    · simp
      omega
    · simpa [event.is_slice_deleted] using hD
    · simpa using hent
  · rename_i h0
    simp only [Outcome.sat_ok]
    left
    refine ⟨⟨?_, ?_, ?_, ?_, ?_, ?_, ?_, ?_, ?_, ?_, ?_⟩, ?_⟩
    · simpa using h.cfg_eq
    · simpa using h.state_eq
    · simpa using h.cb_eq
    · simpa using h.slices_ok
    · simpa [event_ok] using h.tr_ok
    · intro ev hev
      simp at hev
      rcases hev with rfl | hev
      · rfl
      · exact h.no_completion ev hev
    · simp
      omega
    · simp
      omega
    · simpa using h.msgs
    · simp [phase_t.report, phase_t.total]
      omega
    · simpa [phase_t.entered] using hent
    · unfold slices_to_delete at hd ⊢
      simpa [event.is_slice_deleted] using hd

theorem on_slice_shutdown_inv (cfg : cmd_config_t) (cb : Option Nat) (e : env_t) (id r : Nat)
    (w : world) (hn : 0 < cfg.n_serializers)
    (h : in_phase cfg cb .shutting_down_slices (r + 1) w)
    (hd : slices_to_delete cfg (r + 1) w) :
    (on_slice_shutdown e id w).sat
      (fun _ w1 => (in_phase cfg cb .shutting_down_slices r w1 ∧ slices_to_delete cfg r w1) ∨
        (r = 0 ∧ shutdown_inv cfg cb w1))
      (fun w1 => trace_ok cfg w1.trace) := by
  unfold on_slice_shutdown
  split
  · exact h.tr_ok
  · split
    · refine do_on_cpu_sat e _ id _
        (fun w1 => in_phase cfg cb .shutting_down_slices (r + 1) w1 ∧ slices_to_delete cfg r w1)
        _ _ _ ?_ ?_ ?_
      · exact ⟨((h.set_slice id none (by simp)).log_slice_deleted id).log _ trivial rfl,
          ((hd.slice_assigned id none).slice_deleted_logged id).log_plain _ rfl⟩
      · intro w1 h1
        exact have_shutdown_a_slice_inv cfg cb e r w1 hn h1.1 h1.2
      · intro w1 h1
        exact Or.inl ⟨h1.1.send _ rfl, h1.2.send_other _ rfl⟩
    · exact h.tr_ok

theorem shutdown_a_slice_inv (cfg : cmd_config_t) (cb : Option Nat) (e : env_t) (id r : Nat)
    (w : world) (hn : 0 < cfg.n_serializers)
    (h : in_phase cfg cb .shutting_down_slices (r + 1) w)
    (hd : slices_to_delete cfg (r + 1) w) :
    (shutdown_a_slice e id w).sat
      (fun _ w1 => (in_phase cfg cb .shutting_down_slices r w1 ∧ slices_to_delete cfg r w1) ∨
        (r = 0 ∧ shutdown_inv cfg cb w1))
      (fun w1 => trace_ok cfg w1.trace) := by
  have h0 := h.log (.executed (.shutdown_a_slice id)) trivial rfl
  have hd0 := hd.log_plain (.executed (.shutdown_a_slice id)) rfl
  unfold shutdown_a_slice
  simp only []
  split
  · exact h0.tr_ok
  · rename_i s hs
    have hsp := slice_shutdown_spec (e.cache id) s (h0.slices_ok id s hs)
    split
    · exact h0.tr_ok
    · rename_i r1 s1 hrun
      rw [hrun] at hsp
      simp only [Outcome.sat_ok] at hsp
      obtain ⟨hs1, _, hcase⟩ := hsp
      have h1 := h0.set_slice id (some s1) (fun s hs => by cases hs; exact hs1)
      have hd1 := hd0.slice_assigned id (some s1)
      rcases hcase with ⟨hdone, hp, _⟩ | ⟨hdone, hp⟩
      · rw [world.await_cache_none _ _ _ hp]
        simp only [hdone, if_true, Outcome.sat_then_return]
        exact on_slice_shutdown_inv cfg cb e id r _ hn h1 hd1
      · rw [world.await_cache_some _ _ _ _ hp]
        simp only [hdone, Bool.false_eq_true, if_false, Outcome.sat_ok]
        left
        exact ⟨h1.send _ rfl, hd1.send_holding _ rfl⟩

theorem cache_completion_shutdown_inv (K : constants) (cfg : cmd_config_t) (cb : Option Nat)
    (e : env_t) (id r : Nat) (w : world) (hn : 0 < cfg.n_serializers)
    (h : in_phase cfg cb .shutting_down_slices (r + 1) w)
    (hd : slices_to_delete cfg (r + 1) w) :
    (cache_completion K e id .shutdown w).sat
      (fun _ w1 => (in_phase cfg cb .shutting_down_slices r w1 ∧ slices_to_delete cfg r w1) ∨
        (r = 0 ∧ shutdown_inv cfg cb w1))
      (fun w1 => trace_ok cfg w1.trace) := by
  unfold cache_completion
  split
  · exact h.tr_ok
  · rename_i s hs
    have hsp := slice_cache_callback_shutdown_spec K.NULL_BLOCK_ID (e.cache id) s
      (h.slices_ok id s hs)
    split
    · exact h.tr_ok
    · rename_i r1 s1 hrun
      rw [hrun] at hsp
      simp only [Outcome.sat_ok] at hsp
      obtain ⟨hs1, hu, hp, _⟩ := hsp
      have h1 := h.set_slice id (some s1) (fun s hs => by cases hs; exact hs1)
      have hd1 := hd.slice_assigned id (some s1)
      rw [world.await_cache_none _ _ _ hp]
      simp only [hu]
      exact on_slice_shutdown_inv cfg cb e id r _ hn h1 hd1

theorem shutdown_slices_inv (cfg : cmd_config_t) (cb : Option Nat) (e : env_t)
    (w : world) (hn : 0 < cfg.n_serializers) (hN : 0 < cfg.n_slices)
    (hcfg : w.store.cmd_config = cfg) (hst : w.store.state = .state_shutting_down)
    (hcb : w.store.shutdown_callback = cb)
    (hsl : ∀ id s, w.store.slices id = some s → slice_ok s)
    (htr : trace_ok cfg w.trace) (hnc : ∀ ev ∈ w.trace, ev.is_completion = false)
    (hq : w.in_flight = [])
    (hL : executed_count .have_shutdown_a_slice w.trace = 0)
    (hD : deleted_slices w.trace = 0)
    (hS : executed_count .have_shutdown_a_serializer w.trace = 0) :
    (shutdown_slices e w).sat (fun _ w1 => shutdown_inv cfg cb w1)
      (fun w1 => trace_ok cfg w1.trace) := by
  unfold shutdown_slices
  refine Outcome.sat_mono
    (for_ids_inv _
      (fun r w1 => in_phase cfg cb .shutting_down_slices r w1 ∧ slices_to_delete cfg r w1)
      (fun w1 => shutdown_inv cfg cb w1) (fun w1 => trace_ok cfg w1.trace) ?_ _ _ ?_)
    (fun _ s hs => ?_) (fun s hs => hs)
  · intro id r w1 h1
    split
    · exact h1.1.tr_ok
    · refine do_on_cpu_sat e _ id _
        (fun w2 => in_phase cfg cb .shutting_down_slices (r + 1) w2 ∧
          slices_to_delete cfg (r + 1) w2) _ _ _ ?_ ?_ ?_
      · exact ⟨h1.1.log _ trivial rfl, h1.2.log_plain _ rfl⟩
      · intro w2 h2
        exact shutdown_a_slice_inv cfg cb e id r w2 hn h2.1 h2.2
      · intro w2 h2
        exact Or.inl ⟨h2.1.send _ rfl, h2.2.send_holding _ rfl⟩
  · rw [List.length_range, hcfg]
    refine ⟨⟨hcfg, hst, hcb, hsl, htr, hnc, by simp [hq], by simp [hq]; omega,
      by simp [hq], by simp [hq, phase_t.report, phase_t.total, hL], hS⟩, ?_⟩
    unfold slices_to_delete
    simp [hq, hD]
  · rcases hs with hs | hs
    · exact Or.inl hs
    · exact hs

theorem in_phase.set_shutdown_callback {cfg : cmd_config_t} {cb : Option Nat} {P : phase_t}
    {r : Nat} {w : world} (h : in_phase cfg cb P r w) (cb1 : Option Nat)
    (hP : P = .shutting_down_slices ∨ P = .shutting_down_serializers) :
    in_phase cfg cb1 P r { w with store := { w.store with shutdown_callback := cb1 } } where
  cfg_eq := h.cfg_eq
  state_eq := h.state_eq
  cb_eq := by rcases hP with rfl | rfl <;> rfl
  slices_ok := h.slices_ok
  tr_ok := h.tr_ok
  no_completion := h.no_completion
  mo := h.mo
  pos := h.pos
  msgs := h.msgs
  reports := h.reports
  entered := h.entered

/-- The method `shutdown`, called on a quiescent store in state ready whose trace is
empty. -/
theorem shutdown_method_inv (cfg : cmd_config_t) (e : env_t) (cb : Nat) (w : world)
    (hn : 0 < cfg.n_serializers) (hN : 0 < cfg.n_slices)
    (hcfg : w.store.cmd_config = cfg) (hst : w.store.state = .state_ready)
    (hsl : ∀ id s, w.store.slices id = some s → slice_ok s)
    (htr : w.trace = []) (hq : w.in_flight = []) :
    (shutdown e cb w).sat
      (fun b w1 =>
        (b = true ∧ completed cfg none .state_off w1 ∧ w1.store.shutdown_callback = none) ∨
        (b = false ∧ w1.store.shutdown_callback = some cb ∧
          ((in_phase cfg (some cb) .shutting_down_slices 0 w1 ∧ slices_to_delete cfg 0 w1) ∨
            in_phase cfg (some cb) .shutting_down_serializers 0 w1)))
      (fun w1 => trace_ok cfg w1.trace) := by
  unfold shutdown
  rw [if_neg (by simp [hst])]
  simp only []
  have hcs := shutdown_slices_inv cfg none e
    { w.set_state .state_shutting_down with
      store := { (w.set_state .state_shutting_down).store with shutdown_callback := none } }
    hn hN hcfg rfl rfl hsl (by simp [htr, event_ok, trace_ok])
    (by simp [htr, event.is_completion]) hq (by simp [htr])
    (by simp [htr, deleted_slices, event.is_slice_deleted]) (by simp [htr])
  split
  · rename_i msg w3 hrun
    rw [hrun] at hcs
    exact hcs
  · rename_i u w3 hrun
    rw [hrun] at hcs
    simp only [Outcome.sat_ok] at hcs
    rcases hcs with h1 | h2 | h3
    · rw [if_neg (in_phase_state_ne_off h1.1)]
      exact Or.inr ⟨rfl, rfl, Or.inl ⟨h1.1.set_shutdown_callback (some cb) (Or.inl rfl), h1.2⟩⟩
    · rw [if_neg (in_phase_state_ne_off h2)]
      exact Or.inr ⟨rfl, rfl, Or.inr (h2.set_shutdown_callback (some cb) (Or.inr rfl))⟩
    · rw [if_pos h3.state_eq]
      exact Or.inl ⟨rfl, h3, h3.cb_eq⟩

theorem deliver_shutdown_inv (K : constants) (cfg : cmd_config_t) (cb : Option Nat)
    (e : env_t) (k : Nat) (w : world) (hn : 0 < cfg.n_serializers)
    (h : shutdown_inv cfg cb w) :
    (deliver K e k w).sat (fun _ w1 => shutdown_inv cfg cb w1)
      (fun w1 => trace_ok cfg w1.trace) := by
  unfold deliver
  cases hk : w.in_flight[k]? with
  | none => exact h
  | some m =>
    simp only []
    rcases h with h | h | h
    · obtain ⟨h1, hc⟩ := h.1.take k m hk
      have hd1 := h.2.message_taken k m hk
      cases m with
      | task t =>
        cases t <;> simp [phase_t.carries] at hc
        · simp only [run_task, Outcome.sat_then_return]
          exact Outcome.sat_mono (shutdown_a_slice_inv cfg cb e _ 0 _ hn h1 hd1)
            (fun _ s hs => hs.elim Or.inl (fun x => x.2)) (fun _ hs => hs)
        · simp only [run_task, Outcome.sat_then_return]
          exact Outcome.sat_mono (have_shutdown_a_slice_inv cfg cb e 0 _ hn h1 hd1)
            (fun _ s hs => hs.elim Or.inl (fun x => x.2)) (fun _ hs => hs)
      | serializer_ready id => simp [phase_t.carries] at hc
      | serializer_shutdown id => simp [phase_t.carries] at hc
      | cache_completion id op =>
        cases op <;> simp [phase_t.carries] at hc
        exact Outcome.sat_mono (cache_completion_shutdown_inv K cfg cb e id 0 _ hn h1 hd1)
          (fun _ s hs => hs.elim Or.inl (fun x => x.2)) (fun _ hs => hs)
    · obtain ⟨h1, hc⟩ := h.take k m hk
      cases m with
      | task t =>
        cases t <;> simp [phase_t.carries] at hc
        · simp only [run_task, Outcome.sat_then_return]
          exact Outcome.sat_mono (shutdown_a_serializer_inv cfg cb e _ 0 _ h1)
            (fun _ s hs => hs.elim (fun x => Or.inr (Or.inl x)) (fun x => Or.inr (Or.inr x.2)))
            (fun _ hs => hs)
        · simp only [run_task, Outcome.sat_then_return]
          exact Outcome.sat_mono (have_shutdown_a_serializer_inv cfg cb 0 _ h1)
            (fun _ s hs => hs.elim (fun x => Or.inr (Or.inl x)) (fun x => Or.inr (Or.inr x.2)))
            (fun _ hs => hs)
      | serializer_ready id => simp [phase_t.carries] at hc
      | serializer_shutdown id =>
        exact Outcome.sat_mono (on_serializer_shutdown_inv cfg cb e id 0 _ h1)
          (fun _ s hs => hs.elim (fun x => Or.inr (Or.inl x)) (fun x => Or.inr (Or.inr x.2)))
          (fun _ hs => hs)
      | cache_completion id op => simp [phase_t.carries] at hc
    · have := h.quiet
      rw [this] at hk
      simp at hk

theorem deliveries_shutdown_inv (K : constants) (cfg : cmd_config_t) (cb : Option Nat)
    (hn : 0 < cfg.n_serializers) :
    ∀ (sched : List (env_t × Nat)) (w : world), shutdown_inv cfg cb w →
      (deliveries K sched w).sat (fun _ w1 => shutdown_inv cfg cb w1)
        (fun w1 => trace_ok cfg w1.trace) := by
  intro sched
  induction sched with
  | nil => intro w h; exact h
  | cons ek rest ih =>
    intro w h
    obtain ⟨e, k⟩ := ek
    have hd := deliver_shutdown_inv K cfg cb e k w hn h
    unfold deliveries
    cases hrun : deliver K e k w with
    | fatal msg w1 =>
      rw [hrun] at hd
      exact hd
    | ok u w1 =>
      rw [hrun] at hd
      exact ih w1 hd

/-! ## Theorems: the store state machine -/

theorem history_ok.same {s0 : store_state_t} {w : world} (h : history_ok s0 w) (w1 : world)
    (ht : w1.trace = w.trace) (hs : w1.store.state = w.store.state) : history_ok s0 w1 := by
  unfold history_ok at h ⊢
  rw [ht, hs]
  exact h

theorem history_ok.event_logged {s0 : store_state_t} {w : world} (h : history_ok s0 w) (ev : event)
    (hev : ∀ a b, ev ≠ .state_changed a b) : history_ok s0 (w.log ev) := by
  unfold history_ok at h ⊢
  cases ev with
  | state_changed a b => exact absurd rfl (hev a b)
  | _ => exact h

theorem history_ok.set_state {s0 : store_state_t} {w : world} (h : history_ok s0 w)
    (st : store_state_t) (hst : st = w.store.state.next) :
    history_ok s0 (w.set_state st) := by
  unfold history_ok at h ⊢
  subst hst
  simp [world.set_state, state_path, h]

theorem state_path_steps (s0 : store_state_t) :
    ∀ (tr : List event) (s : store_state_t), state_path s0 tr = some s →
      ∀ a b, event.state_changed a b ∈ tr → b = a.next := by
  intro tr
  induction tr with
  | nil => intro s _ a b hm; cases hm
  | cons ev rest ih =>
    intro s h a b hm
    cases ev with
    | state_changed a1 b1 =>
      simp only [state_path] at h
      split at h
      · rename_i hc
        simp only [List.mem_cons, event.state_changed.injEq] at hm
        rcases hm with ⟨rfl, rfl⟩ | hm
        · exact hc.2
        · exact ih a1 hc.1 a b hm
      · cases h
    | mkdir_data_directory =>
      simp only [List.mem_cons] at hm
      rcases hm with hm | hm
      · cases hm
      · exact ih s h a b hm
    | dispatched t =>
      simp only [List.mem_cons] at hm
      rcases hm with hm | hm
      · cases hm
      · exact ih s h a b hm
    | executed t =>
      simp only [List.mem_cons] at hm
      rcases hm with hm | hm
      · cases hm
      · exact ih s h a b hm
    | on_store_ready c =>
      simp only [List.mem_cons] at hm
      rcases hm with hm | hm
      · cases hm
      · exact ih s h a b hm
    | on_store_shutdown c =>
      simp only [List.mem_cons] at hm
      rcases hm with hm | hm
      · cases hm
      · exact ih s h a b hm
    | slice_deleted c =>
      simp only [List.mem_cons] at hm
      rcases hm with hm | hm
      · cases hm
      · exact ih s h a b hm
    | serializer_deleted c =>
      simp only [List.mem_cons] at hm
      rcases hm with hm | hm
      · cases hm
      · exact ih s h a b hm

theorem do_on_cpu_history (s0 : store_state_t) (e : env_t) (t : task_t) (who : Nat)
    (method : world → Outcome Bool world)
    (hm : ∀ w, history_ok s0 w → history_ok s0 (method w).state)
    (w : world) (h : history_ok s0 w) :
    history_ok s0 (do_on_cpu e t who method w).state := by
  have h1 : history_ok s0 (w.log (.dispatched t)) := h.event_logged _ (by simp)
  unfold do_on_cpu
  split
  · rw [Outcome.state_then_return]
    exact hm _ h1
  · exact h1

theorem for_ids_history (s0 : store_state_t) (body : Nat → world → Outcome Unit world)
    (hb : ∀ id w, history_ok s0 w → history_ok s0 (body id w).state) :
    ∀ ids w, history_ok s0 w → history_ok s0 (for_ids body ids w).state := by
  intro ids
  induction ids with
  | nil => intro w h; exact h
  | cons id rest ih =>
    intro w h
    have h1 := hb id w h
    unfold for_ids
    cases hrun : body id w with
    | fatal msg w1 =>
      rw [hrun] at h1
      exact h1
    | ok u w1 =>
      rw [hrun] at h1
      exact ih w1 h1

theorem finish_start_history (s0 : store_state_t) (w : world) (h : history_ok s0 w) :
    history_ok s0 (finish_start w).state := by
  unfold finish_start
  split
  · exact h
  · rename_i hst
    have hst1 : w.store.state = .state_starting_up := by simpa using hst
    have h1 : history_ok s0 (w.set_state .state_ready) := by
      exact h.set_state _ (by rw [hst1]; rfl)
    simp only []
    split
    · exact h1.event_logged _ (by simp)
    · exact h1

theorem have_created_a_slice_history (s0 : store_state_t) (w : world)
    (h : history_ok s0 w) : history_ok s0 (have_created_a_slice w).state := by
  have h1 : history_ok s0 (w.log (.executed .have_created_a_slice)) :=
    h.event_logged _ (by simp)
  unfold have_created_a_slice
  simp only []
  split
  · rw [Outcome.state_then_return]
    exact finish_start_history s0 _ h1
  · exact h1

theorem on_slice_ready_history (s0 : store_state_t) (e : env_t) (id : Nat) (w : world)
    (h : history_ok s0 w) : history_ok s0 (on_slice_ready e id w).state :=
  do_on_cpu_history s0 e _ id _ (have_created_a_slice_history s0) w h

theorem create_a_slice_on_this_core_history (s0 : store_state_t) (K : constants) (e : env_t)
    (id : Nat) (w : world) (h : history_ok s0 w) :
    history_ok s0 (create_a_slice_on_this_core K e id w).state := by
  have h1 : history_ok s0 (w.log (.executed (.create_a_slice_on_this_core id))) :=
    h.event_logged _ (by simp)
  unfold create_a_slice_on_this_core
  simp only []
  split
  · exact h1
  split
  · exact h1
  split
  · exact h1
  split
  · exact h1
  · split
    · rw [Outcome.state_then_return]
      exact on_slice_ready_history s0 e id _ (h1.same _ (by simp) (by simp))
    · exact h1.same _ (by simp) (by simp)

theorem create_slices_history (s0 : store_state_t) (K : constants) (e : env_t) (w : world)
    (h : history_ok s0 w) : history_ok s0 (create_slices K e w).state :=
  for_ids_history s0 _
    (fun id w1 h1 => do_on_cpu_history s0 e _ id _
      (create_a_slice_on_this_core_history s0 K e id) w1 h1) _ _ h

theorem have_created_a_serializer_history (s0 : store_state_t) (K : constants) (e : env_t)
    (w : world) (h : history_ok s0 w) :
    history_ok s0 (have_created_a_serializer K e w).state := by
  have h1 : history_ok s0 (w.log (.executed .have_created_a_serializer)) :=
    h.event_logged _ (by simp)
  unfold have_created_a_serializer
  simp only []
  split
  · rw [Outcome.state_then_return]
    exact create_slices_history s0 K e _ h1
  · exact h1

theorem on_serializer_ready_history (s0 : store_state_t) (K : constants) (e : env_t) (id : Nat)
    (w : world) (h : history_ok s0 w) :
    history_ok s0 (on_serializer_ready K e id w).state :=
  do_on_cpu_history s0 e _ id _ (have_created_a_serializer_history s0 K e) w h

theorem create_a_serializer_on_this_core_history (s0 : store_state_t) (K : constants)
    (e : env_t) (id : Nat) (w : world) (h : history_ok s0 w) :
    history_ok s0 (create_a_serializer_on_this_core K e id w).state := by
  have h1 : history_ok s0 (w.log (.executed (.create_a_serializer_on_this_core id))) :=
    h.event_logged _ (by simp)
  unfold create_a_serializer_on_this_core
  simp only []
  split
  · exact h1
  split
  · split
    · rw [Outcome.state_then_return]
      exact on_serializer_ready_history s0 K e id _ h1
    · exact h1
  split
  · split
    · rw [Outcome.state_then_return]
      exact on_serializer_ready_history s0 K e id _ h1
    · exact h1
  · exact h1

theorem create_serializers_history (s0 : store_state_t) (K : constants) (e : env_t) (w : world)
    (h : history_ok s0 w) : history_ok s0 (create_serializers K e w).state := by
  unfold create_serializers
  simp only []
  apply for_ids_history s0 _
    (fun id w1 h1 => do_on_cpu_history s0 e _ id _
      (create_a_serializer_on_this_core_history s0 K e id) w1 h1)
  split
  · exact h.event_logged _ (by simp)
  · exact h

theorem start_history (s0 : store_state_t) (K : constants) (e : env_t) (cb : Nat) (w : world)
    (h : history_ok s0 w) : history_ok s0 (start K e cb w).state := by
  unfold start
  split
  · exact h
  · rename_i hst
    have hst1 : w.store.state = .state_off := by simpa using hst
    have h1 : history_ok s0 (w.set_state .state_starting_up) := by
      exact h.set_state _ (by rw [hst1]; rfl)
    have h2 := create_serializers_history s0 K e
      { w.set_state .state_starting_up with
        store := { (w.set_state .state_starting_up).store with ready_callback := none } } h1
    simp only []
    split
    · rename_i hrun
      rw [hrun] at h2
      exact h2
    · rename_i hrun
      rw [hrun] at h2
      split
      · exact h2
      · exact h2

theorem finish_shutdown_history (s0 : store_state_t) (w : world) (h : history_ok s0 w) :
    history_ok s0 (finish_shutdown w).state := by
  unfold finish_shutdown
  split
  · exact h
  · rename_i hst
    have hst1 : w.store.state = .state_shutting_down := by simpa using hst
    have h1 : history_ok s0 (w.set_state .state_off) := by
      exact h.set_state _ (by rw [hst1]; rfl)
    simp only []
    split
    · exact h1.event_logged _ (by simp)
    · exact h1

theorem have_shutdown_a_serializer_history (s0 : store_state_t) (w : world)
    (h : history_ok s0 w) :
    history_ok s0 (have_shutdown_a_serializer w).state := by
  have h1 : history_ok s0 (w.log (.executed .have_shutdown_a_serializer)) :=
    h.event_logged _ (by simp)
  unfold have_shutdown_a_serializer
  simp only []
  split
  · rw [Outcome.state_then_return]
    exact finish_shutdown_history s0 _ h1
  · exact h1

theorem on_serializer_shutdown_history (s0 : store_state_t) (e : env_t) (id : Nat) (w : world)
    (h : history_ok s0 w) :
    history_ok s0 (on_serializer_shutdown e id w).state :=
  do_on_cpu_history s0 e _ id _ (have_shutdown_a_serializer_history s0) _
    (h.event_logged _ (by simp))

theorem shutdown_a_serializer_history (s0 : store_state_t) (e : env_t) (id : Nat) (w : world)
    (h : history_ok s0 w) :
    history_ok s0 (shutdown_a_serializer e id w).state := by
  have h1 : history_ok s0 (w.log (.executed (.shutdown_a_serializer id))) :=
    h.event_logged _ (by simp)
  unfold shutdown_a_serializer
  simp only []
  split
  · exact h1
  · split
    · rw [Outcome.state_then_return]
      exact on_serializer_shutdown_history s0 e id _ h1
    · exact h1

theorem shutdown_serializers_history (s0 : store_state_t) (e : env_t) (w : world)
    (h : history_ok s0 w) :
    history_ok s0 (shutdown_serializers e w).state := by
  unfold shutdown_serializers
  refine for_ids_history s0 _ ?_ _ _ h
  intro id w1 h1
  split
  · exact h1
  · exact do_on_cpu_history s0 e _ id _ (shutdown_a_serializer_history s0 e id) w1 h1

theorem have_shutdown_a_slice_history (s0 : store_state_t) (e : env_t) (w : world)
    (h : history_ok s0 w) :
    history_ok s0 (have_shutdown_a_slice e w).state := by
  have h1 : history_ok s0 (w.log (.executed .have_shutdown_a_slice)) :=
    h.event_logged _ (by simp)
  unfold have_shutdown_a_slice
  simp only []
  split
  · rw [Outcome.state_then_return]
    exact shutdown_serializers_history s0 e _ h1
  · exact h1

theorem on_slice_shutdown_history (s0 : store_state_t) (e : env_t) (id : Nat) (w : world)
    (h : history_ok s0 w) :
    history_ok s0 (on_slice_shutdown e id w).state := by
  unfold on_slice_shutdown
  split
  · exact h
  · split
    · exact do_on_cpu_history s0 e _ id _ (have_shutdown_a_slice_history s0 e) _
        (h.event_logged _ (by simp))
    · exact h

theorem shutdown_a_slice_history (s0 : store_state_t) (e : env_t) (id : Nat) (w : world)
    (h : history_ok s0 w) :
    history_ok s0 (shutdown_a_slice e id w).state := by
  have h1 : history_ok s0 (w.log (.executed (.shutdown_a_slice id))) :=
    h.event_logged _ (by simp)
  unfold shutdown_a_slice
  simp only []
  split
  · exact h1
  · split
    · exact h1
    · split
      · rw [Outcome.state_then_return]
        exact on_slice_shutdown_history s0 e id _ (h1.same _ (by simp) (by simp))
      · exact h1.same _ (by simp) (by simp)

theorem shutdown_slices_history (s0 : store_state_t) (e : env_t) (w : world)
    (h : history_ok s0 w) :
    history_ok s0 (shutdown_slices e w).state := by
  unfold shutdown_slices
  refine for_ids_history s0 _ ?_ _ _ h
  intro id w1 h1
  split
  · exact h1
  · exact do_on_cpu_history s0 e _ id _ (shutdown_a_slice_history s0 e id) w1 h1

theorem shutdown_history (s0 : store_state_t) (e : env_t) (cb : Nat) (w : world)
    (h : history_ok s0 w) : history_ok s0 (shutdown e cb w).state := by
  unfold shutdown
  split
  · exact h
  · rename_i hst
    have hst1 : w.store.state = .state_ready := by simpa using hst
    have h1 : history_ok s0 (w.set_state .state_shutting_down) := by
      exact h.set_state _ (by rw [hst1]; rfl)
    have h2 := shutdown_slices_history s0 e
      { w.set_state .state_shutting_down with
        store := { (w.set_state .state_shutting_down).store with shutdown_callback := none } }
      h1
    simp only []
    split
    · rename_i hrun
      rw [hrun] at h2
      exact h2
    · rename_i hrun
      rw [hrun] at h2
      split
      · exact h2
      · exact h2

theorem cache_completion_history (s0 : store_state_t) (K : constants) (e : env_t) (id : Nat)
    (op : cache_op) (w : world) (h : history_ok s0 w) :
    history_ok s0 (cache_completion K e id op w).state := by
  unfold cache_completion
  split
  · exact h
  · split
    · exact h
    · simp only []
      split
      · exact h.same _ (by simp) (by simp)
      · exact on_slice_ready_history s0 e id _ (h.same _ (by simp) (by simp))
      · exact on_slice_shutdown_history s0 e id _ (h.same _ (by simp) (by simp))

theorem run_task_history (s0 : store_state_t) (K : constants) (e : env_t) (t : task_t)
    (w : world) (h : history_ok s0 w) :
    history_ok s0 (run_task K e t w).state := by
  cases t with
  | create_a_serializer_on_this_core id =>
    exact create_a_serializer_on_this_core_history s0 K e id w h
  | have_created_a_serializer => exact have_created_a_serializer_history s0 K e w h
  | create_a_slice_on_this_core id => exact create_a_slice_on_this_core_history s0 K e id w h
  | have_created_a_slice => exact have_created_a_slice_history s0 w h
  | shutdown_a_slice id => exact shutdown_a_slice_history s0 e id w h
  | have_shutdown_a_slice => exact have_shutdown_a_slice_history s0 e w h
  | shutdown_a_serializer id => exact shutdown_a_serializer_history s0 e id w h
  | have_shutdown_a_serializer => exact have_shutdown_a_serializer_history s0 w h

theorem deliver_history (s0 : store_state_t) (K : constants) (e : env_t) (k : Nat)
    (w : world) (h : history_ok s0 w) :
    history_ok s0 (deliver K e k w).state := by
  unfold deliver
  split
  · exact h
  · simp only []
    split
    · rw [Outcome.state_then_return]
      exact run_task_history s0 K e _ _ h
    · exact on_serializer_ready_history s0 K e _ _ h
    · exact on_serializer_shutdown_history s0 e _ _ h
    · exact cache_completion_history s0 K e _ _ _ h

theorem run_ops_history (s0 : store_state_t) (K : constants) :
    ∀ (ops : List (env_t × store_op)) (w : world), history_ok s0 w →
      history_ok s0 (run_ops K ops w).state := by
  intro ops
  induction ops with
  | nil => intro w h; exact h
  | cons eo rest ih =>
    intro w h
    obtain ⟨e, op⟩ := eo
    have h1 : history_ok s0 (run_op K e op w).state := by
      cases op with
      | start cb =>
        simp only [run_op, Outcome.state_then_return]
        exact start_history s0 K e cb w h
      | shutdown cb =>
        simp only [run_op, Outcome.state_then_return]
        exact shutdown_history s0 e cb w h
      | deliver k => exact deliver_history s0 K e k w h
    unfold run_ops
    cases hrun : run_op K e op w with
    | fatal msg w1 =>
      rw [hrun] at h1
      exact h1
    | ok u w1 =>
      rw [hrun] at h1
      exact ih w1 h1

/-! ## Theorems: startup and shutdown barriers -/

theorem trace_ok_split (cfg : cmd_config_t) :
    ∀ (newer : List event) (ev : event) (older : List event),
      trace_ok cfg (newer ++ ev :: older) → event_ok cfg ev older := by
  intro newer
  induction newer with
  | nil => intro ev older h; exact h.1
  | cons x rest ih => intro ev older h; exact ih ev older h.2

theorem deliveries_quiet (K : constants) :
    ∀ (sched : List (env_t × Nat)) (w : world), w.in_flight = [] →
      deliveries K sched w = .ok () w := by
  intro sched
  induction sched with
  | nil => intro w _; rfl
  | cons ek rest ih =>
    intro w h
    obtain ⟨e, k⟩ := ek
    have hd : deliver K e k w = .ok () w := by
      unfold deliver
      rw [h]
      simp
    unfold deliveries
    rw [hd]
    exact ih w h

theorem executed_count_append (t : task_t) (l1 l2 : List event) :
    executed_count t (l1 ++ l2) = executed_count t l1 + executed_count t l2 := by
  unfold executed_count
  exact List.count_append _ _ _

theorem completed_ready_counts {cfg : cmd_config_t} {cb : Option Nat} {w : world}
    (h : completed cfg cb .state_ready w) :
    executed_count .have_created_a_serializer w.trace = cfg.n_serializers ∧
      executed_count .have_created_a_slice w.trace = cfg.n_slices := by
  obtain ⟨older, htr, _⟩ := h.once
  have hok := h.tr_ok
  rw [htr] at hok ⊢
  cases cb with
  | none =>
    simp only [completion_events, List.cons_append, List.nil_append, trace_ok_cons,
      event_ok] at hok
    simpa using hok.1
  | some c =>
    simp only [completion_events, List.cons_append, List.nil_append, trace_ok_cons,
      event_ok] at hok
    simpa using hok.2.1

theorem completed_off_counts {cfg : cmd_config_t} {cb : Option Nat} {w : world}
    (h : completed cfg cb .state_off w) :
    executed_count .have_shutdown_a_slice w.trace = cfg.n_slices ∧
      executed_count .have_shutdown_a_serializer w.trace = cfg.n_serializers := by
  obtain ⟨older, htr, _⟩ := h.once
  have hok := h.tr_ok
  rw [htr] at hok ⊢
  cases cb with
  | none =>
    simp only [completion_events, List.cons_append, List.nil_append, trace_ok_cons,
      event_ok] at hok
    simpa using hok.1
  | some c =>
    simp only [completion_events, List.cons_append, List.nil_append, trace_ok_cons,
      event_ok] at hok
    simpa using hok.2.1

/-- The startup protocol from a quiescent store in state off: every execution keeps the
trace within the barriers, and a returning execution satisfies the startup invariant. -/
theorem startup_execution_inv (K : constants) (cfg : cmd_config_t) (e : env_t) (cb : Nat)
    (sched : List (env_t × Nat)) (w : world)
    (hn : 0 < cfg.n_serializers) (hN : 0 < cfg.n_slices)
    (hcfg : w.store.cmd_config = cfg) (hst : w.store.state = .state_off)
    (hsl : ∀ id s, w.store.slices id = some s → slice_ok s)
    (htr : w.trace = []) (hq : w.in_flight = []) :
    (startup_execution K e cb sched w).sat
      (fun _ w1 => startup_inv cfg (some cb) w1 ∨
        (completed cfg none .state_ready w1 ∧ w1.store.ready_callback = none))
      (fun w1 => trace_ok cfg w1.trace) := by
  have hs := start_inv K cfg e cb w hn hN hcfg hst hsl htr hq
  unfold startup_execution
  cases hrun : start K e cb w with
  | fatal msg w1 =>
    rw [hrun] at hs
    exact hs
  | ok b w1 =>
    rw [hrun] at hs
    simp only [Outcome.sat_ok] at hs
    rcases hs with ⟨_, hc, hrc⟩ | ⟨_, _, hp⟩
    · simp only []
      rw [deliveries_quiet K sched w1 hc.quiet]
      exact Or.inr ⟨hc, hrc⟩
    · have hsi : startup_inv cfg (some cb) w1 := by
        rcases hp with hp | hp
        · exact Or.inl hp
        · exact Or.inr (Or.inl hp)
      exact Outcome.sat_mono (deliveries_startup_inv K cfg (some cb) hN sched w1 hsi)
        (fun _ _ h => Or.inl h) (fun _ h => h)

theorem startup_execution_trace_ok (K : constants) (cfg : cmd_config_t) (e : env_t) (cb : Nat)
    (sched : List (env_t × Nat)) (w : world)
    (hn : 0 < cfg.n_serializers) (hN : 0 < cfg.n_slices)
    (hcfg : w.store.cmd_config = cfg) (hst : w.store.state = .state_off)
    (hsl : ∀ id s, w.store.slices id = some s → slice_ok s)
    (htr : w.trace = []) (hq : w.in_flight = []) :
    trace_ok cfg (startup_execution K e cb sched w).state.trace := by
  have h := startup_execution_inv K cfg e cb sched w hn hN hcfg hst hsl htr hq
  cases hrun : startup_execution K e cb sched w with
  | fatal msg w1 =>
    rw [hrun] at h
    exact h
  | ok u w1 =>
    rw [hrun] at h
    simp only [Outcome.sat_ok] at h
    rcases h with (h | h | h) | h
    · exact h.tr_ok
    · exact h.tr_ok
    · exact h.tr_ok
    · exact h.1.tr_ok

/-- C5: startup barrier. In every execution of the startup protocol begun by `start(cb)`
on a quiescent store in state off (`n_serializers > 0`, `n_slices > 0`; the trace is
taken from the call of `start`): (1) before every dispatch of a slice-creation task,
`have_created_a_serializer` has run `n_serializers` times on the home core; (2) before
the state becomes ready and before `on_store_ready` is invoked, in addition
`have_created_a_slice` has run `n_slices` times; (3) when the execution has returned
with the state ready, all these reports have been processed; (4) when it has returned
with the state starting_up, `messages_out` equals the number of messages in flight,
is at least 1, and counts the reports of the current phase still outstanding: either
all messages in flight belong to the creation of serializers and `messages_out` plus
the serializer reports processed is `n_serializers`, or all serializer reports are
processed, all messages in flight belong to the creation of slices and `messages_out`
plus the slice reports processed is `n_slices`. -/
theorem C5_startup_barrier (K : constants) (cfg : cmd_config_t) (e : env_t) (cb : Nat)
    (sched : List (env_t × Nat)) (w : world)
    (hn : 0 < cfg.n_serializers) (hN : 0 < cfg.n_slices)
    (hcfg : w.store.cmd_config = cfg) (hst : w.store.state = .state_off)
    (hsl : ∀ id s, w.store.slices id = some s → slice_ok s)
    (htr : w.trace = []) (hq : w.in_flight = []) :
    (∀ newer older id,
      (startup_execution K e cb sched w).state.trace =
        newer ++ .dispatched (.create_a_slice_on_this_core id) :: older →
      executed_count .have_created_a_serializer older = cfg.n_serializers) ∧
    (∀ newer older ev,
      (startup_execution K e cb sched w).state.trace = newer ++ ev :: older →
      ((∃ old, ev = .state_changed old .state_ready) ∨ (∃ c, ev = .on_store_ready c)) →
      executed_count .have_created_a_serializer older = cfg.n_serializers ∧
        executed_count .have_created_a_slice older = cfg.n_slices) ∧
    ((startup_execution K e cb sched w).is_ok = true →
      (startup_execution K e cb sched w).state.store.state = .state_ready →
      executed_count .have_created_a_serializer
          (startup_execution K e cb sched w).state.trace = cfg.n_serializers ∧
        executed_count .have_created_a_slice
          (startup_execution K e cb sched w).state.trace = cfg.n_slices) ∧
    ((startup_execution K e cb sched w).is_ok = true →
      (startup_execution K e cb sched w).state.store.state = .state_starting_up →
      (startup_execution K e cb sched w).state.store.messages_out =
          ((startup_execution K e cb sched w).state.in_flight.length : Int) ∧
        1 ≤ (startup_execution K e cb sched w).state.in_flight.length ∧
        (((∀ m ∈ (startup_execution K e cb sched w).state.in_flight,
              phase_t.creating_serializers.carries m = true) ∧
            executed_count .have_created_a_serializer
                (startup_execution K e cb sched w).state.trace +
              (startup_execution K e cb sched w).state.in_flight.length = cfg.n_serializers) ∨
          ((∀ m ∈ (startup_execution K e cb sched w).state.in_flight,
              phase_t.creating_slices.carries m = true) ∧
            executed_count .have_created_a_serializer
                (startup_execution K e cb sched w).state.trace = cfg.n_serializers ∧
            executed_count .have_created_a_slice
                (startup_execution K e cb sched w).state.trace +
              (startup_execution K e cb sched w).state.in_flight.length = cfg.n_slices))) := by
  have hok := startup_execution_trace_ok K cfg e cb sched w hn hN hcfg hst hsl htr hq
  have hinv := startup_execution_inv K cfg e cb sched w hn hN hcfg hst hsl htr hq
  refine ⟨?_, ?_, ?_, ?_⟩
  · intro newer older id hsplit
    rw [hsplit] at hok
    exact trace_ok_split cfg _ _ _ hok
  · intro newer older ev hsplit hev
    rw [hsplit] at hok
    have := trace_ok_split cfg _ _ _ hok
    rcases hev with ⟨old, rfl⟩ | ⟨c, rfl⟩
    · exact this
    · exact ⟨this.1, this.2.1⟩
  · intro hisok hready
    cases hrun : startup_execution K e cb sched w with
    | fatal msg w1 => rw [hrun] at hisok; simp [Outcome.is_ok] at hisok
    | ok u w1 =>
      rw [hrun] at hinv hready
      simp only [Outcome.sat_ok, Outcome.state_ok] at hinv hready ⊢
      rcases hinv with (h | h | h) | h
      · exact absurd hready (in_phase_state_ne_ready h)
      · exact absurd hready (in_phase_state_ne_ready h)
      · exact completed_ready_counts h
      · exact completed_ready_counts h.1
  · intro hisok hstarting
    cases hrun : startup_execution K e cb sched w with
    | fatal msg w1 => rw [hrun] at hisok; simp [Outcome.is_ok] at hisok
    | ok u w1 =>
      rw [hrun] at hinv hstarting
      simp only [Outcome.sat_ok, Outcome.state_ok] at hinv hstarting ⊢
      rcases hinv with (h | h | h) | h
      · have hmo := h.mo
        have hpos := h.pos
        have hrep := h.reports
        simp only [Nat.add_zero, phase_t.report, phase_t.total] at hmo hpos hrep
        exact ⟨hmo, hpos, Or.inl ⟨h.msgs, hrep⟩⟩
      · have hmo := h.mo
        have hpos := h.pos
        have hrep := h.reports
        have hent := h.entered
        simp only [Nat.add_zero, phase_t.report, phase_t.total, phase_t.entered]
          at hmo hpos hrep hent
        exact ⟨hmo, hpos, Or.inr ⟨h.msgs, hent, hrep⟩⟩
      · rw [h.state_eq] at hstarting
        simp at hstarting
      · rw [h.1.state_eq] at hstarting
        simp at hstarting

/-! ## Theorems: termination of the protocols -/

section rank_lemmas
open initialize_superblock_fsm_t

theorem sb_callback_rank (nil : Nat) (o : cache_oracle) (m : sb_machine)
    (hp : m.cache.pending = none)
    (cb : Nat → cache_oracle → sb_machine → Outcome sb_ret sb_machine) (op : cache_op)
    (hcb : (cb = on_txn_begin ∧ op = .begin_transaction) ∨
      (cb = on_block_available ∧ op = .acquire) ∨ (cb = on_txn_commit ∧ op = .commit)) :
    (cb nil o m).sat
      (fun _ m1 => ∀ op1, m1.cache.pending = some op1 → op1.rank < op.rank)
      (fun _ => True) := by
  obtain ⟨⟨st, buf, txn, cbk⟩, c⟩ := m
  obtain ⟨o1, o2, o3, o4, o5⟩ := o
  simp only at hp
  rcases hcb with ⟨rfl, rfl⟩ | ⟨rfl, rfl⟩ | ⟨rfl, rfl⟩ <;>
  cases st <;> cases o2 <;> cases o3 <;> cases o4 <;>
    simp [on_txn_begin, on_block_available, on_txn_commit,
      next_initialize_superblock_step, step_acquire, step_make_change, step_commit,
      step_finish, cache_t.call_op, cache_t.call, hp, cache_op.rank,
      apply_ite cache_t.pending]

theorem slice_step_finish_cache (s : btree_slice_t) :
    (btree_slice_t.step_starting_up_finish s).sat (fun _ s1 => s1.cache = s.cache)
      (fun _ => True) := by
  unfold btree_slice_t.step_starting_up_finish
  split
  · split
    · rfl
    · trivial
  · trivial

theorem slice_on_initialize_superblock_cache (nil : Nat) (o : cache_oracle)
    (s : btree_slice_t) :
    (btree_slice_t.on_initialize_superblock nil o s).sat (fun _ s1 => s1.cache = s.cache)
      (fun _ => True) := by
  unfold btree_slice_t.on_initialize_superblock
  split
  · trivial
  · simp only [btree_slice_t.next_starting_up_step, reduceCtorEq, if_false,
      btree_slice_t.step_starting_up_initialize_superblock]
    exact slice_step_finish_cache _

theorem slice_sb_fsm_callback_rank (nil : Nat) (o : cache_oracle) (s : btree_slice_t)
    (hp : s.cache.pending = none)
    (cb : Nat → cache_oracle → sb_machine → Outcome sb_ret sb_machine) (op : cache_op)
    (hcb : (cb = on_txn_begin ∧ op = .begin_transaction) ∨
      (cb = on_block_available ∧ op = .acquire) ∨ (cb = on_txn_commit ∧ op = .commit)) :
    (btree_slice_t.sb_fsm_callback nil o cb s).sat
      (fun _ s1 => ∀ op1, s1.cache.pending = some op1 → op1.rank < op.rank)
      (fun _ => True) := by
  unfold btree_slice_t.sb_fsm_callback
  cases hf : s.sb_fsm with
  | none => trivial
  | some f =>
    have hc := sb_callback_rank nil o { fsm := f, cache := s.cache } hp cb op hcb
    simp only []
    cases hrun : cb nil o { fsm := f, cache := s.cache } with
    | fatal msg m1 => trivial
    | ok r m1 =>
      rw [hrun] at hc
      simp only [Outcome.sat_ok] at hc
      simp only []
      split
      · have h2 := slice_on_initialize_superblock_cache nil o
          { s with sb_fsm := some m1.fsm, cache := m1.cache }
        cases hrun2 : btree_slice_t.on_initialize_superblock nil o
            { s with sb_fsm := some m1.fsm, cache := m1.cache } with
        | fatal msg s2 => trivial
        | ok r2 s2 =>
          rw [hrun2] at h2
          simp only [Outcome.sat_ok] at h2 ⊢
          rw [h2]
          exact hc
      · exact hc

theorem slice_on_cache_ready_rank (nil : Nat) (o : cache_oracle) (s : btree_slice_t)
    (hp : s.cache.pending = none) :
    (btree_slice_t.on_cache_ready nil o s).sat
      (fun _ s1 => ∀ op1, s1.cache.pending = some op1 → op1.rank < cache_op.rank .start)
      (fun _ => True) := by
  unfold btree_slice_t.on_cache_ready
  split
  · trivial
  · have hi := sb_init_spec nil o s.cache hp
    simp only [btree_slice_t.next_starting_up_step, reduceCtorEq, if_false, if_true,
      btree_slice_t.step_starting_up_initialize_superblock]
    cases hinit : initialize_superblock_if_necessary nil o
        { fsm := initialize_superblock_fsm_t.new, cache := s.cache } with
    | fatal msg m1 => trivial
    | ok r m1 =>
      rw [hinit] at hi
      simp only [Outcome.sat_ok] at hi
      obtain ⟨_, hcase⟩ := hi
      have hrank : ∀ op1, m1.cache.pending = some op1 → op1.rank < cache_op.rank .start := by
        intro op1 hop1
        rcases hcase with ⟨_, _, hpend⟩ | ⟨_, _, _, hpend⟩
        · rw [hpend] at hop1
          cases hop1
        · simp only [cache_t.pending_initializer, hop1] at hpend
          cases op1 <;> simp [cache_op.rank] at hpend ⊢
      simp only []
      split
      · refine Outcome.sat_mono (slice_step_finish_cache _) (fun _ s1 h => ?_) (fun _ h => h)
        rw [h]
        exact hrank
      · exact hrank

theorem slice_cache_callback_rank (nil : Nat) (o : cache_oracle) (op : cache_op)
    (s : btree_slice_t) (hop : op ≠ .shutdown) :
    (btree_slice_t.cache_callback nil o op s).sat
      (fun _ s1 => ∀ op1, s1.cache.pending = some op1 → op1.rank < op.rank)
      (fun _ => True) := by
  unfold btree_slice_t.cache_callback
  cases op with
  | start => exact slice_on_cache_ready_rank nil o _ rfl
  | begin_transaction => exact slice_sb_fsm_callback_rank nil o _ rfl _ _ (Or.inl ⟨rfl, rfl⟩)
  | acquire => exact slice_sb_fsm_callback_rank nil o _ rfl _ _ (Or.inr (Or.inl ⟨rfl, rfl⟩))
  | commit => exact slice_sb_fsm_callback_rank nil o _ rfl _ _ (Or.inr (Or.inr ⟨rfl, rfl⟩))
  | shutdown => exact absurd rfl hop

end rank_lemmas

@[simp] theorem work_log (cfg : cmd_config_t) (ev : event) (w : world) :
    work cfg (w.log ev) = work cfg w := rfl

@[simp] theorem work_send (cfg : cmd_config_t) (m : message) (w : world) :
    work cfg (w.send m) = work cfg w + m.weight cfg := by
  simp [work, world.send]

@[simp] theorem work_set_slice (cfg : cmd_config_t) (id : Nat) (s : Option btree_slice_t)
    (w : world) : work cfg (w.set_slice id s) = work cfg w := rfl

@[simp] theorem work_set_serializer (cfg : cmd_config_t) (id : Nat) (s : Option serializer_t)
    (w : world) : work cfg (w.set_serializer id s) = work cfg w := rfl

@[simp] theorem work_set_state (cfg : cmd_config_t) (st : store_state_t) (w : world) :
    work cfg (w.set_state st) = work cfg w := rfl

@[simp] theorem work_set_messages_out (cfg : cmd_config_t) (n : Int) (w : world) :
    work cfg (w.set_messages_out n) = work cfg w := rfl

theorem work_within.mono {cfg : cmd_config_t} {c c1 : Nat} {w w1 : world}
    (h : work_within cfg c w w1) (hc : c ≤ c1) : work_within cfg c1 w w1 :=
  ⟨h.1, Nat.le_trans h.2 (Nat.add_le_add_left hc _)⟩

theorem work_within.trans {cfg : cmd_config_t} {c c1 : Nat} {w w1 w2 : world}
    (h : work_within cfg c w w1) (h1 : work_within cfg c1 w1 w2) :
    work_within cfg (c + c1) w w2 :=
  ⟨h1.1, by have := h.2; have := h1.2; omega⟩

theorem do_on_cpu_work (cfg : cmd_config_t) (e : env_t) (t : task_t) (who : Nat)
    (method : world → Outcome Bool world) (c : Nat) (w : world)
    (hcfg : w.store.cmd_config = cfg)
    (hm : ∀ w1, w1.store.cmd_config = cfg →
      (method w1).sat (fun _ w2 => work_within cfg c w1 w2) (fun _ => True))
    (hc : c ≤ message.weight cfg (.task t)) :
    (do_on_cpu e t who method w).sat
      (fun _ w2 => work_within cfg (message.weight cfg (.task t)) w w2) (fun _ => True) := by
  unfold do_on_cpu
  split
  · rw [Outcome.sat_then_return]
    exact Outcome.sat_mono (hm (w.log (.dispatched t)) hcfg)
      (fun _ w2 h => h.mono hc) (fun _ h => h)
  · exact ⟨hcfg, by simp⟩

theorem for_ids_work (cfg : cmd_config_t) (body : Nat → world → Outcome Unit world) (c : Nat)
    (hb : ∀ id w1, w1.store.cmd_config = cfg →
      (body id w1).sat (fun _ w2 => work_within cfg c w1 w2) (fun _ => True)) :
    ∀ ids w, w.store.cmd_config = cfg →
      (for_ids body ids w).sat (fun _ w2 => work_within cfg (c * ids.length) w w2)
        (fun _ => True) := by
  intro ids
  induction ids with
  | nil => intro w h; exact ⟨h, by simp⟩
  | cons id rest ih =>
    intro w h
    have h1 := hb id w h
    unfold for_ids
    cases hrun : body id w with
    | fatal msg w1 => trivial
    | ok u w1 =>
      rw [hrun] at h1
      simp only [Outcome.sat_ok] at h1
      refine Outcome.sat_mono (ih w1 h1.1) (fun _ w2 h2 => ?_) (fun _ h => h)
      have := h1.trans h2
      refine this.mono ?_
      simp only [List.length_cons, Nat.mul_succ]
      omega

/-! ### Startup -/

theorem finish_start_work (cfg : cmd_config_t) (w : world) (hcfg : w.store.cmd_config = cfg) :
    (finish_start w).sat (fun _ w1 => work_within cfg 0 w w1) (fun _ => True) := by
  unfold finish_start
  split
  · trivial
  · simp only []
    split
    · exact ⟨hcfg, by simp⟩
    · exact ⟨hcfg, by simp⟩

theorem have_created_a_slice_work (cfg : cmd_config_t) (w : world)
    (hcfg : w.store.cmd_config = cfg) :
    (have_created_a_slice w).sat (fun _ w1 => work_within cfg 0 w w1) (fun _ => True) := by
  unfold have_created_a_slice
  simp only []
  split
  · rw [Outcome.sat_then_return]
    exact finish_start_work cfg _ hcfg
  · exact ⟨hcfg, by simp⟩

theorem on_slice_ready_work (cfg : cmd_config_t) (e : env_t) (id : Nat) (w : world)
    (hcfg : w.store.cmd_config = cfg) :
    (on_slice_ready e id w).sat (fun _ w1 => work_within cfg 1 w w1) (fun _ => True) :=
  do_on_cpu_work cfg e _ id _ 0 w hcfg (fun w1 h1 => have_created_a_slice_work cfg w1 h1)
    (Nat.zero_le _)

theorem await_cache_work (cfg : cmd_config_t) (id : Nat) (s : btree_slice_t) (w : world)
    (c : Nat)
    (hp : ∀ op, s.cache.pending = some op → message.weight cfg (.cache_completion id op) ≤ c) :
    work cfg (w.await_cache id s) ≤ work cfg w + c := by
  unfold world.await_cache
  cases hop : s.cache.pending with
  | none => simp
  | some op =>
    have := hp op hop
    simp only [work_send]
    omega

theorem create_a_slice_on_this_core_work (K : constants) (cfg : cmd_config_t) (e : env_t)
    (id : Nat) (w : world) (hcfg : w.store.cmd_config = cfg) :
    (create_a_slice_on_this_core K e id w).sat (fun _ w1 => work_within cfg 5 w w1)
      (fun _ => True) := by
  unfold create_a_slice_on_this_core
  simp only []
  split
  · trivial
  split
  · trivial
  split
  · trivial
  have hsp := slice_start_spec K.NULL_BLOCK_ID (e.cache id) _
    (slice_ok_new (id % (w.log (.executed (.create_a_slice_on_this_core id))).store.cmd_config.n_serializers)
      (id / (w.log (.executed (.create_a_slice_on_this_core id))).store.cmd_config.n_serializers)
      (count_on_serializer (w.log (.executed (.create_a_slice_on_this_core id))).store.cmd_config.n_serializers
        (w.log (.executed (.create_a_slice_on_this_core id))).store.cmd_config.n_slices id)
      ((w.log (.executed (.create_a_slice_on_this_core id))).store.cmd_config.max_cache_size /
        (w.log (.executed (.create_a_slice_on_this_core id))).store.cmd_config.n_slices)
      (w.log (.executed (.create_a_slice_on_this_core id))).store.cmd_config.wait_for_flush
      (w.log (.executed (.create_a_slice_on_this_core id))).store.cmd_config.flush_timer_ms
      (w.log (.executed (.create_a_slice_on_this_core id))).store.cmd_config.flush_threshold_percent
      (e.disk_superblock id))
  split
  · trivial
  · rename_i r1 s1 hrun
    rw [hrun] at hsp
    simp only [Outcome.sat_ok] at hsp
    obtain ⟨_, _, hcase⟩ := hsp
    rcases hcase with ⟨hd, hp⟩ | ⟨hd, hp⟩
    · rw [world.await_cache_none _ _ _ hp]
      simp only [hd, if_true, Outcome.sat_then_return]
      exact Outcome.sat_mono (on_slice_ready_work cfg e id _ hcfg)
        (fun _ w2 h => ⟨h.1, by have := h.2; simp at this; omega⟩) (fun _ h => h)
    · obtain ⟨op, hop, hne⟩ := pending_startup_iff _ hp
      rw [world.await_cache_some _ _ _ op hop]
      simp only [hd, Bool.false_eq_true, if_false, Outcome.sat_ok]
      refine ⟨hcfg, ?_⟩
      simp only [work_send, work_set_slice, work_log, message.weight, hne, if_false]
      cases op <;> simp [cache_op.rank]

theorem create_slices_work (K : constants) (cfg : cmd_config_t) (e : env_t) (w : world)
    (hcfg : w.store.cmd_config = cfg) :
    (create_slices K e w).sat (fun _ w1 => work_within cfg (6 * cfg.n_slices) w w1)
      (fun _ => True) := by
  subst hcfg
  unfold create_slices
  have h := for_ids_work w.store.cmd_config
    (fun id => do_on_cpu e (.create_a_slice_on_this_core id) id
      (create_a_slice_on_this_core K e id)) 6
    (fun id w1 h1 => do_on_cpu_work w.store.cmd_config e _ id _ 5 w1 h1
      (fun w2 h2 => create_a_slice_on_this_core_work K w.store.cmd_config e id w2 h2)
      (by simp [message.weight]))
    (List.range w.store.cmd_config.n_slices) (w.set_messages_out w.store.cmd_config.n_slices)
    rfl
  rw [List.length_range] at h
  exact Outcome.sat_mono h (fun _ w2 h2 => ⟨h2.1, by have := h2.2; simpa using this⟩)
    (fun _ h => h)

theorem have_created_a_serializer_work (K : constants) (cfg : cmd_config_t) (e : env_t)
    (w : world) (hcfg : w.store.cmd_config = cfg) :
    (have_created_a_serializer K e w).sat
      (fun _ w1 => work_within cfg (6 * cfg.n_slices) w w1) (fun _ => True) := by
  unfold have_created_a_serializer
  simp only []
  split
  · rw [Outcome.sat_then_return]
    exact Outcome.sat_mono (create_slices_work K cfg e _ hcfg)
      (fun _ w2 h => ⟨h.1, by have := h.2; simpa using this⟩) (fun _ h => h)
  · exact ⟨hcfg, by simp⟩

theorem on_serializer_ready_work (K : constants) (cfg : cmd_config_t) (e : env_t) (id : Nat)
    (w : world) (hcfg : w.store.cmd_config = cfg) :
    (on_serializer_ready K e id w).sat
      (fun _ w1 => work_within cfg (1 + 6 * cfg.n_slices) w w1) (fun _ => True) :=
  do_on_cpu_work cfg e _ id _ (6 * cfg.n_slices) w hcfg
    (fun w1 h1 => have_created_a_serializer_work K cfg e w1 h1) (by simp [message.weight])

theorem create_a_serializer_on_this_core_work (K : constants) (cfg : cmd_config_t)
    (e : env_t) (id : Nat) (w : world) (hcfg : w.store.cmd_config = cfg) :
    (create_a_serializer_on_this_core K e id w).sat
      (fun _ w1 => work_within cfg (2 + 6 * cfg.n_slices) w w1) (fun _ => True) := by
  unfold create_a_serializer_on_this_core
  simp only []
  split
  · trivial
  split
  · split
    · rw [Outcome.sat_then_return]
      exact Outcome.sat_mono (on_serializer_ready_work K cfg e id _ hcfg)
        (fun _ w2 h => ⟨h.1, by have := h.2; simp at this; omega⟩) (fun _ h => h)
    · exact ⟨hcfg, by simp [message.weight]⟩
  split
  · split
    · rw [Outcome.sat_then_return]
      exact Outcome.sat_mono (on_serializer_ready_work K cfg e id _ hcfg)
        (fun _ w2 h => ⟨h.1, by have := h.2; simp at this; omega⟩) (fun _ h => h)
    · exact ⟨hcfg, by simp [message.weight]⟩
  · trivial

theorem cache_completion_startup_work (K : constants) (cfg : cmd_config_t) (e : env_t)
    (id : Nat) (op : cache_op) (w : world) (hop : op ≠ .shutdown)
    (hcfg : w.store.cmd_config = cfg)
    (hsl : ∀ id s, w.store.slices id = some s → slice_ok s) :
    (cache_completion K e id op w).sat
      (fun _ w1 => w1.store.cmd_config = cfg ∧
        work cfg w1 + 1 ≤ work cfg w + message.weight cfg (.cache_completion id op))
      (fun _ => True) := by
  unfold cache_completion
  split
  · trivial
  · rename_i s hs
    have hsp := slice_cache_callback_startup_spec K.NULL_BLOCK_ID (e.cache id) op s
      (hsl id s hs) hop
    have hrk := slice_cache_callback_rank K.NULL_BLOCK_ID (e.cache id) op s hop
    split
    · trivial
    · rename_i r1 s1 hrun
      rw [hrun] at hsp hrk
      simp only [Outcome.sat_ok] at hsp hrk
      obtain ⟨_, hcase⟩ := hsp
      rcases hcase with ⟨hu, hp⟩ | ⟨hu, hp⟩
      · rw [world.await_cache_none _ _ _ hp]
        simp only [hu]
        refine Outcome.sat_mono (on_slice_ready_work cfg e id _ hcfg)
          (fun _ w2 h => ⟨h.1, ?_⟩) (fun _ h => h)
        have := h.2
        simp only [work_set_slice] at this
        simp only [message.weight, hop, if_false]
        cases op <;> simp [cache_op.rank] at hop ⊢ <;> omega
      · obtain ⟨op1, hop1, hne⟩ := pending_startup_iff _ hp
        rw [world.await_cache_some _ _ _ op1 hop1]
        simp only [hu, Outcome.sat_ok]
        refine ⟨hcfg, ?_⟩
        have := hrk op1 hop1
        simp only [work_send, work_set_slice, message.weight, hne, hop, if_false]
        omega

/-! ### Shutdown -/

theorem finish_shutdown_work (cfg : cmd_config_t) (w : world)
    (hcfg : w.store.cmd_config = cfg) :
    (finish_shutdown w).sat (fun _ w1 => work_within cfg 0 w w1) (fun _ => True) := by
  unfold finish_shutdown
  split
  · trivial
  · simp only []
    split
    · exact ⟨hcfg, by simp⟩
    · exact ⟨hcfg, by simp⟩

theorem have_shutdown_a_serializer_work (cfg : cmd_config_t) (w : world)
    (hcfg : w.store.cmd_config = cfg) :
    (have_shutdown_a_serializer w).sat (fun _ w1 => work_within cfg 0 w w1)
      (fun _ => True) := by
  unfold have_shutdown_a_serializer
  simp only []
  split
  · rw [Outcome.sat_then_return]
    exact finish_shutdown_work cfg _ hcfg
  · exact ⟨hcfg, by simp⟩

theorem on_serializer_shutdown_work (cfg : cmd_config_t) (e : env_t) (id : Nat) (w : world)
    (hcfg : w.store.cmd_config = cfg) :
    (on_serializer_shutdown e id w).sat (fun _ w1 => work_within cfg 1 w w1)
      (fun _ => True) :=
  do_on_cpu_work cfg e _ id _ 0 _ hcfg
    (fun w1 h1 => have_shutdown_a_serializer_work cfg w1 h1) (Nat.zero_le _)

theorem shutdown_a_serializer_work (cfg : cmd_config_t) (e : env_t) (id : Nat) (w : world)
    (hcfg : w.store.cmd_config = cfg) :
    (shutdown_a_serializer e id w).sat (fun _ w1 => work_within cfg 2 w w1)
      (fun _ => True) := by
  unfold shutdown_a_serializer
  simp only []
  split
  · trivial
  · split
    · rw [Outcome.sat_then_return]
      exact Outcome.sat_mono (on_serializer_shutdown_work cfg e id _ hcfg)
        (fun _ w2 h => ⟨h.1, by have := h.2; simp at this; omega⟩) (fun _ h => h)
    · exact ⟨hcfg, by simp [message.weight]⟩

theorem shutdown_serializers_work (cfg : cmd_config_t) (e : env_t) (w : world)
    (hcfg : w.store.cmd_config = cfg) :
    (shutdown_serializers e w).sat
      (fun _ w1 => work_within cfg (3 * cfg.n_serializers) w w1) (fun _ => True) := by
  subst hcfg
  unfold shutdown_serializers
  have h := for_ids_work w.store.cmd_config
    (fun id w1 =>
      match w1.store.serializers id with
      | none => .fatal "serializers[id] points to no serializer" w1
      | some _ => do_on_cpu e (.shutdown_a_serializer id) id (shutdown_a_serializer e id) w1) 3
    (fun id w1 h1 => by
      simp only []
      split
      · trivial
      · exact do_on_cpu_work w.store.cmd_config e _ id _ 2 w1 h1
          (fun w2 h2 => shutdown_a_serializer_work w.store.cmd_config e id w2 h2)
          (by simp [message.weight]))
    (List.range w.store.cmd_config.n_serializers)
    (w.set_messages_out w.store.cmd_config.n_serializers) rfl
  rw [List.length_range] at h
  exact Outcome.sat_mono h (fun _ w2 h2 => ⟨h2.1, by have := h2.2; simpa using this⟩)
    (fun _ h => h)

theorem have_shutdown_a_slice_work (cfg : cmd_config_t) (e : env_t) (w : world)
    (hcfg : w.store.cmd_config = cfg) :
    (have_shutdown_a_slice e w).sat
      (fun _ w1 => work_within cfg (3 * cfg.n_serializers) w w1) (fun _ => True) := by
  unfold have_shutdown_a_slice
  simp only []
  split
  · rw [Outcome.sat_then_return]
    exact Outcome.sat_mono (shutdown_serializers_work cfg e _ hcfg)
      (fun _ w2 h => ⟨h.1, by have := h.2; simpa using this⟩) (fun _ h => h)
  · exact ⟨hcfg, by simp⟩

theorem on_slice_shutdown_work (cfg : cmd_config_t) (e : env_t) (id : Nat) (w : world)
    (hcfg : w.store.cmd_config = cfg) :
    (on_slice_shutdown e id w).sat
      (fun _ w1 => work_within cfg (1 + 3 * cfg.n_serializers) w w1) (fun _ => True) := by
  unfold on_slice_shutdown
  split
  · trivial
  · split
    · exact do_on_cpu_work cfg e _ id _ (3 * cfg.n_serializers) _ hcfg
        (fun w1 h1 => have_shutdown_a_slice_work cfg e w1 h1) (by simp [message.weight])
    · trivial

theorem shutdown_a_slice_work (cfg : cmd_config_t) (e : env_t) (id : Nat) (w : world)
    (hcfg : w.store.cmd_config = cfg)
    (hsl : ∀ id s, w.store.slices id = some s → slice_ok s) :
    (shutdown_a_slice e id w).sat
      (fun _ w1 => work_within cfg (2 + 3 * cfg.n_serializers) w w1) (fun _ => True) := by
  unfold shutdown_a_slice
  simp only []
  split
  · trivial
  · rename_i s hs
    have hsp := slice_shutdown_spec (e.cache id) s (hsl id s hs)
    split
    · trivial
    · rename_i r1 s1 hrun
      rw [hrun] at hsp
      simp only [Outcome.sat_ok] at hsp
      obtain ⟨_, _, hcase⟩ := hsp
      rcases hcase with ⟨hd, hp, _⟩ | ⟨hd, hp⟩
      · rw [world.await_cache_none _ _ _ hp]
        simp only [hd, if_true, Outcome.sat_then_return]
        exact Outcome.sat_mono (on_slice_shutdown_work cfg e id _ hcfg)
          (fun _ w2 h => ⟨h.1, by have := h.2; simp at this; omega⟩) (fun _ h => h)
      · rw [world.await_cache_some _ _ _ .shutdown hp]
        simp only [hd, Bool.false_eq_true, if_false, Outcome.sat_ok]
        exact ⟨hcfg, by simp [message.weight, cache_op.rank]⟩

theorem cache_completion_shutdown_work (K : constants) (cfg : cmd_config_t) (e : env_t)
    (id : Nat) (w : world) (hcfg : w.store.cmd_config = cfg)
    (hsl : ∀ id s, w.store.slices id = some s → slice_ok s) :
    (cache_completion K e id .shutdown w).sat
      (fun _ w1 => work_within cfg (1 + 3 * cfg.n_serializers) w w1) (fun _ => True) := by
  unfold cache_completion
  split
  · trivial
  · rename_i s hs
    have hsp := slice_cache_callback_shutdown_spec K.NULL_BLOCK_ID (e.cache id) s (hsl id s hs)
    split
    · trivial
    · rename_i r1 s1 hrun
      rw [hrun] at hsp
      simp only [Outcome.sat_ok] at hsp
      obtain ⟨_, hu, hp, _⟩ := hsp
      rw [world.await_cache_none _ _ _ hp]
      simp only [hu]
      exact Outcome.sat_mono (on_slice_shutdown_work cfg e id _ hcfg)
        (fun _ w2 h => ⟨h.1, by have := h.2; simpa using this⟩) (fun _ h => h)

/-! ### Deliveries -/

theorem work_eraseIdx (cfg : cmd_config_t) :
    ∀ (l : List message) (k : Nat) (m : message), l[k]? = some m →
      ((l.eraseIdx k).map (message.weight cfg)).sum + m.weight cfg =
        (l.map (message.weight cfg)).sum := by
  intro l
  induction l with
  | nil => intro k m h; simp at h
  | cons a l ih =>
    intro k m h
    cases k with
    | zero =>
      simp only [List.getElem?_cons_zero, Option.some.injEq] at h
      subst h
      simp [Nat.add_comm]
    | succ k =>
      simp only [List.getElem?_cons_succ] at h
      have := ih k m h
      simp only [List.eraseIdx_cons_succ, List.map_cons, List.sum_cons]
      omega

theorem message_weight_pos (cfg : cmd_config_t) (m : message) : 1 ≤ m.weight cfg := by
  cases m with
  | task t => cases t <;> simp [message.weight] <;> omega
  | serializer_ready id => simp [message.weight]; omega
  | serializer_shutdown id => simp [message.weight]
  | cache_completion id op =>
    cases op <;> simp [message.weight, cache_op.rank]
    omega

/-- Every delivery of a message takes at least one unit of work away. -/
theorem deliver_work (K : constants) (cfg : cmd_config_t) (e : env_t) (k : Nat) (w : world)
    (m : message) (hk : w.in_flight[k]? = some m) (hcfg : w.store.cmd_config = cfg)
    (hsl : ∀ id s, w.store.slices id = some s → slice_ok s) :
    (deliver K e k w).sat (fun _ w1 => work cfg w1 + 1 ≤ work cfg w) (fun _ => True) := by
  have herase := work_eraseIdx cfg w.in_flight k m hk
  have hw : ∀ c, c + 1 ≤ m.weight cfg → ∀ w1,
      work_within cfg c { w with in_flight := w.in_flight.eraseIdx k } w1 →
      work cfg w1 + 1 ≤ work cfg w := by
    intro c hc w1 h
    have := h.2
    simp only [work] at this herase ⊢
    omega
  unfold deliver
  rw [hk]
  simp only []
  cases m with
  | task t =>
    simp only [Outcome.sat_then_return]
    cases t with
    | create_a_serializer_on_this_core id =>
      exact Outcome.sat_mono (create_a_serializer_on_this_core_work K cfg e id _ hcfg)
        (fun _ w1 h => hw _ (by simp [message.weight]; omega) w1 h) (fun _ h => h)
    | have_created_a_serializer =>
      exact Outcome.sat_mono (have_created_a_serializer_work K cfg e _ hcfg)
        (fun _ w1 h => hw _ (by simp [message.weight]; omega) w1 h) (fun _ h => h)
    | create_a_slice_on_this_core id =>
      exact Outcome.sat_mono (create_a_slice_on_this_core_work K cfg e id _ hcfg)
        (fun _ w1 h => hw _ (by simp [message.weight]) w1 h) (fun _ h => h)
    | have_created_a_slice =>
      exact Outcome.sat_mono (have_created_a_slice_work cfg _ hcfg)
        (fun _ w1 h => hw _ (by simp [message.weight]) w1 h) (fun _ h => h)
    | shutdown_a_slice id =>
      exact Outcome.sat_mono (shutdown_a_slice_work cfg e id _ hcfg hsl)
        (fun _ w1 h => hw _ (by simp [message.weight]; omega) w1 h) (fun _ h => h)
    | have_shutdown_a_slice =>
      exact Outcome.sat_mono (have_shutdown_a_slice_work cfg e _ hcfg)
        (fun _ w1 h => hw _ (by simp [message.weight]; omega) w1 h) (fun _ h => h)
    | shutdown_a_serializer id =>
      exact Outcome.sat_mono (shutdown_a_serializer_work cfg e id _ hcfg)
        (fun _ w1 h => hw _ (by simp [message.weight]) w1 h) (fun _ h => h)
    | have_shutdown_a_serializer =>
      exact Outcome.sat_mono (have_shutdown_a_serializer_work cfg _ hcfg)
        (fun _ w1 h => hw _ (by simp [message.weight]) w1 h) (fun _ h => h)
  | serializer_ready id =>
    exact Outcome.sat_mono (on_serializer_ready_work K cfg e id _ hcfg)
      (fun _ w1 h => hw _ (by simp [message.weight]; omega) w1 h) (fun _ h => h)
  | serializer_shutdown id =>
    exact Outcome.sat_mono (on_serializer_shutdown_work cfg e id _ hcfg)
      (fun _ w1 h => hw _ (by simp [message.weight]) w1 h) (fun _ h => h)
  | cache_completion id op =>
    by_cases hop : op = .shutdown
    · subst hop
      exact Outcome.sat_mono (cache_completion_shutdown_work K cfg e id _ hcfg hsl)
        (fun _ w1 h => hw _ (by simp [message.weight, cache_op.rank]; omega) w1 h)
        (fun _ h => h)
    · refine Outcome.sat_mono (cache_completion_startup_work K cfg e id op _ hop hcfg hsl)
        (fun _ w1 h => ?_) (fun _ h => h)
      have := h.2
      simp only [work] at this herase ⊢
      omega

/-- A protocol whose invariant `Inv` is kept by every delivery, and under which a store
with nothing in flight is in state `st`, reaches `st` within `work` productive
deliveries, unless it aborts. -/
theorem deliveries_terminate (K : constants) (cfg : cmd_config_t) (Inv : world → Prop)
    (st : store_state_t)
    (hcfg : ∀ w, Inv w → w.store.cmd_config = cfg)
    (hsl : ∀ w, Inv w → ∀ id s, w.store.slices id = some s → slice_ok s)
    (hstep : ∀ e k w, Inv w → (deliver K e k w).sat (fun _ w1 => Inv w1) (fun _ => True))
    (hdone : ∀ w, Inv w → w.in_flight = [] → w.store.state = st) :
    ∀ (sched : List (env_t × Nat)) (w : world), Inv w → productive K sched w = true →
      work cfg w ≤ sched.length → (deliveries K sched w).is_ok = true →
      (deliveries K sched w).state.store.state = st := by
  intro sched
  induction sched with
  | nil =>
    intro w hinv _ hlen _
    apply hdone w hinv
    cases hq : w.in_flight with
    | nil => rfl
    | cons m rest =>
      have := message_weight_pos cfg m
      simp only [work, hq, List.map_cons, List.sum_cons, List.length_nil] at hlen
      omega
  | cons ek rest ih =>
    intro w hinv hprod hlen hok
    obtain ⟨e, k⟩ := ek
    cases hq : w.in_flight with
    | nil =>
      rw [deliveries_quiet K _ w hq]
      exact hdone w hinv hq
    | cons m0 rest0 =>
      simp only [productive, hq, List.isEmpty_cons, Bool.or_false, Bool.and_eq_true,
        decide_eq_true_eq] at hprod
      obtain ⟨hk, hprod1⟩ := hprod
      rw [← hq] at hk
      have hget : w.in_flight[k]? = some (w.in_flight.get ⟨k, hk⟩) := by
        simp [List.getElem?_eq_getElem hk]
      have hw := deliver_work K cfg e k w _ hget (hcfg w hinv) (hsl w hinv)
      have hi := hstep e k w hinv
      unfold deliveries at hok ⊢
      cases hrun : deliver K e k w with
      | fatal msg w1 =>
        rw [hrun] at hok
        simp [Outcome.is_ok] at hok
      | ok u w1 =>
        rw [hrun] at hok hw hi hprod1
        simp only [Outcome.sat_ok] at hw hi
        simp only [] at hok hprod1 ⊢
        apply ih w1 hi hprod1 _ hok
        simp only [List.length_cons] at hlen
        omega

theorem startup_terminates (K : constants) (cfg : cmd_config_t) (cb : Option Nat)
    (hN : 0 < cfg.n_slices) (sched : List (env_t × Nat)) (w : world)
    (hinv : startup_inv cfg cb w) (hprod : productive K sched w = true)
    (hlen : work cfg w ≤ sched.length) (hok : (deliveries K sched w).is_ok = true) :
    (deliveries K sched w).state.store.state = .state_ready := by
  refine deliveries_terminate K cfg (startup_inv cfg cb) .state_ready ?_ ?_ ?_ ?_
    sched w hinv hprod hlen hok
  · intro w h
    rcases h with h | h | h
    · exact h.cfg_eq
    · exact h.cfg_eq
    · exact h.cfg_eq
  · intro w h
    rcases h with h | h | h
    · exact h.slices_ok
    · exact h.slices_ok
    · exact h.slices_ok
  · intro e k w h
    exact Outcome.sat_mono (deliver_startup_inv K cfg cb e k w hN h) (fun _ _ h => h)
      (fun _ _ => trivial)
  · intro w h hq
    rcases h with h | h | h
    · have := h.pos
      rw [hq] at this
      simp at this
    · have := h.pos
      rw [hq] at this
      simp at this
    · exact h.state_eq

theorem shutdown_terminates (K : constants) (cfg : cmd_config_t) (cb : Option Nat)
    (hn : 0 < cfg.n_serializers) (sched : List (env_t × Nat)) (w : world)
    (hinv : shutdown_inv cfg cb w) (hprod : productive K sched w = true)
    (hlen : work cfg w ≤ sched.length) (hok : (deliveries K sched w).is_ok = true) :
    (deliveries K sched w).state.store.state = .state_off := by
  refine deliveries_terminate K cfg (shutdown_inv cfg cb) .state_off ?_ ?_ ?_ ?_
    sched w hinv hprod hlen hok
  · intro w h
    rcases h with h | h | h
    · exact h.1.cfg_eq
    · exact h.cfg_eq
    · exact h.cfg_eq
  · intro w h
    rcases h with h | h | h
    · exact h.1.slices_ok
    · exact h.slices_ok
    · exact h.slices_ok
  · intro e k w h
    exact Outcome.sat_mono (deliver_shutdown_inv K cfg cb e k w hn h) (fun _ _ h => h)
      (fun _ _ => trivial)
  · intro w h hq
    rcases h with h | h | h
    · have := h.1.pos
      rw [hq] at this
      simp at this
    · have := h.pos
      rw [hq] at this
      simp at this
    · exact h.state_eq

/-! ### The work that `start` and `shutdown` leave -/

theorem Outcome.sat_and {α σ : Type} {P P1 : α → σ → Prop} {Q Q1 : σ → Prop}
    {o : Outcome α σ} (h : o.sat P Q) (h1 : o.sat P1 Q1) :
    o.sat (fun a s => P a s ∧ P1 a s) (fun s => Q s ∧ Q1 s) := by
  cases o with
  | ok a s => exact ⟨h, h1⟩
  | fatal msg s => exact ⟨h, h1⟩

theorem create_serializers_work (K : constants) (cfg : cmd_config_t) (e : env_t) (w : world)
    (hcfg : w.store.cmd_config = cfg) :
    (create_serializers K e w).sat
      (fun _ w1 => work_within cfg ((3 + 6 * cfg.n_slices) * cfg.n_serializers) w w1)
      (fun _ => True) := by
  subst hcfg
  unfold create_serializers
  simp only []
  have h := for_ids_work w.store.cmd_config
    (fun id => do_on_cpu e (.create_a_serializer_on_this_core id) id
      (create_a_serializer_on_this_core K e id)) (3 + 6 * w.store.cmd_config.n_slices)
    (fun id w1 h1 => do_on_cpu_work w.store.cmd_config e _ id _
      (2 + 6 * w.store.cmd_config.n_slices) w1 h1
      (fun w2 h2 => create_a_serializer_on_this_core_work K w.store.cmd_config e id w2 h2)
      (by simp [message.weight]))
    (List.range w.store.cmd_config.n_serializers)
  split
  · have h1 := h ((w.log .mkdir_data_directory).set_messages_out
      w.store.cmd_config.n_serializers) rfl
    rw [List.length_range] at h1
    exact Outcome.sat_mono h1 (fun _ w2 h2 => ⟨h2.1, by have := h2.2; simpa using this⟩)
      (fun _ h => h)
  · have h1 := h (w.set_messages_out w.store.cmd_config.n_serializers) rfl
    rw [List.length_range] at h1
    exact Outcome.sat_mono h1 (fun _ w2 h2 => ⟨h2.1, by have := h2.2; simpa using this⟩)
      (fun _ h => h)

/-- The work in flight when `start` returns on a store that had nothing in flight. -/
theorem start_work (K : constants) (cfg : cmd_config_t) (e : env_t) (cb : Nat) (w : world)
    (hcfg : w.store.cmd_config = cfg) (hq : w.in_flight = []) :
    (start K e cb w).sat
      (fun _ w1 => work cfg w1 ≤ (3 + 6 * cfg.n_slices) * cfg.n_serializers)
      (fun _ => True) := by
  unfold start
  split
  · trivial
  · simp only []
    have h := create_serializers_work K cfg e
      { w.set_state .state_starting_up with
        store := { (w.set_state .state_starting_up).store with ready_callback := none } } hcfg
    have h0 : work cfg
        { w.set_state .state_starting_up with
          store := { (w.set_state .state_starting_up).store with ready_callback := none } }
        = 0 := by
      simp [work, world.set_state, hq]
    split
    · trivial
    · rename_i u w3 hrun
      rw [hrun] at h
      simp only [Outcome.sat_ok] at h
      have h2 := h.2
      rw [h0] at h2
      split
      · simp only [Outcome.sat_ok]
        omega
      · simp only [Outcome.sat_ok]
        show work cfg w3 ≤ _
        omega

theorem shutdown_slices_work (cfg : cmd_config_t) (cb : Option Nat) (e : env_t)
    (w : world) (hn : 0 < cfg.n_serializers) (hN : 0 < cfg.n_slices)
    (hcfg : w.store.cmd_config = cfg) (hst : w.store.state = .state_shutting_down)
    (hcb : w.store.shutdown_callback = cb)
    (hsl : ∀ id s, w.store.slices id = some s → slice_ok s)
    (htr : trace_ok cfg w.trace) (hnc : ∀ ev ∈ w.trace, ev.is_completion = false)
    (hq : w.in_flight = [])
    (hL : executed_count .have_shutdown_a_slice w.trace = 0)
    (hD : deleted_slices w.trace = 0)
    (hS : executed_count .have_shutdown_a_serializer w.trace = 0) :
    (shutdown_slices e w).sat
      (fun _ w1 => work cfg w1 ≤ (3 + 3 * cfg.n_serializers) * cfg.n_slices)
      (fun _ => True) := by
  unfold shutdown_slices
  refine Outcome.sat_mono
    (for_ids_inv _
      (fun r w1 => (in_phase cfg cb .shutting_down_slices r w1 ∧ slices_to_delete cfg r w1) ∧
        work cfg w1 + (3 + 3 * cfg.n_serializers) * r ≤
          (3 + 3 * cfg.n_serializers) * cfg.n_slices)
      (fun w1 => work cfg w1 ≤ (3 + 3 * cfg.n_serializers) * cfg.n_slices)
      (fun _ => True) ?_ _ _ ?_)
    (fun _ s hs => ?_) (fun s hs => hs)
  · intro id r w1 h1
    split
    · trivial
    · refine do_on_cpu_sat e _ id _
        (fun w2 => (in_phase cfg cb .shutting_down_slices (r + 1) w2 ∧
          slices_to_delete cfg (r + 1) w2) ∧ work cfg w2 = work cfg w1) _ _ _ ?_ ?_ ?_
      · exact ⟨⟨h1.1.1.log _ trivial rfl, h1.1.2.log_plain _ rfl⟩, rfl⟩
      · intro w2 h2
        have ha := Outcome.sat_and (shutdown_a_slice_inv cfg cb e id r w2 hn h2.1.1 h2.1.2)
          (shutdown_a_slice_work cfg e id w2 h2.1.1.cfg_eq h2.1.1.slices_ok)
        refine Outcome.sat_mono ha (fun _ w3 h3 => ?_) (fun _ _ => trivial)
        have hw := h3.2.2
        have hb := h1.2
        rw [h2.2] at hw
        rcases h3.1 with h4 | ⟨h0, _⟩
        · left
          refine ⟨h4, ?_⟩
          simp only [Nat.mul_succ] at hb
          omega
        · right
          refine ⟨h0, ?_⟩
          simp only [Nat.mul_succ] at hb
          omega
      · intro w2 h2
        left
        refine ⟨⟨h2.1.1.send _ rfl, h2.1.2.send_holding _ rfl⟩, ?_⟩
        have hb := h1.2
        simp only [work_send, message.weight, h2.2]
        simp only [Nat.mul_succ] at hb
        omega
  · rw [List.length_range, hcfg]
    refine ⟨⟨⟨hcfg, hst, hcb, hsl, htr, hnc, by simp [hq], by simp [hq]; omega,
      by simp [hq], by simp [hq, phase_t.report, phase_t.total, hL], hS⟩, ?_⟩, ?_⟩
    · unfold slices_to_delete
      simp [hq, hD]
    · simp [work, hq]
  · rcases hs with hs | hs
    · have := hs.2
      omega
    · exact hs

/-- The work in flight when `shutdown` returns on a quiescent store in state ready. -/
theorem shutdown_method_work (cfg : cmd_config_t) (e : env_t) (cb : Nat) (w : world)
    (hn : 0 < cfg.n_serializers) (hN : 0 < cfg.n_slices)
    (hcfg : w.store.cmd_config = cfg) (hst : w.store.state = .state_ready)
    (hsl : ∀ id s, w.store.slices id = some s → slice_ok s)
    (htr : w.trace = []) (hq : w.in_flight = []) :
    (shutdown e cb w).sat
      (fun _ w1 => work cfg w1 ≤ (3 + 3 * cfg.n_serializers) * cfg.n_slices)
      (fun _ => True) := by
  unfold shutdown
  rw [if_neg (by simp [hst])]
  simp only []
  have hcs := shutdown_slices_work cfg none e
    { w.set_state .state_shutting_down with
      store := { (w.set_state .state_shutting_down).store with shutdown_callback := none } }
    hn hN hcfg rfl rfl hsl (by simp [htr, event_ok, trace_ok])
    (by simp [htr, event.is_completion]) hq (by simp [htr])
    (by simp [htr, deleted_slices, event.is_slice_deleted]) (by simp [htr])
  split
  · trivial
  · rename_i u w3 hrun
    rw [hrun] at hcs
    simp only [Outcome.sat_ok] at hcs
    split
    · exact hcs
    · exact hcs

/-! ## Theorems: the shutdown protocol does not abort -/

theorem Outcome.sat_strict {α σ : Type} {P L : α → σ → Prop} {Q : σ → Prop}
    {o : Outcome α σ} (h : o.sat P Q) (h1 : o.sat L (fun _ => False)) :
    o.sat (fun a s => P a s ∧ L a s) (fun _ => False) := by
  cases o with
  | ok a s => exact ⟨h, h1⟩
  | fatal msg s => exact h1

theorem Outcome.is_ok_of_sat {α σ : Type} {P : α → σ → Prop} {o : Outcome α σ}
    (h : o.sat P (fun _ => False)) : o.is_ok = true := by
  cases o with
  | ok a s => rfl
  | fatal msg s => exact h.elim

theorem filterMap_eraseIdx_nodup {α β : Type} (f : α → Option β) (rest : List β) :
    ∀ (l : List α) (k : Nat) (m : α), l[k]? = some m → (l.filterMap f ++ rest).Nodup →
      ((l.eraseIdx k).filterMap f ++ rest).Nodup ∧
      ∀ b, f m = some b → b ∉ (l.eraseIdx k).filterMap f ++ rest := by
  intro l
  induction l with
  | nil => intro k m h; simp at h
  | cons a l ih =>
    intro k m hk hnd
    cases k with
    | zero =>
      simp only [List.getElem?_cons_zero, Option.some.injEq] at hk
      subst hk
      simp only [List.eraseIdx_cons_zero]
      cases hfa : f a with
      | none =>
        rw [List.filterMap_cons_none hfa] at hnd
        exact ⟨hnd, fun b hb => by simp at hb⟩
      | some c =>
        rw [List.filterMap_cons_some hfa, List.cons_append, List.nodup_cons] at hnd
        refine ⟨hnd.2, fun b hb => ?_⟩
        simp only [Option.some.injEq] at hb
        subst hb
        exact hnd.1
    | succ k =>
      simp only [List.getElem?_cons_succ] at hk
      simp only [List.eraseIdx_cons_succ]
      cases hfa : f a with
      | none =>
        rw [List.filterMap_cons_none hfa] at hnd ⊢
        exact ih k m hk hnd
      | some c =>
        rw [List.filterMap_cons_some hfa, List.cons_append, List.nodup_cons] at hnd
        obtain ⟨h1, h2⟩ := ih k m hk hnd.2
        have hsub : ∀ x, x ∈ (l.eraseIdx k).filterMap f ++ rest → x ∈ l.filterMap f ++ rest := by
          intro x hx
          rw [List.mem_append] at hx ⊢
          rcases hx with hx | hx
          · left
            rw [List.mem_filterMap] at hx ⊢
            obtain ⟨y, hy, hfy⟩ := hx
            exact ⟨y, (List.eraseIdx_sublist _ _).subset hy, hfy⟩
          · exact Or.inr hx
        rw [List.filterMap_cons_some hfa, List.cons_append, List.nodup_cons]
        refine ⟨⟨fun hc => hnd.1 (hsub c hc), h1⟩, fun b hb => ?_⟩
        rw [List.mem_cons]
        rintro (rfl | hmem)
        · apply hnd.1
          rw [List.mem_append]
          left
          rw [List.mem_filterMap]
          exact ⟨m, List.getElem?_mem hk, hb⟩
        · exact h2 b hb hmem

theorem slice_in_state_set_slice (w : world) (id id1 : Nat) (so : Option btree_slice_t)
    (st : slice_state_t) (hne : id1 ≠ id) :
    (w.set_slice id so).store.slice_in_state id1 st = w.store.slice_in_state id1 st := by
  unfold btree_key_value_store_t.slice_in_state
  simp [Function.update_apply, hne]

theorem slice_in_state_set_slice_self (w : world) (id : Nat) (s : btree_slice_t)
    (st : slice_state_t) :
    (w.set_slice id (some s)).store.slice_in_state id st = decide (s.state = st) := by
  unfold btree_key_value_store_t.slice_in_state
  simp

theorem slice_in_state_some (store : btree_key_value_store_t) (id : Nat) (st : slice_state_t)
    (h : store.slice_in_state id st = true) :
    ∃ s, store.slices id = some s ∧ s.state = st := by
  unfold btree_key_value_store_t.slice_in_state at h
  cases hs : store.slices id with
  | none => rw [hs] at h; simp at h
  | some s =>
    rw [hs] at h
    exact ⟨s, rfl, by simpa using h⟩

theorem deliverable_congr (m : message) (st st2 : btree_key_value_store_t)
    (hs : st2.slices = st.slices) (hr : st2.serializers = st.serializers) :
    m.deliverable st2 = m.deliverable st := by
  cases m with
  | task t =>
    cases t <;>
      simp [message.deliverable, btree_key_value_store_t.slice_in_state, hs, hr]
  | serializer_ready id => rfl
  | serializer_shutdown id => rfl
  | cache_completion id op =>
    simp [message.deliverable, btree_key_value_store_t.slice_in_state, hs]

theorem slice_in_state_congr (st st2 : btree_key_value_store_t) (id : Nat) (s : slice_state_t)
    (hs : st2.slices = st.slices) : st2.slice_in_state id s = st.slice_in_state id s := by
  simp [btree_key_value_store_t.slice_in_state, hs]

/-- The invariant depends on the slices, the serializers, what is in flight and the
number of slices that have reported, and that number may only have grown. -/
theorem stoppable.unchanged {cfg : cmd_config_t} {S R : List Nat} {w : world}
    (h : stoppable cfg S R w) (w1 : world)
    (hs : w1.store.slices = w.store.slices) (hr : w1.store.serializers = w.store.serializers)
    (hf : w1.in_flight = w.in_flight)
    (ht : executed_count .have_shutdown_a_slice w.trace ≤
      executed_count .have_shutdown_a_slice w1.trace) :
    stoppable cfg S R w1 where
  deliverable := by
    intro m hm
    rw [hf] at hm
    rw [deliverable_congr m _ _ hs hr]
    exact h.deliverable m hm
  slice_refs := by rw [hf]; exact h.slice_refs
  slices_ready := by
    intro id hid
    rw [slice_in_state_congr _ _ id _ hs]
    exact h.slices_ready id hid
  serializer_refs := by rw [hf]; exact h.serializer_refs
  serializers_there := by
    intro id hid
    rw [hr]
    exact h.serializers_there id hid
  serializers_kept := by
    intro hlt id hid
    rw [hr]
    exact h.serializers_kept (lt_of_le_of_lt ht hlt) id hid

theorem stoppable.logged {cfg : cmd_config_t} {S R : List Nat} {w : world}
    (h : stoppable cfg S R w) (ev : event) : stoppable cfg S R (w.log ev) :=
  h.unchanged _ rfl rfl rfl (by simp)

theorem stoppable.sent {cfg : cmd_config_t} {S R : List Nat} {w : world}
    (h : stoppable cfg S R w) (m : message) (hd : m.deliverable w.store = true)
    (hs : ∀ id, m.slice_ref = some id → id ∉ w.in_flight.filterMap message.slice_ref ++ S)
    (hr : ∀ id, m.serializer_ref = some id →
      id ∉ w.in_flight.filterMap message.serializer_ref ++ R) :
    stoppable cfg S R (w.send m) where
  deliverable := by
    intro m1 hm1
    simp only [world.send_in_flight, List.mem_append, List.mem_singleton] at hm1
    rcases hm1 with hm1 | rfl
    · exact h.deliverable m1 hm1
    · exact hd
  slice_refs := by
    simp only [world.send_in_flight, List.filterMap_append]
    cases hm : m.slice_ref with
    | none =>
      simp only [List.filterMap_cons_none hm, List.filterMap_nil, List.append_nil]
      exact h.slice_refs
    | some id =>
      simp only [List.filterMap_cons_some hm, List.filterMap_nil, List.append_assoc,
        List.singleton_append]
      exact List.nodup_middle.mpr (List.nodup_cons.mpr ⟨hs id hm, h.slice_refs⟩)
  slices_ready := h.slices_ready
  serializer_refs := by
    simp only [world.send_in_flight, List.filterMap_append]
    cases hm : m.serializer_ref with
    | none =>
      simp only [List.filterMap_cons_none hm, List.filterMap_nil, List.append_nil]
      exact h.serializer_refs
    | some id =>
      simp only [List.filterMap_cons_some hm, List.filterMap_nil, List.append_assoc,
        List.singleton_append]
      exact List.nodup_middle.mpr (List.nodup_cons.mpr ⟨hr id hm, h.serializer_refs⟩)
  serializers_there := h.serializers_there
  serializers_kept := h.serializers_kept
theorem deliverable_set_slice (w : world) (id : Nat) (so : Option btree_slice_t) (m : message)
    (hne : ∀ id1, m.slice_ref = some id1 → id1 ≠ id) :
    m.deliverable (w.set_slice id so).store = m.deliverable w.store := by
  cases m with
  | task t =>
    cases t <;> simp only [message.deliverable, world.set_slice_serializers]
    rename_i id1
    exact slice_in_state_set_slice w id id1 so _ (hne id1 rfl)
  | serializer_ready id1 => rfl
  | serializer_shutdown id1 => rfl
  | cache_completion id1 op =>
    simp only [message.deliverable]
    exact slice_in_state_set_slice w id id1 so _ (hne id1 rfl)

/-- Assignment to `slices[id]`, for a slice that no message and no later iteration acts
on. -/
theorem stoppable.slice_set {cfg : cmd_config_t} {S R : List Nat} {w : world}
    (h : stoppable cfg S R w) (id : Nat) (so : Option btree_slice_t)
    (hid : id ∉ w.in_flight.filterMap message.slice_ref ++ S) :
    stoppable cfg S R (w.set_slice id so) where
  deliverable := by
    intro m hm
    simp only [world.set_slice_in_flight] at hm
    rw [deliverable_set_slice w id so m]
    · exact h.deliverable m hm
    · intro id1 href heq
      apply hid
      rw [List.mem_append]
      left
      rw [List.mem_filterMap]
      exact ⟨m, hm, by rw [href, heq]⟩
  slice_refs := h.slice_refs
  slices_ready := by
    intro id1 hid1
    rw [slice_in_state_set_slice w id id1 so _]
    · exact h.slices_ready id1 hid1
    · rintro rfl
      exact hid (List.mem_append_right _ hid1)
  serializer_refs := h.serializer_refs
  serializers_there := h.serializers_there
  serializers_kept := h.serializers_kept

theorem deliverable_set_serializer_some (w : world) (id : Nat) (ser : serializer_t)
    (m : message) (hd : m.deliverable w.store = true) :
    m.deliverable (w.set_serializer id (some ser)).store = true := by
  cases m with
  | task t =>
    cases t <;> try exact hd
    rename_i id1
    simp only [message.deliverable, world.set_serializer_serializers, Function.update_apply]
      at hd ⊢
    split
    · rfl
    · exact hd
  | serializer_ready id1 => rfl
  | serializer_shutdown id1 => rfl
  | cache_completion id1 op => exact hd

/-- Assignment of a serializer to `serializers[id]`. -/
theorem stoppable.serializer_set_some {cfg : cmd_config_t} {S R : List Nat} {w : world}
    (h : stoppable cfg S R w) (id : Nat) (ser : serializer_t) :
    stoppable cfg S R (w.set_serializer id (some ser)) where
  deliverable := by
    intro m hm
    exact deliverable_set_serializer_some w id ser m (h.deliverable m hm)
  slice_refs := h.slice_refs
  slices_ready := h.slices_ready
  serializer_refs := h.serializer_refs
  serializers_there := by
    intro id1 hid1
    simp only [world.set_serializer_serializers, Function.update_apply]
    split
    · rfl
    · exact h.serializers_there id1 hid1
  serializers_kept := by
    intro hlt id1 hid1
    simp only [world.set_serializer_serializers, Function.update_apply]
    split
    · rfl
    · exact h.serializers_kept hlt id1 hid1

theorem deliverable_set_serializer (w : world) (id : Nat) (so : Option serializer_t)
    (m : message) (hne : ∀ id1, m.serializer_ref = some id1 → id1 ≠ id) :
    m.deliverable (w.set_serializer id so).store = m.deliverable w.store := by
  cases m with
  | task t =>
    cases t <;> try rfl
    rename_i id1
    simp only [message.deliverable, world.set_serializer_serializers, Function.update_apply,
      if_neg (hne id1 rfl)]
  | serializer_ready id1 => rfl
  | serializer_shutdown id1 => rfl
  | cache_completion id1 op => rfl

/-- Destruction of serializer `id`, which no message and no later iteration acts on,
once every slice has reported. -/
theorem stoppable.serializer_deleted {cfg : cmd_config_t} {S R : List Nat} {w : world}
    (h : stoppable cfg S R w) (id : Nat)
    (hid : id ∉ w.in_flight.filterMap message.serializer_ref ++ R)
    (hall : executed_count .have_shutdown_a_slice w.trace = cfg.n_slices) :
    stoppable cfg S R (w.set_serializer id none) where
  deliverable := by
    intro m hm
    simp only [world.set_serializer_in_flight] at hm
    rw [deliverable_set_serializer w id none m]
    · exact h.deliverable m hm
    · intro id1 href heq
      apply hid
      rw [List.mem_append]
      left
      rw [List.mem_filterMap]
      exact ⟨m, hm, by rw [href, heq]⟩
  slice_refs := h.slice_refs
  slices_ready := h.slices_ready
  serializer_refs := h.serializer_refs
  serializers_there := by
    intro id1 hid1
    have hne : id1 ≠ id := by
      rintro rfl
      exact hid (List.mem_append_right _ hid1)
    simp only [world.set_serializer_serializers, Function.update_apply, if_neg hne]
    exact h.serializers_there id1 hid1
  serializers_kept := by
    intro hlt
    simp only [world.set_serializer_trace] at hlt
    omega

/-- A message is taken out of what is in flight: it finds what its handler needs, and
nothing else acts on its slice or serializer. -/
theorem stoppable.taken {cfg : cmd_config_t} {w : world}
    (h : stoppable cfg [] [] w) (k : Nat) (m : message) (hk : w.in_flight[k]? = some m) :
    stoppable cfg [] [] { w with in_flight := w.in_flight.eraseIdx k } ∧
      m.deliverable w.store = true ∧
      (∀ id, m.slice_ref = some id →
        id ∉ (w.in_flight.eraseIdx k).filterMap message.slice_ref ++ []) ∧
      (∀ id, m.serializer_ref = some id →
        id ∉ (w.in_flight.eraseIdx k).filterMap message.serializer_ref ++ []) := by
  obtain ⟨s1, s2⟩ := filterMap_eraseIdx_nodup message.slice_ref [] w.in_flight k m hk
    h.slice_refs
  obtain ⟨r1, r2⟩ := filterMap_eraseIdx_nodup message.serializer_ref [] w.in_flight k m hk
    h.serializer_refs
  refine ⟨⟨?_, s1, h.slices_ready, r1, h.serializers_there, h.serializers_kept⟩,
    h.deliverable m (List.getElem?_mem hk), s2, r2⟩
  intro m1 hm1
  exact h.deliverable m1 ((List.eraseIdx_sublist _ _).subset hm1)

/-- The loop over the slices reaches slice `id`. -/
theorem stoppable.next_slice {cfg : cmd_config_t} {S R : List Nat} {w : world} {id : Nat}
    (h : stoppable cfg (id :: S) R w) :
    stoppable cfg S R w ∧ w.store.slice_in_state id .state_ready = true ∧
      id ∉ w.in_flight.filterMap message.slice_ref ++ S := by
  have hnd := List.nodup_middle.mp h.slice_refs
  rw [List.nodup_cons] at hnd
  exact ⟨⟨h.deliverable, hnd.2, fun id1 hid1 => h.slices_ready id1 (List.mem_cons_of_mem _ hid1),
    h.serializer_refs, h.serializers_there, h.serializers_kept⟩,
    h.slices_ready id (List.mem_cons_self _ _), hnd.1⟩

/-- The loop over the serializers reaches serializer `id`. -/
theorem stoppable.next_serializer {cfg : cmd_config_t} {S R : List Nat} {w : world} {id : Nat}
    (h : stoppable cfg S (id :: R) w) :
    stoppable cfg S R w ∧ (w.store.serializers id).isSome = true ∧
      id ∉ w.in_flight.filterMap message.serializer_ref ++ R := by
  have hnd := List.nodup_middle.mp h.serializer_refs
  rw [List.nodup_cons] at hnd
  exact ⟨⟨h.deliverable, h.slice_refs, h.slices_ready, hnd.2,
    fun id1 hid1 => h.serializers_there id1 (List.mem_cons_of_mem _ hid1), h.serializers_kept⟩,
    h.serializers_there id (List.mem_cons_self _ _), hnd.1⟩

theorem slice_shutdown_ok (o : cache_oracle) (s : btree_slice_t)
    (hst : s.state = .state_ready) (hp : s.cache.pending = none) :
    ∃ r s1, btree_slice_t.shutdown o s = .ok r s1 ∧
      ((r.done = true ∧ s1.state = .state_shut_down ∧ s1.cache.pending = none) ∨
        (r.done = false ∧ s1.state = .state_shutting_down_waiting_for_cache ∧
          s1.cache.pending = some .shutdown)) := by
  obtain ⟨o1, o2, o3, o4, o5⟩ := o
  cases o5
  · simp [btree_slice_t.shutdown, hst, btree_slice_t.next_shutting_down_step,
      btree_slice_t.step_shutting_down_finish, cache_t.call_op, hp]
    exact ⟨_, _, ⟨rfl, rfl⟩, Or.inr ⟨rfl, rfl, rfl⟩⟩
  · simp [btree_slice_t.shutdown, hst, btree_slice_t.next_shutting_down_step,
      btree_slice_t.step_shutting_down_finish, cache_t.call_op, hp]
    exact ⟨_, _, ⟨rfl, rfl⟩, Or.inl ⟨rfl, rfl, rfl⟩⟩

theorem slice_cache_shutdown_ok (nil : Nat) (o : cache_oracle) (s : btree_slice_t)
    (hst : s.state = .state_shutting_down_waiting_for_cache)
    (hcb : s.shutdown_callback = true) :
    ∃ r s1, btree_slice_t.cache_callback nil o .shutdown s = .ok r s1 ∧
      r.upcall = some .on_slice_shutdown ∧ s1.state = .state_shut_down ∧
      s1.cache.pending = none := by
  simp [btree_slice_t.cache_callback, btree_slice_t.on_cache_shutdown, hst,
    btree_slice_t.next_shutting_down_step, btree_slice_t.step_shutting_down_finish, hcb]
  exact ⟨_, _, ⟨rfl, rfl⟩, rfl, rfl, rfl⟩

theorem slice_ready_idle (s : btree_slice_t) (hs : slice_ok s) (hst : s.state = .state_ready) :
    s.cache.pending = none := by
  by_contra hne
  have := hs.2.2.2 hne
  rw [hst] at this
  simp [slice_state_t.waiting] at this
theorem for_ids_strict (body : Nat → world → Outcome Unit world)
    (Inv : List Nat → world → Prop) (Done : world → Prop)
    (hbody : ∀ id rest w, Inv (id :: rest) w →
      (body id w).sat (fun _ w1 => Inv rest w1 ∨ (rest = [] ∧ Done w1)) (fun _ => False)) :
    ∀ ids w, Inv ids w →
      (for_ids body ids w).sat (fun _ w1 => Inv [] w1 ∨ Done w1) (fun _ => False) := by
  intro ids
  induction ids with
  | nil =>
    intro w h
    exact Or.inl h
  | cons id rest ih =>
    intro w h
    have hb := hbody id rest w h
    unfold for_ids
    cases hrun : body id w with
    | fatal msg w1 =>
      rw [hrun] at hb
      exact hb
    | ok u w1 =>
      rw [hrun] at hb
      simp only [Outcome.sat_ok] at hb
      rcases hb with hb | ⟨h0, hd⟩
      · exact ih w1 hb
      · subst h0
        exact Or.inr hd

theorem finish_shutdown_stoppable (cfg : cmd_config_t) (S R : List Nat) (w : world)
    (hst : w.store.state = .state_shutting_down) (h : stoppable cfg S R w) :
    (finish_shutdown w).sat (fun _ w1 => stoppable cfg S R w1) (fun _ => False) := by
  have h1 : stoppable cfg S R (w.set_state .state_off) := h.unchanged _ rfl rfl rfl (by simp)
  unfold finish_shutdown
  rw [if_neg (by simp [hst])]
  simp only []
  split
  · exact h1.logged _
  · exact h1

theorem have_shutdown_a_serializer_stoppable (cfg : cmd_config_t) (cb : Option Nat)
    (S R : List Nat) (r : Nat) (w : world)
    (hp : in_phase cfg cb .shutting_down_serializers (r + 1) w) (h : stoppable cfg S R w) :
    (have_shutdown_a_serializer w).sat (fun _ w1 => stoppable cfg S R w1) (fun _ => False) := by
  have h1 : stoppable cfg S R
      ((w.log (.executed .have_shutdown_a_serializer)).set_messages_out
        (w.store.messages_out - 1)) :=
    (h.logged _).unchanged _ rfl rfl rfl (le_refl _)
  unfold have_shutdown_a_serializer
  simp only []
  split
  · rw [Outcome.sat_then_return]
    exact finish_shutdown_stoppable cfg S R _ (by simpa using hp.state_eq) h1
  · exact h1

theorem on_serializer_shutdown_stoppable (cfg : cmd_config_t) (cb : Option Nat) (e : env_t)
    (id r : Nat) (S R : List Nat) (w : world)
    (hp : in_phase cfg cb .shutting_down_serializers (r + 1) w) (h : stoppable cfg S R w)
    (hid : id ∉ w.in_flight.filterMap message.serializer_ref ++ R) :
    (on_serializer_shutdown e id w).sat (fun _ w1 => stoppable cfg S R w1)
      (fun _ => False) := by
  have hent := hp.entered
  simp only [phase_t.entered] at hent
  unfold on_serializer_shutdown
  refine do_on_cpu_sat e _ id _
    (fun w1 => in_phase cfg cb .shutting_down_serializers (r + 1) w1 ∧ stoppable cfg S R w1)
    _ _ _ ?_ ?_ ?_
  · exact ⟨((hp.set_serializer id none).log (.serializer_deleted id) trivial rfl).log _
        trivial rfl,
      ((h.serializer_deleted id hid hent.1).logged _).logged _⟩
  · intro w1 h1
    exact have_shutdown_a_serializer_stoppable cfg cb S R r w1 h1.1 h1.2
  · intro w1 h1
    exact h1.2.sent _ rfl (fun id1 hm => by simp [message.slice_ref] at hm)
      (fun id1 hm => by simp [message.serializer_ref] at hm)

theorem shutdown_a_serializer_stoppable (cfg : cmd_config_t) (cb : Option Nat) (e : env_t)
    (id r : Nat) (S R : List Nat) (w : world)
    (hp : in_phase cfg cb .shutting_down_serializers (r + 1) w) (h : stoppable cfg S R w)
    (hthere : (w.store.serializers id).isSome = true)
    (hid : id ∉ w.in_flight.filterMap message.serializer_ref ++ R) :
    (shutdown_a_serializer e id w).sat (fun _ w1 => stoppable cfg S R w1)
      (fun _ => False) := by
  have hp0 := hp.log (.executed (.shutdown_a_serializer id)) trivial rfl
  have h0 := h.logged (.executed (.shutdown_a_serializer id))
  unfold shutdown_a_serializer
  simp only []
  split
  · rename_i hnone
    simp only [world.log_store] at hnone
    rw [hnone] at hthere
    simp at hthere
  · rename_i ser hser
    split
    · rw [Outcome.sat_then_return]
      exact on_serializer_shutdown_stoppable cfg cb e id r S R _ (hp0.set_serializer id _)
        (h0.serializer_set_some id _) hid
    · refine (h0.serializer_set_some id _).sent _ rfl
        (fun id1 hm => by simp [message.slice_ref] at hm) (fun id1 hm => ?_)
      simp only [message.serializer_ref, Option.some.injEq] at hm
      subst hm
      exact hid

theorem shutdown_serializers_stoppable (cfg : cmd_config_t) (cb : Option Nat) (e : env_t)
    (S : List Nat) (w : world) (hn : 0 < cfg.n_serializers)
    (hcfg : w.store.cmd_config = cfg) (hst : w.store.state = .state_shutting_down)
    (hcb : w.store.shutdown_callback = cb)
    (hsl : ∀ id s, w.store.slices id = some s → slice_ok s)
    (htr : trace_ok cfg w.trace) (hnc : ∀ ev ∈ w.trace, ev.is_completion = false)
    (hq : w.in_flight = [])
    (hL : executed_count .have_shutdown_a_slice w.trace = cfg.n_slices)
    (hD : deleted_slices w.trace = cfg.n_slices)
    (hS : executed_count .have_shutdown_a_serializer w.trace = 0)
    (h : stoppable cfg S [] w)
    (hall : ∀ id, id < cfg.n_serializers → (w.store.serializers id).isSome = true) :
    (shutdown_serializers e w).sat (fun _ w1 => stoppable cfg S [] w1) (fun _ => False) := by
  unfold shutdown_serializers
  refine Outcome.sat_mono
    (for_ids_strict _
      (fun rest w1 => in_phase cfg cb .shutting_down_serializers rest.length w1 ∧
        stoppable cfg S rest w1)
      (fun w1 => stoppable cfg S [] w1) ?_ _ _ ?_)
    (fun _ s hs => hs.elim (fun x => x.2) id) (fun _ hs => hs)
  · intro id rest w1 h1
    have hp1 : in_phase cfg cb .shutting_down_serializers (rest.length + 1) w1 := h1.1
    obtain ⟨h2, hthere, hid⟩ := h1.2.next_serializer
    split
    · rename_i hnone
      rw [hnone] at hthere
      simp at hthere
    · have hA := do_on_cpu_inv e (.shutdown_a_serializer id) id (shutdown_a_serializer e id)
        (fun w2 => in_phase cfg cb .shutting_down_serializers rest.length w2 ∨
          (rest.length = 0 ∧ completed cfg cb .state_off w2))
        (fun w2 => trace_ok cfg w2.trace) hp1 hp1.entered rfl
        (fun w2 hw2 => shutdown_a_serializer_inv cfg cb e id rest.length w2 hw2)
        (fun _ hw2 => Or.inl hw2)
      have hB : (do_on_cpu e (.shutdown_a_serializer id) id (shutdown_a_serializer e id)
          w1).sat (fun _ w2 => stoppable cfg S rest w2) (fun _ => False) := by
        refine do_on_cpu_sat e _ id _
          (fun w2 => in_phase cfg cb .shutting_down_serializers (rest.length + 1) w2 ∧
            stoppable cfg S rest w2 ∧ (w2.store.serializers id).isSome = true ∧
            id ∉ w2.in_flight.filterMap message.serializer_ref ++ rest) _ _ _ ?_ ?_ ?_
        · exact ⟨hp1.log _ hp1.entered rfl, h2.logged _, hthere, hid⟩
        · intro w2 hw2
          exact shutdown_a_serializer_stoppable cfg cb e id rest.length S rest w2 hw2.1
            hw2.2.1 hw2.2.2.1 hw2.2.2.2
        · intro w2 hw2
          refine hw2.2.1.sent _ hw2.2.2.1
            (fun id1 hm => by simp [message.slice_ref] at hm) (fun id1 hm => ?_)
          simp only [message.serializer_ref, Option.some.injEq] at hm
          subst hm
          exact hw2.2.2.2
      refine Outcome.sat_mono (Outcome.sat_strict hA hB) (fun _ s hs => ?_) (fun _ hs => hs)
      rcases hs.1 with hin | ⟨h0, _⟩
      · exact Or.inl ⟨hin, hs.2⟩
      · have hrest : rest = [] := List.eq_nil_of_length_eq_zero h0
        subst hrest
        exact Or.inr ⟨rfl, hs.2⟩
  · beta_reduce
    rw [List.length_range, hcfg]
    refine ⟨⟨hcfg, hst, hcb, hsl, htr, hnc, by simp [hq], by simp [hq]; omega,
      by simp [hq], by simp [hq, phase_t.report, phase_t.total, hS], ⟨hL, hD⟩⟩, ?_⟩
    refine ⟨?_, ?_, h.slices_ready, ?_, ?_, h.serializers_kept⟩
    · intro m hm
      simp [hq] at hm
    · simpa [hq] using h.slice_refs
    · simp [hq, List.nodup_range]
    · intro id hid
      exact hall id (List.mem_range.mp hid)
theorem have_shutdown_a_slice_stoppable (cfg : cmd_config_t) (cb : Option Nat) (e : env_t)
    (r : Nat) (S : List Nat) (w : world) (hn : 0 < cfg.n_serializers)
    (hp : in_phase cfg cb .shutting_down_slices (r + 1) w) (hd : slices_to_delete cfg r w)
    (h : stoppable cfg S [] w) :
    (have_shutdown_a_slice e w).sat (fun _ w1 => stoppable cfg S [] w1) (fun _ => False) := by
  have hmo := hp.mo
  have hrep := hp.reports
  have hent := hp.entered
  simp only [phase_t.report, phase_t.total, phase_t.entered] at hrep hent
  have h1 : stoppable cfg S []
      ((w.log (.executed .have_shutdown_a_slice)).set_messages_out
        (w.store.messages_out - 1)) :=
    (h.logged _).unchanged _ rfl rfl rfl (le_refl _)
  have hall : ∀ id, id < cfg.n_serializers → (w.store.serializers id).isSome = true :=
    h.serializers_kept (by omega)
  unfold have_shutdown_a_slice
  simp only [world.set_mo_mo, world.log_store]
  split
  · rename_i h0
    have hr : r = 0 := by omega
    have hq : w.in_flight = [] := by
      apply List.eq_nil_of_length_eq_zero
      omega
    have hD : deleted_slices w.trace = cfg.n_slices := by
      unfold slices_to_delete at hd
      rw [hq, hr] at hd
      simpa using hd
    rw [Outcome.sat_then_return]
    refine shutdown_serializers_stoppable cfg cb e S _ hn ?_ ?_ ?_ ?_ ?_ ?_ ?_ ?_ ?_ ?_ h1 hall
    · simpa using hp.cfg_eq
    · simpa using hp.state_eq
    · simpa using hp.cb_eq
    · simpa using hp.slices_ok
    · simpa [event_ok] using hp.tr_ok
    · intro ev hev
      simp at hev
      rcases hev with rfl | hev
      · rfl
      · exact hp.no_completion ev hev
    · simpa using hq
    · simp
      omega
    · simpa [event.is_slice_deleted] using hD
    · simpa using hent
  · exact h1

theorem on_slice_shutdown_stoppable (cfg : cmd_config_t) (cb : Option Nat) (e : env_t)
    (id r : Nat) (S : List Nat) (w : world) (hn : 0 < cfg.n_serializers)
    (hp : in_phase cfg cb .shutting_down_slices (r + 1) w)
    (hd : slices_to_delete cfg (r + 1) w) (h : stoppable cfg S [] w)
    (hs : w.store.slice_in_state id .state_shut_down = true)
    (hid : id ∉ w.in_flight.filterMap message.slice_ref ++ S) :
    (on_slice_shutdown e id w).sat (fun _ w1 => stoppable cfg S [] w1) (fun _ => False) := by
  obtain ⟨s, hsl, hstate⟩ := slice_in_state_some _ _ _ hs
  unfold on_slice_shutdown
  split
  · rename_i hnone
    rw [hnone] at hsl
    cases hsl
  · rename_i s1 hs1
    rw [hs1] at hsl
    have hss : s1 = s := Option.some.inj hsl
    subst hss
    have hdtor : s1.destructor_ok = true := by
      simp [btree_slice_t.destructor_ok, hstate]
    rw [if_pos hdtor]
    refine do_on_cpu_sat e _ id _
      (fun w1 => in_phase cfg cb .shutting_down_slices (r + 1) w1 ∧
        slices_to_delete cfg r w1 ∧ stoppable cfg S [] w1) _ _ _ ?_ ?_ ?_
    · exact ⟨((hp.set_slice id none (by simp)).log_slice_deleted id).log _ trivial rfl,
        ((hd.slice_assigned id none).slice_deleted_logged id).log_plain _ rfl,
        ((h.slice_set id none hid).logged _).logged _⟩
    · intro w1 h1
      exact have_shutdown_a_slice_stoppable cfg cb e r S w1 hn h1.1 h1.2.1 h1.2.2
    · intro w1 h1
      exact h1.2.2.sent _ rfl (fun id1 hm => by simp [message.slice_ref] at hm)
        (fun id1 hm => by simp [message.serializer_ref] at hm)

theorem shutdown_a_slice_stoppable (cfg : cmd_config_t) (cb : Option Nat) (e : env_t)
    (id r : Nat) (S : List Nat) (w : world) (hn : 0 < cfg.n_serializers)
    (hp : in_phase cfg cb .shutting_down_slices (r + 1) w)
    (hd : slices_to_delete cfg (r + 1) w) (h : stoppable cfg S [] w)
    (hs : w.store.slice_in_state id .state_ready = true)
    (hid : id ∉ w.in_flight.filterMap message.slice_ref ++ S) :
    (shutdown_a_slice e id w).sat (fun _ w1 => stoppable cfg S [] w1) (fun _ => False) := by
  have hp0 := hp.log (.executed (.shutdown_a_slice id)) trivial rfl
  have hd0 := hd.log_plain (.executed (.shutdown_a_slice id)) rfl
  have h0 := h.logged (.executed (.shutdown_a_slice id))
  obtain ⟨s, hsl, hstate⟩ := slice_in_state_some _ _ _ hs
  unfold shutdown_a_slice
  simp only []
  split
  · rename_i hnone
    simp only [world.log_store] at hnone
    rw [hnone] at hsl
    cases hsl
  · rename_i s0 hs0
    have hs0w : w.store.slices id = some s0 := hs0
    rw [hs0w] at hsl
    have hss : s0 = s := Option.some.inj hsl
    subst hss
    have hok := hp0.slices_ok id s0 hs0
    have hsp := slice_shutdown_spec (e.cache id) s0 hok
    obtain ⟨r1, s1, hrun, hcase⟩ :=
      slice_shutdown_ok (e.cache id) s0 hstate (slice_ready_idle s0 hok hstate)
    rw [hrun] at hsp
    simp only [Outcome.sat_ok] at hsp
    rw [hrun]
    simp only []
    have hp1 := hp0.set_slice id (some s1) (fun s hs => by cases hs; exact hsp.1)
    have hd1 := hd0.slice_assigned id (some s1)
    have h1 := h0.slice_set id (some s1) hid
    rcases hcase with ⟨hdone, hst1, hpend⟩ | ⟨hdone, hst1, hpend⟩
    · rw [world.await_cache_none _ _ _ hpend]
      simp only [hdone, if_true, Outcome.sat_then_return]
      refine on_slice_shutdown_stoppable cfg cb e id r S _ hn hp1 hd1 h1 ?_ hid
      rw [slice_in_state_set_slice_self]
      simp [hst1]
    · rw [world.await_cache_some _ _ _ _ hpend]
      simp only [hdone, Bool.false_eq_true, if_false, Outcome.sat_ok]
      refine h1.sent _ ?_ (fun id1 hm => ?_)
        (fun id1 hm => by simp [message.serializer_ref] at hm)
      · simp only [message.deliverable]
        rw [slice_in_state_set_slice_self]
        simp [hst1]
      · simp only [message.slice_ref, Option.some.injEq] at hm
        subst hm
        exact hid

theorem cache_completion_shutdown_stoppable (K : constants) (cfg : cmd_config_t)
    (cb : Option Nat) (e : env_t) (id r : Nat) (S : List Nat) (w : world)
    (hn : 0 < cfg.n_serializers)
    (hp : in_phase cfg cb .shutting_down_slices (r + 1) w)
    (hd : slices_to_delete cfg (r + 1) w) (h : stoppable cfg S [] w)
    (hs : w.store.slice_in_state id .state_shutting_down_waiting_for_cache = true)
    (hid : id ∉ w.in_flight.filterMap message.slice_ref ++ S) :
    (cache_completion K e id .shutdown w).sat (fun _ w1 => stoppable cfg S [] w1)
      (fun _ => False) := by
  obtain ⟨s, hsl, hstate⟩ := slice_in_state_some _ _ _ hs
  unfold cache_completion
  split
  · rename_i hnone
    rw [hnone] at hsl
    cases hsl
  · rename_i s0 hs0
    rw [hs0] at hsl
    have hss : s0 = s := Option.some.inj hsl
    subst hss
    have hok := hp.slices_ok id s0 hs0
    have hsp := slice_cache_callback_shutdown_spec K.NULL_BLOCK_ID (e.cache id) s0 hok
    obtain ⟨r1, s1, hrun, hup, hst1, hpend⟩ :=
      slice_cache_shutdown_ok K.NULL_BLOCK_ID (e.cache id) s0 hstate (hok.2.2.1 hstate)
    rw [hrun] at hsp
    simp only [Outcome.sat_ok] at hsp
    rw [hrun]
    simp only []
    have hp1 := hp.set_slice id (some s1) (fun s hs => by cases hs; exact hsp.1)
    have hd1 := hd.slice_assigned id (some s1)
    have h1 := h.slice_set id (some s1) hid
    rw [world.await_cache_none _ _ _ hpend]
    simp only [hup]
    refine on_slice_shutdown_stoppable cfg cb e id r S _ hn hp1 hd1 h1 ?_ hid
    rw [slice_in_state_set_slice_self]
    simp [hst1]

theorem shutdown_slices_stoppable (cfg : cmd_config_t) (cb : Option Nat) (e : env_t)
    (w : world) (hn : 0 < cfg.n_serializers) (hN : 0 < cfg.n_slices)
    (hcfg : w.store.cmd_config = cfg) (hst : w.store.state = .state_shutting_down)
    (hcb : w.store.shutdown_callback = cb)
    (hsl : ∀ id s, w.store.slices id = some s → slice_ok s)
    (htr : trace_ok cfg w.trace) (hnc : ∀ ev ∈ w.trace, ev.is_completion = false)
    (hq : w.in_flight = [])
    (hL : executed_count .have_shutdown_a_slice w.trace = 0)
    (hD : deleted_slices w.trace = 0)
    (hS : executed_count .have_shutdown_a_serializer w.trace = 0)
    (hstarted : store_started cfg w.store) :
    (shutdown_slices e w).sat (fun _ w1 => stoppable cfg [] [] w1) (fun _ => False) := by
  unfold shutdown_slices
  refine Outcome.sat_mono
    (for_ids_strict _
      (fun rest w1 => in_phase cfg cb .shutting_down_slices rest.length w1 ∧
        slices_to_delete cfg rest.length w1 ∧ stoppable cfg rest [] w1)
      (fun w1 => stoppable cfg [] [] w1) ?_ _ _ ?_)
    (fun _ s hs => hs.elim (fun x => x.2.2) id) (fun _ hs => hs)
  · intro id rest w1 h1
    have hp1 : in_phase cfg cb .shutting_down_slices (rest.length + 1) w1 := h1.1
    have hd1 : slices_to_delete cfg (rest.length + 1) w1 := h1.2.1
    obtain ⟨h2, hready, hid⟩ := h1.2.2.next_slice
    obtain ⟨s, hs, _⟩ := slice_in_state_some _ _ _ hready
    split
    · rename_i hnone
      rw [hnone] at hs
      cases hs
    · have hA : (do_on_cpu e (.shutdown_a_slice id) id (shutdown_a_slice e id) w1).sat
          (fun _ w2 => (in_phase cfg cb .shutting_down_slices rest.length w2 ∧
            slices_to_delete cfg rest.length w2) ∨
            (rest.length = 0 ∧ shutdown_inv cfg cb w2))
          (fun w2 => trace_ok cfg w2.trace) := by
        refine do_on_cpu_sat e _ id _
          (fun w2 => in_phase cfg cb .shutting_down_slices (rest.length + 1) w2 ∧
            slices_to_delete cfg (rest.length + 1) w2) _ _ _ ?_ ?_ ?_
        · exact ⟨hp1.log _ trivial rfl, hd1.log_plain _ rfl⟩
        · intro w2 hw2
          exact shutdown_a_slice_inv cfg cb e id rest.length w2 hn hw2.1 hw2.2
        · intro w2 hw2
          exact Or.inl ⟨hw2.1.send _ rfl, hw2.2.send_holding _ rfl⟩
      have hB : (do_on_cpu e (.shutdown_a_slice id) id (shutdown_a_slice e id) w1).sat
          (fun _ w2 => stoppable cfg rest [] w2) (fun _ => False) := by
        refine do_on_cpu_sat e _ id _
          (fun w2 => in_phase cfg cb .shutting_down_slices (rest.length + 1) w2 ∧
            slices_to_delete cfg (rest.length + 1) w2 ∧ stoppable cfg rest [] w2 ∧
            w2.store.slice_in_state id .state_ready = true ∧
            id ∉ w2.in_flight.filterMap message.slice_ref ++ rest) _ _ _ ?_ ?_ ?_
        · exact ⟨hp1.log _ trivial rfl, hd1.log_plain _ rfl, h2.logged _, hready, hid⟩
        · intro w2 hw2
          exact shutdown_a_slice_stoppable cfg cb e id rest.length rest w2 hn hw2.1 hw2.2.1
            hw2.2.2.1 hw2.2.2.2.1 hw2.2.2.2.2
        · intro w2 hw2
          refine hw2.2.2.1.sent _ hw2.2.2.2.1 (fun id1 hm => ?_)
            (fun id1 hm => by simp [message.serializer_ref] at hm)
          simp only [message.slice_ref, Option.some.injEq] at hm
          subst hm
          exact hw2.2.2.2.2
      refine Outcome.sat_mono (Outcome.sat_strict hA hB) (fun _ s hs => ?_) (fun _ hs => hs)
      rcases hs.1 with hin | ⟨h0, _⟩
      · exact Or.inl ⟨hin.1, hin.2, hs.2⟩
      · have hrest : rest = [] := List.eq_nil_of_length_eq_zero h0
        subst hrest
        exact Or.inr ⟨rfl, hs.2⟩
  · beta_reduce
    rw [List.length_range, hcfg]
    refine ⟨⟨hcfg, hst, hcb, hsl, htr, hnc, by simp [hq], by simp [hq]; omega,
      by simp [hq], by simp [hq, phase_t.report, phase_t.total, hL], hS⟩, ?_, ?_⟩
    · unfold slices_to_delete
      simp [hq, hD]
    · refine ⟨?_, ?_, ?_, ?_, ?_, ?_⟩
      · intro m hm
        simp [hq] at hm
      · simp [hq, List.nodup_range]
      · intro id hid
        exact hstarted.1 id (List.mem_range.mp hid)
      · simp [hq]
      · intro id hid
        simp at hid
      · intro _ id hid
        exact hstarted.2 id hid
/-- The method `shutdown`, called on a quiescent store in state ready whose slices are
all ready and whose serializers are all there, does not abort. -/
theorem shutdown_method_stoppable (cfg : cmd_config_t) (e : env_t) (cb : Nat) (w : world)
    (hn : 0 < cfg.n_serializers) (hN : 0 < cfg.n_slices)
    (hcfg : w.store.cmd_config = cfg) (hst : w.store.state = .state_ready)
    (hsl : ∀ id s, w.store.slices id = some s → slice_ok s)
    (htr : w.trace = []) (hq : w.in_flight = []) (hstarted : store_started cfg w.store) :
    (shutdown e cb w).sat (fun _ w1 => stoppable cfg [] [] w1) (fun _ => False) := by
  unfold shutdown
  rw [if_neg (by simp [hst])]
  simp only []
  have hcs := shutdown_slices_stoppable cfg none e
    { w.set_state .state_shutting_down with
      store := { (w.set_state .state_shutting_down).store with shutdown_callback := none } }
    hn hN hcfg rfl rfl hsl (by simp [htr, event_ok, trace_ok])
    (by simp [htr, event.is_completion]) hq (by simp [htr])
    (by simp [htr, deleted_slices, event.is_slice_deleted]) (by simp [htr]) hstarted
  split
  · rename_i msg w3 hrun
    rw [hrun] at hcs
    exact hcs
  · rename_i u w3 hrun
    rw [hrun] at hcs
    simp only [Outcome.sat_ok] at hcs
    split
    · exact hcs
    · exact hcs.unchanged _ rfl rfl rfl (le_refl _)

theorem deliver_shutdown_stoppable (K : constants) (cfg : cmd_config_t) (cb : Option Nat)
    (e : env_t) (k : Nat) (w : world) (hn : 0 < cfg.n_serializers)
    (h : shutdown_inv cfg cb w) (hs : stoppable cfg [] [] w) :
    (deliver K e k w).sat (fun _ w1 => stoppable cfg [] [] w1) (fun _ => False) := by
  unfold deliver
  cases hk : w.in_flight[k]? with
  | none => exact hs
  | some m =>
    simp only []
    obtain ⟨hs1, hdel, hsref, hrref⟩ := hs.taken k m hk
    rcases h with h | h | h
    · obtain ⟨h1, hc⟩ := h.1.take k m hk
      have hd1 := h.2.message_taken k m hk
      cases m with
      | task t =>
        cases t <;> simp [phase_t.carries] at hc
        · simp only [run_task, Outcome.sat_then_return]
          exact shutdown_a_slice_stoppable cfg cb e _ 0 [] _ hn h1 hd1 hs1 hdel (hsref _ rfl)
        · simp only [run_task, Outcome.sat_then_return]
          exact have_shutdown_a_slice_stoppable cfg cb e 0 [] _ hn h1 hd1 hs1
      | serializer_ready id => simp [phase_t.carries] at hc
      | serializer_shutdown id => simp [phase_t.carries] at hc
      | cache_completion id op =>
        cases op <;> simp [phase_t.carries] at hc
        exact cache_completion_shutdown_stoppable K cfg cb e id 0 [] _ hn h1 hd1 hs1 hdel
          (hsref _ rfl)
    · obtain ⟨h1, hc⟩ := h.take k m hk
      cases m with
      | task t =>
        cases t <;> simp [phase_t.carries] at hc
        · simp only [run_task, Outcome.sat_then_return]
          exact shutdown_a_serializer_stoppable cfg cb e _ 0 [] [] _ h1 hs1 hdel (hrref _ rfl)
        · simp only [run_task, Outcome.sat_then_return]
          exact have_shutdown_a_serializer_stoppable cfg cb [] [] 0 _ h1 hs1
      | serializer_ready id => simp [phase_t.carries] at hc
      | serializer_shutdown id =>
        exact on_serializer_shutdown_stoppable cfg cb e id 0 [] [] _ h1 hs1 (hrref _ rfl)
      | cache_completion id op => simp [phase_t.carries] at hc
    · have := h.quiet
      rw [this] at hk
      simp at hk

/-- No delivery of the shutdown protocol aborts: the shutdown invariant and what the
protocol relies on are kept by every sequence of deliveries. -/
theorem deliveries_shutdown_stoppable (K : constants) (cfg : cmd_config_t) (cb : Option Nat)
    (hn : 0 < cfg.n_serializers) :
    ∀ (sched : List (env_t × Nat)) (w : world), shutdown_inv cfg cb w →
      stoppable cfg [] [] w →
      (deliveries K sched w).sat
        (fun _ w1 => shutdown_inv cfg cb w1 ∧ stoppable cfg [] [] w1) (fun _ => False) := by
  intro sched
  induction sched with
  | nil => intro w h hs; exact ⟨h, hs⟩
  | cons ek rest ih =>
    intro w h hs
    obtain ⟨e, k⟩ := ek
    have hd := Outcome.sat_strict (deliver_shutdown_inv K cfg cb e k w hn h)
      (deliver_shutdown_stoppable K cfg cb e k w hn h hs)
    unfold deliveries
    cases hrun : deliver K e k w with
    | fatal msg w1 =>
      rw [hrun] at hd
      exact hd
    | ok u w1 =>
      rw [hrun] at hd
      exact ih w1 hd.1 hd.2

/-- The shutdown protocol of a started store: `shutdown(cb)` returns, and so does every
sequence of deliveries after it; what it returns is as `shutdown_method_inv` says, and
the deliveries keep the shutdown invariant. -/
theorem shutdown_of_started (K : constants) (cfg : cmd_config_t) (e : env_t) (cb : Nat)
    (w : world) (hn : 0 < cfg.n_serializers) (hN : 0 < cfg.n_slices)
    (hcfg : w.store.cmd_config = cfg) (hst : w.store.state = .state_ready)
    (hsl : ∀ id s, w.store.slices id = some s → slice_ok s)
    (htr : w.trace = []) (hq : w.in_flight = []) (hstarted : store_started cfg w.store) :
    (shutdown e cb w).is_ok = true ∧
    ∀ sched, (deliveries K sched (shutdown e cb w).state).is_ok = true ∧
      (shutdown_execution K e cb sched w).is_ok = true ∧
      (shutdown_execution K e cb sched w).state =
        (deliveries K sched (shutdown e cb w).state).state := by
  have hs := shutdown_method_inv cfg e cb w hn hN hcfg hst hsl htr hq
  have hno := shutdown_method_stoppable cfg e cb w hn hN hcfg hst hsl htr hq hstarted
  unfold shutdown_execution
  cases hrun : shutdown e cb w with
  | fatal msg w1 =>
    rw [hrun] at hno
    exact hno.elim
  | ok b w1 =>
    rw [hrun] at hs hno
    simp only [Outcome.sat_ok] at hs hno
    refine ⟨rfl, fun sched => ?_⟩
    simp only [Outcome.state_ok]
    rcases hs with ⟨_, hc, _⟩ | ⟨_, _, hp⟩
    · rw [deliveries_quiet K sched w1 hc.quiet]
      exact ⟨rfl, rfl, trivial⟩
    · have hsi : shutdown_inv cfg (some cb) w1 := by
        rcases hp with hp | hp
        · exact Or.inl hp
        · exact Or.inr (Or.inl hp)
      have hok := Outcome.is_ok_of_sat
        (deliveries_shutdown_stoppable K cfg (some cb) hn sched w1 hsi hno)
      exact ⟨hok, hok, trivial⟩

/-! ## Theorems: the startup protocol starts the store -/

open btree_slice_t in
theorem slice_finish_ready (s : btree_slice_t) :
    (step_starting_up_finish s).sat (fun _ s1 => s1.state = .state_ready) (fun _ => True) := by
  unfold step_starting_up_finish
  split_ifs <;> simp

open btree_slice_t in
theorem slice_initialize_superblock_ready (nil : Nat) (o : cache_oracle) (s : btree_slice_t) :
    (step_starting_up_initialize_superblock nil o s).sat
      (fun r s1 => r.done = true ∨ r.upcall = some .on_slice_ready → s1.state = .state_ready)
      (fun _ => True) := by
  unfold step_starting_up_initialize_superblock
  split
  · split
    · trivial
    · split
      · exact Outcome.sat_mono (slice_finish_ready _) (fun _ _ h _ => h) (fun _ _ => trivial)
      · simp
  · exact Outcome.sat_mono (slice_finish_ready _) (fun _ _ h _ => h) (fun _ _ => trivial)

open btree_slice_t in
theorem slice_next_step_ready (nil : Nat) (o : cache_oracle) (s : btree_slice_t) :
    (next_starting_up_step nil o s).sat
      (fun r s1 => r.done = true ∨ r.upcall = some .on_slice_ready → s1.state = .state_ready)
      (fun _ => True) := by
  unfold next_starting_up_step
  split
  · split
    · exact slice_initialize_superblock_ready nil o _
    · simp
  · exact slice_initialize_superblock_ready nil o _

/-- When `start` returns true, the slice is in state ready. -/
theorem slice_start_done_ready (nil : Nat) (o : cache_oracle) (s : btree_slice_t) :
    (btree_slice_t.start nil o s).sat (fun r s1 => r.done = true → s1.state = .state_ready)
      (fun _ => True) := by
  unfold btree_slice_t.start
  split
  · trivial
  · have h := slice_next_step_ready nil o
      { s with state := .state_starting_up_start_cache, ready_callback := false }
    split
    · trivial
    · rename_i r s1 hrun
      rw [hrun] at h
      simp only [Outcome.sat_ok] at h
      split
      · rename_i hd
        intro _
        exact h (Or.inl hd)
      · rename_i hd
        intro hd1
        exact absurd hd1 hd

/-- When a callback of the cache makes the slice invoke `on_slice_ready`, the slice is
in state ready. -/
theorem slice_cache_callback_ready (nil : Nat) (o : cache_oracle) (op : cache_op)
    (s : btree_slice_t) :
    (btree_slice_t.cache_callback nil o op s).sat
      (fun r s1 => r.upcall = some .on_slice_ready → s1.state = .state_ready)
      (fun _ => True) := by
  have hsb : ∀ (cb : Nat → cache_oracle → sb_machine → Outcome sb_ret sb_machine)
      (s0 : btree_slice_t),
      (btree_slice_t.sb_fsm_callback nil o cb s0).sat
        (fun r s1 => r.upcall = some .on_slice_ready → s1.state = .state_ready)
        (fun _ => True) := by
    intro cb s0
    unfold btree_slice_t.sb_fsm_callback
    split
    · trivial
    · split
      · trivial
      · split
        · unfold btree_slice_t.on_initialize_superblock
          split
          · trivial
          · exact Outcome.sat_mono (slice_next_step_ready nil o _)
              (fun _ _ h hu => h (Or.inr hu)) (fun _ _ => trivial)
        · simp
  unfold btree_slice_t.cache_callback
  cases op with
  | start =>
    simp only []
    unfold btree_slice_t.on_cache_ready
    split
    · trivial
    · exact Outcome.sat_mono (slice_next_step_ready nil o _)
        (fun _ _ h hu => h (Or.inr hu)) (fun _ _ => trivial)
  | begin_transaction => exact hsb _ _
  | acquire => exact hsb _ _
  | commit => exact hsb _ _
  | shutdown =>
    simp only []
    unfold btree_slice_t.on_cache_shutdown btree_slice_t.next_shutting_down_step
      btree_slice_t.step_shutting_down_finish
    split_ifs <;> simp
theorem mem_eraseIdx_or_eq {α : Type} (a m : α) :
    ∀ (l : List α) (k : Nat), l[k]? = some m → a ∈ l → a = m ∨ a ∈ l.eraseIdx k := by
  intro l
  induction l with
  | nil => intro k _ h; simp at h
  | cons b l ih =>
    intro k hk ha
    cases k with
    | zero =>
      simp only [List.getElem?_cons_zero, Option.some.injEq] at hk
      simp only [List.eraseIdx_cons_zero]
      rcases List.mem_cons.mp ha with rfl | ha
      · exact Or.inl hk
      · exact Or.inr ha
    | succ k =>
      simp only [List.getElem?_cons_succ] at hk
      simp only [List.eraseIdx_cons_succ]
      rcases List.mem_cons.mp ha with rfl | ha
      · exact Or.inr (List.mem_cons_self _ _)
      · rcases ih k hk ha with h | h
        · exact Or.inl h
        · exact Or.inr (List.mem_cons_of_mem _ h)

/-- The invariant depends on the slices, the serializers and the number of serializers
that have reported, and on what is in flight, which may only have grown. -/
theorem built.kept {cfg : cmd_config_t} {S R : List Nat} {w : world} (h : built cfg S R w)
    (w1 : world) (hs : w1.store.slices = w.store.slices)
    (hr : w1.store.serializers = w.store.serializers)
    (hf : ∀ m ∈ w.in_flight, m ∈ w1.in_flight)
    (ht : executed_count .have_created_a_serializer w1.trace =
      executed_count .have_created_a_serializer w.trace) :
    built cfg S R w1 where
  serializers := by
    intro id hid
    rcases h.serializers id hid with h1 | ⟨m, hm, h2⟩ | h3
    · exact Or.inl h1
    · exact Or.inr (Or.inl ⟨m, hf m hm, h2⟩)
    · exact Or.inr (Or.inr (by rw [hr]; exact h3))
  slices := by
    intro hc id hid
    rw [ht] at hc
    rcases h.slices hc id hid with h1 | ⟨m, hm, h2⟩ | h3
    · exact Or.inl h1
    · exact Or.inr (Or.inl ⟨m, hf m hm, h2⟩)
    · exact Or.inr (Or.inr (by rw [slice_in_state_congr _ _ _ _ hs]; exact h3))

theorem built.noted {cfg : cmd_config_t} {S R : List Nat} {w : world}
    (h : built cfg S R w) (ev : event) (hev : ev ≠ .executed .have_created_a_serializer) :
    built cfg S R (w.log ev) :=
  h.kept _ rfl rfl (fun _ hm => hm) (by simp [executed_count_cons, hev])

theorem built.message_sent {cfg : cmd_config_t} {S R : List Nat} {w : world}
    (h : built cfg S R w) (m : message) : built cfg S R (w.send m) :=
  h.kept _ rfl rfl (fun _ hm => by simp [world.send, hm]) rfl

/-- While the serializers are being created, nothing is said about the slices. -/
theorem built.of_creating_serializers {cfg : cmd_config_t} {cb : Option Nat} {S S1 R : List Nat}
    {r : Nat} {w : world} (hp : in_phase cfg cb .creating_serializers r w)
    (h : built cfg S R w) : built cfg S1 R w where
  serializers := h.serializers
  slices := by
    intro hc
    have hrep := hp.reports
    have hpos := hp.pos
    simp only [phase_t.report, phase_t.total] at hrep
    omega

/-- The handler of `m` starts: the message is no longer in flight, and the slice it
stands for is the handler's to build. -/
theorem built.slice_message_taken {cfg : cmd_config_t} {R : List Nat} {w : world}
    (h : built cfg [] R w) (k : Nat) (m : message) (hk : w.in_flight[k]? = some m) (id : Nat)
    (hm : m.builds_slice id = true) :
    built cfg [id] R { w with in_flight := w.in_flight.eraseIdx k } where
  serializers := by
    intro id1 hid1
    rcases h.serializers id1 hid1 with h1 | ⟨m1, hm1, h2⟩ | h3
    · exact Or.inl h1
    · rcases mem_eraseIdx_or_eq m1 m _ k hk hm1 with rfl | h4
      · cases m1 with
        | task t => cases t <;> simp [message.builds_slice, message.builds_serializer] at hm h2
        | serializer_ready x => simp [message.builds_serializer] at h2
        | serializer_shutdown x => simp [message.builds_serializer] at h2
        | cache_completion x op => simp [message.builds_serializer] at h2
      · exact Or.inr (Or.inl ⟨m1, h4, h2⟩)
    · exact Or.inr (Or.inr h3)
  slices := by
    intro hc id1 hid1
    rcases h.slices hc id1 hid1 with h1 | ⟨m1, hm1, h2⟩ | h3
    · simp at h1
    · rcases mem_eraseIdx_or_eq m1 m _ k hk hm1 with rfl | h4
      · left
        cases m1 with
        | task t =>
          cases t <;> simp [message.builds_slice] at hm h2
          simp [← hm, ← h2]
        | serializer_ready x => simp [message.builds_slice] at h2
        | serializer_shutdown x => simp [message.builds_slice] at h2
        | cache_completion x op =>
          simp [message.builds_slice] at hm h2
          simp [← hm, ← h2]
      · exact Or.inr (Or.inl ⟨m1, h4, h2⟩)
    · exact Or.inr (Or.inr h3)

theorem built.serializer_message_taken {cfg : cmd_config_t} {S : List Nat} {w : world}
    (h : built cfg S [] w) (k : Nat) (m : message) (hk : w.in_flight[k]? = some m) (id : Nat)
    (hm : m.builds_serializer id = true) :
    built cfg S [id] { w with in_flight := w.in_flight.eraseIdx k } where
  serializers := by
    intro id1 hid1
    rcases h.serializers id1 hid1 with h1 | ⟨m1, hm1, h2⟩ | h3
    · simp at h1
    · rcases mem_eraseIdx_or_eq m1 m _ k hk hm1 with rfl | h4
      · left
        cases m1 with
        | task t =>
          cases t <;> simp [message.builds_serializer] at hm h2
          simp [← hm, ← h2]
        | serializer_ready x => simp [message.builds_serializer] at h2
        | serializer_shutdown x => simp [message.builds_serializer] at h2
        | cache_completion x op => simp [message.builds_serializer] at h2
      · exact Or.inr (Or.inl ⟨m1, h4, h2⟩)
    · exact Or.inr (Or.inr h3)
  slices := by
    intro hc id1 hid1
    rcases h.slices hc id1 hid1 with h1 | ⟨m1, hm1, h2⟩ | h3
    · exact Or.inl h1
    · rcases mem_eraseIdx_or_eq m1 m _ k hk hm1 with rfl | h4
      · cases m1 with
        | task t => cases t <;> simp [message.builds_slice, message.builds_serializer] at hm h2
        | serializer_ready x => simp [message.builds_serializer] at hm
        | serializer_shutdown x => simp [message.builds_serializer] at hm
        | cache_completion x op => simp [message.builds_serializer] at hm
      · exact Or.inr (Or.inl ⟨m1, h4, h2⟩)
    · exact Or.inr (Or.inr h3)

theorem built.report_taken {cfg : cmd_config_t} {S R : List Nat} {w : world}
    (h : built cfg S R w) (k : Nat) (m : message) (hk : w.in_flight[k]? = some m)
    (hm : ∀ id, m.builds_slice id = false ∧ m.builds_serializer id = false) :
    built cfg S R { w with in_flight := w.in_flight.eraseIdx k } where
  serializers := by
    intro id1 hid1
    rcases h.serializers id1 hid1 with h1 | ⟨m1, hm1, h2⟩ | h3
    · exact Or.inl h1
    · rcases mem_eraseIdx_or_eq m1 m _ k hk hm1 with rfl | h4
      · rw [(hm id1).2] at h2
        simp at h2
      · exact Or.inr (Or.inl ⟨m1, h4, h2⟩)
    · exact Or.inr (Or.inr h3)
  slices := by
    intro hc id1 hid1
    rcases h.slices hc id1 hid1 with h1 | ⟨m1, hm1, h2⟩ | h3
    · exact Or.inl h1
    · rcases mem_eraseIdx_or_eq m1 m _ k hk hm1 with rfl | h4
      · rw [(hm id1).1] at h2
        simp at h2
      · exact Or.inr (Or.inl ⟨m1, h4, h2⟩)
    · exact Or.inr (Or.inr h3)

/-- Slice `id` has been created or brought further: it is in state ready, or the
completion of the operation that its cache has accepted is in flight. -/
theorem built.slice_built {cfg : cmd_config_t} {S R : List Nat} {w : world} {id : Nat}
    (h : built cfg (id :: S) R w) (s1 : btree_slice_t)
    (hs1 : s1.state = .state_ready ∨ ∃ op, s1.cache.pending = some op) :
    built cfg S R ((w.set_slice id (some s1)).await_cache id s1) where
  serializers := by
    intro id1 hid1
    rcases h.serializers id1 hid1 with h1 | ⟨m1, hm1, h2⟩ | h3
    · exact Or.inl h1
    · refine Or.inr (Or.inl ⟨m1, ?_, h2⟩)
      unfold world.await_cache
      split
      · simp [world.send, hm1]
      · simpa using hm1
    · refine Or.inr (Or.inr ?_)
      simpa using h3
  slices := by
    intro hc id1 hid1
    have hc0 : executed_count .have_created_a_serializer w.trace = cfg.n_serializers := by
      simpa using hc
    by_cases he : id1 = id
    · subst he
      cases hp : s1.cache.pending with
      | some op =>
        refine Or.inr (Or.inl ⟨.cache_completion id1 op, ?_, by simp [message.builds_slice]⟩)
        rw [world.await_cache_some _ _ _ op hp]
        simp [world.send]
      | none =>
        refine Or.inr (Or.inr ?_)
        rw [world.await_cache_none _ _ _ hp, slice_in_state_set_slice_self]
        rcases hs1 with h1 | ⟨op, h1⟩
        · simp [h1]
        · rw [hp] at h1
          cases h1
    · rcases h.slices hc0 id1 hid1 with h1 | ⟨m1, hm1, h2⟩ | h3
      · rcases List.mem_cons.mp h1 with h1 | h1
        · exact absurd h1 he
        · exact Or.inl h1
      · refine Or.inr (Or.inl ⟨m1, ?_, h2⟩)
        unfold world.await_cache
        split
        · simp [world.send, hm1]
        · simpa using hm1
      · refine Or.inr (Or.inr ?_)
        rw [world.await_cache_store, slice_in_state_set_slice _ _ _ _ _ he]
        exact h3

/-- Serializer `id` has been created. -/
theorem built.serializer_built {cfg : cmd_config_t} {S R : List Nat} {w : world} {id : Nat}
    (h : built cfg S (id :: R) w) (ser : serializer_t) :
    built cfg S R (w.set_serializer id (some ser)) where
  serializers := by
    intro id1 hid1
    by_cases he : id1 = id
    · subst he
      refine Or.inr (Or.inr ?_)
      simp [world.set_serializer]
    · rcases h.serializers id1 hid1 with h1 | ⟨m1, hm1, h2⟩ | h3
      · rcases List.mem_cons.mp h1 with h1 | h1
        · exact absurd h1 he
        · exact Or.inl h1
      · exact Or.inr (Or.inl ⟨m1, hm1, h2⟩)
      · refine Or.inr (Or.inr ?_)
        simpa [world.set_serializer, Function.update, he] using h3
  slices := h.slices

theorem built.serializer_started {cfg : cmd_config_t} {S R : List Nat} {w : world}
    (h : built cfg S R w) (id : Nat) (ser : serializer_t) :
    built cfg S R (w.set_serializer id (some ser)) where
  serializers := by
    intro id1 hid1
    by_cases he : id1 = id
    · subst he
      refine Or.inr (Or.inr ?_)
      simp [world.set_serializer]
    · rcases h.serializers id1 hid1 with h1 | ⟨m1, hm1, h2⟩ | h3
      · exact Or.inl h1
      · exact Or.inr (Or.inl ⟨m1, hm1, h2⟩)
      · refine Or.inr (Or.inr ?_)
        simpa [world.set_serializer, Function.update, he] using h3
  slices := h.slices
theorem for_ids_along (body : Nat → world → Outcome Unit world)
    (Inv : List Nat → world → Prop) (Done Q : world → Prop)
    (hbody : ∀ id rest w, Inv (id :: rest) w →
      (body id w).sat (fun _ w1 => Inv rest w1 ∨ (rest = [] ∧ Done w1)) Q) :
    ∀ ids w, Inv ids w → (for_ids body ids w).sat (fun _ w1 => Inv [] w1 ∨ Done w1) Q := by
  intro ids
  induction ids with
  | nil =>
    intro w h
    exact Or.inl h
  | cons id rest ih =>
    intro w h
    have hb := hbody id rest w h
    unfold for_ids
    cases hrun : body id w with
    | fatal msg w1 =>
      rw [hrun] at hb
      exact hb
    | ok u w1 =>
      rw [hrun] at hb
      simp only [Outcome.sat_ok] at hb
      rcases hb with hb | ⟨h0, hd⟩
      · exact ih w1 hb
      · subst h0
        exact Or.inr hd

theorem finish_start_built (cfg : cmd_config_t) (S R : List Nat) (w : world)
    (h : built cfg S R w) :
    (finish_start w).sat (fun _ w1 => built cfg S R w1) (fun _ => True) := by
  have h1 : built cfg S R (w.set_state .state_ready) :=
    h.kept _ rfl rfl (fun _ hm => hm) (by simp [executed_count_cons])
  unfold finish_start
  split
  · trivial
  · simp only []
    split
    · exact h1.noted _ (by simp)
    · exact h1

theorem have_created_a_slice_built (cfg : cmd_config_t) (S R : List Nat) (w : world)
    (h : built cfg S R w) :
    (have_created_a_slice w).sat (fun _ w1 => built cfg S R w1) (fun _ => True) := by
  have h1 : built cfg S R
      ((w.log (.executed .have_created_a_slice)).set_messages_out
        (w.store.messages_out - 1)) :=
    (h.noted _ (by simp)).kept _ rfl rfl (fun _ hm => hm) rfl
  unfold have_created_a_slice
  simp only []
  split
  · rw [Outcome.sat_then_return]
    exact finish_start_built cfg S R _ h1
  · exact h1

theorem on_slice_ready_built (cfg : cmd_config_t) (e : env_t) (id : Nat) (S R : List Nat)
    (w : world) (h : built cfg S R w) :
    (on_slice_ready e id w).sat (fun _ w1 => built cfg S R w1) (fun _ => True) :=
  do_on_cpu_sat e _ id _ (fun w1 => built cfg S R w1) _ _ _ (h.noted _ (by simp))
    (fun w1 h1 => have_created_a_slice_built cfg S R w1 h1) (fun w1 h1 => h1.message_sent _)

theorem create_a_slice_on_this_core_built (K : constants) (cfg : cmd_config_t) (e : env_t)
    (id : Nat) (S R : List Nat) (w : world) (h : built cfg (id :: S) R w) :
    (create_a_slice_on_this_core K e id w).sat (fun _ w1 => built cfg S R w1)
      (fun _ => True) := by
  have h0 := h.noted (.executed (.create_a_slice_on_this_core id)) (by simp)
  unfold create_a_slice_on_this_core
  simp only []
  split
  · trivial
  split
  · trivial
  split
  · trivial
  have hsp := Outcome.sat_and
    (slice_start_spec K.NULL_BLOCK_ID (e.cache id) _
      (slice_ok_new (id % (w.log (.executed (.create_a_slice_on_this_core id))).store.cmd_config.n_serializers)
        (id / (w.log (.executed (.create_a_slice_on_this_core id))).store.cmd_config.n_serializers)
        (count_on_serializer (w.log (.executed (.create_a_slice_on_this_core id))).store.cmd_config.n_serializers
          (w.log (.executed (.create_a_slice_on_this_core id))).store.cmd_config.n_slices id)
        ((w.log (.executed (.create_a_slice_on_this_core id))).store.cmd_config.max_cache_size /
          (w.log (.executed (.create_a_slice_on_this_core id))).store.cmd_config.n_slices)
        (w.log (.executed (.create_a_slice_on_this_core id))).store.cmd_config.wait_for_flush
        (w.log (.executed (.create_a_slice_on_this_core id))).store.cmd_config.flush_timer_ms
        (w.log (.executed (.create_a_slice_on_this_core id))).store.cmd_config.flush_threshold_percent
        (e.disk_superblock id)))
    (slice_start_done_ready K.NULL_BLOCK_ID (e.cache id) _)
  split
  · trivial
  · rename_i r1 s1 hrun
    rw [hrun] at hsp
    simp only [Outcome.sat_ok] at hsp
    obtain ⟨⟨_, _, hcase⟩, hready⟩ := hsp
    rcases hcase with ⟨hd, hp⟩ | ⟨hd, hp⟩
    · have h1 := h0.slice_built s1 (Or.inl (hready hd))
      simp only [hd, if_true, Outcome.sat_then_return]
      exact on_slice_ready_built cfg e id S R _ h1
    · obtain ⟨op, hop, _⟩ := pending_startup_iff _ hp
      have h1 := h0.slice_built s1 (Or.inr ⟨op, hop⟩)
      simp only [hd, Bool.false_eq_true, if_false, Outcome.sat_ok]
      exact h1

theorem cache_completion_startup_built (K : constants) (cfg : cmd_config_t) (e : env_t)
    (id : Nat) (op : cache_op) (S R : List Nat) (w : world) (hop : op ≠ .shutdown)
    (hsl : ∀ id s, w.store.slices id = some s → slice_ok s)
    (h : built cfg (id :: S) R w) :
    (cache_completion K e id op w).sat (fun _ w1 => built cfg S R w1) (fun _ => True) := by
  unfold cache_completion
  split
  · trivial
  · rename_i s hs
    have hsp := Outcome.sat_and
      (slice_cache_callback_startup_spec K.NULL_BLOCK_ID (e.cache id) op s (hsl id s hs) hop)
      (slice_cache_callback_ready K.NULL_BLOCK_ID (e.cache id) op s)
    split
    · trivial
    · rename_i r1 s1 hrun
      rw [hrun] at hsp
      simp only [Outcome.sat_ok] at hsp
      obtain ⟨⟨_, hcase⟩, hready⟩ := hsp
      rcases hcase with ⟨hu, hp⟩ | ⟨hu, hp⟩
      · have h1 := h.slice_built s1 (Or.inl (hready hu))
        simp only [hu]
        exact on_slice_ready_built cfg e id S R _ h1
      · obtain ⟨op1, hop1, _⟩ := pending_startup_iff _ hp
        have h1 := h.slice_built s1 (Or.inr ⟨op1, hop1⟩)
        simp only [hu, Outcome.sat_ok]
        exact h1

theorem create_slices_built (K : constants) (cfg : cmd_config_t) (e : env_t) (S R : List Nat)
    (w : world) (hcfg : w.store.cmd_config = cfg) (h : built cfg S R w) :
    (create_slices K e w).sat (fun _ w1 => built cfg [] R w1) (fun _ => True) := by
  unfold create_slices
  refine Outcome.sat_mono
    (for_ids_along _ (fun rest w1 => built cfg rest R w1) (fun w1 => built cfg [] R w1)
      (fun _ => True) ?_ _ _ ?_)
    (fun _ s hs => hs.elim id id) (fun _ hs => hs)
  · intro id rest w1 h1
    refine do_on_cpu_sat e _ id _ (fun w2 => built cfg (id :: rest) R w2) _ _ _
      (h1.noted _ (by simp)) ?_ ?_
    · intro w2 h2
      exact Outcome.sat_mono (create_a_slice_on_this_core_built K cfg e id rest R w2 h2)
        (fun _ _ hs => Or.inl hs) (fun _ hs => hs)
    · intro w2 h2
      refine Or.inl ⟨(h2.message_sent _).serializers, fun hc id1 hid1 => ?_⟩
      by_cases he : id1 = id
      · subst he
        exact Or.inr (Or.inl ⟨.task (.create_a_slice_on_this_core id1),
          by simp [world.send], by simp [message.builds_slice]⟩)
      · rcases (h2.message_sent (.task (.create_a_slice_on_this_core id))).slices hc id1 hid1
          with h3 | h3
        · rcases List.mem_cons.mp h3 with h3 | h3
          · exact absurd h3 he
          · exact Or.inl h3
        · exact Or.inr h3
  · beta_reduce
    refine ⟨?_, fun _ id hid => Or.inl ?_⟩
    · exact (h.kept (w.set_messages_out w.store.cmd_config.n_slices) rfl rfl
        (fun _ hm => hm) rfl).serializers
    · rw [hcfg]
      exact List.mem_range.mpr hid
theorem built.serializer_dispatched {cfg : cmd_config_t} {S R : List Nat} {w : world}
    {id : Nat} (h : built cfg S (id :: R) w) :
    built cfg S R (w.send (.task (.create_a_serializer_on_this_core id))) where
  serializers := by
    intro id1 hid1
    by_cases he : id1 = id
    · subst he
      exact Or.inr (Or.inl ⟨.task (.create_a_serializer_on_this_core id1),
        by simp [world.send], by simp [message.builds_serializer]⟩)
    · rcases (h.message_sent (.task (.create_a_serializer_on_this_core id))).serializers
        id1 hid1 with h3 | h3
      · rcases List.mem_cons.mp h3 with h3 | h3
        · exact absurd h3 he
        · exact Or.inl h3
      · exact Or.inr h3
  slices := (h.message_sent _).slices

theorem have_created_a_serializer_built (K : constants) (cfg : cmd_config_t) (cb : Option Nat)
    (e : env_t) (r : Nat) (S R : List Nat) (w : world)
    (hp : in_phase cfg cb .creating_serializers (r + 1) w) (h : built cfg S R w) :
    (have_created_a_serializer K e w).sat (fun _ w1 => built cfg [] R w1)
      (fun _ => True) := by
  have hmo := hp.mo
  have hrep := hp.reports
  simp only [phase_t.report, phase_t.total] at hrep
  unfold have_created_a_serializer
  simp only [world.set_mo_mo, world.log_store]
  split
  · rw [Outcome.sat_then_return]
    refine create_slices_built K cfg e (List.range cfg.n_slices) R _ (by simpa using hp.cfg_eq)
      ⟨?_, fun _ id hid => Or.inl (List.mem_range.mpr hid)⟩
    simpa using h.serializers
  · rename_i h0
    refine ⟨by simpa using h.serializers, fun hc => ?_⟩
    simp only [world.set_mo_trace, world.log_trace, executed_count_cons, if_true] at hc
    omega

theorem on_serializer_ready_built (K : constants) (cfg : cmd_config_t) (cb : Option Nat)
    (e : env_t) (id r : Nat) (S R : List Nat) (w : world)
    (hp : in_phase cfg cb .creating_serializers (r + 1) w) (h : built cfg S R w) :
    (on_serializer_ready K e id w).sat (fun _ w1 => built cfg [] R w1) (fun _ => True) :=
  do_on_cpu_sat e _ id _
    (fun w1 => in_phase cfg cb .creating_serializers (r + 1) w1 ∧ built cfg S R w1) _ _ _
    ⟨hp.log _ trivial rfl, h.noted _ (by simp)⟩
    (fun w1 h1 => have_created_a_serializer_built K cfg cb e r S R w1 h1.1 h1.2)
    (fun w1 h1 => (h1.2.message_sent _).of_creating_serializers (h1.1.send _ rfl))

theorem create_a_serializer_on_this_core_built (K : constants) (cfg : cmd_config_t)
    (cb : Option Nat) (e : env_t) (id r : Nat) (S R : List Nat) (w : world)
    (hp : in_phase cfg cb .creating_serializers (r + 1) w) (h : built cfg S (id :: R) w) :
    (create_a_serializer_on_this_core K e id w).sat (fun _ w1 => built cfg [] R w1)
      (fun _ => True) := by
  have hp0 := hp.log (.executed (.create_a_serializer_on_this_core id)) trivial rfl
  have h0 := h.noted (.executed (.create_a_serializer_on_this_core id)) (by simp)
  unfold create_a_serializer_on_this_core
  simp only []
  split
  · trivial
  split
  · split
    · rw [Outcome.sat_then_return]
      exact on_serializer_ready_built K cfg cb e id r S R _
        ((hp0.set_serializer id _).set_serializer id _)
        ((h0.serializer_built _).serializer_started id _)
    · exact (((h0.serializer_built _).serializer_started id _).message_sent
        _).of_creating_serializers (((hp0.set_serializer id _).set_serializer id _).send _ rfl)
  split
  · split
    · rw [Outcome.sat_then_return]
      exact on_serializer_ready_built K cfg cb e id r S R _
        ((hp0.set_serializer id _).set_serializer id _)
        ((h0.serializer_built _).serializer_started id _)
    · exact (((h0.serializer_built _).serializer_started id _).message_sent
        _).of_creating_serializers (((hp0.set_serializer id _).set_serializer id _).send _ rfl)
  · trivial

theorem create_serializers_built (K : constants) (cfg : cmd_config_t) (cb : Option Nat)
    (e : env_t) (w : world) (hn : 0 < cfg.n_serializers) (hN : 0 < cfg.n_slices)
    (hcfg : w.store.cmd_config = cfg) (hst : w.store.state = .state_starting_up)
    (hcb : w.store.ready_callback = cb)
    (hsl : ∀ id s, w.store.slices id = some s → slice_ok s)
    (htr : trace_ok cfg w.trace) (hnc : ∀ ev ∈ w.trace, ev.is_completion = false)
    (hq : w.in_flight = [])
    (hS : executed_count .have_created_a_serializer w.trace = 0)
    (hL : executed_count .have_created_a_slice w.trace = 0) :
    (create_serializers K e w).sat (fun _ w1 => built cfg [] [] w1) (fun _ => True) := by
  have key : ∀ w0 : world, w0.store = w.store → w0.in_flight = [] → trace_ok cfg w0.trace →
      (∀ ev ∈ w0.trace, ev.is_completion = false) →
      executed_count .have_created_a_serializer w0.trace = 0 →
      executed_count .have_created_a_slice w0.trace = 0 →
      (for_ids
        (fun id => do_on_cpu e (.create_a_serializer_on_this_core id) id
          (create_a_serializer_on_this_core K e id))
        (List.range w0.store.cmd_config.n_serializers)
        (w0.set_messages_out w0.store.cmd_config.n_serializers)).sat
        (fun _ w1 => built cfg [] [] w1) (fun _ => True) := by
    intro w0 hw0 hq0 htr0 hnc0 hS0 hL0
    refine Outcome.sat_mono
      (for_ids_along _
        (fun rest w1 => in_phase cfg cb .creating_serializers rest.length w1 ∧
          built cfg [] rest w1)
        (fun w1 => built cfg [] [] w1) (fun _ => True) ?_ _ _ ?_)
      (fun _ s hs => hs.elim (fun x => x.2) id) (fun s hs => hs)
    · intro id rest w1 h1
      have hp1 : in_phase cfg cb .creating_serializers (rest.length + 1) w1 := h1.1
      have hA := do_on_cpu_inv e (.create_a_serializer_on_this_core id) id
        (create_a_serializer_on_this_core K e id)
        (fun w2 => in_phase cfg cb .creating_serializers rest.length w2 ∨
          (rest.length = 0 ∧ startup_inv cfg cb w2))
        (fun w2 => trace_ok cfg w2.trace) hp1 trivial rfl
        (fun w2 h2 => create_a_serializer_on_this_core_inv K cfg cb e id rest.length w2 hN h2)
        (fun _ h2 => Or.inl h2)
      have hB : (do_on_cpu e (.create_a_serializer_on_this_core id) id
          (create_a_serializer_on_this_core K e id) w1).sat
          (fun _ w2 => built cfg [] rest w2) (fun _ => True) :=
        do_on_cpu_sat e _ id _
          (fun w2 => in_phase cfg cb .creating_serializers (rest.length + 1) w2 ∧
            built cfg [] (id :: rest) w2) _ _ _
          ⟨hp1.log _ trivial rfl, h1.2.noted _ (by simp)⟩
          (fun w2 h2 => create_a_serializer_on_this_core_built K cfg cb e id rest.length []
            rest w2 h2.1 h2.2)
          (fun w2 h2 => h2.2.serializer_dispatched)
      refine Outcome.sat_mono (Outcome.sat_and hA hB) (fun _ s hs => ?_) (fun _ _ => trivial)
      rcases hs.1 with hin | ⟨h0, _⟩
      · exact Or.inl ⟨hin, hs.2⟩
      · have hrest : rest = [] := List.eq_nil_of_length_eq_zero h0
        subst hrest
        exact Or.inr ⟨rfl, hs.2⟩
    · beta_reduce
      rw [List.length_range, hw0, hcfg]
      refine ⟨⟨?_, ?_, ?_, ?_, htr0, hnc0, ?_, ?_, ?_, ?_, ?_⟩, ?_, ?_⟩
      · simpa [hw0] using hcfg
      · simpa [hw0] using hst
      · simpa [hw0, phase_t.callback] using hcb
      · simpa [hw0] using hsl
      · simp [hq0]
      · simp [hq0]
        omega
      · simp [hq0]
      · simp [hq0, phase_t.report, phase_t.total, hS0]
      · simpa [phase_t.entered] using hL0
      · intro id hid
        exact Or.inl (List.mem_range.mpr hid)
      · intro hc
        simp only [world.set_mo_trace] at hc
        omega
  unfold create_serializers
  simp only []
  split
  · exact key (w.log .mkdir_data_directory) rfl hq ⟨trivial, htr⟩
      (by
        intro ev hev
        simp at hev
        rcases hev with rfl | hev
        · rfl
        · exact hnc ev hev)
      (by simpa using hS) (by simpa using hL)
  · exact key w rfl hq htr hnc hS hL

/-- The method `start`, called on a quiescent store in state off whose trace is empty,
leaves every serializer created or on its way. -/
theorem start_built (K : constants) (cfg : cmd_config_t) (e : env_t) (cb : Nat) (w : world)
    (hn : 0 < cfg.n_serializers) (hN : 0 < cfg.n_slices)
    (hcfg : w.store.cmd_config = cfg) (hst : w.store.state = .state_off)
    (hsl : ∀ id s, w.store.slices id = some s → slice_ok s)
    (htr : w.trace = []) (hq : w.in_flight = []) :
    (start K e cb w).sat (fun _ w1 => built cfg [] [] w1) (fun _ => True) := by
  unfold start
  rw [if_neg (by simp [hst])]
  simp only []
  have hcs := create_serializers_built K cfg none e
    { w.set_state .state_starting_up with
      store := { (w.set_state .state_starting_up).store with ready_callback := none } }
    hn hN hcfg rfl rfl hsl (by simp [htr, event_ok, trace_ok])
    (by simp [htr, event.is_completion]) hq (by simp [htr]) (by simp [htr])
  split
  · trivial
  · rename_i u w3 hrun
    rw [hrun] at hcs
    simp only [Outcome.sat_ok] at hcs
    split
    · exact hcs
    · exact hcs.kept _ rfl rfl (fun _ hm => hm) rfl

theorem deliver_startup_built (K : constants) (cfg : cmd_config_t) (cb : Option Nat)
    (e : env_t) (k : Nat) (w : world) (h : startup_inv cfg cb w) (hb : built cfg [] [] w) :
    (deliver K e k w).sat (fun _ w1 => built cfg [] [] w1) (fun _ => True) := by
  unfold deliver
  cases hk : w.in_flight[k]? with
  | none => exact hb
  | some m =>
    simp only []
    rcases h with h | h | h
    · obtain ⟨h1, hc⟩ := h.take k m hk
      cases m with
      | task t =>
        cases t <;> simp [phase_t.carries] at hc
        · simp only [run_task, Outcome.sat_then_return]
          exact create_a_serializer_on_this_core_built K cfg cb e _ 0 [] [] _ h1
            (hb.serializer_message_taken k _ hk _ (by simp [message.builds_serializer]))
        · simp only [run_task, Outcome.sat_then_return]
          exact have_created_a_serializer_built K cfg cb e 0 [] [] _ h1
            (hb.report_taken k _ hk
              (fun _ => by simp [message.builds_slice, message.builds_serializer]))
      | serializer_ready id =>
        exact on_serializer_ready_built K cfg cb e id 0 [] [] _ h1
          (hb.report_taken k _ hk
            (fun _ => by simp [message.builds_slice, message.builds_serializer]))
      | serializer_shutdown id => simp [phase_t.carries] at hc
      | cache_completion id op => simp [phase_t.carries] at hc
    · obtain ⟨h1, hc⟩ := h.take k m hk
      cases m with
      | task t =>
        cases t <;> simp [phase_t.carries] at hc
        · simp only [run_task, Outcome.sat_then_return]
          exact create_a_slice_on_this_core_built K cfg e _ [] [] _
            (hb.slice_message_taken k _ hk _ (by simp [message.builds_slice]))
        · simp only [run_task, Outcome.sat_then_return]
          exact have_created_a_slice_built cfg [] [] _
            (hb.report_taken k _ hk
              (fun _ => by simp [message.builds_slice, message.builds_serializer]))
      | serializer_ready id => simp [phase_t.carries] at hc
      | serializer_shutdown id => simp [phase_t.carries] at hc
      | cache_completion id op =>
        have hop : op ≠ .shutdown := by simpa [phase_t.carries] using hc
        exact cache_completion_startup_built K cfg e id op [] [] _ hop h1.slices_ok
          (hb.slice_message_taken k _ hk _ (by simp [message.builds_slice]))
    · have := h.quiet
      rw [this] at hk
      simp at hk

theorem deliveries_startup_built (K : constants) (cfg : cmd_config_t) (cb : Option Nat)
    (hN : 0 < cfg.n_slices) :
    ∀ (sched : List (env_t × Nat)) (w : world), startup_inv cfg cb w → built cfg [] [] w →
      (deliveries K sched w).sat
        (fun _ w1 => startup_inv cfg cb w1 ∧ built cfg [] [] w1) (fun _ => True) := by
  intro sched
  induction sched with
  | nil => intro w h hb; exact ⟨h, hb⟩
  | cons ek rest ih =>
    intro w h hb
    obtain ⟨e, k⟩ := ek
    have hd := Outcome.sat_and (deliver_startup_inv K cfg cb e k w hN h)
      (deliver_startup_built K cfg cb e k w h hb)
    unfold deliveries
    cases hrun : deliver K e k w with
    | fatal msg w1 => trivial
    | ok u w1 =>
      rw [hrun] at hd
      exact ih w1 hd.1 hd.2

/-- A store whose startup protocol has completed is started: its slices are all in state
ready and its serializers are all there. -/
theorem completed_ready_started {cfg : cmd_config_t} {cb : Option Nat} {w : world}
    (h : completed cfg cb .state_ready w) (hb : built cfg [] [] w) :
    store_started cfg w.store := by
  have hq := h.quiet
  constructor
  · intro id hid
    rcases hb.slices (completed_ready_counts h).1 id hid with h1 | ⟨m, hm, _⟩ | h3
    · simp at h1
    · rw [hq] at hm
      simp at hm
    · exact h3
  · intro id hid
    rcases hb.serializers id hid with h1 | ⟨m, hm, _⟩ | h3
    · simp at h1
    · rw [hq] at hm
      simp at hm
    · exact h3

/-- Whenever `start(cb)` and the deliveries after it have brought a store from state off
to state ready, the store is started. -/
theorem startup_makes_started (K : constants) (cfg : cmd_config_t) (e : env_t) (cb : Nat)
    (w : world) (hn : 0 < cfg.n_serializers) (hN : 0 < cfg.n_slices)
    (hcfg : w.store.cmd_config = cfg) (hst : w.store.state = .state_off)
    (hsl : ∀ id s, w.store.slices id = some s → slice_ok s)
    (htr : w.trace = []) (hq : w.in_flight = []) :
    ((start K e cb w).returned = some true → store_started cfg (start K e cb w).state.store) ∧
    ∀ sched, (start K e cb w).is_ok = true →
      (deliveries K sched (start K e cb w).state).is_ok = true →
      (deliveries K sched (start K e cb w).state).state.store.state = .state_ready →
      store_started cfg (deliveries K sched (start K e cb w).state).state.store := by
  have hs := start_inv K cfg e cb w hn hN hcfg hst hsl htr hq
  have hb := start_built K cfg e cb w hn hN hcfg hst hsl htr hq
  cases hrun : start K e cb w with
  | fatal msg w1 => simp [Outcome.returned, Outcome.is_ok]
  | ok b w1 =>
    rw [hrun] at hs hb
    simp only [Outcome.sat_ok] at hs hb
    simp only [Outcome.returned, Outcome.state_ok, Option.some.injEq]
    have hmain : ∀ (c : Option Nat), startup_inv cfg c w1 → ∀ sched,
        (deliveries K sched w1).is_ok = true →
        (deliveries K sched w1).state.store.state = .state_ready →
        store_started cfg (deliveries K sched w1).state.store := by
      intro c hsi sched hok hready
      have hd := deliveries_startup_built K cfg c hN sched w1 hsi hb
      cases hrun2 : deliveries K sched w1 with
      | fatal msg w2 => rw [hrun2] at hok; simp [Outcome.is_ok] at hok
      | ok u w2 =>
        rw [hrun2] at hd hready
        simp only [Outcome.sat_ok, Outcome.state_ok] at hd hready ⊢
        rcases hd.1 with h1 | h1 | h1
        · exact absurd hready (in_phase_state_ne_ready h1)
        · exact absurd hready (in_phase_state_ne_ready h1)
        · exact completed_ready_started h1 hd.2
    rcases hs with ⟨hbt, hc, _⟩ | ⟨hbf, _, hp⟩
    · exact ⟨fun _ => completed_ready_started hc hb,
        fun sched _ => hmain none (Or.inr (Or.inr hc)) sched⟩
    · subst hbf
      refine ⟨fun h => by simp at h, fun sched _ => ?_⟩
      rcases hp with hp | hp
      · exact hmain (some cb) (Or.inl hp) sched
      · exact hmain (some cb) (Or.inr (Or.inl hp)) sched

/-! ## Theorems: the startup protocol does not abort -/

open btree_slice_t initialize_superblock_fsm_t in
/-- `start` on a slice that has not been started returns: true with the slice in state
ready, or false with the slice waiting for its cache. -/
theorem slice_start_ok (nil : Nat) (o : cache_oracle) (s : btree_slice_t)
    (hst : s.state = .state_unstarted) (hp : s.cache.pending = none) :
    (btree_slice_t.start nil o s).sat
      (fun r s1 => (r.done = true ∧ s1.state = .state_ready ∧ s1.cache.pending = none) ∨
        (r.done = false ∧ s1.waits_well = true))
      (fun _ => False) := by
  obtain ⟨o1, o2, o3, o4, o5⟩ := o
  cases o1 <;> cases o2 <;> cases o3 <;> cases o4 <;>
    simp [btree_slice_t.start, hst, next_starting_up_step,
      step_starting_up_initialize_superblock, initialize_superblock_if_necessary,
      initialize_superblock_fsm_t.new, next_initialize_superblock_step, step_acquire,
      step_make_change, step_commit, step_finish, step_starting_up_finish,
      sb_fsm_destructor_ok, cache_t.call_op, cache_t.call, hp, awaits, waits_well,
      apply_ite cache_t.pending]

open btree_slice_t initialize_superblock_fsm_t in
/-- The callback for the operation that a slice waits for returns: the slice has invoked
`on_slice_ready` and is in state ready, or it waits for its cache again. -/
theorem slice_cache_callback_ok (nil : Nat) (o : cache_oracle) (op : cache_op)
    (s : btree_slice_t) (h : s.awaits op = true) :
    (btree_slice_t.cache_callback nil o op s).sat
      (fun r s1 =>
        (r.upcall = some .on_slice_ready ∧ s1.state = .state_ready ∧
          s1.cache.pending = none) ∨
        (r.upcall = none ∧ s1.waits_well = true))
      (fun _ => False) := by
  obtain ⟨o1, o2, o3, o4, o5⟩ := o
  obtain ⟨cas, st, c, fsm, rc, sc⟩ := s
  cases op <;> cases fsm <;> simp [awaits] at h
  · obtain ⟨⟨hp, hrc⟩, hst⟩ := h
    subst hst hrc
    cases o2 <;> cases o3 <;> cases o4 <;>
      simp [cache_callback, on_cache_ready, next_starting_up_step,
        step_starting_up_initialize_superblock, initialize_superblock_if_necessary,
        initialize_superblock_fsm_t.new, next_initialize_superblock_step, step_acquire,
        step_make_change, step_commit, step_finish, step_starting_up_finish,
        sb_fsm_destructor_ok, cache_t.call_op, cache_t.call, awaits, waits_well,
        apply_ite cache_t.pending]
  · obtain ⟨⟨hp, hrc⟩, hst⟩ := h
    subst hst hrc
    cases o2 <;> cases o3 <;> cases o4 <;>
      simp [cache_callback, on_cache_ready, next_starting_up_step,
        step_starting_up_initialize_superblock, initialize_superblock_if_necessary,
        initialize_superblock_fsm_t.new, next_initialize_superblock_step, step_acquire,
        step_make_change, step_commit, step_finish, step_starting_up_finish,
        sb_fsm_destructor_ok, cache_t.call_op, cache_t.call, awaits, waits_well,
        apply_ite cache_t.pending]
  all_goals
    rename_i f
    obtain ⟨fst, fbuf, ftxn, fcb⟩ := f
    obtain ⟨⟨hp, hrc⟩, ⟨hst, hfst⟩, hfcb⟩ := h
    simp only at hst hfst hfcb hrc
    subst hst hfst hfcb hrc
    cases o2 <;> cases o3 <;> cases o4 <;>
      simp [cache_callback, sb_fsm_callback, on_initialize_superblock, on_txn_begin,
        on_block_available, on_txn_commit, next_starting_up_step,
        step_starting_up_initialize_superblock, next_initialize_superblock_step, step_acquire,
        step_make_change, step_commit, step_finish, step_starting_up_finish,
        sb_fsm_destructor_ok, cache_t.call_op, cache_t.call, awaits, waits_well,
        apply_ite cache_t.pending]
theorem runnable_congr (cfg : cmd_config_t) (m : message) (st st2 : btree_key_value_store_t)
    (hs : st2.slices = st.slices) : m.runnable cfg st2 = m.runnable cfg st := by
  cases m with
  | task t => cases t <;> rfl
  | serializer_ready id => rfl
  | serializer_shutdown id => rfl
  | cache_completion id op => simp only [message.runnable, hs]

/-- The invariant depends on the slices and on what is in flight. -/
theorem startable.carried {cfg : cmd_config_t} {S R : List Nat} {w : world}
    (h : startable cfg S R w) (w1 : world) (hs : w1.store.slices = w.store.slices)
    (hf : w1.in_flight = w.in_flight) : startable cfg S R w1 where
  runnable := by
    intro m hm
    rw [hf] at hm
    rw [runnable_congr cfg m _ _ hs]
    exact h.runnable m hm
  slice_refs := by rw [hf]; exact h.slice_refs
  slices_within := h.slices_within
  serializers_within := h.serializers_within

theorem startable.recorded {cfg : cmd_config_t} {S R : List Nat} {w : world}
    (h : startable cfg S R w) (ev : event) : startable cfg S R (w.log ev) :=
  h.carried _ rfl rfl

theorem startable.posted {cfg : cmd_config_t} {S R : List Nat} {w : world}
    (h : startable cfg S R w) (m : message) (hd : m.runnable cfg w.store = true)
    (hs : ∀ id, m.slice_to_build = some id →
      id ∉ w.in_flight.filterMap message.slice_to_build ++ S) :
    startable cfg S R (w.send m) where
  runnable := by
    intro m1 hm1
    simp only [world.send, List.mem_append, List.mem_singleton] at hm1
    rcases hm1 with hm1 | rfl
    · exact h.runnable m1 hm1
    · exact hd
  slice_refs := by
    simp only [world.send, List.filterMap_append]
    cases hr : m.slice_to_build with
    | none =>
      simp only [List.filterMap_cons, hr, List.filterMap_nil, List.append_nil]
      exact h.slice_refs
    | some id =>
      simp only [List.filterMap_cons, hr, List.filterMap_nil]
      have hnot := hs id hr
      have hnd := h.slice_refs
      rw [List.append_assoc]
      rw [List.nodup_append] at hnd ⊢
      simp only [List.mem_append, not_or] at hnot
      refine ⟨hnd.1, ?_, ?_⟩
      · rw [List.singleton_append, List.nodup_cons]
        exact ⟨hnot.2, hnd.2.1⟩
      · intro a ha hb
        simp only [List.singleton_append, List.mem_cons] at hb
        rcases hb with rfl | hb
        · exact hnot.1 ha
        · exact hnd.2.2 ha hb
  slices_within := h.slices_within
  serializers_within := h.serializers_within

theorem runnable_set_slice (cfg : cmd_config_t) (w : world) (id : Nat)
    (so : Option btree_slice_t) (m : message)
    (hne : ∀ id1, m.slice_to_build = some id1 → id1 ≠ id) :
    m.runnable cfg (w.set_slice id so).store = m.runnable cfg w.store := by
  cases m with
  | task t => cases t <;> rfl
  | serializer_ready id1 => rfl
  | serializer_shutdown id1 => rfl
  | cache_completion id1 op =>
    have := hne id1 rfl
    simp [message.runnable, world.set_slice, Function.update, this]

/-- Assignment to `slices[id]`, when no message in flight and no later iteration acts
on slice `id`. -/
theorem startable.slice_stored {cfg : cmd_config_t} {S R : List Nat} {w : world}
    (h : startable cfg S R w) (id : Nat) (so : Option btree_slice_t)
    (hid : id ∉ w.in_flight.filterMap message.slice_to_build ++ S) :
    startable cfg S R (w.set_slice id so) where
  runnable := by
    intro m hm
    have hm0 : m ∈ w.in_flight := hm
    rw [runnable_set_slice cfg w id so m]
    · exact h.runnable m hm0
    · intro id1 h1 he
      subst he
      apply hid
      apply List.mem_append_left
      exact List.mem_filterMap.mpr ⟨m, hm0, h1⟩
  slice_refs := h.slice_refs
  slices_within := h.slices_within
  serializers_within := h.serializers_within

theorem startable.serializer_stored {cfg : cmd_config_t} {S R : List Nat} {w : world}
    (h : startable cfg S R w) (id : Nat) (so : Option serializer_t) :
    startable cfg S R (w.set_serializer id so) :=
  h.carried _ rfl rfl

/-- The handler of the `k`-th message in flight starts: the message is no longer in
flight, it finds what it needs, and nothing else acts on its slice. -/
theorem startable.removed {cfg : cmd_config_t} {w : world}
    (h : startable cfg [] [] w) (k : Nat) (m : message) (hk : w.in_flight[k]? = some m) :
    startable cfg [] [] { w with in_flight := w.in_flight.eraseIdx k } ∧
      m.runnable cfg w.store = true ∧
      (∀ id, m.slice_to_build = some id →
        id ∉ (w.in_flight.eraseIdx k).filterMap message.slice_to_build ++ []) := by
  have h1 := filterMap_eraseIdx_nodup message.slice_to_build [] w.in_flight k m hk
    h.slice_refs
  have hmem : m ∈ w.in_flight := List.getElem?_mem hk
  refine ⟨⟨?_, h1.1, h.slices_within, h.serializers_within⟩, h.runnable m hmem, h1.2⟩
  intro m1 hm1
  exact h.runnable m1 ((List.eraseIdx_sublist _ _).subset hm1)

theorem startable.first_slice {cfg : cmd_config_t} {S R : List Nat} {w : world} {id : Nat}
    (h : startable cfg (id :: S) R w) :
    startable cfg S R w ∧ id < cfg.n_slices ∧
      id ∉ w.in_flight.filterMap message.slice_to_build ++ S := by
  have hnd := h.slice_refs
  rw [List.nodup_append] at hnd
  have hcons := List.nodup_cons.mp hnd.2.1
  refine ⟨⟨h.runnable, ?_, fun id1 h1 => h.slices_within id1 (List.mem_cons_of_mem _ h1),
    h.serializers_within⟩, h.slices_within id (List.mem_cons_self _ _), ?_⟩
  · rw [List.nodup_append]
    exact ⟨hnd.1, hcons.2, fun a ha hb => hnd.2.2 ha (List.mem_cons_of_mem _ hb)⟩
  · intro hmem
    rcases List.mem_append.mp hmem with h1 | h1
    · exact hnd.2.2 h1 (List.mem_cons_self _ _)
    · exact hcons.1 h1

theorem startable.first_serializer {cfg : cmd_config_t} {S R : List Nat} {w : world}
    {id : Nat} (h : startable cfg S (id :: R) w) :
    startable cfg S R w ∧ id < cfg.n_serializers :=
  ⟨⟨h.runnable, h.slice_refs, h.slices_within,
    fun id1 h1 => h.serializers_within id1 (List.mem_cons_of_mem _ h1)⟩,
    h.serializers_within id (List.mem_cons_self _ _)⟩
theorem Outcome.sat_of_eq_ok {α σ : Type} {P : α → σ → Prop} {Q : σ → Prop}
    {o : Outcome α σ} {a : α} {s : σ} (h : o.sat P Q) (he : o = .ok a s) : P a s := by
  rw [he] at h
  exact h

theorem Outcome.sat_of_eq_fatal {α σ : Type} {P : α → σ → Prop} {Q : σ → Prop}
    {o : Outcome α σ} {msg : String} {s : σ} (h : o.sat P Q) (he : o = .fatal msg s) :
    Q s := by
  rw [he] at h
  exact h

theorem waits_well_pending (s : btree_slice_t) (h : s.waits_well = true) :
    ∃ op, s.cache.pending = some op ∧ s.awaits op = true := by
  unfold btree_slice_t.waits_well at h
  cases hp : s.cache.pending with
  | none => rw [hp] at h; simp at h
  | some op => rw [hp] at h; exact ⟨op, rfl, h⟩

theorem awaits_ne_shutdown (s : btree_slice_t) (op : cache_op) (h : s.awaits op = true) :
    op ≠ .shutdown := by
  rintro rfl
  simp [btree_slice_t.awaits] at h

theorem finish_start_startable (cfg : cmd_config_t) (S R : List Nat) (w : world)
    (hst : w.store.state = .state_starting_up) (h : startable cfg S R w) :
    (finish_start w).sat (fun _ w1 => startable cfg S R w1) (fun _ => False) := by
  have h1 : startable cfg S R (w.set_state .state_ready) := h.carried _ rfl rfl
  unfold finish_start
  rw [if_neg (by simp [hst])]
  simp only []
  split
  · exact h1.recorded _
  · exact h1

theorem have_created_a_slice_startable (cfg : cmd_config_t) (cb : Option Nat) (r : Nat)
    (S R : List Nat) (w : world) (hp : in_phase cfg cb .creating_slices (r + 1) w)
    (h : startable cfg S R w) :
    (have_created_a_slice w).sat (fun _ w1 => startable cfg S R w1) (fun _ => False) := by
  have h1 : startable cfg S R
      ((w.log (.executed .have_created_a_slice)).set_messages_out
        (w.store.messages_out - 1)) :=
    (h.recorded _).carried _ rfl rfl
  unfold have_created_a_slice
  simp only []
  split
  · rw [Outcome.sat_then_return]
    exact finish_start_startable cfg S R _ (by simpa using hp.state_eq) h1
  · exact h1

theorem on_slice_ready_startable (cfg : cmd_config_t) (cb : Option Nat) (e : env_t)
    (id r : Nat) (S R : List Nat) (w : world)
    (hp : in_phase cfg cb .creating_slices (r + 1) w) (h : startable cfg S R w) :
    (on_slice_ready e id w).sat (fun _ w1 => startable cfg S R w1) (fun _ => False) :=
  do_on_cpu_sat e _ id _
    (fun w1 => in_phase cfg cb .creating_slices (r + 1) w1 ∧ startable cfg S R w1) _ _ _
    ⟨hp.log _ trivial rfl, h.recorded _⟩
    (fun w1 h1 => have_created_a_slice_startable cfg cb r S R w1 h1.1 h1.2)
    (fun w1 h1 => h1.2.posted _ rfl (fun id1 hm => by simp [message.slice_to_build] at hm))

theorem create_a_slice_on_this_core_startable (K : constants) (cfg : cmd_config_t)
    (cb : Option Nat) (e : env_t) (id r : Nat) (S R : List Nat) (w : world)
    (hn : 0 < cfg.n_serializers)
    (hp : in_phase cfg cb .creating_slices (r + 1) w) (h : startable cfg S R w)
    (hid : id < cfg.n_slices)
    (hnew : id ∉ w.in_flight.filterMap message.slice_to_build ++ S) :
    (create_a_slice_on_this_core K e id w).sat (fun _ w1 => startable cfg S R w1)
      (fun _ => False) := by
  have hp0 := hp.log (.executed (.create_a_slice_on_this_core id)) trivial rfl
  have h0 := h.recorded (.executed (.create_a_slice_on_this_core id))
  have hcfg : w.store.cmd_config = cfg := hp.cfg_eq
  obtain ⟨b1, b2, b3⟩ := count_on_serializer_bounds cfg.n_serializers cfg.n_slices id hn hid
  unfold create_a_slice_on_this_core
  simp only []
  split
  · rename_i hc
    simp only [world.log_store, hcfg] at hc
    exact hc b1
  split
  · rename_i hc
    simp only [world.log_store, hcfg] at hc
    exact hc b2
  split
  · rename_i hc
    simp only [world.log_store, hcfg] at hc
    exact hc b3
  split
  · rename_i msg s1 hrun
    have hf : False := Outcome.sat_of_eq_fatal (slice_start_ok _ _ _ rfl rfl) hrun
    exact hf.elim
  · rename_i r1 s1 hrun
    have hok := (Outcome.sat_of_eq_ok (slice_start_spec _ _ _ (slice_ok_new _ _ _ _ _ _ _ _))
      hrun).1
    have hcase := Outcome.sat_of_eq_ok (slice_start_ok _ _ _ rfl rfl) hrun
    have hp1 := hp0.set_slice id (some s1) (fun s hs => by cases hs; exact hok)
    have h1 := h0.slice_stored id (some s1) hnew
    rcases hcase with ⟨hd, _, hpend⟩ | ⟨hd, hw⟩
    · rw [world.await_cache_none _ _ _ hpend]
      simp only [hd, if_true, Outcome.sat_then_return]
      exact on_slice_ready_startable cfg cb e id r S R _ hp1 h1
    · obtain ⟨op, hop, ha⟩ := waits_well_pending s1 hw
      rw [world.await_cache_some _ _ _ op hop]
      simp only [hd, Bool.false_eq_true, if_false, Outcome.sat_ok]
      refine h1.posted _ ?_ (fun id1 hm => ?_)
      · simp [message.runnable, world.set_slice, ha]
      · simp only [message.slice_to_build, Option.some.injEq] at hm
        subst hm
        exact hnew

theorem cache_completion_startup_startable (K : constants) (cfg : cmd_config_t)
    (cb : Option Nat) (e : env_t) (id : Nat) (op : cache_op) (r : Nat) (S R : List Nat)
    (w : world) (hp : in_phase cfg cb .creating_slices (r + 1) w) (h : startable cfg S R w)
    (hrunnable : (message.cache_completion id op).runnable cfg w.store = true)
    (hnew : id ∉ w.in_flight.filterMap message.slice_to_build ++ S) :
    (cache_completion K e id op w).sat (fun _ w1 => startable cfg S R w1)
      (fun _ => False) := by
  unfold cache_completion
  split
  · rename_i hnone
    simp [message.runnable, hnone] at hrunnable
  · rename_i s hs
    have ha : s.awaits op = true := by simpa [message.runnable, hs] using hrunnable
    split
    · rename_i msg s1 hrun
      have hf : False := Outcome.sat_of_eq_fatal (slice_cache_callback_ok _ _ _ _ ha) hrun
      exact hf.elim
    · rename_i r1 s1 hrun
      have hok := (Outcome.sat_of_eq_ok
        (slice_cache_callback_startup_spec _ _ _ _ (hp.slices_ok id s hs)
          (awaits_ne_shutdown s op ha)) hrun).1
      have hcase := Outcome.sat_of_eq_ok (slice_cache_callback_ok _ _ _ _ ha) hrun
      have hp1 := hp.set_slice id (some s1) (fun s hs => by cases hs; exact hok)
      have h1 := h.slice_stored id (some s1) hnew
      rcases hcase with ⟨hu, _, hpend⟩ | ⟨hu, hw⟩
      · rw [world.await_cache_none _ _ _ hpend]
        simp only [hu]
        exact on_slice_ready_startable cfg cb e id r S R _ hp1 h1
      · obtain ⟨op1, hop1, ha1⟩ := waits_well_pending s1 hw
        rw [world.await_cache_some _ _ _ op1 hop1]
        simp only [hu, Outcome.sat_ok]
        refine h1.posted _ ?_ (fun id1 hm => ?_)
        · simp [message.runnable, world.set_slice, ha1]
        · simp only [message.slice_to_build, Option.some.injEq] at hm
          subst hm
          exact hnew

theorem create_slices_startable (K : constants) (cfg : cmd_config_t) (cb : Option Nat)
    (e : env_t) (R : List Nat) (w : world) (hn : 0 < cfg.n_serializers)
    (hN : 0 < cfg.n_slices)
    (hcfg : w.store.cmd_config = cfg) (hst : w.store.state = .state_starting_up)
    (hcb : w.store.ready_callback = cb)
    (hsl : ∀ id s, w.store.slices id = some s → slice_ok s)
    (htr : trace_ok cfg w.trace) (hnc : ∀ ev ∈ w.trace, ev.is_completion = false)
    (hq : w.in_flight = [])
    (hS : executed_count .have_created_a_serializer w.trace = cfg.n_serializers)
    (hL : executed_count .have_created_a_slice w.trace = 0)
    (hR : ∀ id ∈ R, id < cfg.n_serializers) :
    (create_slices K e w).sat (fun _ w1 => startable cfg [] R w1) (fun _ => False) := by
  unfold create_slices
  refine Outcome.sat_mono
    (for_ids_strict _
      (fun rest w1 => in_phase cfg cb .creating_slices rest.length w1 ∧
        startable cfg rest R w1)
      (fun w1 => startable cfg [] R w1) ?_ _ _ ?_)
    (fun _ s hs => hs.elim (fun x => x.2) id) (fun _ hs => hs)
  · intro id rest w1 h1
    have hp1 : in_phase cfg cb .creating_slices (rest.length + 1) w1 := h1.1
    obtain ⟨h2, hid, hnew⟩ := h1.2.first_slice
    have hA := do_on_cpu_inv e (.create_a_slice_on_this_core id) id
      (create_a_slice_on_this_core K e id)
      (fun w2 => in_phase cfg cb .creating_slices rest.length w2 ∨
        (rest.length = 0 ∧ completed cfg cb .state_ready w2))
      (fun w2 => trace_ok cfg w2.trace) hp1 hp1.entered rfl
      (fun w2 h2 => create_a_slice_on_this_core_inv K cfg cb e id rest.length w2 h2)
      (fun _ h2 => Or.inl h2)
    have hB : (do_on_cpu e (.create_a_slice_on_this_core id) id
        (create_a_slice_on_this_core K e id) w1).sat
        (fun _ w2 => startable cfg rest R w2) (fun _ => False) := by
      refine do_on_cpu_sat e _ id _
        (fun w2 => in_phase cfg cb .creating_slices (rest.length + 1) w2 ∧
          startable cfg rest R w2 ∧
          id ∉ w2.in_flight.filterMap message.slice_to_build ++ rest) _ _ _ ?_ ?_ ?_
      · exact ⟨hp1.log _ hp1.entered rfl, h2.recorded _, hnew⟩
      · intro w2 hw2
        exact create_a_slice_on_this_core_startable K cfg cb e id rest.length rest R w2 hn
          hw2.1 hw2.2.1 hid hw2.2.2
      · intro w2 hw2
        refine hw2.2.1.posted _ (by simp [message.runnable, hid]) (fun id1 hm => ?_)
        simp only [message.slice_to_build, Option.some.injEq] at hm
        subst hm
        exact hw2.2.2
    refine Outcome.sat_mono (Outcome.sat_strict hA hB) (fun _ s hs => ?_) (fun _ hs => hs)
    rcases hs.1 with hin | ⟨h0, _⟩
    · exact Or.inl ⟨hin, hs.2⟩
    · have hrest : rest = [] := List.eq_nil_of_length_eq_zero h0
      subst hrest
      exact Or.inr ⟨rfl, hs.2⟩
  · beta_reduce
    rw [List.length_range, hcfg]
    refine ⟨⟨hcfg, hst, hcb, hsl, htr, hnc, by simp [hq], by simp [hq]; omega,
      by simp [hq], by simp [hq, phase_t.report, phase_t.total, hL], hS⟩, ?_, ?_, ?_, hR⟩
    · intro m hm
      simp [hq] at hm
    · simp [hq, List.nodup_range]
    · intro id hid
      exact List.mem_range.mp hid
theorem have_created_a_serializer_startable (K : constants) (cfg : cmd_config_t)
    (cb : Option Nat) (e : env_t) (r : Nat) (R : List Nat) (w : world)
    (hn : 0 < cfg.n_serializers) (hN : 0 < cfg.n_slices)
    (hp : in_phase cfg cb .creating_serializers (r + 1) w) (h : startable cfg [] R w) :
    (have_created_a_serializer K e w).sat (fun _ w1 => startable cfg [] R w1)
      (fun _ => False) := by
  have hmo := hp.mo
  have hrep := hp.reports
  have hent := hp.entered
  simp only [phase_t.report, phase_t.total, phase_t.entered] at hrep hent
  have h1 : startable cfg [] R
      ((w.log (.executed .have_created_a_serializer)).set_messages_out
        (w.store.messages_out - 1)) :=
    (h.recorded _).carried _ rfl rfl
  unfold have_created_a_serializer
  simp only [world.set_mo_mo, world.log_store]
  split
  · rename_i h0
    have hq : w.in_flight = [] := by
      apply List.eq_nil_of_length_eq_zero
      omega
    rw [Outcome.sat_then_return]
    refine create_slices_startable K cfg cb e R _ hn hN ?_ ?_ ?_ ?_ ?_ ?_ ?_ ?_ ?_
      h.serializers_within
    · simpa using hp.cfg_eq
    · simpa using hp.state_eq
    · simpa using hp.cb_eq
    · simpa using hp.slices_ok
    · simpa [event_ok] using hp.tr_ok
    · intro ev hev
      simp at hev
      rcases hev with rfl | hev
      · rfl
      · exact hp.no_completion ev hev
    · simpa using hq
    · simp
      omega
    · simpa using hent
  · exact h1

theorem on_serializer_ready_startable (K : constants) (cfg : cmd_config_t) (cb : Option Nat)
    (e : env_t) (id r : Nat) (R : List Nat) (w : world)
    (hn : 0 < cfg.n_serializers) (hN : 0 < cfg.n_slices)
    (hp : in_phase cfg cb .creating_serializers (r + 1) w) (h : startable cfg [] R w) :
    (on_serializer_ready K e id w).sat (fun _ w1 => startable cfg [] R w1)
      (fun _ => False) :=
  do_on_cpu_sat e _ id _
    (fun w1 => in_phase cfg cb .creating_serializers (r + 1) w1 ∧ startable cfg [] R w1)
    _ _ _ ⟨hp.log _ trivial rfl, h.recorded _⟩
    (fun w1 h1 => have_created_a_serializer_startable K cfg cb e r R w1 hn hN h1.1 h1.2)
    (fun w1 h1 => h1.2.posted _ rfl (fun id1 hm => by simp [message.slice_to_build] at hm))

theorem create_a_serializer_on_this_core_startable (K : constants) (cfg : cmd_config_t)
    (cb : Option Nat) (e : env_t) (id r : Nat) (R : List Nat) (w : world)
    (hn : 0 < cfg.n_serializers) (hN : 0 < cfg.n_slices)
    (hfit : names_fit K cfg) (hfiles : e.files_ok K cfg) (hid : id < cfg.n_serializers)
    (hp : in_phase cfg cb .creating_serializers (r + 1) w) (h : startable cfg [] R w) :
    (create_a_serializer_on_this_core K e id w).sat (fun _ w1 => startable cfg [] R w1)
      (fun _ => False) := by
  have hp0 := hp.log (.executed (.create_a_serializer_on_this_core id)) trivial rfl
  have h0 := h.recorded (.executed (.create_a_serializer_on_this_core id))
  have hcfg : w.store.cmd_config = cfg := hp.cfg_eq
  unfold create_a_serializer_on_this_core
  simp only []
  split
  · rename_i hc
    simp only [check_aborts, world.log_store, hcfg, decide_eq_true_eq] at hc
    exact hfit id hid hc
  split
  · split
    · rw [Outcome.sat_then_return]
      exact on_serializer_ready_startable K cfg cb e id r R _ hn hN
        ((hp0.set_serializer id _).set_serializer id _)
        ((h0.serializer_stored id _).serializer_stored id _)
    · exact ((h0.serializer_stored id _).serializer_stored id _).posted _ rfl
        (fun id1 hm => by simp [message.slice_to_build] at hm)
  split
  · split
    · rw [Outcome.sat_then_return]
      exact on_serializer_ready_startable K cfg cb e id r R _ hn hN
        ((hp0.set_serializer id _).set_serializer id _)
        ((h0.serializer_stored id _).serializer_stored id _)
    · exact ((h0.serializer_stored id _).serializer_stored id _).posted _ rfl
        (fun id1 hm => by simp [message.slice_to_build] at hm)
  · rename_i h1 h2
    rcases hfiles id hid with h3 | h3
    · exact h1 h3
    · exact h2 h3

theorem create_serializers_startable (K : constants) (cfg : cmd_config_t) (cb : Option Nat)
    (e : env_t) (w : world) (hn : 0 < cfg.n_serializers) (hN : 0 < cfg.n_slices)
    (hfit : names_fit K cfg) (hfiles : e.files_ok K cfg)
    (hcfg : w.store.cmd_config = cfg) (hst : w.store.state = .state_starting_up)
    (hcb : w.store.ready_callback = cb)
    (hsl : ∀ id s, w.store.slices id = some s → slice_ok s)
    (htr : trace_ok cfg w.trace) (hnc : ∀ ev ∈ w.trace, ev.is_completion = false)
    (hq : w.in_flight = [])
    (hS : executed_count .have_created_a_serializer w.trace = 0)
    (hL : executed_count .have_created_a_slice w.trace = 0) :
    (create_serializers K e w).sat (fun _ w1 => startable cfg [] [] w1) (fun _ => False) := by
  have key : ∀ w0 : world, w0.store = w.store → w0.in_flight = [] → trace_ok cfg w0.trace →
      (∀ ev ∈ w0.trace, ev.is_completion = false) →
      executed_count .have_created_a_serializer w0.trace = 0 →
      executed_count .have_created_a_slice w0.trace = 0 →
      (for_ids
        (fun id => do_on_cpu e (.create_a_serializer_on_this_core id) id
          (create_a_serializer_on_this_core K e id))
        (List.range w0.store.cmd_config.n_serializers)
        (w0.set_messages_out w0.store.cmd_config.n_serializers)).sat
        (fun _ w1 => startable cfg [] [] w1) (fun _ => False) := by
    intro w0 hw0 hq0 htr0 hnc0 hS0 hL0
    refine Outcome.sat_mono
      (for_ids_strict _
        (fun rest w1 => in_phase cfg cb .creating_serializers rest.length w1 ∧
          startable cfg [] rest w1)
        (fun w1 => startable cfg [] [] w1) ?_ _ _ ?_)
      (fun _ s hs => hs.elim (fun x => x.2) id) (fun s hs => hs)
    · intro id rest w1 h1
      have hp1 : in_phase cfg cb .creating_serializers (rest.length + 1) w1 := h1.1
      obtain ⟨h2, hid⟩ := h1.2.first_serializer
      have hA := do_on_cpu_inv e (.create_a_serializer_on_this_core id) id
        (create_a_serializer_on_this_core K e id)
        (fun w2 => in_phase cfg cb .creating_serializers rest.length w2 ∨
          (rest.length = 0 ∧ startup_inv cfg cb w2))
        (fun w2 => trace_ok cfg w2.trace) hp1 trivial rfl
        (fun w2 h2 => create_a_serializer_on_this_core_inv K cfg cb e id rest.length w2 hN h2)
        (fun _ h2 => Or.inl h2)
      have hB : (do_on_cpu e (.create_a_serializer_on_this_core id) id
          (create_a_serializer_on_this_core K e id) w1).sat
          (fun _ w2 => startable cfg [] rest w2) (fun _ => False) :=
        do_on_cpu_sat e _ id _
          (fun w2 => in_phase cfg cb .creating_serializers (rest.length + 1) w2 ∧
            startable cfg [] rest w2) _ _ _
          ⟨hp1.log _ trivial rfl, h2.recorded _⟩
          (fun w2 hw2 => create_a_serializer_on_this_core_startable K cfg cb e id rest.length
            rest w2 hn hN hfit hfiles hid hw2.1 hw2.2)
          (fun w2 hw2 => hw2.2.posted _ (by simp [message.runnable, hid])
            (fun id1 hm => by simp [message.slice_to_build] at hm))
      refine Outcome.sat_mono (Outcome.sat_strict hA hB) (fun _ s hs => ?_) (fun _ hs => hs)
      rcases hs.1 with hin | ⟨h0, _⟩
      · exact Or.inl ⟨hin, hs.2⟩
      · have hrest : rest = [] := List.eq_nil_of_length_eq_zero h0
        subst hrest
        exact Or.inr ⟨rfl, hs.2⟩
    · beta_reduce
      rw [List.length_range, hw0, hcfg]
      refine ⟨⟨?_, ?_, ?_, ?_, htr0, hnc0, ?_, ?_, ?_, ?_, ?_⟩, ?_, ?_, ?_, ?_⟩
      · simpa [hw0] using hcfg
      · simpa [hw0] using hst
      · simpa [hw0, phase_t.callback] using hcb
      · simpa [hw0] using hsl
      · simp [hq0]
      · simp [hq0]
        omega
      · simp [hq0]
      · simp [hq0, phase_t.report, phase_t.total, hS0]
      · simpa [phase_t.entered] using hL0
      · intro m hm
        simp [hq0] at hm
      · simp [hq0]
      · intro id hid
        simp at hid
      · intro id hid
        exact List.mem_range.mp hid
  unfold create_serializers
  simp only []
  split
  · exact key (w.log .mkdir_data_directory) rfl hq ⟨trivial, htr⟩
      (by
        intro ev hev
        simp at hev
        rcases hev with rfl | hev
        · rfl
        · exact hnc ev hev)
      (by simpa using hS) (by simpa using hL)
  · exact key w rfl hq htr hnc hS hL

/-- The method `start`, called on a quiescent store in state off, does not abort when the
file names fit and `access` answers for each file. -/
theorem start_startable (K : constants) (cfg : cmd_config_t) (e : env_t) (cb : Nat)
    (w : world) (hn : 0 < cfg.n_serializers) (hN : 0 < cfg.n_slices)
    (hfit : names_fit K cfg) (hfiles : e.files_ok K cfg)
    (hcfg : w.store.cmd_config = cfg) (hst : w.store.state = .state_off)
    (hsl : ∀ id s, w.store.slices id = some s → slice_ok s)
    (htr : w.trace = []) (hq : w.in_flight = []) :
    (start K e cb w).sat (fun _ w1 => startable cfg [] [] w1) (fun _ => False) := by
  unfold start
  rw [if_neg (by simp [hst])]
  simp only []
  have hcs := create_serializers_startable K cfg none e
    { w.set_state .state_starting_up with
      store := { (w.set_state .state_starting_up).store with ready_callback := none } }
    hn hN hfit hfiles hcfg rfl rfl hsl (by simp [htr, event_ok, trace_ok])
    (by simp [htr, event.is_completion]) hq (by simp [htr]) (by simp [htr])
  split
  · rename_i msg w3 hrun
    rw [hrun] at hcs
    exact hcs
  · rename_i u w3 hrun
    rw [hrun] at hcs
    simp only [Outcome.sat_ok] at hcs
    split
    · exact hcs
    · exact hcs.carried _ rfl rfl

theorem deliver_startup_startable (K : constants) (cfg : cmd_config_t) (cb : Option Nat)
    (e : env_t) (k : Nat) (w : world) (hn : 0 < cfg.n_serializers) (hN : 0 < cfg.n_slices)
    (hfit : names_fit K cfg) (hfiles : e.files_ok K cfg)
    (h : startup_inv cfg cb w) (hs : startable cfg [] [] w) :
    (deliver K e k w).sat (fun _ w1 => startable cfg [] [] w1) (fun _ => False) := by
  unfold deliver
  cases hk : w.in_flight[k]? with
  | none => exact hs
  | some m =>
    simp only []
    obtain ⟨hs1, hrun, hnew⟩ := hs.removed k m hk
    rcases h with h | h | h
    · obtain ⟨h1, hc⟩ := h.take k m hk
      cases m with
      | task t =>
        cases t <;> simp [phase_t.carries] at hc
        · simp only [run_task, Outcome.sat_then_return]
          exact create_a_serializer_on_this_core_startable K cfg cb e _ 0 [] _ hn hN hfit
            hfiles (by simpa [message.runnable] using hrun) h1 hs1
        · simp only [run_task, Outcome.sat_then_return]
          exact have_created_a_serializer_startable K cfg cb e 0 [] _ hn hN h1 hs1
      | serializer_ready id =>
        exact on_serializer_ready_startable K cfg cb e id 0 [] _ hn hN h1 hs1
      | serializer_shutdown id => simp [phase_t.carries] at hc
      | cache_completion id op => simp [phase_t.carries] at hc
    · obtain ⟨h1, hc⟩ := h.take k m hk
      cases m with
      | task t =>
        cases t <;> simp [phase_t.carries] at hc
        · simp only [run_task, Outcome.sat_then_return]
          exact create_a_slice_on_this_core_startable K cfg cb e _ 0 [] [] _ hn h1 hs1
            (by simpa [message.runnable] using hrun) (hnew _ rfl)
        · simp only [run_task, Outcome.sat_then_return]
          exact have_created_a_slice_startable cfg cb 0 [] [] _ h1 hs1
      | serializer_ready id => simp [phase_t.carries] at hc
      | serializer_shutdown id => simp [phase_t.carries] at hc
      | cache_completion id op =>
        exact cache_completion_startup_startable K cfg cb e id op 0 [] [] _ h1 hs1 hrun
          (hnew _ rfl)
    · have := h.quiet
      rw [this] at hk
      simp at hk

/-- No delivery of the startup protocol aborts when the file names fit and `access`
answers for each file in every delivery. -/
theorem deliveries_startup_startable (K : constants) (cfg : cmd_config_t) (cb : Option Nat)
    (hn : 0 < cfg.n_serializers) (hN : 0 < cfg.n_slices) (hfit : names_fit K cfg) :
    ∀ (sched : List (env_t × Nat)) (w : world), (∀ ek ∈ sched, ek.1.files_ok K cfg) →
      startup_inv cfg cb w → startable cfg [] [] w →
      (deliveries K sched w).sat
        (fun _ w1 => startup_inv cfg cb w1 ∧ startable cfg [] [] w1) (fun _ => False) := by
  intro sched
  induction sched with
  | nil => intro w _ h hs; exact ⟨h, hs⟩
  | cons ek rest ih =>
    intro w hfiles h hs
    obtain ⟨e, k⟩ := ek
    have hd := Outcome.sat_strict (deliver_startup_inv K cfg cb e k w hN h)
      (deliver_startup_startable K cfg cb e k w hn hN hfit
        (hfiles (e, k) (List.mem_cons_self _ _)) h hs)
    unfold deliveries
    cases hrun : deliver K e k w with
    | fatal msg w1 =>
      rw [hrun] at hd
      exact hd
    | ok u w1 =>
      rw [hrun] at hd
      exact ih w1 (fun ek1 h1 => hfiles ek1 (List.mem_cons_of_mem _ h1)) hd.1 hd.2

/-- The startup protocol of a store in state off: when the file names fit and `access`
answers for each file, `start(cb)` returns and so does every sequence of deliveries
after it. -/
theorem startup_of_off (K : constants) (cfg : cmd_config_t) (e : env_t) (cb : Nat)
    (w : world) (hn : 0 < cfg.n_serializers) (hN : 0 < cfg.n_slices)
    (hcfg : w.store.cmd_config = cfg) (hst : w.store.state = .state_off)
    (hsl : ∀ id s, w.store.slices id = some s → slice_ok s)
    (htr : w.trace = []) (hq : w.in_flight = [])
    (hfit : names_fit K cfg) (hfiles : e.files_ok K cfg) :
    (start K e cb w).is_ok = true ∧
    ∀ sched, (∀ ek ∈ sched, ek.1.files_ok K cfg) →
      (deliveries K sched (start K e cb w).state).is_ok = true := by
  have hs := start_inv K cfg e cb w hn hN hcfg hst hsl htr hq
  have hno := start_startable K cfg e cb w hn hN hfit hfiles hcfg hst hsl htr hq
  cases hrun : start K e cb w with
  | fatal msg w1 =>
    rw [hrun] at hno
    exact hno.elim
  | ok b w1 =>
    rw [hrun] at hs hno
    simp only [Outcome.sat_ok] at hs hno
    refine ⟨rfl, fun sched hfs => ?_⟩
    simp only [Outcome.state_ok]
    rcases hs with ⟨_, hc, _⟩ | ⟨_, _, hp⟩
    · rw [deliveries_quiet K sched w1 hc.quiet]
      rfl
    · have hsi : startup_inv cfg (some cb) w1 := by
        rcases hp with hp | hp
        · exact Or.inl hp
        · exact Or.inr (Or.inl hp)
      exact Outcome.is_ok_of_sat
        (deliveries_startup_startable K cfg (some cb) hn hN hfit sched w1 hfs hsi hno)

/-! ## Theorems: completion of the protocols -/

theorem sample_world_slices_ok : ∀ id s, sample_world.store.slices id = some s → slice_ok s := by
  intro id s h
  cases h

theorem completion_not_mem_of_no_completion {tr : List event}
    (h : ∀ ev ∈ tr, ev.is_completion = false) (c : Nat) :
    event.on_store_ready c ∉ tr ∧ event.on_store_shutdown c ∉ tr := by
  constructor
  · intro hm
    have := h _ hm
    simp [event.is_completion] at this
  · intro hm
    have := h _ hm
    simp [event.is_completion] at this

/-- After `start` has returned false, the callback is invoked exactly when the state
becomes ready. -/
theorem deliveries_after_start (K : constants) (cfg : cmd_config_t) (cb : Nat)
    (hN : 0 < cfg.n_slices) (sched : List (env_t × Nat)) (w1 : world)
    (h : startup_inv cfg (some cb) w1) :
    (deliveries K sched w1).is_ok = true →
      ((deliveries K sched w1).state.store.state = .state_ready →
        ∃ older, (deliveries K sched w1).state.trace =
            .on_store_ready cb :: .state_changed .state_starting_up .state_ready :: older ∧
          ∀ ev ∈ older, ev.is_completion = false) ∧
      ((deliveries K sched w1).state.store.state ≠ .state_ready →
        ∀ ev ∈ (deliveries K sched w1).state.trace, ev.is_completion = false) := by
  have hd := deliveries_startup_inv K cfg (some cb) hN sched w1 h
  intro hisok
  cases hrun : deliveries K sched w1 with
  | fatal msg w2 => rw [hrun] at hisok; simp [Outcome.is_ok] at hisok
  | ok u w2 =>
    rw [hrun] at hd
    simp only [Outcome.sat_ok, Outcome.state_ok] at hd ⊢
    rcases hd with h | h | h
    · exact ⟨fun hr => absurd hr (in_phase_state_ne_ready h), fun _ => h.no_completion⟩
    · exact ⟨fun hr => absurd hr (in_phase_state_ne_ready h), fun _ => h.no_completion⟩
    · refine ⟨fun _ => ?_, fun hne => absurd h.state_eq hne⟩
      obtain ⟨older, htr, hno⟩ := h.once
      exact ⟨older, by simpa [completion_events] using htr, hno⟩

/-- After `shutdown` has returned false, the callback is invoked exactly when the state
becomes off. -/
theorem deliveries_after_shutdown (K : constants) (cfg : cmd_config_t) (cb : Nat)
    (hn : 0 < cfg.n_serializers) (sched : List (env_t × Nat)) (w1 : world)
    (h : shutdown_inv cfg (some cb) w1) :
    (deliveries K sched w1).is_ok = true →
      ((deliveries K sched w1).state.store.state = .state_off →
        ∃ older, (deliveries K sched w1).state.trace =
            .on_store_shutdown cb :: .state_changed .state_shutting_down .state_off :: older ∧
          ∀ ev ∈ older, ev.is_completion = false) ∧
      ((deliveries K sched w1).state.store.state ≠ .state_off →
        ∀ ev ∈ (deliveries K sched w1).state.trace, ev.is_completion = false) := by
  have hd := deliveries_shutdown_inv K cfg (some cb) hn sched w1 h
  intro hisok
  cases hrun : deliveries K sched w1 with
  | fatal msg w2 => rw [hrun] at hisok; simp [Outcome.is_ok] at hisok
  | ok u w2 =>
    rw [hrun] at hd
    simp only [Outcome.sat_ok, Outcome.state_ok] at hd ⊢
    rcases hd with h | h | h
    · exact ⟨fun hr => absurd hr (in_phase_state_ne_off h.1), fun _ => h.1.no_completion⟩
    · exact ⟨fun hr => absurd hr (in_phase_state_ne_off h), fun _ => h.no_completion⟩
    · refine ⟨fun _ => ?_, fun hne => absurd h.state_eq hne⟩
      obtain ⟨older, htr, hno⟩ := h.once
      exact ⟨older, by simpa [completion_events] using htr, hno⟩

theorem completed_none_no_callback {cfg : cmd_config_t} {st : store_state_t} {w : world}
    (h : completed cfg none st w) (c : Nat) :
    event.on_store_ready c ∉ w.trace ∧ event.on_store_shutdown c ∉ w.trace := by
  obtain ⟨older, htr, hno⟩ := h.once
  have := completion_not_mem_of_no_completion hno c
  rw [htr]
  cases st <;> simp [completion_events, this.1, this.2]

/-- C6: `start(cb)`, called on a quiescent store in state off, returns true exactly when
the store is in state ready when it returns; in that case no callback is stored,
`on_store_ready` has not been invoked and, nothing being in flight, no delivery changes
anything any more. When it returns false, `cb` is stored, `on_store_ready` has not been
invoked yet, and after any sequence of deliveries that returns, either the state is not
ready and no completion event has occurred, or the state is ready and `on_store_ready`
has been invoked exactly once, on `cb`, right after the change of state from
starting_up to ready made by `finish_start`; and the state is ready after every
productive sequence of at least `(3 + 6 * n_slices) * n_serializers` deliveries, unless
a handler aborts. The same holds for `shutdown(cb)` called on a quiescent store in state
ready, with state off, `on_store_shutdown` and `(3 + 3 * n_serializers) * n_slices`
deliveries. And when the store was started, that is when its `n_slices` slices are in
state ready and its `n_serializers` serializers are there, nothing aborts: `shutdown(cb)`
returns, every sequence of deliveries after it returns, and after every productive
sequence of at least `(3 + 3 * n_serializers) * n_slices` deliveries the state is off
and, when `shutdown` had returned false, `on_store_shutdown` has been invoked exactly
once, on `cb`, right after the change of state from shutting_down to off made by
`finish_shutdown`. A store is started whenever `start(cb)` and the deliveries after it
have brought it to state ready. Nor does anything abort during startup when the file
names of the serializers pass the length check and `access` finds each file or reports
that there is none, in `start` and in every delivery: `start(cb)` returns, every
sequence of deliveries after it returns, and after every productive sequence of at
least `(3 + 6 * n_slices) * n_serializers` deliveries the state is ready and, when
`start` had returned false, `on_store_ready` has been invoked exactly once, on `cb`,
right after the change of state from starting_up to ready made by `finish_start`. -/
theorem C6_completion_signalled_once (K : constants) (cfg : cmd_config_t) (e e2 : env_t)
    (cb cb2 : Nat) (w w2 : world)
    (hn : 0 < cfg.n_serializers) (hN : 0 < cfg.n_slices)
    (hcfg : w.store.cmd_config = cfg) (hst : w.store.state = .state_off)
    (hsl : ∀ id s, w.store.slices id = some s → slice_ok s)
    (htr : w.trace = []) (hq : w.in_flight = [])
    (hcfg2 : w2.store.cmd_config = cfg) (hst2 : w2.store.state = .state_ready)
    (hsl2 : ∀ id s, w2.store.slices id = some s → slice_ok s)
    (htr2 : w2.trace = []) (hq2 : w2.in_flight = []) :
    (((start K e cb w).returned = some true ↔
        ((start K e cb w).is_ok = true ∧
          (start K e cb w).state.store.state = .state_ready)) ∧
      ((start K e cb w).returned = some true →
        (start K e cb w).state.store.ready_callback = none ∧
        (∀ c, event.on_store_ready c ∉ (start K e cb w).state.trace) ∧
        ∀ sched, deliveries K sched (start K e cb w).state = .ok () (start K e cb w).state) ∧
      ((start K e cb w).returned = some false →
        (start K e cb w).state.store.ready_callback = some cb ∧
        (∀ c, event.on_store_ready c ∉ (start K e cb w).state.trace) ∧
        (∀ sched, (deliveries K sched (start K e cb w).state).is_ok = true →
          ((deliveries K sched (start K e cb w).state).state.store.state = .state_ready →
            ∃ older, (deliveries K sched (start K e cb w).state).state.trace =
                .on_store_ready cb :: .state_changed .state_starting_up .state_ready :: older ∧
              ∀ ev ∈ older, ev.is_completion = false) ∧
          ((deliveries K sched (start K e cb w).state).state.store.state ≠ .state_ready →
            ∀ ev ∈ (deliveries K sched (start K e cb w).state).state.trace,
              ev.is_completion = false)) ∧
        ∀ sched, productive K sched (start K e cb w).state = true →
          (3 + 6 * cfg.n_slices) * cfg.n_serializers ≤ sched.length →
          (deliveries K sched (start K e cb w).state).is_ok = true →
          (deliveries K sched (start K e cb w).state).state.store.state = .state_ready)) ∧
    (((shutdown e2 cb2 w2).returned = some true ↔
        ((shutdown e2 cb2 w2).is_ok = true ∧
          (shutdown e2 cb2 w2).state.store.state = .state_off)) ∧
      ((shutdown e2 cb2 w2).returned = some true →
        (shutdown e2 cb2 w2).state.store.shutdown_callback = none ∧
        (∀ c, event.on_store_shutdown c ∉ (shutdown e2 cb2 w2).state.trace) ∧
        ∀ sched, deliveries K sched (shutdown e2 cb2 w2).state =
          .ok () (shutdown e2 cb2 w2).state) ∧
      ((shutdown e2 cb2 w2).returned = some false →
        (shutdown e2 cb2 w2).state.store.shutdown_callback = some cb2 ∧
        (∀ c, event.on_store_shutdown c ∉ (shutdown e2 cb2 w2).state.trace) ∧
        (∀ sched, (deliveries K sched (shutdown e2 cb2 w2).state).is_ok = true →
          ((deliveries K sched (shutdown e2 cb2 w2).state).state.store.state = .state_off →
            ∃ older, (deliveries K sched (shutdown e2 cb2 w2).state).state.trace =
                .on_store_shutdown cb2 ::
                  .state_changed .state_shutting_down .state_off :: older ∧
              ∀ ev ∈ older, ev.is_completion = false) ∧
          ((deliveries K sched (shutdown e2 cb2 w2).state).state.store.state ≠ .state_off →
            ∀ ev ∈ (deliveries K sched (shutdown e2 cb2 w2).state).state.trace,
              ev.is_completion = false)) ∧
        ∀ sched, productive K sched (shutdown e2 cb2 w2).state = true →
          (3 + 3 * cfg.n_serializers) * cfg.n_slices ≤ sched.length →
          (deliveries K sched (shutdown e2 cb2 w2).state).is_ok = true →
          (deliveries K sched (shutdown e2 cb2 w2).state).state.store.state = .state_off)) ∧
    (store_started cfg w2.store →
      (shutdown e2 cb2 w2).is_ok = true ∧
      ∀ sched, (deliveries K sched (shutdown e2 cb2 w2).state).is_ok = true ∧
        (productive K sched (shutdown e2 cb2 w2).state = true →
          (3 + 3 * cfg.n_serializers) * cfg.n_slices ≤ sched.length →
          (deliveries K sched (shutdown e2 cb2 w2).state).state.store.state = .state_off ∧
          ((shutdown e2 cb2 w2).returned = some true →
            ∀ c, event.on_store_shutdown c ∉
              (deliveries K sched (shutdown e2 cb2 w2).state).state.trace) ∧
          ((shutdown e2 cb2 w2).returned = some false →
            ∃ older, (deliveries K sched (shutdown e2 cb2 w2).state).state.trace =
                .on_store_shutdown cb2 ::
                  .state_changed .state_shutting_down .state_off :: older ∧
              ∀ ev ∈ older, ev.is_completion = false))) ∧
    (((start K e cb w).returned = some true →
        store_started cfg (start K e cb w).state.store) ∧
      ∀ sched, (start K e cb w).is_ok = true →
        (deliveries K sched (start K e cb w).state).is_ok = true →
        (deliveries K sched (start K e cb w).state).state.store.state = .state_ready →
        store_started cfg (deliveries K sched (start K e cb w).state).state.store) ∧
    (names_fit K cfg → e.files_ok K cfg →
      (start K e cb w).is_ok = true ∧
      ∀ sched, (∀ ek ∈ sched, ek.1.files_ok K cfg) →
        (deliveries K sched (start K e cb w).state).is_ok = true ∧
        (productive K sched (start K e cb w).state = true →
          (3 + 6 * cfg.n_slices) * cfg.n_serializers ≤ sched.length →
          (deliveries K sched (start K e cb w).state).state.store.state = .state_ready ∧
          ((start K e cb w).returned = some true →
            ∀ c, event.on_store_ready c ∉
              (deliveries K sched (start K e cb w).state).state.trace) ∧
          ((start K e cb w).returned = some false →
            ∃ older, (deliveries K sched (start K e cb w).state).state.trace =
                .on_store_ready cb :: .state_changed .state_starting_up .state_ready :: older ∧
              ∀ ev ∈ older, ev.is_completion = false))) := by
  refine ⟨?_, ?_, ?_, startup_makes_started K cfg e cb w hn hN hcfg hst hsl htr hq, ?_⟩
  · have hs := start_inv K cfg e cb w hn hN hcfg hst hsl htr hq
    have hwk := start_work K cfg e cb w hcfg hq
    cases hrun : start K e cb w with
    | fatal msg w1 => simp [Outcome.returned, Outcome.is_ok]
    | ok b w1 =>
      rw [hrun] at hs hwk
      simp only [Outcome.sat_ok] at hs hwk
      simp only [Outcome.returned, Outcome.is_ok, Outcome.state_ok, Option.some.injEq,
        true_and]
      rcases hs with ⟨hb, hc, hrc⟩ | ⟨hb, hrc, hp⟩
      · subst hb
        refine ⟨⟨fun _ => hc.state_eq, fun _ => rfl⟩, fun _ => ⟨hrc, ?_, ?_⟩, ?_⟩
        · exact fun c => (completed_none_no_callback hc c).1
        · exact fun sched => deliveries_quiet K sched w1 hc.quiet
        · intro h
          simp at h
      · subst hb
        have hsi : startup_inv cfg (some cb) w1 := by
          rcases hp with hp | hp
          · exact Or.inl hp
          · exact Or.inr (Or.inl hp)
        have hne : w1.store.state ≠ .state_ready := by
          rcases hp with hp | hp
          · exact in_phase_state_ne_ready hp
          · exact in_phase_state_ne_ready hp
        have hno : ∀ ev ∈ w1.trace, ev.is_completion = false := by
          rcases hp with hp | hp
          · exact hp.no_completion
          · exact hp.no_completion
        refine ⟨⟨fun h => by simp at h, fun h => absurd h hne⟩, fun h => by simp at h,
          fun _ => ⟨hrc, ?_, ?_, ?_⟩⟩
        · exact fun c => (completion_not_mem_of_no_completion hno c).1
        · exact fun sched => deliveries_after_start K cfg cb hN sched w1 hsi
        · exact fun sched hprod hlen hok =>
            startup_terminates K cfg (some cb) hN sched w1 hsi hprod (Nat.le_trans hwk hlen) hok
  · have hs := shutdown_method_inv cfg e2 cb2 w2 hn hN hcfg2 hst2 hsl2 htr2 hq2
    have hwk := shutdown_method_work cfg e2 cb2 w2 hn hN hcfg2 hst2 hsl2 htr2 hq2
    cases hrun : shutdown e2 cb2 w2 with
    | fatal msg w1 => simp [Outcome.returned, Outcome.is_ok]
    | ok b w1 =>
      rw [hrun] at hs hwk
      simp only [Outcome.sat_ok] at hs hwk
      simp only [Outcome.returned, Outcome.is_ok, Outcome.state_ok, Option.some.injEq,
        true_and]
      rcases hs with ⟨hb, hc, hrc⟩ | ⟨hb, hrc, hp⟩
      · subst hb
        refine ⟨⟨fun _ => hc.state_eq, fun _ => rfl⟩, fun _ => ⟨hrc, ?_, ?_⟩, ?_⟩
        · exact fun c => (completed_none_no_callback hc c).2
        · exact fun sched => deliveries_quiet K sched w1 hc.quiet
        · intro h
          simp at h
      · subst hb
        have hsi : shutdown_inv cfg (some cb2) w1 := by
          rcases hp with hp | hp
          · exact Or.inl hp
          · exact Or.inr (Or.inl hp)
        have hne : w1.store.state ≠ .state_off := by
          rcases hp with hp | hp
          · exact in_phase_state_ne_off hp.1
          · exact in_phase_state_ne_off hp
        have hno : ∀ ev ∈ w1.trace, ev.is_completion = false := by
          rcases hp with hp | hp
          · exact hp.1.no_completion
          · exact hp.no_completion
        refine ⟨⟨fun h => by simp at h, fun h => absurd h hne⟩, fun h => by simp at h,
          fun _ => ⟨hrc, ?_, ?_, ?_⟩⟩
        · exact fun c => (completion_not_mem_of_no_completion hno c).2
        · exact fun sched => deliveries_after_shutdown K cfg cb2 hn sched w1 hsi
        · exact fun sched hprod hlen hok =>
            shutdown_terminates K cfg (some cb2) hn sched w1 hsi hprod (Nat.le_trans hwk hlen)
              hok
  · intro hstarted
    obtain ⟨hok, hall⟩ :=
      shutdown_of_started K cfg e2 cb2 w2 hn hN hcfg2 hst2 hsl2 htr2 hq2 hstarted
    have hs := shutdown_method_inv cfg e2 cb2 w2 hn hN hcfg2 hst2 hsl2 htr2 hq2
    have hwk := shutdown_method_work cfg e2 cb2 w2 hn hN hcfg2 hst2 hsl2 htr2 hq2
    refine ⟨hok, fun sched => ⟨(hall sched).1, fun hprod hlen => ?_⟩⟩
    have hdok := (hall sched).1
    cases hrun : shutdown e2 cb2 w2 with
    | fatal msg w1 =>
      rw [hrun] at hok
      simp [Outcome.is_ok] at hok
    | ok b w1 =>
      rw [hrun] at hs hwk hdok hprod
      simp only [Outcome.sat_ok, Outcome.state_ok] at hs hwk hdok hprod
      simp only [Outcome.returned, Outcome.state_ok, Option.some.injEq]
      rcases hs with ⟨hb, hc, hrc⟩ | ⟨hb, hrc, hp⟩
      · subst hb
        rw [deliveries_quiet K sched w1 hc.quiet]
        exact ⟨hc.state_eq, fun _ c => (completed_none_no_callback hc c).2,
          fun h => by simp at h⟩
      · subst hb
        have hsi : shutdown_inv cfg (some cb2) w1 := by
          rcases hp with hp | hp
          · exact Or.inl hp
          · exact Or.inr (Or.inl hp)
        have hoff := shutdown_terminates K cfg (some cb2) hn sched w1 hsi hprod
          (Nat.le_trans hwk hlen) hdok
        exact ⟨hoff, fun h => by simp at h,
          fun _ => ((deliveries_after_shutdown K cfg cb2 hn sched w1 hsi) hdok).1 hoff⟩
  · intro hfit hfiles
    obtain ⟨hok, hall⟩ :=
      startup_of_off K cfg e cb w hn hN hcfg hst hsl htr hq hfit hfiles
    have hs := start_inv K cfg e cb w hn hN hcfg hst hsl htr hq
    have hwk := start_work K cfg e cb w hcfg hq
    refine ⟨hok, fun sched hfs => ⟨hall sched hfs, fun hprod hlen => ?_⟩⟩
    have hdok := hall sched hfs
    cases hrun : start K e cb w with
    | fatal msg w1 =>
      rw [hrun] at hok
      simp [Outcome.is_ok] at hok
    | ok b w1 =>
      rw [hrun] at hs hwk hdok hprod
      simp only [Outcome.sat_ok, Outcome.state_ok] at hs hwk hdok hprod
      simp only [Outcome.returned, Outcome.state_ok, Option.some.injEq]
      rcases hs with ⟨hb, hc, hrc⟩ | ⟨hb, hrc, hp⟩
      · subst hb
        rw [deliveries_quiet K sched w1 hc.quiet]
        exact ⟨hc.state_eq, fun _ c => (completed_none_no_callback hc c).1,
          fun h => by simp at h⟩
      · subst hb
        have hsi : startup_inv cfg (some cb) w1 := by
          rcases hp with hp | hp
          · exact Or.inl hp
          · exact Or.inr (Or.inl hp)
        have hrdy := startup_terminates K cfg (some cb) hN sched w1 hsi hprod
          (Nat.le_trans hwk hlen) hdok
        exact ⟨hrdy, fun h => by simp at h,
          fun _ => ((deliveries_after_start K cfg cb hN sched w1 hsi) hdok).1 hrdy⟩

/-- The shutdown protocol from a quiescent store in state ready: every execution keeps
the trace within the barriers, and a returning execution satisfies the shutdown
invariant. -/
theorem shutdown_execution_inv (K : constants) (cfg : cmd_config_t) (e : env_t) (cb : Nat)
    (sched : List (env_t × Nat)) (w : world)
    (hn : 0 < cfg.n_serializers) (hN : 0 < cfg.n_slices)
    (hcfg : w.store.cmd_config = cfg) (hst : w.store.state = .state_ready)
    (hsl : ∀ id s, w.store.slices id = some s → slice_ok s)
    (htr : w.trace = []) (hq : w.in_flight = []) :
    (shutdown_execution K e cb sched w).sat
      (fun _ w1 => shutdown_inv cfg (some cb) w1 ∨
        (completed cfg none .state_off w1 ∧ w1.store.shutdown_callback = none))
      (fun w1 => trace_ok cfg w1.trace) := by
  have hs := shutdown_method_inv cfg e cb w hn hN hcfg hst hsl htr hq
  unfold shutdown_execution
  cases hrun : shutdown e cb w with
  | fatal msg w1 =>
    rw [hrun] at hs
    exact hs
  | ok b w1 =>
    rw [hrun] at hs
    simp only [Outcome.sat_ok] at hs
    rcases hs with ⟨_, hc, hrc⟩ | ⟨_, _, hp⟩
    · simp only []
      rw [deliveries_quiet K sched w1 hc.quiet]
      exact Or.inr ⟨hc, hrc⟩
    · have hsi : shutdown_inv cfg (some cb) w1 := by
        rcases hp with hp | hp
        · exact Or.inl hp
        · exact Or.inr (Or.inl hp)
      exact Outcome.sat_mono (deliveries_shutdown_inv K cfg (some cb) hn sched w1 hsi)
        (fun _ _ h => Or.inl h) (fun _ h => h)

theorem shutdown_execution_trace_ok (K : constants) (cfg : cmd_config_t) (e : env_t) (cb : Nat)
    (sched : List (env_t × Nat)) (w : world)
    (hn : 0 < cfg.n_serializers) (hN : 0 < cfg.n_slices)
    (hcfg : w.store.cmd_config = cfg) (hst : w.store.state = .state_ready)
    (hsl : ∀ id s, w.store.slices id = some s → slice_ok s)
    (htr : w.trace = []) (hq : w.in_flight = []) :
    trace_ok cfg (shutdown_execution K e cb sched w).state.trace := by
  have h := shutdown_execution_inv K cfg e cb sched w hn hN hcfg hst hsl htr hq
  cases hrun : shutdown_execution K e cb sched w with
  | fatal msg w1 =>
    rw [hrun] at h
    exact h
  | ok u w1 =>
    rw [hrun] at h
    simp only [Outcome.sat_ok] at h
    rcases h with (h | h | h) | h
    · exact h.1.tr_ok
    · exact h.tr_ok
    · exact h.tr_ok
    · exact h.1.tr_ok

/-- C7: shutdown barrier. In every execution of the shutdown protocol begun by
`shutdown(cb)` on a quiescent store in state ready (`n_serializers > 0`,
`n_slices > 0`; the trace is taken from the call of `shutdown`): (1) before every
dispatch of a serializer shutdown task, `have_shutdown_a_slice` has run `n_slices`
times on the home core and `n_slices` slices have been destroyed; (2) before the state
becomes off and before `on_store_shutdown` is invoked, in addition
`have_shutdown_a_serializer` has run `n_serializers` times; (3) when the execution has
returned, the state is off or shutting_down; (4) in state off all reports have been
processed, nothing is in flight, `messages_out` is 0, the configuration is unchanged
and the slices left are consistent: the store is again as `start` requires it;
(5) in state shutting_down `messages_out` equals the number of messages in flight and
is at least 1, so the protocol can only come to rest in state off; (6) the store is in
state off after every productive sequence of at least
`(3 + 3 * n_serializers) * n_slices` deliveries, unless a handler aborts; (7) when the
store was started, that is when its `n_slices` slices are in state ready and its
`n_serializers` serializers are there, which is how the startup protocol leaves it
(`startup_makes_started`), no handler aborts: the execution returns, and
after every productive sequence of at least `(3 + 3 * n_serializers) * n_slices`
deliveries the store is in state off with nothing in flight, `messages_out` 0 and all
reports processed. -/
theorem C7_shutdown_barrier (K : constants) (cfg : cmd_config_t) (e : env_t) (cb : Nat)
    (sched : List (env_t × Nat)) (w : world)
    (hn : 0 < cfg.n_serializers) (hN : 0 < cfg.n_slices)
    (hcfg : w.store.cmd_config = cfg) (hst : w.store.state = .state_ready)
    (hsl : ∀ id s, w.store.slices id = some s → slice_ok s)
    (htr : w.trace = []) (hq : w.in_flight = []) :
    (∀ newer older id,
      (shutdown_execution K e cb sched w).state.trace =
        newer ++ .dispatched (.shutdown_a_serializer id) :: older →
      executed_count .have_shutdown_a_slice older = cfg.n_slices ∧
        deleted_slices older = cfg.n_slices) ∧
    (∀ newer older ev,
      (shutdown_execution K e cb sched w).state.trace = newer ++ ev :: older →
      ((∃ old, ev = .state_changed old .state_off) ∨ (∃ c, ev = .on_store_shutdown c)) →
      executed_count .have_shutdown_a_slice older = cfg.n_slices ∧
        executed_count .have_shutdown_a_serializer older = cfg.n_serializers) ∧
    ((shutdown_execution K e cb sched w).is_ok = true →
      (shutdown_execution K e cb sched w).state.store.state = .state_off ∨
        (shutdown_execution K e cb sched w).state.store.state = .state_shutting_down) ∧
    ((shutdown_execution K e cb sched w).is_ok = true →
      (shutdown_execution K e cb sched w).state.store.state = .state_off →
      executed_count .have_shutdown_a_slice
          (shutdown_execution K e cb sched w).state.trace = cfg.n_slices ∧
        executed_count .have_shutdown_a_serializer
          (shutdown_execution K e cb sched w).state.trace = cfg.n_serializers ∧
        (shutdown_execution K e cb sched w).state.in_flight = [] ∧
        (shutdown_execution K e cb sched w).state.store.messages_out = 0 ∧
        (shutdown_execution K e cb sched w).state.store.cmd_config = cfg ∧
        ∀ id s, (shutdown_execution K e cb sched w).state.store.slices id = some s →
          slice_ok s) ∧
    ((shutdown_execution K e cb sched w).is_ok = true →
      (shutdown_execution K e cb sched w).state.store.state = .state_shutting_down →
      (shutdown_execution K e cb sched w).state.store.messages_out =
          ((shutdown_execution K e cb sched w).state.in_flight.length : Int) ∧
        1 ≤ (shutdown_execution K e cb sched w).state.in_flight.length) ∧
    (productive K sched (shutdown e cb w).state = true →
      (3 + 3 * cfg.n_serializers) * cfg.n_slices ≤ sched.length →
      (shutdown_execution K e cb sched w).is_ok = true →
      (shutdown_execution K e cb sched w).state.store.state = .state_off) ∧
    (store_started cfg w.store →
      (shutdown_execution K e cb sched w).is_ok = true ∧
      ((shutdown_execution K e cb sched w).state.store.state = .state_off ∨
        (shutdown_execution K e cb sched w).state.store.state = .state_shutting_down) ∧
      (productive K sched (shutdown e cb w).state = true →
        (3 + 3 * cfg.n_serializers) * cfg.n_slices ≤ sched.length →
        (shutdown_execution K e cb sched w).state.store.state = .state_off ∧
        executed_count .have_shutdown_a_slice
          (shutdown_execution K e cb sched w).state.trace = cfg.n_slices ∧
        executed_count .have_shutdown_a_serializer
          (shutdown_execution K e cb sched w).state.trace = cfg.n_serializers ∧
        (shutdown_execution K e cb sched w).state.in_flight = [] ∧
        (shutdown_execution K e cb sched w).state.store.messages_out = 0)) := by
  have hok := shutdown_execution_trace_ok K cfg e cb sched w hn hN hcfg hst hsl htr hq
  have hinv := shutdown_execution_inv K cfg e cb sched w hn hN hcfg hst hsl htr hq
  have key : ∀ {A B C D N : Prop}, A → B → C → D → (A → B → D → N) →
      A ∧ B ∧ C ∧ D ∧ N := fun a b c d f => ⟨a, b, c, d, f a b d⟩
  refine ⟨?_, ?_, key ?_ ?_ ?_ ?_ ?_⟩
  · intro newer older id hsplit
    rw [hsplit] at hok
    exact trace_ok_split cfg _ _ _ hok
  · intro newer older ev hsplit hev
    rw [hsplit] at hok
    have := trace_ok_split cfg _ _ _ hok
    rcases hev with ⟨old, rfl⟩ | ⟨c, rfl⟩
    · exact this
    · exact ⟨this.1, this.2.1⟩
  · intro hisok
    cases hrun : shutdown_execution K e cb sched w with
    | fatal msg w1 => rw [hrun] at hisok; simp [Outcome.is_ok] at hisok
    | ok u w1 =>
      rw [hrun] at hinv
      simp only [Outcome.sat_ok, Outcome.state_ok] at hinv ⊢
      rcases hinv with (h | h | h) | h
      · exact Or.inr h.1.state_eq
      · exact Or.inr h.state_eq
      · exact Or.inl h.state_eq
      · exact Or.inl h.1.state_eq
  · intro hisok hoff
    cases hrun : shutdown_execution K e cb sched w with
    | fatal msg w1 => rw [hrun] at hisok; simp [Outcome.is_ok] at hisok
    | ok u w1 =>
      rw [hrun] at hinv hoff
      simp only [Outcome.sat_ok, Outcome.state_ok] at hinv hoff ⊢
      rcases hinv with (h | h | h) | h
      · exact absurd hoff (in_phase_state_ne_off h.1)
      · exact absurd hoff (in_phase_state_ne_off h)
      · exact ⟨(completed_off_counts h).1, (completed_off_counts h).2, h.quiet, h.mo,
          h.cfg_eq, h.slices_ok⟩
      · exact ⟨(completed_off_counts h.1).1, (completed_off_counts h.1).2, h.1.quiet, h.1.mo,
          h.1.cfg_eq, h.1.slices_ok⟩
  · intro hisok hsd
    cases hrun : shutdown_execution K e cb sched w with
    | fatal msg w1 => rw [hrun] at hisok; simp [Outcome.is_ok] at hisok
    | ok u w1 =>
      rw [hrun] at hinv hsd
      simp only [Outcome.sat_ok, Outcome.state_ok] at hinv hsd ⊢
      rcases hinv with (h | h | h) | h
      · have hmo := h.1.mo
        have hpos := h.1.pos
        simp only [Nat.add_zero] at hmo hpos
        exact ⟨hmo, hpos⟩
      · have hmo := h.mo
        have hpos := h.pos
        simp only [Nat.add_zero] at hmo hpos
        exact ⟨hmo, hpos⟩
      · rw [h.state_eq] at hsd
        simp at hsd
      · rw [h.1.state_eq] at hsd
        simp at hsd
  · intro hprod hlen hisok
    have hs := shutdown_method_inv cfg e cb w hn hN hcfg hst hsl htr hq
    have hwk := shutdown_method_work cfg e cb w hn hN hcfg hst hsl htr hq
    unfold shutdown_execution at hisok ⊢
    cases hrun : shutdown e cb w with
    | fatal msg w1 =>
      rw [hrun] at hisok
      simp [Outcome.is_ok] at hisok
    | ok b w1 =>
      rw [hrun] at hs hwk hisok hprod
      simp only [Outcome.sat_ok, Outcome.state_ok] at hs hwk hisok hprod ⊢
      rcases hs with ⟨_, hc, _⟩ | ⟨_, _, hp⟩
      · rw [deliveries_quiet K sched w1 hc.quiet]
        exact hc.state_eq
      · have hsi : shutdown_inv cfg (some cb) w1 := by
          rcases hp with hp | hp
          · exact Or.inl hp
          · exact Or.inr (Or.inl hp)
        exact shutdown_terminates K cfg (some cb) hn sched w1 hsi hprod
          (Nat.le_trans hwk hlen) hisok
  · intro h3 h4 h6 hstarted
    have hisok := ((shutdown_of_started K cfg e cb w hn hN hcfg hst hsl htr hq hstarted).2
      sched).2.1
    refine ⟨hisok, h3 hisok, fun hprod hlen => ?_⟩
    have hoff := h6 hprod hlen hisok
    have h := h4 hisok hoff
    exact ⟨hoff, h.1, h.2.1, h.2.2.1, h.2.2.2.1⟩

/-- C8: the store state machine. `start` fails on its assertion unless the state is
off, `shutdown` unless it is ready, `finish_start` unless it is starting_up and
`finish_shutdown` unless it is shutting_down, and the failure leaves every field of
the store, what is in flight and the trace as they were. Every state change moves the
state one step along `off -> starting_up -> ready -> shutting_down -> off`: when the
state changes recorded so far form a path along the cycle from `s0` to the present
state, then after any sequence of calls of `start`, calls of `shutdown` and deliveries
(up to an abort, if one occurs) they still do, and every recorded change enters the
successor of the state it leaves. -/
theorem C8_state_moves_along_cycle (K : constants) (w : world) :
    (∀ e cb, w.store.state ≠ .state_off →
      start K e cb w = .fatal "assert(state == state_off)" w) ∧
    (∀ e cb, w.store.state ≠ .state_ready →
      shutdown e cb w = .fatal "assert(state == state_ready)" w) ∧
    (w.store.state ≠ .state_starting_up →
      finish_start w = .fatal "assert(state == state_starting_up)" w) ∧
    (w.store.state ≠ .state_shutting_down →
      finish_shutdown w = .fatal "assert(state == state_shutting_down)" w) ∧
    (∀ s0, state_path s0 w.trace = some w.store.state →
      ∀ ops, state_path s0 (run_ops K ops w).state.trace =
          some (run_ops K ops w).state.store.state ∧
        ∀ a b, event.state_changed a b ∈ (run_ops K ops w).state.trace → b = a.next) := by
  refine ⟨?_, ?_, ?_, ?_, ?_⟩
  · intro e cb h
    unfold start
    rw [if_pos h]
  · intro e cb h
    unfold shutdown
    rw [if_pos h]
  · intro h
    unfold finish_start
    rw [if_pos h]
  · intro h
    unfold finish_shutdown
    rw [if_pos h]
  · intro s0 h ops
    have h1 := run_ops_history s0 K ops w h
    exact ⟨h1, state_path_steps s0 _ _ h1⟩

/-- C8, witness: `start` on the sample store in state ready fails and changes nothing;
from the new sample store, an inline `start` followed by an inline `shutdown` takes
the state around the cycle, back to off. -/
theorem C8_state_moves_along_cycle_witness :
    sample_ready_world.store.state ≠ .state_off ∧
      start sample_constants env_inline 1 sample_ready_world =
        .fatal "assert(state == state_off)" sample_ready_world ∧
      state_path .state_off
          (run_ops sample_constants [(env_inline, .start 1), (env_inline, .shutdown 2)]
            sample_world).state.trace = some .state_off :=
  ⟨by decide,
    (C8_state_moves_along_cycle sample_constants sample_ready_world).1 env_inline 1 (by decide),
    (((C8_state_moves_along_cycle sample_constants sample_world).2.2.2.2 .state_off rfl
      [(env_inline, .start 1), (env_inline, .shutdown 2)]).1).trans (by decide)⟩

theorem startup_execution_slices_ok (K : constants) (cfg : cmd_config_t) (e : env_t) (cb : Nat)
    (sched : List (env_t × Nat)) (w : world)
    (hn : 0 < cfg.n_serializers) (hN : 0 < cfg.n_slices)
    (hcfg : w.store.cmd_config = cfg) (hst : w.store.state = .state_off)
    (hsl : ∀ id s, w.store.slices id = some s → slice_ok s)
    (htr : w.trace = []) (hq : w.in_flight = [])
    (hisok : (startup_execution K e cb sched w).is_ok = true) :
    ∀ id s, (startup_execution K e cb sched w).state.store.slices id = some s → slice_ok s := by
  have h := startup_execution_inv K cfg e cb sched w hn hN hcfg hst hsl htr hq
  cases hrun : startup_execution K e cb sched w with
  | fatal msg w1 =>
    rw [hrun] at hisok
    simp [Outcome.is_ok] at hisok
  | ok u w1 =>
    rw [hrun] at h
    simp only [Outcome.sat_ok, Outcome.state_ok] at h ⊢
    rcases h with (h | h | h) | h
    · exact h.slices_ok
    · exact h.slices_ok
    · exact h.slices_ok
    · exact h.1.slices_ok

theorem sample_ready_world_slices_ok :
    ∀ id s, sample_ready_world.store.slices id = some s → slice_ok s :=
  startup_execution_slices_ok sample_constants sample_config env_queued 7
    (sample_schedule 30) sample_world (by decide) (by decide) rfl rfl
    sample_world_slices_ok rfl rfl (by decide)

/-- C5, witness: the sample store (2 serializers, 4 slices), everything queued, after
12 deliveries: the four caches are starting, `messages_out` is 4 and messages are in
flight. -/
theorem C5_startup_barrier_witness :
    (startup_execution sample_constants env_queued 7 (sample_schedule 12)
        sample_world).state.store.messages_out = 4 ∧
      1 ≤ (startup_execution sample_constants env_queued 7 (sample_schedule 12)
        sample_world).state.in_flight.length := by
  have h := (C5_startup_barrier sample_constants sample_config env_queued 7
    (sample_schedule 12) sample_world (by decide) (by decide) rfl rfl
    sample_world_slices_ok rfl rfl).2.2.2 (by decide) (by decide)
  exact ⟨by rw [h.1]; decide, h.2.1⟩

/-- C6, witness: on the sample store a queued `start(7)` returns false and stores 7,
and after 54 deliveries of the oldest message the state is ready and the trace begins
with `on_store_ready 7` right after the change to ready; a queued `shutdown(9)` on the
started store returns false and stores 9, and after 36 deliveries of the oldest message
the state is off and the trace begins with `on_store_shutdown 9` right after the change
to off; the store that the 54 deliveries after `start(7)` leave is started; and `start(7)`
and the 54 deliveries return, the names `db_0` and `db_1` being short and `access`
reporting that there is no file. -/
theorem C6_completion_signalled_once_witness :
    (start sample_constants env_queued 7 sample_world).state.store.ready_callback = some 7 ∧
      (deliveries sample_constants (sample_schedule 54)
        (start sample_constants env_queued 7 sample_world).state).state.store.state =
          .state_ready ∧
      (∃ older, (deliveries sample_constants (sample_schedule 54)
          (start sample_constants env_queued 7 sample_world).state).state.trace =
        .on_store_ready 7 :: .state_changed .state_starting_up .state_ready :: older ∧
        ∀ ev ∈ older, ev.is_completion = false) ∧
      (shutdown env_queued 9 sample_ready_world).state.store.shutdown_callback = some 9 ∧
      (shutdown env_queued 9 sample_ready_world).is_ok = true ∧
      (deliveries sample_constants (sample_schedule 36)
        (shutdown env_queued 9 sample_ready_world).state).is_ok = true ∧
      (deliveries sample_constants (sample_schedule 36)
        (shutdown env_queued 9 sample_ready_world).state).state.store.state = .state_off ∧
      (∃ older, (deliveries sample_constants (sample_schedule 36)
          (shutdown env_queued 9 sample_ready_world).state).state.trace =
        .on_store_shutdown 9 :: .state_changed .state_shutting_down .state_off :: older ∧
        ∀ ev ∈ older, ev.is_completion = false) ∧
      store_started sample_config (deliveries sample_constants (sample_schedule 54)
        (start sample_constants env_queued 7 sample_world).state).state.store ∧
      (start sample_constants env_queued 7 sample_world).is_ok = true ∧
      (deliveries sample_constants (sample_schedule 54)
        (start sample_constants env_queued 7 sample_world).state).is_ok = true := by
  have h := C6_completion_signalled_once sample_constants sample_config env_queued env_queued
    7 9 sample_world sample_ready_world (by decide) (by decide) rfl rfl
    sample_world_slices_ok rfl rfl (by decide) (by decide) sample_ready_world_slices_ok rfl
    (by decide)
  have h1 := h.1.2.2 (by decide)
  have h2 := h1.2.2.2 (sample_schedule 54) (by decide) (by decide) (by decide)
  have h3 := h.2.2.1 (by decide)
  have h4 := (h3.2 (sample_schedule 36)).2 (by decide) (by decide)
  have h5 := h.2.2.2.2 (by decide) (by decide)
  have h6 := h5.2 (sample_schedule 54)
    (fun ek hek => by rw [List.eq_of_mem_replicate hek]; decide)
  exact ⟨h1.1, h2, (h1.2.2.1 (sample_schedule 54) (by decide)).1 h2,
    (h.2.1.2.2 (by decide)).1, h3.1, (h3.2 (sample_schedule 36)).1, h4.1,
    h4.2.2 (by decide), h.2.2.2.1.2 (sample_schedule 54) (by decide) (by decide) h2,
    h5.1, h6.1⟩

/-- C7, witness: on the started sample store, everything queued, the execution of
`shutdown(9)` followed by 36 deliveries of the oldest message returns and leaves the
state off with all four slice reports processed and nothing in flight. -/
theorem C7_shutdown_barrier_witness :
    (shutdown_execution sample_constants env_queued 9 (sample_schedule 36)
        sample_ready_world).is_ok = true ∧
      (shutdown_execution sample_constants env_queued 9 (sample_schedule 36)
        sample_ready_world).state.store.state = .state_off ∧
      executed_count .have_shutdown_a_slice
        (shutdown_execution sample_constants env_queued 9 (sample_schedule 36)
          sample_ready_world).state.trace = 4 ∧
      (shutdown_execution sample_constants env_queued 9 (sample_schedule 36)
        sample_ready_world).state.in_flight = [] := by
  have h := C7_shutdown_barrier sample_constants sample_config env_queued 9
    (sample_schedule 36) sample_ready_world (by decide) (by decide) (by decide) (by decide)
    sample_ready_world_slices_ok rfl (by decide)
  have h1 := h.2.2.2.2.2.2 (by decide)
  have h2 := h1.2.2 (by decide) (by decide)
  exact ⟨h1.1, h2.1, h2.2.1, h2.2.2.2.1⟩

/-! ## Theorems: runs of the superblock initializer -/

open initialize_superblock_fsm_t in
theorem sb_complete_run_calls (nil : Nat) (o : cache_oracle) (c : cache_t)
    (hp : c.pending = none) :
    (complete_run nil o c).state.cache.pending = none ∧
    (complete_run nil o c).returned =
      some ⟨true, !(o.begin_inline && o.acquire_inline && o.commit_inline)⟩ ∧
    (complete_run nil o c).state.cache.calls =
      [.commit, .release] ++
        (if c.superblock.database_exists = 0 then [cache_call.get_data_write] else []) ++
        [.get_data_read, .acquire_superblock_write, .begin_transaction_write] ++ c.calls := by
  rcases o with ⟨a, b1, b2, b3, x⟩
  by_cases hd : c.superblock.database_exists = 0 <;>
  cases b1 <;> cases b2 <;> cases b3 <;>
  simp [complete_run, drain, complete_pending, initialize_superblock_if_necessary,
    next_initialize_superblock_step, step_acquire, step_make_change, step_commit, step_finish,
    on_txn_begin, on_block_available, on_txn_commit,
    initialize_superblock_fsm_t.new, cache_t.call_op, cache_t.call, hp, hd, Outcome.returned,
    Outcome.state]

/-- C11: superblock idempotence. For every superblock content held by an idle cache and
every choice of the cache in either run, a complete run of the initializer leaves the
cache idle, a second complete run succeeds as well, and the superblock after the second
run is the superblock after the first; starting from the zero-filled superblock of a
newly created file, the superblock after two runs has `database_exists = 1` and
`root_block = NULL_BLOCK_ID`. -/
theorem C11_initializer_idempotent (NULL_BLOCK_ID : Nat) (o1 o2 : cache_oracle) (c : cache_t)
    (hp : c.pending = none) :
    (initialize_superblock_fsm_t.complete_run NULL_BLOCK_ID o1 c).is_ok = true ∧
    (initialize_superblock_fsm_t.complete_run NULL_BLOCK_ID o1 c).state.cache.pending = none ∧
    (initialize_superblock_fsm_t.complete_run NULL_BLOCK_ID o2
      (initialize_superblock_fsm_t.complete_run NULL_BLOCK_ID o1 c).state.cache).is_ok = true ∧
    (initialize_superblock_fsm_t.complete_run NULL_BLOCK_ID o2
      (initialize_superblock_fsm_t.complete_run NULL_BLOCK_ID o1 c).state.cache).state.cache.superblock
      = (initialize_superblock_fsm_t.complete_run NULL_BLOCK_ID o1 c).state.cache.superblock ∧
    (c.superblock = ⟨0, 0⟩ →
      (initialize_superblock_fsm_t.complete_run NULL_BLOCK_ID o2
        (initialize_superblock_fsm_t.complete_run NULL_BLOCK_ID o1
          c).state.cache).state.cache.superblock =
        { database_exists := 1, root_block := NULL_BLOCK_ID }) := by
  obtain ⟨hok1, _, h0, _, hne⟩ := sb_complete_run_spec NULL_BLOCK_ID o1 c hp
  have hidle := (sb_complete_run_calls NULL_BLOCK_ID o1 c hp).1
  obtain ⟨hok2, _, _, hkeep, _⟩ := sb_complete_run_spec NULL_BLOCK_ID o2 _ hidle
  refine ⟨hok1, hidle, hok2, (hkeep hne).1, ?_⟩
  intro hz
  rw [(hkeep hne).1]
  exact h0 (by rw [hz])

/-- C11, witness: the zero-filled superblock; the first run suspends at every call, the
second completes inline. -/
theorem C11_initializer_idempotent_witness :
    (initialize_superblock_fsm_t.complete_run 4294967295 ⟨true, true, true, true, true⟩
      (initialize_superblock_fsm_t.complete_run 4294967295 ⟨true, false, false, false, true⟩
        (cache_t.holding ⟨0, 0⟩)).state.cache).state.cache.superblock =
      { database_exists := 1, root_block := 4294967295 } :=
  (C11_initializer_idempotent 4294967295 ⟨true, false, false, false, true⟩
    ⟨true, true, true, true, true⟩ (cache_t.holding ⟨0, 0⟩) rfl).2.2.2.2 rfl

/-- C12: for every superblock content held by an idle cache and every choice of which
of `begin_transaction`, `acquire` and `commit` complete inline, a complete run of the
initializer succeeds and issues, in this order, `begin_transaction(write)`,
`acquire(SUPERBLOCK_ID, write)`, `get_data_read` on the buffer, `get_data_write` on it
if and only if `database_exists` was 0, `release` of the buffer, and `commit`; so,
leaving the accesses to the data of the buffer aside, the calls issued are exactly
begin, acquire, release, commit, each once: the buffer is released once, before the
commit, and the transaction is committed, also when the superblock is initialized
already. -/
theorem C12_initializer_call_sequence (NULL_BLOCK_ID : Nat) (o : cache_oracle) (c : cache_t)
    (hp : c.pending = none) :
    (initialize_superblock_fsm_t.complete_run NULL_BLOCK_ID o c).is_ok = true ∧
    (∃ issued : List cache_call,
      (initialize_superblock_fsm_t.complete_run NULL_BLOCK_ID o c).state.cache.calls =
        issued.reverse ++ c.calls ∧
      issued = [.begin_transaction_write, .acquire_superblock_write, .get_data_read] ++
        (if c.superblock.database_exists = 0 then [cache_call.get_data_write] else []) ++
        [.release, .commit] ∧
      issued.filter (fun call => !call.is_get_data) =
        [.begin_transaction_write, .acquire_superblock_write, .release, .commit] ∧
      issued.count .begin_transaction_write = 1 ∧
      issued.count .acquire_superblock_write = 1 ∧
      issued.count .release = 1 ∧ issued.count .commit = 1) := by
  refine ⟨(sb_complete_run_spec NULL_BLOCK_ID o c hp).1, _, ?_, rfl, ?_⟩
  · rw [(sb_complete_run_calls NULL_BLOCK_ID o c hp).2.2]
    by_cases hd : c.superblock.database_exists = 0 <;> simp [hd]
  · by_cases hd : c.superblock.database_exists = 0 <;>
      simp [hd, cache_call.is_get_data, List.count_cons]

/-- C12, witness: an initialized superblock, with `acquire` suspending. -/
theorem C12_initializer_call_sequence_witness :
    (initialize_superblock_fsm_t.complete_run 4294967295 ⟨true, true, false, true, true⟩
      (cache_t.holding ⟨1, 5⟩)).is_ok = true :=
  (C12_initializer_call_sequence 4294967295 ⟨true, true, false, true, true⟩
    (cache_t.holding ⟨1, 5⟩) rfl).1

/-! ## Theorems: the slice with its history -/

section traced_lemmas

@[simp] theorem traced_slice.enter_slice (st : slice_state_t) (t : traced_slice) :
    (t.enter st).slice = { t.slice with state := st } := rfl

@[simp] theorem traced_slice.enter_visited (st : slice_state_t) (t : traced_slice) :
    (t.enter st).visited = st :: t.visited := rfl

@[simp] theorem traced_slice.update_visited (f : btree_slice_t → btree_slice_t)
    (t : traced_slice) : (t.update f).visited = t.visited := rfl

@[simp] theorem traced_slice.update_state (f : btree_slice_t → btree_slice_t)
    (t : traced_slice) : (t.update f).slice.state = t.slice.state := rfl

@[simp] theorem Outcome.map_state_ok {α σ τ : Type} (f : σ → τ) (a : α) (s : σ) :
    (Outcome.ok a s).map_state f = .ok a (f s) := rfl

@[simp] theorem Outcome.map_state_fatal {α σ τ : Type} (f : σ → τ) (msg : String) (s : σ) :
    (Outcome.fatal msg s : Outcome α σ).map_state f = .fatal msg (f s) := rfl

/-! ### The history does not change what the slice does -/

theorem traced_step_starting_up_finish_erase (t : traced_slice) :
    (t.step_starting_up_finish).map_state traced_slice.slice =
      btree_slice_t.step_starting_up_finish t.slice := by
  unfold traced_slice.step_starting_up_finish btree_slice_t.step_starting_up_finish
  split
  · split
    · rfl
    · rfl
  · rfl

theorem traced_step_starting_up_initialize_superblock_erase (nil : Nat) (o : cache_oracle)
    (t : traced_slice) :
    (t.step_starting_up_initialize_superblock nil o).map_state traced_slice.slice =
      btree_slice_t.step_starting_up_initialize_superblock nil o t.slice := by
  unfold traced_slice.step_starting_up_initialize_superblock
    btree_slice_t.step_starting_up_initialize_superblock
  split
  · cases hinit : initialize_superblock_fsm_t.initialize_superblock_if_necessary nil o
        { fsm := initialize_superblock_fsm_t.new, cache := t.slice.cache } with
    | fatal msg m => rfl
    | ok r m =>
      simp only []
      split
      · exact traced_step_starting_up_finish_erase _
      · rfl
  · exact traced_step_starting_up_finish_erase t

theorem traced_next_starting_up_step_erase (nil : Nat) (o : cache_oracle) (t : traced_slice) :
    (t.next_starting_up_step nil o).map_state traced_slice.slice =
      btree_slice_t.next_starting_up_step nil o t.slice := by
  unfold traced_slice.next_starting_up_step btree_slice_t.next_starting_up_step
  split
  · split
    · exact traced_step_starting_up_initialize_superblock_erase nil o _
    · rfl
  · exact traced_step_starting_up_initialize_superblock_erase nil o t

theorem traced_start_erase (nil : Nat) (o : cache_oracle) (t : traced_slice) :
    (t.start nil o).map_state traced_slice.slice = btree_slice_t.start nil o t.slice := by
  unfold traced_slice.start btree_slice_t.start
  split
  · rfl
  · have h := traced_next_starting_up_step_erase nil o
      ((t.enter .state_starting_up_start_cache).update fun s =>
        { s with ready_callback := false })
    cases hrun : traced_slice.next_starting_up_step nil o
        ((t.enter .state_starting_up_start_cache).update fun s =>
          { s with ready_callback := false }) with
    | fatal msg t1 =>
      rw [hrun] at h
      simp only [Outcome.map_state_fatal] at h ⊢
      have h2 : btree_slice_t.next_starting_up_step nil o
          { t.slice with state := .state_starting_up_start_cache, ready_callback := false } =
          .fatal msg t1.slice := h.symm
      rw [h2]
    | ok r t1 =>
      rw [hrun] at h
      simp only [Outcome.map_state_ok] at h ⊢
      have h2 : btree_slice_t.next_starting_up_step nil o
          { t.slice with state := .state_starting_up_start_cache, ready_callback := false } =
          .ok r t1.slice := h.symm
      rw [h2]
      simp only []
      split <;> rfl

theorem traced_on_cache_ready_erase (nil : Nat) (o : cache_oracle) (t : traced_slice) :
    (t.on_cache_ready nil o).map_state traced_slice.slice =
      btree_slice_t.on_cache_ready nil o t.slice := by
  unfold traced_slice.on_cache_ready btree_slice_t.on_cache_ready
  split
  · rfl
  · exact traced_next_starting_up_step_erase nil o _

theorem traced_on_initialize_superblock_erase (nil : Nat) (o : cache_oracle)
    (t : traced_slice) :
    (t.on_initialize_superblock nil o).map_state traced_slice.slice =
      btree_slice_t.on_initialize_superblock nil o t.slice := by
  unfold traced_slice.on_initialize_superblock btree_slice_t.on_initialize_superblock
  split
  · rfl
  · exact traced_next_starting_up_step_erase nil o _

theorem traced_step_shutting_down_finish_erase (t : traced_slice) :
    (t.step_shutting_down_finish).map_state traced_slice.slice =
      btree_slice_t.step_shutting_down_finish t.slice := by
  unfold traced_slice.step_shutting_down_finish btree_slice_t.step_shutting_down_finish
  split <;> rfl

theorem traced_next_shutting_down_step_erase (o : cache_oracle) (t : traced_slice) :
    (t.next_shutting_down_step o).map_state traced_slice.slice =
      btree_slice_t.next_shutting_down_step o t.slice := by
  unfold traced_slice.next_shutting_down_step btree_slice_t.next_shutting_down_step
  split
  · split
    · exact traced_step_shutting_down_finish_erase _
    · rfl
  · exact traced_step_shutting_down_finish_erase t

theorem traced_shutdown_erase (o : cache_oracle) (t : traced_slice) :
    (t.shutdown o).map_state traced_slice.slice = btree_slice_t.shutdown o t.slice := by
  unfold traced_slice.shutdown btree_slice_t.shutdown
  split
  · rfl
  · have h := traced_next_shutting_down_step_erase o
      ((t.enter .state_shutting_down_shutdown_cache).update fun s =>
        { s with shutdown_callback := false })
    cases hrun : traced_slice.next_shutting_down_step o
        ((t.enter .state_shutting_down_shutdown_cache).update fun s =>
          { s with shutdown_callback := false }) with
    | fatal msg t1 =>
      rw [hrun] at h
      simp only [Outcome.map_state_fatal] at h ⊢
      have h2 : btree_slice_t.next_shutting_down_step o
          { t.slice with state := .state_shutting_down_shutdown_cache,
                         shutdown_callback := false } = .fatal msg t1.slice := h.symm
      rw [h2]
    | ok r t1 =>
      rw [hrun] at h
      simp only [Outcome.map_state_ok] at h ⊢
      have h2 : btree_slice_t.next_shutting_down_step o
          { t.slice with state := .state_shutting_down_shutdown_cache,
                         shutdown_callback := false } = .ok r t1.slice := h.symm
      rw [h2]
      simp only []
      split <;> rfl

theorem traced_on_cache_shutdown_erase (o : cache_oracle) (t : traced_slice) :
    (t.on_cache_shutdown o).map_state traced_slice.slice =
      btree_slice_t.on_cache_shutdown o t.slice := by
  unfold traced_slice.on_cache_shutdown btree_slice_t.on_cache_shutdown
  split
  · rfl
  · exact traced_next_shutting_down_step_erase o _

theorem traced_sb_fsm_callback_erase (nil : Nat) (o : cache_oracle)
    (cb : Nat → cache_oracle → sb_machine → Outcome sb_ret sb_machine) (t : traced_slice) :
    (t.sb_fsm_callback nil o cb).map_state traced_slice.slice =
      btree_slice_t.sb_fsm_callback nil o cb t.slice := by
  unfold traced_slice.sb_fsm_callback btree_slice_t.sb_fsm_callback
  cases hf : t.slice.sb_fsm with
  | none => rfl
  | some f =>
    simp only []
    cases hrun : cb nil o { fsm := f, cache := t.slice.cache } with
    | fatal msg m => rfl
    | ok r m =>
      simp only []
      split
      · exact traced_on_initialize_superblock_erase nil o _
      · rfl

theorem traced_cache_callback_erase (nil : Nat) (o : cache_oracle) (op : cache_op)
    (t : traced_slice) :
    (t.cache_callback nil o op).map_state traced_slice.slice =
      btree_slice_t.cache_callback nil o op t.slice := by
  unfold traced_slice.cache_callback btree_slice_t.cache_callback
  cases op with
  | start => exact traced_on_cache_ready_erase nil o _
  | begin_transaction => exact traced_sb_fsm_callback_erase nil o _ _
  | acquire => exact traced_sb_fsm_callback_erase nil o _ _
  | commit => exact traced_sb_fsm_callback_erase nil o _ _
  | shutdown => exact traced_on_cache_shutdown_erase o _

end traced_lemmas
/-! ### The history stays in the order of the life of a slice -/

theorem traced_slice.observe_in_order (s : btree_slice_t) : (traced_slice.observe s).in_order :=
  ⟨rfl, List.pairwise_singleton _ _⟩

theorem traced_slice.in_order.continues_self {t : traced_slice} (h : t.in_order) :
    t.continues t := ⟨h, List.suffix_refl _⟩

theorem traced_slice.continues.then {t t1 t2 : traced_slice} (h : t.continues t1)
    (h1 : t1.continues t2) : t.continues t2 := ⟨h1.1, h.2.trans h1.2⟩

theorem traced_slice.in_order.rank_le {t : traced_slice} (h : t.in_order) :
    ∀ st ∈ t.visited, st.rank ≤ t.slice.state.rank := by
  obtain ⟨hh, hp⟩ := h
  cases hv : t.visited with
  | nil => intro st hm; cases hm
  | cons a rest =>
    rw [hv] at hh hp
    simp only [List.head?_cons, Option.some.injEq] at hh
    intro st hm
    rw [← hh]
    simp only [List.mem_cons] at hm
    rcases hm with rfl | hm
    · exact Nat.le_refl _
    · exact Nat.le_of_lt ((List.pairwise_cons.mp hp).1 st hm)

theorem traced_slice.in_order.updated {t : traced_slice} (h : t.in_order)
    (f : btree_slice_t → btree_slice_t) : t.continues (t.update f) :=
  ⟨⟨h.1, h.2⟩, List.suffix_refl _⟩

theorem traced_slice.in_order.entered {t : traced_slice} (h : t.in_order)
    (st : slice_state_t) (hr : t.slice.state.rank < st.rank) : t.continues (t.enter st) := by
  refine ⟨⟨rfl, ?_⟩, List.suffix_cons _ _⟩
  simp only [traced_slice.enter_visited, List.pairwise_cons]
  exact ⟨fun a ha => Nat.lt_of_le_of_lt (h.rank_le a ha) hr, h.2⟩

theorem traced_slice.continues.rank_mono {t t1 : traced_slice} (h : t.in_order)
    (hc : t.continues t1) : t.slice.state.rank ≤ t1.slice.state.rank := by
  apply hc.1.rank_le
  apply hc.2.subset
  have := h.1
  cases hv : t.visited with
  | nil => rw [hv] at this; simp at this
  | cons a rest =>
    rw [hv] at this
    simp only [List.head?_cons, Option.some.injEq] at this
    rw [this]
    exact List.mem_cons_self _ _

theorem traced_step_starting_up_finish_in_order (t : traced_slice) (h : t.in_order) :
    (t.step_starting_up_finish).sat (fun _ t1 => t.continues t1) (fun t1 => t.continues t1) := by
  unfold traced_slice.step_starting_up_finish
  split
  · rename_i hst
    split
    · exact (h.updated _).then ((h.updated _).1.entered _ (by
        rw [traced_slice.update_state, hst]; decide))
    · exact h.continues_self
  · exact h.continues_self

theorem traced_step_starting_up_initialize_superblock_in_order (nil : Nat) (o : cache_oracle)
    (t : traced_slice) (h : t.in_order) :
    (t.step_starting_up_initialize_superblock nil o).sat (fun _ t1 => t.continues t1)
      (fun t1 => t.continues t1) := by
  unfold traced_slice.step_starting_up_initialize_superblock
  split
  · rename_i hst
    split
    · exact h.updated _
    · have hc : ∀ st : slice_state_t,
          slice_state_t.state_starting_up_initialize_superblock.rank < st.rank →
          ∀ f, t.continues ((t.update f).enter st) := fun st hr f =>
        (h.updated f).then ((h.updated f).1.entered st (by
          rw [traced_slice.update_state, hst]; exact hr))
      split
      · exact Outcome.sat_mono
          (traced_step_starting_up_finish_in_order _ (hc _ (by decide) _).1)
          (fun _ t1 h1 => (hc _ (by decide) _).then h1)
          (fun t1 h1 => (hc _ (by decide) _).then h1)
      · exact hc _ (by decide) _
  · exact traced_step_starting_up_finish_in_order t h

theorem traced_next_starting_up_step_in_order (nil : Nat) (o : cache_oracle)
    (t : traced_slice) (h : t.in_order) :
    (t.next_starting_up_step nil o).sat (fun _ t1 => t.continues t1)
      (fun t1 => t.continues t1) := by
  unfold traced_slice.next_starting_up_step
  split
  · rename_i hst
    have hc : ∀ st : slice_state_t,
        slice_state_t.state_starting_up_start_cache.rank < st.rank →
        ∀ f, t.continues ((t.update f).enter st) := fun st hr f =>
      (h.updated f).then ((h.updated f).1.entered st (by
        rw [traced_slice.update_state, hst]; exact hr))
    split
    · exact Outcome.sat_mono
        (traced_step_starting_up_initialize_superblock_in_order nil o _
          (hc _ (by decide) _).1)
        (fun _ t1 h1 => (hc _ (by decide) _).then h1)
        (fun t1 h1 => (hc _ (by decide) _).then h1)
    · exact hc _ (by decide) _
  · exact traced_step_starting_up_initialize_superblock_in_order nil o t h

theorem traced_start_in_order (nil : Nat) (o : cache_oracle) (t : traced_slice)
    (h : t.in_order) :
    (t.start nil o).sat (fun _ t1 => t.continues t1) (fun t1 => t.continues t1) := by
  unfold traced_slice.start
  split
  · exact h.continues_self
  · rename_i hst
    have hst1 : t.slice.state = .state_unstarted := by simpa using hst
    have h0 : t.continues ((t.enter .state_starting_up_start_cache).update fun s =>
        { s with ready_callback := false }) :=
      (h.entered _ (by rw [hst1]; decide)).then ((h.entered _ (by rw [hst1]; decide)).1.updated _)
    have h1 := traced_next_starting_up_step_in_order nil o _ h0.1
    split
    · rename_i msg t1 hrun
      rw [hrun] at h1
      exact h0.then h1
    · rename_i r t1 hrun
      rw [hrun] at h1
      simp only [Outcome.sat_ok] at h1
      split
      · exact h0.then h1
      · exact (h0.then h1).then (h1.1.updated _)

theorem traced_on_cache_ready_in_order (nil : Nat) (o : cache_oracle) (t : traced_slice)
    (h : t.in_order) :
    (t.on_cache_ready nil o).sat (fun _ t1 => t.continues t1) (fun t1 => t.continues t1) := by
  unfold traced_slice.on_cache_ready
  split
  · exact h.continues_self
  · rename_i hst
    have hst1 : t.slice.state = .state_starting_up_waiting_for_cache := by simpa using hst
    have h0 := h.entered .state_starting_up_initialize_superblock (by rw [hst1]; decide)
    exact Outcome.sat_mono (traced_next_starting_up_step_in_order nil o _ h0.1)
      (fun _ t1 h1 => h0.then h1) (fun t1 h1 => h0.then h1)

theorem traced_on_initialize_superblock_in_order (nil : Nat) (o : cache_oracle)
    (t : traced_slice) (h : t.in_order) :
    (t.on_initialize_superblock nil o).sat (fun _ t1 => t.continues t1)
      (fun t1 => t.continues t1) := by
  unfold traced_slice.on_initialize_superblock
  split
  · exact h.continues_self
  · rename_i hst
    have hst1 : t.slice.state = .state_starting_up_waiting_for_superblock := by simpa using hst
    have h0 := h.entered .state_starting_up_finish (by rw [hst1]; decide)
    exact Outcome.sat_mono (traced_next_starting_up_step_in_order nil o _ h0.1)
      (fun _ t1 h1 => h0.then h1) (fun t1 h1 => h0.then h1)

theorem traced_step_shutting_down_finish_in_order (t : traced_slice) (h : t.in_order) :
    (t.step_shutting_down_finish).sat (fun _ t1 => t.continues t1)
      (fun t1 => t.continues t1) := by
  unfold traced_slice.step_shutting_down_finish
  split
  · rename_i hst
    exact h.entered _ (by rw [hst]; decide)
  · exact h.continues_self

theorem traced_next_shutting_down_step_in_order (o : cache_oracle) (t : traced_slice)
    (h : t.in_order) :
    (t.next_shutting_down_step o).sat (fun _ t1 => t.continues t1)
      (fun t1 => t.continues t1) := by
  unfold traced_slice.next_shutting_down_step
  split
  · rename_i hst
    have hc : ∀ st : slice_state_t,
        slice_state_t.state_shutting_down_shutdown_cache.rank < st.rank →
        ∀ f, t.continues ((t.update f).enter st) := fun st hr f =>
      (h.updated f).then ((h.updated f).1.entered st (by
        rw [traced_slice.update_state, hst]; exact hr))
    split
    · exact Outcome.sat_mono
        (traced_step_shutting_down_finish_in_order _ (hc _ (by decide) _).1)
        (fun _ t1 h1 => (hc _ (by decide) _).then h1)
        (fun t1 h1 => (hc _ (by decide) _).then h1)
    · exact hc _ (by decide) _
  · exact traced_step_shutting_down_finish_in_order t h

theorem traced_shutdown_in_order (o : cache_oracle) (t : traced_slice) (h : t.in_order) :
    (t.shutdown o).sat (fun _ t1 => t.continues t1) (fun t1 => t.continues t1) := by
  unfold traced_slice.shutdown
  split
  · exact h.continues_self
  · rename_i hst
    have hst1 : t.slice.state = .state_ready := by simpa using hst
    have h0 : t.continues ((t.enter .state_shutting_down_shutdown_cache).update fun s =>
        { s with shutdown_callback := false }) :=
      (h.entered _ (by rw [hst1]; decide)).then ((h.entered _ (by rw [hst1]; decide)).1.updated _)
    have h1 := traced_next_shutting_down_step_in_order o _ h0.1
    split
    · rename_i msg t1 hrun
      rw [hrun] at h1
      exact h0.then h1
    · rename_i r t1 hrun
      rw [hrun] at h1
      simp only [Outcome.sat_ok] at h1
      split
      · exact h0.then h1
      · exact (h0.then h1).then (h1.1.updated _)

theorem traced_on_cache_shutdown_in_order (o : cache_oracle) (t : traced_slice)
    (h : t.in_order) :
    (t.on_cache_shutdown o).sat (fun _ t1 => t.continues t1) (fun t1 => t.continues t1) := by
  unfold traced_slice.on_cache_shutdown
  split
  · exact h.continues_self
  · rename_i hst
    have hst1 : t.slice.state = .state_shutting_down_waiting_for_cache := by simpa using hst
    have h0 := h.entered .state_shutting_down_finish (by rw [hst1]; decide)
    exact Outcome.sat_mono (traced_next_shutting_down_step_in_order o _ h0.1)
      (fun _ t1 h1 => h0.then h1) (fun t1 h1 => h0.then h1)

theorem traced_sb_fsm_callback_in_order (nil : Nat) (o : cache_oracle)
    (cb : Nat → cache_oracle → sb_machine → Outcome sb_ret sb_machine) (t : traced_slice)
    (h : t.in_order) :
    (t.sb_fsm_callback nil o cb).sat (fun _ t1 => t.continues t1)
      (fun t1 => t.continues t1) := by
  unfold traced_slice.sb_fsm_callback
  split
  · exact h.continues_self
  · split
    · exact h.updated _
    · split
      · exact Outcome.sat_mono
          (traced_on_initialize_superblock_in_order nil o _ (h.updated _).1)
          (fun _ t1 h1 => (h.updated _).then h1) (fun t1 h1 => (h.updated _).then h1)
      · exact h.updated _

theorem traced_cache_callback_in_order (nil : Nat) (o : cache_oracle) (op : cache_op)
    (t : traced_slice) (h : t.in_order) :
    (t.cache_callback nil o op).sat (fun _ t1 => t.continues t1)
      (fun t1 => t.continues t1) := by
  have h0 := h.updated fun s => { s with cache := { s.cache with pending := none } }
  unfold traced_slice.cache_callback
  cases op with
  | start =>
    exact Outcome.sat_mono (traced_on_cache_ready_in_order nil o _ h0.1)
      (fun _ t1 h1 => h0.then h1) (fun t1 h1 => h0.then h1)
  | begin_transaction =>
    exact Outcome.sat_mono (traced_sb_fsm_callback_in_order nil o _ _ h0.1)
      (fun _ t1 h1 => h0.then h1) (fun t1 h1 => h0.then h1)
  | acquire =>
    exact Outcome.sat_mono (traced_sb_fsm_callback_in_order nil o _ _ h0.1)
      (fun _ t1 h1 => h0.then h1) (fun t1 h1 => h0.then h1)
  | commit =>
    exact Outcome.sat_mono (traced_sb_fsm_callback_in_order nil o _ _ h0.1)
      (fun _ t1 h1 => h0.then h1) (fun t1 h1 => h0.then h1)
  | shutdown =>
    exact Outcome.sat_mono (traced_on_cache_shutdown_in_order o _ h0.1)
      (fun _ t1 h1 => h0.then h1) (fun t1 h1 => h0.then h1)

theorem traced_run_op_in_order (nil : Nat) (o : cache_oracle) (op : slice_op)
    (t : traced_slice) (h : t.in_order) :
    (t.run_op nil o op).sat (fun _ t1 => t.continues t1) (fun t1 => t.continues t1) := by
  cases op with
  | start => exact traced_start_in_order nil o t h
  | shutdown => exact traced_shutdown_in_order o t h
  | cache_completion op => exact traced_cache_callback_in_order nil o op t h

/-! ### Complete runs of the startup and of the shutdown of a slice -/

open initialize_superblock_fsm_t in
theorem traced_complete_startup_spec (nil : Nat) (o : cache_oracle) (s : btree_slice_t)
    (hst : s.state = .state_unstarted) (hp : s.cache.pending = none) :
    (traced_slice.complete_startup nil o (traced_slice.observe s)).returned =
      some (o.start_inline && (o.begin_inline && o.acquire_inline && o.commit_inline),
        if o.start_inline && (o.begin_inline && o.acquire_inline && o.commit_inline) then []
        else [slice_upcall.on_slice_ready]) ∧
    (traced_slice.complete_startup nil o (traced_slice.observe s)).state.slice.state =
      .state_ready ∧
    (traced_slice.complete_startup nil o (traced_slice.observe s)).state.slice.cache.pending =
      none ∧
    (traced_slice.complete_startup nil o (traced_slice.observe s)).state.visited.reverse =
      [.state_unstarted, .state_starting_up_start_cache] ++
        (if o.start_inline then [] else [slice_state_t.state_starting_up_waiting_for_cache]) ++
        [.state_starting_up_initialize_superblock] ++
        (if o.begin_inline && o.acquire_inline && o.commit_inline then []
          else [slice_state_t.state_starting_up_waiting_for_superblock]) ++
        [.state_starting_up_finish, .state_ready] ∧
    (traced_slice.complete_startup nil o (traced_slice.observe s)).state.slice.cache.calls =
      [.commit, .release] ++
        (if s.cache.superblock.database_exists = 0 then [cache_call.get_data_write] else []) ++
        [.get_data_read, .acquire_superblock_write, .begin_transaction_write, .start] ++
        s.cache.calls := by
  obtain ⟨cas, st, c, f, rc, sc⟩ := s
  obtain ⟨a, b1, b2, b3, x⟩ := o
  simp only at hst hp
  subst hst
  by_cases hd : c.superblock.database_exists = 0 <;>
  cases a <;> cases b1 <;> cases b2 <;> cases b3 <;>
  simp [traced_slice.complete_startup, traced_slice.drain, traced_slice.start,
    traced_slice.next_starting_up_step, traced_slice.step_starting_up_initialize_superblock,
    traced_slice.step_starting_up_finish, traced_slice.cache_callback,
    traced_slice.on_cache_ready, traced_slice.on_initialize_superblock,
    traced_slice.sb_fsm_callback, traced_slice.observe, traced_slice.enter,
    traced_slice.update, btree_slice_t.sb_fsm_destructor_ok,
    initialize_superblock_if_necessary,
    next_initialize_superblock_step, step_acquire, step_make_change, step_commit, step_finish,
    on_txn_begin, on_block_available, on_txn_commit,
    initialize_superblock_fsm_t.new, cache_t.call_op, cache_t.call, hp, hd, Outcome.returned,
    Outcome.state]

theorem traced_start_waits_for_cache (nil : Nat) (o : cache_oracle) (s : btree_slice_t)
    (hst : s.state = .state_unstarted) (hp : s.cache.pending = none)
    (ho : o.start_inline = false) :
    (traced_slice.start nil o (traced_slice.observe s)).returned = some ⟨false, none⟩ ∧
    (traced_slice.start nil o (traced_slice.observe s)).state.slice.state =
      .state_starting_up_waiting_for_cache ∧
    (traced_slice.start nil o (traced_slice.observe s)).state.slice.sb_fsm = s.sb_fsm ∧
    (traced_slice.start nil o (traced_slice.observe s)).state.slice.cache.calls =
      .start :: s.cache.calls ∧
    (traced_slice.start nil o (traced_slice.observe s)).state.slice.cache.pending =
      some .start := by
  obtain ⟨cas, st, c, f, rc, sc⟩ := s
  simp only at hst hp
  subst hst
  simp [traced_slice.start, traced_slice.next_starting_up_step, traced_slice.observe,
    traced_slice.enter, traced_slice.update, cache_t.call_op, ho, Outcome.returned,
    Outcome.state]

theorem traced_complete_shutdown_spec (nil : Nat) (o : cache_oracle) (s : btree_slice_t)
    (hst : s.state = .state_ready) (hp : s.cache.pending = none) :
    (traced_slice.complete_shutdown nil o (traced_slice.observe s)).returned =
      some (o.shutdown_inline,
        if o.shutdown_inline then [] else [slice_upcall.on_slice_shutdown]) ∧
    (traced_slice.complete_shutdown nil o (traced_slice.observe s)).state.slice.state =
      .state_shut_down ∧
    (traced_slice.complete_shutdown nil o (traced_slice.observe s)).state.slice.cache.pending =
      none ∧
    (traced_slice.complete_shutdown nil o (traced_slice.observe s)).state.visited.reverse =
      [.state_ready, .state_shutting_down_shutdown_cache] ++
        (if o.shutdown_inline then []
          else [slice_state_t.state_shutting_down_waiting_for_cache]) ++
        [.state_shutting_down_finish, .state_shut_down] ∧
    (traced_slice.complete_shutdown nil o (traced_slice.observe s)).state.slice.cache.calls =
      .shutdown :: s.cache.calls := by
  obtain ⟨cas, st, c, f, rc, sc⟩ := s
  obtain ⟨a, b1, b2, b3, x⟩ := o
  simp only at hst hp
  subst hst
  cases x <;>
  simp [traced_slice.complete_shutdown, traced_slice.drain, traced_slice.shutdown,
    traced_slice.next_shutting_down_step, traced_slice.step_shutting_down_finish,
    traced_slice.cache_callback, traced_slice.on_cache_shutdown, traced_slice.observe,
    traced_slice.enter, traced_slice.update, cache_t.call_op, hp, Outcome.returned,
    Outcome.state]

/-! ### Sequences of operations on a slice -/

theorem traced_start_accepted (nil : Nat) (o : cache_oracle) (t : traced_slice)
    (h : t.in_order) :
    (t.start nil o).sat
      (fun _ t1 => t.slice.state = .state_unstarted ∧ 1 ≤ t1.slice.state.rank)
      (fun _ => True) := by
  have hc := traced_start_in_order nil o t h
  unfold traced_slice.start at hc ⊢
  split
  · trivial
  · rename_i hst
    have hst1 : t.slice.state = .state_unstarted := by simpa using hst
    rw [if_neg hst] at hc
    have h0 : t.continues ((t.enter .state_starting_up_start_cache).update fun s =>
        { s with ready_callback := false }) :=
      (h.entered _ (by rw [hst1]; decide)).then ((h.entered _ (by rw [hst1]; decide)).1.updated _)
    have h1 := traced_next_starting_up_step_in_order nil o _ h0.1
    split
    · trivial
    · rename_i r t1 hrun
      rw [hrun] at h1
      simp only [Outcome.sat_ok] at h1
      have hr := h1.rank_mono h0.1
      split
      · exact ⟨hst1, hr⟩
      · exact ⟨hst1, hr⟩

theorem traced_shutdown_accepted (o : cache_oracle) (t : traced_slice) (h : t.in_order) :
    (t.shutdown o).sat
      (fun _ t1 => t.slice.state = .state_ready ∧ 7 ≤ t1.slice.state.rank)
      (fun _ => True) := by
  unfold traced_slice.shutdown
  split
  · trivial
  · rename_i hst
    have hst1 : t.slice.state = .state_ready := by simpa using hst
    have h0 : t.continues ((t.enter .state_shutting_down_shutdown_cache).update fun s =>
        { s with shutdown_callback := false }) :=
      (h.entered _ (by rw [hst1]; decide)).then ((h.entered _ (by rw [hst1]; decide)).1.updated _)
    have h1 := traced_next_shutting_down_step_in_order o _ h0.1
    split
    · trivial
    · rename_i r t1 hrun
      rw [hrun] at h1
      simp only [Outcome.sat_ok] at h1
      have hr := h1.rank_mono h0.1
      split
      · exact ⟨hst1, hr⟩
      · exact ⟨hst1, hr⟩

theorem traced_run_ops_spec (nil : Nat) :
    ∀ (ops : List (cache_oracle × slice_op)) (t : traced_slice) (acc : List slice_op),
      t.in_order →
      (acc.count .start = 0 ∨ (acc.count .start = 1 ∧ 1 ≤ t.slice.state.rank)) →
      (acc.count .shutdown = 0 ∨ (acc.count .shutdown = 1 ∧ 7 ≤ t.slice.state.rank)) →
      t.continues (traced_slice.run_ops nil ops (t, acc)).state.1 ∧
        (traced_slice.run_ops nil ops (t, acc)).state.2.count .start ≤ 1 ∧
        (traced_slice.run_ops nil ops (t, acc)).state.2.count .shutdown ≤ 1 := by
  intro ops
  induction ops with
  | nil =>
    intro t acc h hs hd
    refine ⟨h.continues_self, ?_, ?_⟩
    · rcases hs with hs | hs
      · simp [traced_slice.run_ops, hs]
      · simp [traced_slice.run_ops, hs.1]
    · rcases hd with hd | hd
      · simp [traced_slice.run_ops, hd]
      · simp [traced_slice.run_ops, hd.1]
  | cons oop rest ih =>
    intro t acc h hs hd
    obtain ⟨o, op⟩ := oop
    have hc := traced_run_op_in_order nil o op t h
    unfold traced_slice.run_ops
    cases hrun : traced_slice.run_op nil o op t with
    | fatal msg t1 =>
      rw [hrun] at hc
      refine ⟨hc, ?_, ?_⟩
      · rcases hs with hs | hs
        · simp [hs]
        · simp [hs.1]
      · rcases hd with hd | hd
        · simp [hd]
        · simp [hd.1]
    | ok r t1 =>
      rw [hrun] at hc
      simp only [Outcome.sat_ok] at hc
      have hmono := hc.rank_mono h
      simp only []
      have hstep :
          ((op :: acc).count .start = 0 ∨
            ((op :: acc).count .start = 1 ∧ 1 ≤ t1.slice.state.rank)) ∧
          ((op :: acc).count .shutdown = 0 ∨
            ((op :: acc).count .shutdown = 1 ∧ 7 ≤ t1.slice.state.rank)) := by
        cases op with
        | start =>
          have ha := traced_start_accepted nil o t h
          simp only [traced_slice.run_op] at hrun
          rw [hrun] at ha
          simp only [Outcome.sat_ok] at ha
          have hr0 : t.slice.state.rank = 0 := by rw [ha.1]; rfl
          have hs0 : acc.count .start = 0 := by
            rcases hs with hs | hs
            · exact hs
            · omega
          have hd0 : acc.count .shutdown = 0 := by
            rcases hd with hd | hd
            · exact hd
            · omega
          refine ⟨Or.inr ⟨by simp [hs0], ha.2⟩, Or.inl ?_⟩
          rw [List.count_cons_of_ne (by decide)]
          exact hd0
        | shutdown =>
          have ha := traced_shutdown_accepted o t h
          simp only [traced_slice.run_op] at hrun
          rw [hrun] at ha
          simp only [Outcome.sat_ok] at ha
          have hr6 : t.slice.state.rank = 6 := by rw [ha.1]; rfl
          have hd0 : acc.count .shutdown = 0 := by
            rcases hd with hd | hd
            · exact hd
            · omega
          refine ⟨?_, Or.inr ⟨by simp [hd0], ha.2⟩⟩
          rw [List.count_cons_of_ne (by decide)]
          rcases hs with hs | hs
          · exact Or.inl hs
          · exact Or.inr ⟨hs.1, by omega⟩
        | cache_completion cop =>
          rw [List.count_cons_of_ne (by simp), List.count_cons_of_ne (by simp)]
          refine ⟨?_, ?_⟩
          · rcases hs with hs | hs
            · exact Or.inl hs
            · exact Or.inr ⟨hs.1, by omega⟩
          · rcases hd with hd | hd
            · exact Or.inl hd
            · exact Or.inr ⟨hd.1, by omega⟩
      obtain ⟨h1, h2, h3⟩ := ih t1 (op :: acc) hc.1 hstep.1 hstep.2
      exact ⟨hc.then h1, h2, h3⟩

/-- C13: slice startup. For a slice in state unstarted with an idle cache, and every
choice of `cache.start`, `begin_transaction`, `acquire` and `commit` completing inline
or suspending, `start` followed by the completions of the operations that suspended
does not abort (no assertion fails, `Unexpected state` is not reached) and ends in
state ready with nothing pending; the states visited are, in this order, unstarted,
starting_up_start_cache, starting_up_waiting_for_cache (only if `cache.start`
suspended), starting_up_initialize_superblock, starting_up_waiting_for_superblock (only
if the initializer suspended), starting_up_finish, ready; `start` returns true exactly
when `cache.start` and the three calls of the initializer completed inline, and
`on_slice_ready` is invoked exactly once if `start` returned false and not at all if it
returned true. The cache receives `start` before any call of the initializer, and when
`cache.start` suspends `start` returns in state starting_up_waiting_for_cache with no
initializer created and no further call issued. The history changes nothing: without
it, `start` and the callbacks are the methods of the slice. -/
theorem C13_slice_startup (NULL_BLOCK_ID : Nat) (o : cache_oracle) (s : btree_slice_t)
    (hst : s.state = .state_unstarted) (hp : s.cache.pending = none) :
    (traced_slice.complete_startup NULL_BLOCK_ID o (traced_slice.observe s)).is_ok = true ∧
    (traced_slice.complete_startup NULL_BLOCK_ID o (traced_slice.observe s)).returned =
      some (o.start_inline && (o.begin_inline && o.acquire_inline && o.commit_inline),
        if o.start_inline && (o.begin_inline && o.acquire_inline && o.commit_inline) then []
        else [slice_upcall.on_slice_ready]) ∧
    (traced_slice.complete_startup NULL_BLOCK_ID o (traced_slice.observe s)).state.slice.state =
      .state_ready ∧
    (traced_slice.complete_startup NULL_BLOCK_ID o
      (traced_slice.observe s)).state.slice.cache.pending = none ∧
    (traced_slice.complete_startup NULL_BLOCK_ID o
      (traced_slice.observe s)).state.visited.reverse =
      [.state_unstarted, .state_starting_up_start_cache] ++
        (if o.start_inline then [] else [slice_state_t.state_starting_up_waiting_for_cache]) ++
        [.state_starting_up_initialize_superblock] ++
        (if o.begin_inline && o.acquire_inline && o.commit_inline then []
          else [slice_state_t.state_starting_up_waiting_for_superblock]) ++
        [.state_starting_up_finish, .state_ready] ∧
    (traced_slice.complete_startup NULL_BLOCK_ID o
      (traced_slice.observe s)).state.slice.cache.calls =
      [.commit, .release] ++
        (if s.cache.superblock.database_exists = 0 then [cache_call.get_data_write] else []) ++
        [.get_data_read, .acquire_superblock_write, .begin_transaction_write, .start] ++
        s.cache.calls ∧
    (o.start_inline = false →
      (traced_slice.start NULL_BLOCK_ID o (traced_slice.observe s)).returned =
        some ⟨false, none⟩ ∧
      (traced_slice.start NULL_BLOCK_ID o (traced_slice.observe s)).state.slice.state =
        .state_starting_up_waiting_for_cache ∧
      (traced_slice.start NULL_BLOCK_ID o (traced_slice.observe s)).state.slice.sb_fsm =
        s.sb_fsm ∧
      (traced_slice.start NULL_BLOCK_ID o (traced_slice.observe s)).state.slice.cache.calls =
        .start :: s.cache.calls) ∧
    (∀ t : traced_slice, (t.start NULL_BLOCK_ID o).map_state traced_slice.slice =
      btree_slice_t.start NULL_BLOCK_ID o t.slice) ∧
    (∀ (t : traced_slice) (op : cache_op),
      (t.cache_callback NULL_BLOCK_ID o op).map_state traced_slice.slice =
        btree_slice_t.cache_callback NULL_BLOCK_ID o op t.slice) := by
  obtain ⟨h1, h2, h3, h4, h5⟩ := traced_complete_startup_spec NULL_BLOCK_ID o s hst hp
  refine ⟨?_, h1, h2, h3, h4, h5, ?_, ?_, ?_⟩
  · cases hrun : traced_slice.complete_startup NULL_BLOCK_ID o (traced_slice.observe s) with
    | fatal msg t1 =>
      rw [hrun] at h1
      simp [Outcome.returned] at h1
    | ok r t1 => rfl
  · intro ho
    obtain ⟨w1, w2, w3, w4, _⟩ := traced_start_waits_for_cache NULL_BLOCK_ID o s hst hp ho
    exact ⟨w1, w2, w3, w4⟩
  · exact fun t => traced_start_erase NULL_BLOCK_ID o t
  · exact fun t op => traced_cache_callback_erase NULL_BLOCK_ID o op t

/-- C13, witness: a new slice on a zero-filled superblock whose cache suspends `start`
and `acquire`: `start` returns false and `on_slice_ready` is invoked once. -/
theorem C13_slice_startup_witness :
    (traced_slice.complete_startup 4294967295 ⟨false, true, false, true, true⟩
      (traced_slice.observe (btree_slice_t.new 0 0 1 1000 false 10 30 ⟨0, 0⟩))).returned =
      some (false, [slice_upcall.on_slice_ready]) ∧
    (traced_slice.complete_startup 4294967295 ⟨false, true, false, true, true⟩
      (traced_slice.observe
        (btree_slice_t.new 0 0 1 1000 false 10 30 ⟨0, 0⟩))).state.visited.reverse =
      [.state_unstarted, .state_starting_up_start_cache, .state_starting_up_waiting_for_cache,
        .state_starting_up_initialize_superblock, .state_starting_up_waiting_for_superblock,
        .state_starting_up_finish, .state_ready] := by
  have h := C13_slice_startup 4294967295 ⟨false, true, false, true, true⟩
    (btree_slice_t.new 0 0 1 1000 false 10 30 ⟨0, 0⟩) rfl rfl
  exact ⟨h.2.1, h.2.2.2.2.1⟩

theorem slice_state_rank_zero (st : slice_state_t) (h : st.rank = 0) :
    st = .state_unstarted := by
  cases st <;> simp [slice_state_t.rank] at h ⊢

theorem slice_state_rank_top (st : slice_state_t) (h : 10 ≤ st.rank) :
    st = .state_shut_down := by
  cases st <;> simp [slice_state_t.rank] at h ⊢

/-- C14: slice lifetime. `shutdown` fails on its assertion unless the state is ready and
`start` unless it is unstarted, leaving the slice as it was. A `shutdown` accepted
in state ready with an idle cache, followed by the completion of the cache shutdown if
it suspended, does not abort, visits in this order ready, shutting_down_shutdown_cache,
shutting_down_waiting_for_cache (only if the cache suspended), shutting_down_finish,
shut_down, and invokes `on_slice_shutdown` exactly once if `shutdown` returned false and
not at all if it returned true. Over any sequence of calls of `start`, calls of
`shutdown` and completions of cache operations (up to an abort, if one occurs) every
state entered comes later in the enum than all the states the slice was in before: a
slice that has left unstarted does not return to it, a slice in state shut_down stays
there, and at most one `start` and at most one `shutdown` are accepted. The history
changes nothing: without it, `shutdown` and the callbacks are the methods of the
slice. -/
theorem C14_slice_lifetime (NULL_BLOCK_ID : Nat) :
    (∀ (o : cache_oracle) (t : traced_slice), t.slice.state ≠ .state_ready →
      t.shutdown o = .fatal "assert(state == state_ready)" t) ∧
    (∀ (o : cache_oracle) (t : traced_slice), t.slice.state ≠ .state_unstarted →
      t.start NULL_BLOCK_ID o = .fatal "assert(state == state_unstarted)" t) ∧
    (∀ (o : cache_oracle) (s : btree_slice_t), s.state = .state_ready →
      s.cache.pending = none →
      (traced_slice.complete_shutdown NULL_BLOCK_ID o (traced_slice.observe s)).returned =
        some (o.shutdown_inline,
          if o.shutdown_inline then [] else [slice_upcall.on_slice_shutdown]) ∧
      (traced_slice.complete_shutdown NULL_BLOCK_ID o
        (traced_slice.observe s)).state.slice.state = .state_shut_down ∧
      (traced_slice.complete_shutdown NULL_BLOCK_ID o
        (traced_slice.observe s)).state.visited.reverse =
        [.state_ready, .state_shutting_down_shutdown_cache] ++
          (if o.shutdown_inline then []
            else [slice_state_t.state_shutting_down_waiting_for_cache]) ++
          [.state_shutting_down_finish, .state_shut_down]) ∧
    (∀ (ops : List (cache_oracle × slice_op)) (t : traced_slice), t.in_order →
      (traced_slice.run_ops NULL_BLOCK_ID ops (t, [])).state.1.in_order ∧
      t.visited <:+ (traced_slice.run_ops NULL_BLOCK_ID ops (t, [])).state.1.visited ∧
      (t.slice.state ≠ .state_unstarted →
        (traced_slice.run_ops NULL_BLOCK_ID ops (t, [])).state.1.slice.state ≠
          .state_unstarted) ∧
      (t.slice.state = .state_shut_down →
        (traced_slice.run_ops NULL_BLOCK_ID ops (t, [])).state.1.slice.state =
          .state_shut_down) ∧
      (traced_slice.run_ops NULL_BLOCK_ID ops (t, [])).state.2.count .start ≤ 1 ∧
      (traced_slice.run_ops NULL_BLOCK_ID ops (t, [])).state.2.count .shutdown ≤ 1) ∧
    (∀ (o : cache_oracle) (t : traced_slice),
      (t.shutdown o).map_state traced_slice.slice = btree_slice_t.shutdown o t.slice) ∧
    (∀ (o : cache_oracle) (t : traced_slice) (op : cache_op),
      (t.cache_callback NULL_BLOCK_ID o op).map_state traced_slice.slice =
        btree_slice_t.cache_callback NULL_BLOCK_ID o op t.slice) := by
  refine ⟨?_, ?_, ?_, ?_, ?_, ?_⟩
  · intro o t h
    unfold traced_slice.shutdown
    rw [if_pos h]
  · intro o t h
    unfold traced_slice.start
    rw [if_pos h]
  · intro o s hst hp
    obtain ⟨h1, h2, _, h4, _⟩ := traced_complete_shutdown_spec NULL_BLOCK_ID o s hst hp
    exact ⟨h1, h2, h4⟩
  · intro ops t h
    obtain ⟨hc, hs, hd⟩ := traced_run_ops_spec NULL_BLOCK_ID ops t [] h (Or.inl rfl) (Or.inl rfl)
    have hmono := hc.rank_mono h
    refine ⟨hc.1, hc.2, ?_, ?_, hs, hd⟩
    · intro hne hu
      rw [hu] at hmono
      have : t.slice.state.rank = 0 := Nat.le_zero.mp hmono
      exact hne (slice_state_rank_zero _ this)
    · intro hsd
      rw [hsd] at hmono
      exact slice_state_rank_top _ hmono
  · exact fun o t => traced_shutdown_erase o t
  · exact fun o t op => traced_cache_callback_erase NULL_BLOCK_ID o op t

/-- C14, witness: the sample life of a slice. The first `start` and the first `shutdown`
are accepted and the slice reaches shut_down; the second `start` aborts, so the accepted
operations are the first seven. -/
theorem C14_slice_lifetime_witness :
    (traced_slice.run_ops 4294967295 sample_slice_ops
      (traced_slice.observe sample_slice, [])).state.2.count .start ≤ 1 ∧
    (traced_slice.run_ops 4294967295 sample_slice_ops
      (traced_slice.observe sample_slice, [])).state.2.count .shutdown ≤ 1 ∧
    (traced_slice.run_ops 4294967295 sample_slice_ops
      (traced_slice.observe sample_slice, [])).state.2.length = 7 ∧
    (traced_slice.run_ops 4294967295 sample_slice_ops
      (traced_slice.observe sample_slice, [])).state.1.slice.state = .state_shut_down ∧
    traced_slice.shutdown ⟨true, true, true, true, true⟩ (traced_slice.observe sample_slice) =
      .fatal "assert(state == state_ready)" (traced_slice.observe sample_slice) := by
  have h := C14_slice_lifetime 4294967295
  have h1 := h.2.2.2.1 sample_slice_ops (traced_slice.observe sample_slice)
    (traced_slice.observe_in_order sample_slice)
  exact ⟨h1.2.2.2.2.1, h1.2.2.2.2.2, by decide, by decide,
    h.1 ⟨true, true, true, true, true⟩ (traced_slice.observe sample_slice) (by decide)⟩

/-! ## Theorems: CAS generation -/

theorem shl32_or_eq (t c : Nat) (hc : c < 4294967296) :
    (t <<< 32) ||| c = t * 4294967296 + c := by
  have h := Nat.mul_add_lt_is_or (show c < 2 ^ 32 by simpa using hc) t
  rw [Nat.shiftLeft_eq, Nat.mul_comm t (2 ^ 32), ← h]

theorem gen_cas_low_bits (t c : Nat) (hc : c < 4294967296) :
    ((t <<< 32) ||| c) % 2 ^ 64 % 4294967296 = c := by
  rw [shl32_or_eq t c hc]
  omega

theorem gen_cas_calls_spec (counter_bits : Nat) :
    ∀ (times : List Nat) (s : btree_slice_t),
      s.cas_counter + times.length < 2 ^ counter_bits →
      (s.gen_cas_calls counter_bits times).2.cas_counter = s.cas_counter + times.length ∧
      (s.gen_cas_calls counter_bits times).1.length = times.length ∧
      ∀ k t, times[k]? = some t →
        (s.gen_cas_calls counter_bits times).1[k]? =
          some (((t <<< 32) ||| (s.cas_counter + k + 1)) % 2 ^ 64) := by
  intro times
  induction times with
  | nil =>
    intro s _
    exact ⟨rfl, rfl, fun k t h => by simp at h⟩
  | cons now rest ih =>
    intro s h
    simp only [List.length_cons] at h
    have hc : (s.cas_counter + 1) % 2 ^ counter_bits = s.cas_counter + 1 :=
      Nat.mod_eq_of_lt (by omega)
    have hs1 : (s.gen_cas counter_bits now).2.cas_counter = s.cas_counter + 1 := by
      simp only [btree_slice_t.gen_cas, hc]
    obtain ⟨h1, h2, h3⟩ := ih (s.gen_cas counter_bits now).2 (by rw [hs1]; omega)
    refine ⟨?_, ?_, ?_⟩
    · simp only [btree_slice_t.gen_cas_calls, h1, hs1, List.length_cons]
      omega
    · simp only [btree_slice_t.gen_cas_calls, List.length_cons, h2]
    · intro k t hk
      cases k with
      | zero =>
        simp only [List.getElem?_cons_zero, Option.some.injEq] at hk
        subst hk
        simp only [btree_slice_t.gen_cas_calls, List.getElem?_cons_zero, btree_slice_t.gen_cas,
          hc, Nat.add_zero]
      | succ k =>
        simp only [List.getElem?_cons_succ] at hk
        simp only [btree_slice_t.gen_cas_calls, List.getElem?_cons_succ]
        rw [h3 k t hk, hs1]
        congr 3
        omega

/-- C15: `gen_cas` returns `(t << 32) | c` as a 64-bit value, where `t` is what the
clock returns and `c` is the counter of the slice after its increment. On a slice whose
counter is 0, as the constructor leaves it, the `k`-th of fewer than `2^32` calls
(the counter is at least 32 bits wide) returns `(t_k << 32) | k` and leaves the counter
at `k`; the low 32 bits of that value are `k`, so any two of these calls return
different values, whatever the clock returns; and when the clock is below `2^32` the
value is `t_k * 2^32 + k`, nothing being lost in 64 bits. -/
theorem C15_gen_cas_unique (counter_bits : Nat) (times : List Nat) (s : btree_slice_t)
    (hbits : 32 ≤ counter_bits) (h0 : s.cas_counter = 0) (hlen : times.length < 2 ^ 32) :
    (∀ now, (s.gen_cas counter_bits now).1 =
        ((now <<< 32) ||| (s.gen_cas counter_bits now).2.cas_counter) % 2 ^ 64 ∧
      (s.gen_cas counter_bits now).2.cas_counter = s.cas_counter + 1) ∧
    (s.gen_cas_calls counter_bits times).2.cas_counter = times.length ∧
    (∀ k t, times[k]? = some t →
      (s.gen_cas_calls counter_bits times).1[k]? = some (((t <<< 32) ||| (k + 1)) % 2 ^ 64) ∧
      (((t <<< 32) ||| (k + 1)) % 2 ^ 64) % 2 ^ 32 = k + 1 ∧
      (t < 2 ^ 32 → ((t <<< 32) ||| (k + 1)) % 2 ^ 64 = t * 2 ^ 32 + (k + 1))) ∧
    (s.gen_cas_calls counter_bits times).1.Nodup := by
  have hpow : 2 ^ 32 ≤ 2 ^ counter_bits := Nat.pow_le_pow_right (by decide) hbits
  have hroom : s.cas_counter + times.length < 2 ^ counter_bits := by
    rw [h0]
    omega
  obtain ⟨h1, h2, h3⟩ := gen_cas_calls_spec counter_bits times s hroom
  have hval : ∀ k t, times[k]? = some t →
      (s.gen_cas_calls counter_bits times).1[k]? =
        some (((t <<< 32) ||| (k + 1)) % 2 ^ 64) := by
    intro k t hk
    have := h3 k t hk
    rw [h0, Nat.zero_add] at this
    exact this
  have hklt : ∀ k t, times[k]? = some t → k + 1 < 4294967296 := by
    intro k t hk
    have : k < times.length := (List.getElem?_eq_some.mp hk).1
    have : (2 : Nat) ^ 32 = 4294967296 := by norm_num
    omega
  refine ⟨?_, ?_, ?_, ?_⟩
  · intro now
    have hc : (s.cas_counter + 1) % 2 ^ counter_bits = s.cas_counter + 1 :=
      Nat.mod_eq_of_lt (by rw [h0]; omega)
    simp only [btree_slice_t.gen_cas, hc, and_self]
  · rw [h1, h0, Nat.zero_add]
  · intro k t hk
    refine ⟨hval k t hk, ?_, ?_⟩
    · have := gen_cas_low_bits t (k + 1) (hklt k t hk)
      simpa using this
    · intro ht
      rw [shl32_or_eq t (k + 1) (hklt k t hk)]
      have : (2 : Nat) ^ 32 = 4294967296 := by norm_num
      have h64 : (2 : Nat) ^ 64 = 18446744073709551616 := by norm_num
      rw [this, h64]
      rw [this] at ht
      have := hklt k t hk
      apply Nat.mod_eq_of_lt
      nlinarith
  · rw [List.nodup_iff_getElem?_ne_getElem?]
    intro i j hij hj
    rw [h2] at hj
    have hi : i < times.length := Nat.lt_trans hij hj
    have hti : times[i]? = some (times.get ⟨i, hi⟩) := by
      simp [List.getElem?_eq_getElem hi]
    have htj : times[j]? = some (times.get ⟨j, hj⟩) := by
      simp [List.getElem?_eq_getElem hj]
    rw [hval i _ hti, hval j _ htj]
    intro heq
    simp only [Option.some.injEq] at heq
    have hli := gen_cas_low_bits (times.get ⟨i, hi⟩) (i + 1) (hklt i _ hti)
    have hlj := gen_cas_low_bits (times.get ⟨j, hj⟩) (j + 1) (hklt j _ htj)
    rw [heq] at hli
    omega

/-- C15, witness: three calls on the sample slice, the clock standing still at
1000000000 for the first two. -/
theorem C15_gen_cas_unique_witness :
    (sample_slice.gen_cas_calls 32 [1000000000, 1000000000, 1000000001]).1 =
        [4294967296000000001, 4294967296000000002, 4294967300294967299] ∧
      (sample_slice.gen_cas_calls 32 [1000000000, 1000000000, 1000000001]).1.Nodup :=
  ⟨by decide, (C15_gen_cas_unique 32 [1000000000, 1000000000, 1000000001] sample_slice
    (by decide) rfl (by decide)).2.2.2⟩

/-! ## Theorems: creation of a serializer -/

/-- What `create_a_serializer_on_this_core` does, by the length of the formatted path
and the outcome of the probe. `w2` is the state in which the start call has returned. -/
theorem create_a_serializer_on_this_core_spec (K : constants) (e : env_t) (id : Nat)
    (w : world) :
    ((formatted_name w.store.cmd_config.db_file_name id).length = K.MAX_DB_FILE_NAME →
      create_a_serializer_on_this_core K e id w =
        .fatal "Name too long" (w.log (.executed (.create_a_serializer_on_this_core id)))) ∧
    ((formatted_name w.store.cmd_config.db_file_name id).length ≠ K.MAX_DB_FILE_NAME →
      (e.access_res id = 0 ∨ (e.access_res id = -1 ∧ e.access_errno id = K.ENOENT) →
        ∃ w2 : world,
          w2.store.serializers id =
            some ⟨(formatted_name w.store.cmd_config.db_file_name id).take
                (K.MAX_DB_FILE_NAME - 1),
              some (if e.access_res id = 0 then .start_existing else .start_new), false⟩ ∧
          w2.in_flight = w.in_flight ∧
          w2.trace = .executed (.create_a_serializer_on_this_core id) :: w.trace ∧
          create_a_serializer_on_this_core K e id w =
            if e.serializer_start_inline id then
              (on_serializer_ready K e id w2).then_return true
            else .ok true (w2.send (.serializer_ready id))) ∧
      (¬ (e.access_res id = 0 ∨ (e.access_res id = -1 ∧ e.access_errno id = K.ENOENT)) →
        ∃ w1 : world,
          w1.store.serializers id =
            some ⟨(formatted_name w.store.cmd_config.db_file_name id).take
              (K.MAX_DB_FILE_NAME - 1), none, false⟩ ∧
          w1.in_flight = w.in_flight ∧
          w1.trace = .executed (.create_a_serializer_on_this_core id) :: w.trace ∧
          create_a_serializer_on_this_core K e id w = .fatal "access() failed" w1)) := by
  refine ⟨?_, ?_⟩
  · intro hlen
    simp [create_a_serializer_on_this_core, check_aborts, hlen]
  · intro hlen
    refine ⟨?_, ?_⟩
    · intro hres
      refine ⟨((w.log (.executed (.create_a_serializer_on_this_core id))).set_serializer id
          (some ⟨(formatted_name w.store.cmd_config.db_file_name id).take
            (K.MAX_DB_FILE_NAME - 1), none, false⟩)).set_serializer id
          (some ⟨(formatted_name w.store.cmd_config.db_file_name id).take
            (K.MAX_DB_FILE_NAME - 1),
            some (if e.access_res id = 0 then .start_existing else .start_new), false⟩),
        by simp [world.set_serializer], rfl, rfl, ?_⟩
      by_cases h0 : e.access_res id = 0
      · simp only [create_a_serializer_on_this_core, check_aborts, hlen, decide_False,
          Bool.false_eq_true, if_false, h0, if_true, world.log_store]
      · have h1 : e.access_res id = -1 ∧ e.access_errno id = K.ENOENT := by
          rcases hres with h | h
          · exact absurd h h0
          · exact h
        simp [create_a_serializer_on_this_core, check_aborts, hlen, h1]
    · intro hres
      have h0 : ¬ e.access_res id = 0 := fun h => hres (Or.inl h)
      have h1 : ¬ (e.access_res id = -1 ∧ e.access_errno id = K.ENOENT) :=
        fun h => hres (Or.inr h)
      refine ⟨(w.log (.executed (.create_a_serializer_on_this_core id))).set_serializer id
          (some ⟨(formatted_name w.store.cmd_config.db_file_name id).take
            (K.MAX_DB_FILE_NAME - 1), none, false⟩),
        by simp [world.set_serializer], rfl, rfl, ?_⟩
      simp only [create_a_serializer_on_this_core, check_aborts, hlen, decide_False,
        Bool.false_eq_true, if_false, h0, h1, world.log_store]

theorem long_name_formatted_length :
    (formatted_name long_name_world.store.cmd_config.db_file_name 0).length = 257 := by
  have hcfg : long_name_world.store.cmd_config.db_file_name = List.replicate 255 'a' := rfl
  have hd : (Nat.toDigits 10 0).length = 1 := by decide
  rw [hcfg]
  simp only [formatted_name, List.length_append, List.length_cons, List.length_replicate, hd]

/-- C16, failing input: with the 256-byte name buffer of the sample constants, the file
name of 255 characters and serializer id 0, the formatted path has 257 characters and
does not fit. `create_a_serializer_on_this_core` does not fail with `Name too long`: it
returns, having created the serializer under the path cut to 255 characters and
started it with `start_new`. The check fails only when the length is exactly
`MAX_DB_FILE_NAME`. -/
theorem C16_too_long_name_is_truncated_not_refused :
    (formatted_name long_name_world.store.cmd_config.db_file_name 0).length = 257 ∧
    sample_constants.MAX_DB_FILE_NAME = 256 ∧
    (create_a_serializer_on_this_core sample_constants env_queued 0
      long_name_world).is_ok = true ∧
    (∃ ser, (create_a_serializer_on_this_core sample_constants env_queued 0
        long_name_world).state.store.serializers 0 = some ser ∧
      ser.name = (formatted_name long_name_world.store.cmd_config.db_file_name 0).take 255 ∧
      ser.name.length = 255 ∧
      ser.name ≠ formatted_name long_name_world.store.cmd_config.db_file_name 0 ∧
      ser.started = some .start_new) ∧
    (∀ (K : constants) (e : env_t) (id : Nat) (w : world),
      (formatted_name w.store.cmd_config.db_file_name id).length = K.MAX_DB_FILE_NAME →
      create_a_serializer_on_this_core K e id w =
        .fatal "Name too long" (w.log (.executed (.create_a_serializer_on_this_core id)))) := by
  have hlen := long_name_formatted_length
  have hne : (formatted_name long_name_world.store.cmd_config.db_file_name 0).length ≠
      sample_constants.MAX_DB_FILE_NAME := by
    rw [hlen]
    decide
  obtain ⟨w2, hser, _, _, hrun⟩ :=
    ((create_a_serializer_on_this_core_spec sample_constants env_queued 0
      long_name_world).2 hne).1 (Or.inr ⟨rfl, rfl⟩)
  have hq : env_queued.serializer_start_inline 0 = false := rfl
  rw [hq] at hrun
  simp only [Bool.false_eq_true, if_false] at hrun
  refine ⟨hlen, rfl, ?_, ?_, ?_⟩
  · rw [hrun]
    rfl
  · rw [hrun]
    refine ⟨_, hser, rfl, ?_, ?_, rfl⟩
    · simp only [List.length_take, hlen]
      decide
    · intro h
      have := congrArg List.length h
      simp only [List.length_take, hlen] at this
      revert this
      decide
  · intro K e id w h
    exact (create_a_serializer_on_this_core_spec K e id w).1 h

/-- C17: when the formatted path passes the name check, the outcome `(res, errno)` of
`access(name, F_OK)` decides the start call. With `res = 0` the serializer is started
with `start_existing`; with `res = -1` and `errno = ENOENT` it is started with
`start_new`; in both cases the function goes on in the state `w2` in which the
serializer is started, and it calls `on_serializer_ready` there if the start call
returned true, and otherwise returns true without calling it, the serializer being left
to report later. In every other case it fails with `access() failed`, the serializer
constructed but not started. The three cases exclude each other. -/
theorem C17_existence_probe_decides_start (K : constants) (e : env_t) (id : Nat)
    (w : world)
    (hlen : (formatted_name w.store.cmd_config.db_file_name id).length ≠
      K.MAX_DB_FILE_NAME) :
    (e.access_res id = 0 ∨ (e.access_res id = -1 ∧ e.access_errno id = K.ENOENT) →
      ∃ w2 : world,
        w2.store.serializers id =
          some ⟨(formatted_name w.store.cmd_config.db_file_name id).take
              (K.MAX_DB_FILE_NAME - 1),
            some (if e.access_res id = 0 then .start_existing else .start_new), false⟩ ∧
        w2.in_flight = w.in_flight ∧
        w2.trace = .executed (.create_a_serializer_on_this_core id) :: w.trace ∧
        create_a_serializer_on_this_core K e id w =
          if e.serializer_start_inline id then
            (on_serializer_ready K e id w2).then_return true
          else .ok true (w2.send (.serializer_ready id))) ∧
    (¬ (e.access_res id = 0 ∨ (e.access_res id = -1 ∧ e.access_errno id = K.ENOENT)) →
      ∃ w1 : world,
        w1.store.serializers id =
          some ⟨(formatted_name w.store.cmd_config.db_file_name id).take
            (K.MAX_DB_FILE_NAME - 1), none, false⟩ ∧
        w1.in_flight = w.in_flight ∧
        w1.trace = .executed (.create_a_serializer_on_this_core id) :: w.trace ∧
        create_a_serializer_on_this_core K e id w = .fatal "access() failed" w1) ∧
    ((create_a_serializer_on_this_core K e id w).is_ok = true →
      e.serializer_start_inline id = false →
      ((∃ ser, (create_a_serializer_on_this_core K e id w).state.store.serializers id =
          some ser ∧ ser.started = some .start_existing) ↔ e.access_res id = 0) ∧
      ((∃ ser, (create_a_serializer_on_this_core K e id w).state.store.serializers id =
          some ser ∧ ser.started = some .start_new) ↔
        (e.access_res id = -1 ∧ e.access_errno id = K.ENOENT)) ∧
      (create_a_serializer_on_this_core K e id w).state.in_flight =
        w.in_flight ++ [.serializer_ready id]) := by
  obtain ⟨hstart, hfail⟩ := (create_a_serializer_on_this_core_spec K e id w).2 hlen
  refine ⟨hstart, hfail, ?_⟩
  intro hok hq
  by_cases hres : e.access_res id = 0 ∨ (e.access_res id = -1 ∧ e.access_errno id = K.ENOENT)
  · obtain ⟨w2, hser, hfl, _, hrun⟩ := hstart hres
    rw [hq] at hrun
    simp only [Bool.false_eq_true, if_false] at hrun
    rw [hrun]
    simp only [Outcome.state_ok, world.send_store, world.send_in_flight, hser, hfl,
      Option.some.injEq, and_true]
    by_cases h0 : e.access_res id = 0
    · refine ⟨⟨fun _ => h0, fun _ => ⟨_, rfl, by simp [h0]⟩⟩, ⟨?_, ?_⟩⟩
      · rintro ⟨ser, rfl, hs⟩
        simp [h0] at hs
      · intro h
        rw [h0] at h
        exact absurd h.1 (by decide)
    · have h1 : e.access_res id = -1 ∧ e.access_errno id = K.ENOENT := by
        rcases hres with h | h
        · exact absurd h h0
        · exact h
      refine ⟨⟨?_, fun h => absurd h h0⟩, ⟨fun _ => h1, fun _ => ⟨_, rfl, by simp [h0]⟩⟩⟩
      rintro ⟨ser, rfl, hs⟩
      simp [h0] at hs
  · obtain ⟨w1, _, _, _, hrun⟩ := hfail hres
    rw [hrun] at hok
    simp [Outcome.is_ok] at hok

/-- C17, witness: on the sample store with nothing created yet, the probe of serializer 0
answers `ENOENT` and the start call suspends: the serializer is started with `start_new`
and `serializer_ready 0` is in flight. -/
theorem C17_existence_probe_decides_start_witness :
    (∃ ser, (create_a_serializer_on_this_core sample_constants env_queued 0
        sample_world).state.store.serializers 0 = some ser ∧
      ser.started = some .start_new) ∧
    (create_a_serializer_on_this_core sample_constants env_queued 0
      sample_world).state.in_flight = sample_world.in_flight ++ [.serializer_ready 0] := by
  have h := (C17_existence_probe_decides_start sample_constants env_queued 0 sample_world
    (by decide)).2.2 (by decide) rfl
  exact ⟨h.2.1.mpr ⟨rfl, rfl⟩, h.2.2⟩

/-! ## Theorems: the garbage collector state -/

theorem gc_set_step_spec (next_step : gc_step) (g : gc_state_t) :
    (¬ (g.should_be_stopped = true ∧ next_step = .gc_ready ∧
        (g.step_ = .gc_read ∨ g.step_ = .gc_write)) →
      g.set_step next_step = .ok [] { g with step_ := next_step }) ∧
    (g.should_be_stopped = true ∧ next_step = .gc_ready ∧
        (g.step_ = .gc_read ∨ g.step_ = .gc_write) →
      (∀ cb, g.gc_disable_callback = some cb →
        g.set_step next_step =
          .ok [cb] { g with gc_disable_callback := none, step_ := next_step }) ∧
      (g.gc_disable_callback = none →
        g.set_step next_step = .fatal "assert(gc_disable_callback)" g)) := by
  refine ⟨?_, ?_⟩
  · intro h
    unfold gc_state_t.set_step
    rw [if_neg h]
  · intro h
    refine ⟨?_, ?_⟩
    · intro cb hcb
      unfold gc_state_t.set_step
      rw [if_pos h, hcb]
    · intro hcb
      unfold gc_state_t.set_step
      rw [if_pos h, hcb]

theorem gc_set_steps_ready_quiet :
    ∀ (n : Nat) (g : gc_state_t), g.step_ = .gc_ready →
      gc_state_t.set_steps (List.replicate n .gc_ready) g = .ok [] g := by
  intro n
  induction n with
  | zero => intro g _; rfl
  | succ n ih =>
    intro g hg
    have h1 : g.set_step .gc_ready = .ok [] g := by
      rw [(gc_set_step_spec .gc_ready g).1 (by simp [hg])]
      congr 1
      cases g
      simp only at hg
      subst hg
      rfl
    simp only [List.replicate_succ, gc_state_t.set_steps, h1, ih g hg, List.append_nil]

/-- C18 (as amended): for every `gc_state_t` with `should_be_stopped` set and a non-null
`gc_disable_callback` whose current step is `gc_read` or `gc_write`,
`set_step(gc_ready)` invokes `on_gc_disabled` on that callback, once, clears the pointer
and sets the step; when the current step is `gc_ready` or `gc_reconstruct` it invokes
nothing and leaves the callback pending. -/
theorem C18_set_step_ready_fires_pending_callback (g : gc_state_t) (cb : Nat)
    (hstop : g.should_be_stopped = true) (hcb : g.gc_disable_callback = some cb) :
    (g.step_ = .gc_read ∨ g.step_ = .gc_write →
      g.set_step .gc_ready =
        .ok [cb] { g with gc_disable_callback := none, step_ := .gc_ready }) ∧
    (g.step_ = .gc_ready ∨ g.step_ = .gc_reconstruct →
      g.set_step .gc_ready = .ok [] { g with step_ := .gc_ready } ∧
      (g.set_step .gc_ready).state.gc_disable_callback = some cb) := by
  refine ⟨?_, ?_⟩
  · intro hstep
    exact ((gc_set_step_spec .gc_ready g).2 ⟨hstop, rfl, hstep⟩).1 cb hcb
  · intro hstep
    have h := (gc_set_step_spec .gc_ready g).1 (by
      rintro ⟨_, _, h | h⟩ <;> rcases hstep with h1 | h1 <;> rw [h1] at h <;> cases h)
    rw [h]
    exact ⟨rfl, hcb⟩

/-- C18, witness: a collector stopped while writing, with callback 7 pending. -/
theorem C18_set_step_ready_fires_pending_callback_witness :
    gc_state_t.set_step .gc_ready ⟨.gc_write, true, 0, some 7⟩ =
      .ok [7] ⟨.gc_ready, true, 0, none⟩ :=
  (C18_set_step_ready_fires_pending_callback ⟨.gc_write, true, 0, some 7⟩ 7 rfl rfl).1
    (Or.inr rfl)

/-- C18, counterexample: with `should_be_stopped` set and callback 7 pending, but the
current step `gc_ready`, `set_step(gc_ready)` invokes no callback and leaves the
callback pending. -/
theorem C18_no_callback_from_step_ready :
    (gc_state_t.set_step .gc_ready ⟨.gc_ready, true, 0, some 7⟩).returned = some [] ∧
    (gc_state_t.set_step .gc_ready ⟨.gc_ready, true, 0, some 7⟩).state.gc_disable_callback =
      some 7 := by
  decide

/-- C19: a pending GC-disable callback fires exactly once. For a collector whose
`gc_disable_callback` is non-null, `set_step(next)` does not abort and invokes
`on_gc_disabled`, on that callback and once, exactly when `should_be_stopped` is set,
`next` is `gc_ready` and the current step is `gc_read` or `gc_write`; it then clears
`gc_disable_callback`, and after it any number of further `set_step(gc_ready)` calls
invoke no callback and change nothing. `set_step` to `gc_read` or `gc_write` invokes no
callback, whatever the collector. Whenever `set_step` returns, `step()` equals the
argument and `should_be_stopped` and `refcount` are as before; it aborts only on its
assertion, when a callback is due and the pointer is NULL. -/
theorem C19_disable_callback_fires_once (g : gc_state_t) (next_step : gc_step) :
    (∀ cb, g.gc_disable_callback = some cb →
      (g.set_step next_step).is_ok = true ∧
      ((g.set_step next_step).returned = some [cb] ↔
        (g.should_be_stopped = true ∧ next_step = .gc_ready ∧
          (g.step_ = .gc_read ∨ g.step_ = .gc_write))) ∧
      ((g.set_step next_step).returned = some [] ↔
        ¬ (g.should_be_stopped = true ∧ next_step = .gc_ready ∧
          (g.step_ = .gc_read ∨ g.step_ = .gc_write))) ∧
      ((g.set_step next_step).returned = some [cb] →
        (g.set_step next_step).state.gc_disable_callback = none ∧
        (g.set_step next_step).state.step = .gc_ready ∧
        ∀ n, gc_state_t.set_steps (List.replicate n .gc_ready) (g.set_step next_step).state =
          .ok [] (g.set_step next_step).state) ∧
      ((g.set_step next_step).returned = some [] →
        (g.set_step next_step).state.gc_disable_callback = some cb)) ∧
    (next_step = .gc_read ∨ next_step = .gc_write →
      (g.set_step next_step).returned = some []) ∧
    ((g.set_step next_step).is_ok = true →
      (g.set_step next_step).state.step = next_step ∧
      (g.set_step next_step).state.should_be_stopped = g.should_be_stopped ∧
      (g.set_step next_step).state.refcount = g.refcount) ∧
    ((g.set_step next_step).is_ok = false ↔
      (g.should_be_stopped = true ∧ next_step = .gc_ready ∧
        (g.step_ = .gc_read ∨ g.step_ = .gc_write) ∧ g.gc_disable_callback = none)) := by
  obtain ⟨hno, hyes⟩ := gc_set_step_spec next_step g
  by_cases hc : g.should_be_stopped = true ∧ next_step = .gc_ready ∧
      (g.step_ = .gc_read ∨ g.step_ = .gc_write)
  · obtain ⟨hfire, habort⟩ := hyes hc
    refine ⟨?_, ?_, ?_, ?_⟩
    · intro cb hcb
      rw [hfire cb hcb]
      refine ⟨rfl, ⟨fun _ => hc, fun _ => rfl⟩, ⟨fun h => ?_, fun h => absurd hc h⟩,
        fun _ => ⟨rfl, hc.2.1, fun n => gc_set_steps_ready_quiet n _ hc.2.1⟩,
        fun h => ?_⟩
      · simp [Outcome.returned] at h
      · simp [Outcome.returned] at h
    · intro hn
      rcases hn with hn | hn <;> rw [hn] at hc <;> exact absurd hc.2.1 (by decide)
    · intro hok
      cases hcb : g.gc_disable_callback with
      | none =>
        rw [habort hcb] at hok
        simp [Outcome.is_ok] at hok
      | some cb =>
        rw [hfire cb hcb]
        exact ⟨rfl, rfl, rfl⟩
    · cases hcb : g.gc_disable_callback with
      | none =>
        rw [habort hcb]
        exact ⟨fun _ => ⟨hc.1, hc.2.1, hc.2.2, rfl⟩, fun _ => rfl⟩
      | some cb =>
        rw [hfire cb hcb]
        refine ⟨fun h => ?_, fun h => ?_⟩
        · simp [Outcome.is_ok] at h
        · exact absurd h.2.2.2 (by simp)
  · have hrun := hno hc
    refine ⟨?_, ?_, ?_, ?_⟩
    · intro cb hcb
      rw [hrun]
      refine ⟨rfl, ⟨fun h => ?_, fun h => absurd h hc⟩, ⟨fun _ => hc, fun _ => rfl⟩,
        fun h => ?_, fun _ => hcb⟩
      · simp [Outcome.returned] at h
      · simp [Outcome.returned] at h
    · intro _
      rw [hrun]
      rfl
    · intro _
      rw [hrun]
      exact ⟨rfl, rfl, rfl⟩
    · rw [hrun]
      refine ⟨fun h => ?_, fun h => absurd ⟨h.1, h.2.1, h.2.2.1⟩ hc⟩
      simp [Outcome.is_ok] at h

/-- C19, witness: a collector stopped while writing with `refcount` 0 and callback 7
pending: `set_step(gc_ready)` invokes callback 7, and three more `set_step(gc_ready)`
calls invoke nothing. -/
theorem C19_disable_callback_fires_once_witness :
    (gc_state_t.set_step .gc_ready ⟨.gc_write, true, 0, some 7⟩).returned = some [7] ∧
    gc_state_t.set_steps (List.replicate 3 .gc_ready)
        (gc_state_t.set_step .gc_ready ⟨.gc_write, true, 0, some 7⟩).state =
      .ok [] (gc_state_t.set_step .gc_ready ⟨.gc_write, true, 0, some 7⟩).state := by
  have h := (C19_disable_callback_fires_once ⟨.gc_write, true, 0, some 7⟩ .gc_ready).1 7 rfl
  have h1 := h.2.1.mpr ⟨rfl, rfl, Or.inr rfl⟩
  exact ⟨h1, (h.2.2.2.1 h1).2.2 3⟩

/-! ## Theorems: GC entries -/

theorem bitset_new_set_bits (size : Nat) (initial : Nat → Bool) :
    (bitset_t.new size initial).set.bits = List.replicate size true := by
  simp only [bitset_t.new, bitset_t.set, List.map_map]
  apply List.ext_getElem
  · simp
  · intro i h1 h2
    simp

/-- C20: initial state of a GC entry. For every `blocks_per_extent` the constructor for
a new extent, when it returns (that is, when `gettimeofday` succeeded), yields an entry
with state `state_active`, the offset that `gen_extent()` returned, a `g_array` of
`blocks_per_extent` bits all set, and `our_pq_entry = NULL`; the constructor for a
reconstructed extent yields state `state_reconstructing`, the given offset, a `g_array`
of `blocks_per_extent` bits all set, `timestamp = 2^64 - 1` and `our_pq_entry = NULL`. -/
theorem C20_gc_entry_initial_state (extent off : Int) (blocks_per_extent : Nat)
    (initial : Nat → Bool) (res tv_sec tv_usec : Int) :
    (res = 0 → ∃ entry,
      gc_entry.new_extent extent blocks_per_extent initial res tv_sec tv_usec =
        .ok entry ()) ∧
    (∀ entry,
      gc_entry.new_extent extent blocks_per_extent initial res tv_sec tv_usec =
        .ok entry () →
      entry.state = .state_active ∧ entry.offset = extent ∧
      entry.g_array.size = blocks_per_extent ∧
      entry.g_array.bits = List.replicate blocks_per_extent true ∧
      (∀ i, i < blocks_per_extent → entry.g_array.test i = true) ∧
      entry.our_pq_entry = none) ∧
    ((gc_entry.reconstructed off blocks_per_extent initial).state = .state_reconstructing ∧
      (gc_entry.reconstructed off blocks_per_extent initial).offset = off ∧
      (gc_entry.reconstructed off blocks_per_extent initial).g_array.size =
        blocks_per_extent ∧
      (gc_entry.reconstructed off blocks_per_extent initial).g_array.bits =
        List.replicate blocks_per_extent true ∧
      (∀ i, i < blocks_per_extent →
        (gc_entry.reconstructed off blocks_per_extent initial).g_array.test i = true) ∧
      (gc_entry.reconstructed off blocks_per_extent initial).timestamp = 2 ^ 64 - 1 ∧
      (gc_entry.reconstructed off blocks_per_extent initial).our_pq_entry = none) := by
  have hbits := bitset_new_set_bits blocks_per_extent initial
  have htest : ∀ i, i < blocks_per_extent →
      (bitset_t.new blocks_per_extent initial).set.test i = true := by
    intro i hi
    simp only [bitset_t.test, hbits]
    simp [List.getD_eq_getElem?_getD, hi]
  have hsize : (bitset_t.new blocks_per_extent initial).set.size = blocks_per_extent := by
    simp only [bitset_t.size, hbits, List.length_replicate]
  refine ⟨?_, ?_, ?_⟩
  · intro hres
    subst hres
    exact ⟨_, rfl⟩
  · intro entry hrun
    unfold gc_entry.new_extent at hrun
    simp only [] at hrun
    split at hrun
    · cases hrun
    · simp only [Outcome.ok.injEq, and_true] at hrun
      subst hrun
      exact ⟨rfl, rfl, hsize, hbits, htest, rfl⟩
  · have hts : (gc_entry.reconstructed off blocks_per_extent initial).timestamp =
        2 ^ 64 - 1 := by
      show int_to_u64 (-1) = 2 ^ 64 - 1
      decide
    exact ⟨rfl, rfl, hsize, hbits, htest, hts, rfl⟩

/-- C20, witness: a new extent at offset 1048576 with 4 blocks per extent, the clock at
1 second and 5 microseconds. -/
theorem C20_gc_entry_initial_state_witness :
    gc_entry.new_extent 1048576 4 (fun _ => false) 0 1 5 =
      .ok ⟨1048576, ⟨[true, true, true, true]⟩, 1000005, none, .state_active⟩ () ∧
    (∃ entry, gc_entry.new_extent 1048576 4 (fun _ => false) 0 1 5 = .ok entry ()) :=
  ⟨rfl, (C20_gc_entry_initial_state 1048576 0 4 (fun _ => false) 0 1 5).1 rfl⟩

/-! ## Theorems: the number of segments of a large value -/

theorem num_segments_eq_ediv (total seg : Int) (ht : 1 ≤ total) (hs : 1 ≤ seg) :
    NUM_SEGMENTS total seg = (total - 1) / seg + 1 := by
  unfold NUM_SEGMENTS
  rw [Int.tdiv_eq_ediv (by omega) (by omega)]

theorem num_segments_bounds (total seg : Int) (ht : 1 ≤ total) (hs : 1 ≤ seg) :
    (NUM_SEGMENTS total seg - 1) * seg < total ∧ total ≤ NUM_SEGMENTS total seg * seg := by
  rw [num_segments_eq_ediv total seg ht hs]
  have h1 := Int.ediv_mul_le (total - 1) (show seg ≠ 0 by omega)
  have h2 := Int.lt_ediv_add_one_mul_self (total - 1) (show 0 < seg by omega)
  refine ⟨?_, ?_⟩
  · have : (total - 1) / seg + 1 - 1 = (total - 1) / seg := by ring
    rw [this]
    omega
  · omega

theorem num_segments_eq_ceil (total seg : Int) (ht : 1 ≤ total) (hs : 1 ≤ seg) :
    NUM_SEGMENTS total seg = ⌈(total : ℚ) / (seg : ℚ)⌉ := by
  obtain ⟨h1, h2⟩ := num_segments_bounds total seg ht hs
  have hpos : (0 : ℚ) < (seg : ℚ) := by exact_mod_cast (show (0 : Int) < seg by omega)
  symm
  rw [Int.ceil_eq_iff]
  refine ⟨?_, ?_⟩
  · rw [lt_div_iff₀ hpos]
    exact_mod_cast h1
  · rw [div_le_iff₀ hpos]
    exact_mod_cast h2

/-- C21: for all integers `total >= 1` and `seg >= 1`, `NUM_SEGMENTS(total, seg)`, that
is `((total - 1) / seg) + 1` with the truncating division of C, equals
`ceil(total / seg)`: it is the least `n` with `n * seg >= total`, and it lies between 1
and `total`, so that no operation of the macro leaves the range of its operands. Hence
`MAX_LARGE_BUF_SEGMENTS`, which is `NUM_SEGMENTS(MAX_VALUE_SIZE, 4 * KILOBYTE)` and the
length of `large_buf_index.blocks`, equals `ceil(MAX_VALUE_SIZE / (4 * KILOBYTE))`, which
for `KILOBYTE = 1024` is `ceil(MAX_VALUE_SIZE / 4096)`. -/
theorem C21_num_segments_is_ceiling (total seg : Int) (ht : 1 ≤ total) (hs : 1 ≤ seg) :
    NUM_SEGMENTS total seg = (total - 1) / seg + 1 ∧
    NUM_SEGMENTS total seg = ⌈(total : ℚ) / (seg : ℚ)⌉ ∧
    total ≤ NUM_SEGMENTS total seg * seg ∧
    (∀ n : Int, total ≤ n * seg → NUM_SEGMENTS total seg ≤ n) ∧
    1 ≤ NUM_SEGMENTS total seg ∧ NUM_SEGMENTS total seg ≤ total ∧
    (∀ KILOBYTE : Int, 1 ≤ KILOBYTE →
      MAX_LARGE_BUF_SEGMENTS total KILOBYTE = ⌈(total : ℚ) / (4 * (KILOBYTE : ℚ))⌉ ∧
      ∀ index : large_buf_index total KILOBYTE,
        (index.blocks.length : Int) = ⌈(total : ℚ) / (4 * (KILOBYTE : ℚ))⌉) ∧
    MAX_LARGE_BUF_SEGMENTS total 1024 = ⌈(total : ℚ) / 4096⌉ ∧
    (∀ index : large_buf_index total 1024,
      (index.blocks.length : Int) = ⌈(total : ℚ) / 4096⌉) := by
  obtain ⟨h1, h2⟩ := num_segments_bounds total seg ht hs
  have hmax : ∀ K : Int, 1 ≤ K →
      MAX_LARGE_BUF_SEGMENTS total K = ⌈(total : ℚ) / (4 * (K : ℚ))⌉ := by
    intro K hK
    unfold MAX_LARGE_BUF_SEGMENTS
    rw [num_segments_eq_ceil total (4 * K) ht (by omega)]
    push_cast
    rfl
  have h4096 : MAX_LARGE_BUF_SEGMENTS total 1024 = ⌈(total : ℚ) / 4096⌉ := by
    rw [hmax 1024 (by decide)]
    norm_num
  refine ⟨num_segments_eq_ediv total seg ht hs, num_segments_eq_ceil total seg ht hs, h2,
    ?_, ?_, ?_, ?_, h4096, ?_⟩
  · intro n hn
    by_contra hlt
    have hle : n ≤ NUM_SEGMENTS total seg - 1 := by omega
    have : n * seg ≤ (NUM_SEGMENTS total seg - 1) * seg :=
      Int.mul_le_mul_of_nonneg_right hle (by omega)
    omega
  · by_contra hlt
    have hle : NUM_SEGMENTS total seg ≤ 0 := by omega
    have : NUM_SEGMENTS total seg * seg ≤ 0 * seg :=
      Int.mul_le_mul_of_nonneg_right hle (by omega)
    omega
  · by_contra hlt
    have hle : total ≤ NUM_SEGMENTS total seg - 1 := by omega
    have h3 : total * 1 ≤ (NUM_SEGMENTS total seg - 1) * seg :=
      Int.mul_le_mul hle hs (by decide) (by omega)
    omega
  · intro K hK
    exact ⟨hmax K hK, fun index => by rw [index.blocks_length, hmax K hK]⟩
  · intro index
    rw [index.blocks_length, h4096]

/-- C21, witness: a value of at most 10000 bytes in segments of 4096 bytes takes 3
segments, and the index for `MAX_VALUE_SIZE = 10000` has 3 entries. -/
theorem C21_num_segments_is_ceiling_witness :
    NUM_SEGMENTS 10000 4096 = 3 ∧
    ((large_buf_index.zeroed 10000 1024 3 (by decide)).blocks.length : Int) =
      ⌈((10000 : Int) : ℚ) / 4096⌉ :=
  ⟨by decide,
    (C21_num_segments_is_ceiling 10000 4096 (by decide) (by decide)).2.2.2.2.2.2.2.2 _⟩

/-! ## Theorems: key hashing, the bytes read through `char` -/

/-- C22: `hash("a")` is different from `hash("b")`, the one-byte keys `0x61` and `0x62`,
whether plain `char` is signed or not; the two values are 0x115ea782 and 0x70c1a0e1. -/
theorem C22_hash_a_differs_from_hash_b :
    (∀ char_signed : Bool,
      hash char_signed ⟨1, some [0x61]⟩ ≠ hash char_signed ⟨1, some [0x62]⟩) ∧
    (∀ char_signed : Bool, hash char_signed ⟨1, some [0x61]⟩ = 0x115ea782) ∧
    (∀ char_signed : Bool, hash char_signed ⟨1, some [0x62]⟩ = 0x70c1a0e1) := by
  decide
theorem hash_rounds_pointer (data : List Nat) :
    ∀ (n d h : Nat), (hash_rounds data n d h).1 = d + 4 * n := by
  intro n
  induction n with
  | zero => intro d h; rfl
  | succ n ih =>
    intro d h
    simp only [hash_rounds]
    rw [ih]
    omega

theorem char_at_of_lt (cs : Bool) (data : List Nat) (p : Nat) (h : byte_at data p < 128) :
    char_at cs data p = char_at false data p := by
  have : ¬ 128 ≤ byte_at data p := by omega
  simp [char_at, this]

theorem hash_rem_of_lt (cs : Bool) (data : List Nat) (rem d h : Nat)
    (h1 : rem = 1 → byte_at data d < 128) (h3 : rem = 3 → byte_at data (d + 2) < 128) :
    hash_rem cs data rem d h = hash_rem false data rem d h := by
  unfold hash_rem
  split_ifs with e3 e2 e1
  · rw [char_at_of_lt cs data (d + 2) (h3 e3)]
  · rfl
  · rw [char_at_of_lt cs data d (h1 e1)]
  · rfl

theorem hash_signedness_irrelevant (cs : Bool) (bytes : List Nat)
    (hlast : bytes.length % 2 = 1 → bytes.getD (bytes.length - 1) 0 < 128) :
    hash cs ⟨bytes.length, some bytes⟩ = hash false ⟨bytes.length, some bytes⟩ := by
  unfold hash
  simp only []
  split
  · rfl
  · simp only [Option.getD_some, hash_rounds_pointer, Nat.zero_add]
    have hand : bytes.length &&& 3 = bytes.length % 4 := Nat.and_pow_two_sub_one_eq_mod _ 2
    have hshift : bytes.length >>> 2 = bytes.length / 4 := Nat.shiftRight_eq_div_pow _ 2
    rw [hand, hshift]
    rw [hash_rem_of_lt cs]
    · intro h1
      have hpos : 4 * (bytes.length / 4) = bytes.length - 1 := by omega
      rw [hpos]
      have := hlast (by omega)
      unfold byte_at
      exact lt_of_le_of_lt (Nat.mod_le _ _) this
    · intro h3
      have hpos : 4 * (bytes.length / 4) + 2 = bytes.length - 1 := by omega
      rw [hpos]
      have := hlast (by omega)
      unfold byte_at
      exact lt_of_le_of_lt (Nat.mod_le _ _) this

/-- C24: for every key in which no byte read through a plain `char` is `0x80` or above,
that is, every key of even length (0 or 2 mod 4) and every key of odd length (1 or 3
mod 4) whose final byte is below `0x80`, `hash(key)` equals the result of the section-6
pseudocode as written, whether the C type `char` is signed or unsigned; in particular
the two kinds of platform compute the same hash. -/
theorem C24_hash_matches_pseudocode_without_high_final_byte (key : btree_key)
    (bytes : List Nat) (hc : key.contents = some bytes) (hs : key.size = bytes.length)
    (hb : ∀ b ∈ bytes, b < 256)
    (hlast : bytes.length % 2 = 1 → bytes.getD (bytes.length - 1) 0 < 128) :
    (∀ char_signed : Bool, hash char_signed key = spec_hash bytes.length bytes) ∧
    hash true key = hash false key := by
  obtain ⟨size, contents⟩ := key
  simp only at hc hs
  subst hc
  subst hs
  have hall : ∀ cs : Bool,
      hash cs ⟨bytes.length, some bytes⟩ = spec_hash bytes.length bytes := by
    intro cs
    rw [hash_signedness_irrelevant cs bytes hlast]
    by_cases h0 : bytes.length = 0
    · rw [h0, spec_hash_zero]
      simp [hash]
    · rw [hash_eq_spec_hash_with false bytes.length bytes (by omega) hb]
      have hw : char_widen false = id := by
        funext b
        simp [char_widen]
      rw [hw]
      rfl
  exact ⟨hall, by rw [hall true, hall false]⟩

/-- C24, witness: the key `66 6f 6f` (`foo`, three bytes, the last one below `0x80`). -/
theorem C24_hash_matches_pseudocode_without_high_final_byte_witness :
    (∀ char_signed : Bool,
      hash char_signed ⟨3, some [102, 111, 111]⟩ =
        spec_hash [102, 111, 111].length [102, 111, 111]) ∧
    hash true ⟨3, some [102, 111, 111]⟩ = hash false ⟨3, some [102, 111, 111]⟩ :=
  C24_hash_matches_pseudocode_without_high_final_byte ⟨3, some [102, 111, 111]⟩
    [102, 111, 111] rfl rfl (by decide) (by decide)

/-! ## Theorems: statistics of the data block manager -/

/-- C25: `garbage_ratio_total_blocks()` returns `gc_stats.old_garbage_blocks`, not
`gc_stats.old_total_blocks`: for every manager state it equals
`garbage_ratio_garbage_blocks()`, and in every state where `old_total_blocks` differs
from `old_garbage_blocks` it differs from `old_total_blocks`. -/
theorem C25_total_blocks_returns_garbage_blocks (m : data_block_manager_t) :
    m.garbage_ratio_total_blocks = m.gc_stats.old_garbage_blocks ∧
    m.garbage_ratio_total_blocks = m.garbage_ratio_garbage_blocks ∧
    (m.gc_stats.old_total_blocks ≠ m.gc_stats.old_garbage_blocks →
      m.garbage_ratio_total_blocks ≠ m.gc_stats.old_total_blocks) :=
  ⟨rfl, rfl, fun h e => h (by rw [← e]; rfl)⟩

/-- C25, witness: a manager with 10 old blocks of which 3 are garbage reports 3 as its
total. -/
theorem C25_total_blocks_returns_garbage_blocks_witness :
    data_block_manager_t.garbage_ratio_total_blocks
        ⟨⟨.gc_ready, false, 0, none⟩, ⟨10, 3⟩⟩ = 3 ∧
    data_block_manager_t.garbage_ratio_total_blocks
        ⟨⟨.gc_ready, false, 0, none⟩, ⟨10, 3⟩⟩ ≠ 10 :=
  ⟨(C25_total_blocks_returns_garbage_blocks ⟨⟨.gc_ready, false, 0, none⟩, ⟨10, 3⟩⟩).1,
    (C25_total_blocks_returns_garbage_blocks ⟨⟨.gc_ready, false, 0, none⟩, ⟨10, 3⟩⟩).2.2
      (by decide)⟩

/-! ## Theorems: the completion signal of the superblock initializer -/

open initialize_superblock_fsm_t in
theorem sb_run_log_spec (nil : Nat) (o : cache_oracle) (c : cache_t)
    (hp : c.pending = none) :
    (run_log nil o c).returned =
      some (⟨o.begin_inline && o.acquire_inline && o.commit_inline, false⟩,
        if o.begin_inline && o.acquire_inline && o.commit_inline then []
        else List.replicate (o.suspensions - 1) ⟨false, false⟩ ++ [⟨true, true⟩]) ∧
    (run_log nil o c).state = (complete_run nil o c).state ∧
    (run_log nil o c).state.fsm.state = .state_done ∧
    (run_log nil o c).state.fsm.callback =
      !(o.begin_inline && o.acquire_inline && o.commit_inline) ∧
    (run_log nil o c).state.cache.pending = none ∧
    (run_log nil o c).state.cache.calls.head? = some .commit := by
  rcases o with ⟨a, b1, b2, b3, x⟩
  by_cases hd : c.superblock.database_exists = 0 <;>
  cases b1 <;> cases b2 <;> cases b3 <;>
  simp [run_log, drain_log, complete_run, drain, complete_pending,
    initialize_superblock_if_necessary,
    next_initialize_superblock_step, step_acquire, step_make_change, step_commit, step_finish,
    on_txn_begin, on_block_available, on_txn_commit, cache_oracle.suspensions,
    initialize_superblock_fsm_t.new, cache_t.call_op, cache_t.call, hp, hd, Outcome.returned,
    Outcome.state, List.replicate]

/-- C26: the completion signal of the initializer is delivered exactly once. For every
superblock content held by an idle cache, `initialize_superblock_if_necessary(cb)`
returns true if and only if `begin_transaction`, `acquire` and `commit` all completed
inline, and it never invokes `cb.on_initialize_superblock` itself. If all three
completed inline no callback is delivered, so `on_initialize_superblock` is not invoked
at all. If `k >= 1` of them suspended, `k` callbacks (`on_txn_begin`,
`on_block_available`, `on_txn_commit`, for the steps that suspended) are delivered: the
first `k - 1` invoke nothing and the last one, which finds the commit completed,
invokes `on_initialize_superblock`, so it is invoked exactly once. In both cases no
assertion fails, `Unexpected state` is not reached, and the FSM ends in `state_done`
with the commit issued last and nothing pending. -/
theorem C26_initializer_signals_once (NULL_BLOCK_ID : Nat) (o : cache_oracle) (c : cache_t)
    (hp : c.pending = none) :
    (initialize_superblock_fsm_t.run_log NULL_BLOCK_ID o c).is_ok = true ∧
    (∃ (first : sb_ret) (rest : List sb_ret),
      (initialize_superblock_fsm_t.run_log NULL_BLOCK_ID o c).returned = some (first, rest) ∧
      (initialize_superblock_fsm_t.initialize_superblock_if_necessary NULL_BLOCK_ID o
        { fsm := .new, cache := c }).returned = some first ∧
      (first.done = true ↔
        (o.begin_inline = true ∧ o.acquire_inline = true ∧ o.commit_inline = true)) ∧
      first.notified = false ∧
      (first.done = true → rest = []) ∧
      (first.done = false →
        rest = List.replicate (o.suspensions - 1) ⟨false, false⟩ ++ [⟨true, true⟩] ∧
        rest.length = o.suspensions ∧ 1 ≤ o.suspensions) ∧
      ((first :: rest).filter (fun r => r.notified)).length =
        (if first.done then 0 else 1)) ∧
    (initialize_superblock_fsm_t.run_log NULL_BLOCK_ID o c).state.fsm.state = .state_done ∧
    (initialize_superblock_fsm_t.run_log NULL_BLOCK_ID o c).state.cache.pending = none ∧
    (initialize_superblock_fsm_t.run_log NULL_BLOCK_ID o c).state.cache.calls.head? =
      some .commit ∧
    (initialize_superblock_fsm_t.run_log NULL_BLOCK_ID o c).state =
      (initialize_superblock_fsm_t.complete_run NULL_BLOCK_ID o c).state := by
  obtain ⟨h1, h2, h3, _, h5, h6⟩ := sb_run_log_spec NULL_BLOCK_ID o c hp
  refine ⟨?_, ⟨_, _, h1, ?_, ?_, rfl, ?_, ?_, ?_⟩, h3, h5, h6, h2⟩
  · cases hrun : initialize_superblock_fsm_t.run_log NULL_BLOCK_ID o c with
    | fatal msg m =>
      rw [hrun] at h1
      simp [Outcome.returned] at h1
    | ok r m => rfl
  · unfold initialize_superblock_fsm_t.run_log at h1
    cases hinit : initialize_superblock_fsm_t.initialize_superblock_if_necessary
        NULL_BLOCK_ID o { fsm := .new, cache := c } with
    | fatal msg m =>
      rw [hinit] at h1
      simp [Outcome.returned] at h1
    | ok r m =>
      rw [hinit] at h1
      simp only [] at h1
      cases hdr : initialize_superblock_fsm_t.drain_log NULL_BLOCK_ID o 3 m with
      | fatal msg m1 =>
        rw [hdr] at h1
        simp [Outcome.returned] at h1
      | ok rs m1 =>
        rw [hdr] at h1
        simp only [Outcome.returned, Option.some.injEq, Prod.mk.injEq] at h1
        simp only [Outcome.returned, h1.1]
  · simp only [Bool.and_eq_true]
    tauto
  · intro h
    exact if_pos h
  · intro h
    have h2 : (o.begin_inline && o.acquire_inline && o.commit_inline) = false := h
    rw [h2]
    rcases o with ⟨a, b1, b2, b3, x⟩
    cases b1 <;> cases b2 <;> cases b3 <;>
      simp [cache_oracle.suspensions] at h2 ⊢
  · rcases o with ⟨a, b1, b2, b3, x⟩
    cases b1 <;> cases b2 <;> cases b3 <;>
      simp [cache_oracle.suspensions, List.replicate, List.filter]

/-- C26, witness: a zero-filled superblock, with `begin_transaction` and `commit`
suspending: `initialize_superblock_if_necessary` returns false, `on_txn_begin` invokes
nothing and `on_txn_commit` invokes `on_initialize_superblock`. -/
theorem C26_initializer_signals_once_witness :
    (initialize_superblock_fsm_t.run_log 4294967295 ⟨true, false, true, false, true⟩
      (cache_t.holding ⟨0, 0⟩)).returned =
      some (⟨false, false⟩, [⟨false, false⟩, ⟨true, true⟩]) ∧
    (initialize_superblock_fsm_t.run_log 4294967295 ⟨true, false, true, false, true⟩
      (cache_t.holding ⟨0, 0⟩)).state.fsm.state = .state_done := by
  have h := C26_initializer_signals_once 4294967295 ⟨true, false, true, false, true⟩
    (cache_t.holding ⟨0, 0⟩) rfl
  exact ⟨by decide, h.2.2.1⟩

/-! ## Theorems: counts and ranks of the slices of a serializer -/

/-- C27: the three assertions on `count_on_serializer` in `create_a_slice_on_this_core`
never fail. For `n_serializers > 0`, `n_slices > 0` and `id` in `[0, n_slices)`, the
count `c` that the loop computes is the number of slices `i` in `[0, n_slices)` with
`i mod n_serializers = id mod n_serializers`, and it satisfies `c >= 1`,
`c >= n_slices / n_serializers` and `c <= n_slices / n_serializers + 1`;
`create_a_slice_on_this_core(id)` therefore passes the three assertions and goes on to
construct and start the slice. -/
theorem C27_count_on_serializer_assertions_hold (K : constants) (e : env_t) (w : world)
    (id : Nat) (hn : 0 < w.store.cmd_config.n_serializers)
    (_hN : 0 < w.store.cmd_config.n_slices) (hid : id < w.store.cmd_config.n_slices) :
    count_on_serializer w.store.cmd_config.n_serializers w.store.cmd_config.n_slices id =
      ((Finset.range w.store.cmd_config.n_slices).filter
        (fun i => i % w.store.cmd_config.n_serializers =
          id % w.store.cmd_config.n_serializers)).card ∧
    1 ≤ count_on_serializer w.store.cmd_config.n_serializers w.store.cmd_config.n_slices id ∧
    w.store.cmd_config.n_slices / w.store.cmd_config.n_serializers ≤
      count_on_serializer w.store.cmd_config.n_serializers w.store.cmd_config.n_slices id ∧
    count_on_serializer w.store.cmd_config.n_serializers w.store.cmd_config.n_slices id ≤
      w.store.cmd_config.n_slices / w.store.cmd_config.n_serializers + 1 ∧
    create_a_slice_on_this_core K e id w =
      (match btree_slice_t.start K.NULL_BLOCK_ID (e.cache id)
          (btree_slice_t.new (id % w.store.cmd_config.n_serializers)
            (id / w.store.cmd_config.n_serializers)
            (count_on_serializer w.store.cmd_config.n_serializers
              w.store.cmd_config.n_slices id)
            (w.store.cmd_config.max_cache_size / w.store.cmd_config.n_slices)
            w.store.cmd_config.wait_for_flush w.store.cmd_config.flush_timer_ms
            w.store.cmd_config.flush_threshold_percent (e.disk_superblock id)) with
      | .fatal msg s1 =>
        .fatal msg ((w.log (.executed (.create_a_slice_on_this_core id))).set_slice id (some s1))
      | .ok r s1 =>
        if r.done then
          (on_slice_ready e id
            (((w.log (.executed (.create_a_slice_on_this_core id))).set_slice id
              (some s1)).await_cache id s1)).then_return true
        else
          .ok true (((w.log (.executed (.create_a_slice_on_this_core id))).set_slice id
            (some s1)).await_cache id s1)) := by
  obtain ⟨b1, b2, b3⟩ := count_on_serializer_bounds _ _ id hn hid
  refine ⟨count_on_serializer_eq_card _ _ _, b1, b2, b3, ?_⟩
  unfold create_a_slice_on_this_core
  simp only [world.log_store, ge_iff_le, b1, b2, b3, not_true_eq_false, if_false]

/-- C27, witness: slice 3 of the sample store (4 slices on 2 serializers) has 2 slices
on its serializer. -/
theorem C27_count_on_serializer_assertions_hold_witness :
    count_on_serializer sample_world.store.cmd_config.n_serializers
        sample_world.store.cmd_config.n_slices 3 = 2 ∧
    1 ≤ count_on_serializer sample_world.store.cmd_config.n_serializers
        sample_world.store.cmd_config.n_slices 3 :=
  ⟨by decide,
    (C27_count_on_serializer_assertions_hold sample_constants env_inline sample_world 3
      (by decide) (by decide) (by decide)).2.1⟩

theorem rank_lt_count_iff (n N s r : Nat) (hs : s < n) :
    r < count_on_serializer n N s ↔ n * r + s < N := by
  have hn : 0 < n := by omega
  rw [count_on_serializer_formula n N s hn, Nat.mod_eq_of_lt hs]
  have hN := Nat.div_add_mod N n
  have hm := Nat.mod_lt N hn
  rcases Nat.lt_trichotomy r (N / n) with h | h | h
  · have h1 : n * (r + 1) ≤ n * (N / n) := Nat.mul_le_mul_left n h
    rw [Nat.mul_add, Nat.mul_one] at h1
    constructor
    · intro _; omega
    · intro _; split <;> omega
  · subst h
    constructor
    · intro h2
      split at h2
      · omega
      · omega
    · intro h2
      have : s < N % n := by omega
      rw [if_pos this]
      omega
  · have h1 : n * (N / n + 1) ≤ n * r := Nat.mul_le_mul_left n h
    rw [Nat.mul_add, Nat.mul_one] at h1
    constructor
    · intro h2
      split at h2 <;> omega
    · intro h2
      omega

theorem count_on_serializer_sum (n N : Nat) (hn : 0 < n) :
    ∑ s in Finset.range n, count_on_serializer n N s = N := by
  have h := Finset.card_eq_sum_card_fiberwise (s := Finset.range N) (t := Finset.range n)
    (f := fun i => i % n) (fun i _ => Finset.mem_range.mpr (Nat.mod_lt i hn))
  rw [Finset.card_range] at h
  refine Eq.trans ?_ h.symm
  apply Finset.sum_congr rfl
  intro s hs
  rw [count_on_serializer_eq_card, Nat.mod_eq_of_lt (Finset.mem_range.mp hs)]

/-- C28: ranks are a valid, collision-free numbering within each serializer. For
`n_serializers > 0`, `n_slices > 0` and every serializer `s` that owns at least one
slice, the map `i -> i / n_serializers`, restricted to the slices `i` in `[0, n_slices)`
with `i mod n_serializers = s`, is a bijection onto `{0, ..., count_on_serializer - 1}`.
Hence `id_on_serializer < count_on_serializer` for every slice, also in the cache that
`create_a_slice_on_this_core` constructs; no two slices receive the same (serializer,
rank) pair; and the counts over all serializers sum to `n_slices`. -/
theorem C28_ranks_number_the_slices_of_a_serializer (n_serializers n_slices : Nat)
    (hn : 0 < n_serializers) (_hN : 0 < n_slices) :
    (∀ s, (∃ i, i < n_slices ∧ i % n_serializers = s) →
      Set.BijOn (fun i => i / n_serializers)
        {i | i < n_slices ∧ i % n_serializers = s}
        {r | r < count_on_serializer n_serializers n_slices s}) ∧
    (∀ i, i < n_slices →
      i / n_serializers < count_on_serializer n_serializers n_slices i) ∧
    (∀ i j, i < n_slices → j < n_slices →
      (i % n_serializers, i / n_serializers) = (j % n_serializers, j / n_serializers) →
      i = j) ∧
    ∑ s in Finset.range n_serializers, count_on_serializer n_serializers n_slices s =
      n_slices ∧
    (∀ (K : constants) (e : env_t) (w : world) (i : Nat),
      w.store.cmd_config.n_serializers = n_serializers →
      w.store.cmd_config.n_slices = n_slices → i < n_slices →
      ∃ slice, (create_a_slice_on_this_core K e i w).state.store.slices i = some slice ∧
        slice.cache.serializer = i % n_serializers ∧
        slice.cache.id_on_serializer = i / n_serializers ∧
        slice.cache.id_on_serializer < slice.cache.count_on_serializer) := by
  have hcount : ∀ i, count_on_serializer n_serializers n_slices (i % n_serializers) =
      count_on_serializer n_serializers n_slices i := by
    intro i
    unfold count_on_serializer
    rw [Nat.mod_mod]
  have hrank : ∀ i, i < n_slices →
      i / n_serializers < count_on_serializer n_serializers n_slices i := by
    intro i hi
    rw [← hcount i, rank_lt_count_iff _ _ _ _ (Nat.mod_lt i hn), Nat.div_add_mod]
    exact hi
  refine ⟨?_, hrank, ?_, count_on_serializer_sum _ _ hn, ?_⟩
  · rintro s ⟨i0, _, hs0⟩
    have hs : s < n_serializers := by
      rw [← hs0]
      exact Nat.mod_lt i0 hn
    refine ⟨?_, ?_, ?_⟩
    · rintro i ⟨hi, his⟩
      show i / n_serializers < count_on_serializer n_serializers n_slices s
      rw [← his, hcount]
      exact hrank i hi
    · rintro i ⟨_, his⟩ j ⟨_, hjs⟩ hij
      have hij2 : i / n_serializers = j / n_serializers := hij
      rw [← Nat.div_add_mod i n_serializers, ← Nat.div_add_mod j n_serializers, his, hjs,
        hij2]
    · intro r hr
      have hr2 : n_serializers * r + s < n_slices :=
        (rank_lt_count_iff _ _ _ _ hs).mp hr
      refine ⟨n_serializers * r + s, ⟨hr2, ?_⟩, ?_⟩
      · rw [Nat.mul_add_mod, Nat.mod_eq_of_lt hs]
      · show (n_serializers * r + s) / n_serializers = r
        rw [Nat.mul_add_div hn, Nat.div_eq_of_lt hs, Nat.add_zero]
  · intro i j _ _ hpair
    simp only [Prod.mk.injEq] at hpair
    rw [← Nat.div_add_mod i n_serializers, ← Nat.div_add_mod j n_serializers, hpair.1,
      hpair.2]
  · intro K e w i hwn hwN hi
    subst hwn
    subst hwN
    obtain ⟨slice, h1, h2, h3, h4⟩ := create_a_slice_binding K e w i hn hi
    refine ⟨slice, h1, h2, h3, ?_⟩
    rw [h3, h4]
    exact hrank i hi

/-- C28, witness: 5 slices on 2 serializers. Serializer 0 owns slices 0, 2, 4 with ranks
0, 1, 2, serializer 1 owns slices 1, 3 with ranks 0, 1, and 3 + 2 = 5. -/
theorem C28_ranks_number_the_slices_of_a_serializer_witness :
    Set.BijOn (fun i => i / 2) {i | i < 5 ∧ i % 2 = 0} {r | r < count_on_serializer 2 5 0} ∧
    count_on_serializer 2 5 0 = 3 ∧ count_on_serializer 2 5 1 = 2 ∧
    ∑ s in Finset.range 2, count_on_serializer 2 5 s = 5 :=
  ⟨(C28_ranks_number_the_slices_of_a_serializer 2 5 (by decide) (by decide)).1 0
      ⟨0, by decide, by decide⟩,
    by decide, by decide,
    (C28_ranks_number_the_slices_of_a_serializer 2 5 (by decide) (by decide)).2.2.2.1⟩

/-! ## Theorems: a message that writes a large value -/

theorem u16_lt (x : Nat) : u16 x < 65536 := Nat.mod_lt _ (by decide)

theorem read_segments_more (lv : large_buf_t) (w : write_run)
    (hst : w.msg.state = .reading) (hlt : w.msg.next_segment < u16 lv.get_num_segments) :
    write_large_value_msg_t.read_segments lv w =
      .ok () { w with
        events := .write_value w.msg.next_segment
          (u16 (lv.get_segment_size w.msg.next_segment)) :: w.events,
        transfer_pending := true } := by
  unfold write_large_value_msg_t.read_segments
  simp [hst, hlt]

theorem read_segments_done (lv : large_buf_t) (w : write_run)
    (hst : w.msg.state = .reading) (heq : w.msg.next_segment = u16 lv.get_num_segments) :
    write_large_value_msg_t.read_segments lv w =
      .ok () { w with
        msg := { w.msg with state := .completed },
        events := .continue_on_cpu w.msg.home_cpu :: .on_fsm_ready :: w.events } := by
  unfold write_large_value_msg_t.read_segments
  simp [hst, heq]

theorem write_transfers_idle (lv : large_buf_t) (n : Nat) (w : write_run)
    (hp : w.transfer_pending = false) :
    write_large_value_msg_t.transfers lv n w = .ok () w := by
  cases n with
  | zero => rfl
  | succ n =>
    unfold write_large_value_msg_t.transfers
    rw [hp]
    rfl

theorem write_transfers_pending (lv : large_buf_t) (n : Nat) (w : write_run)
    (hp : w.transfer_pending = true) :
    write_large_value_msg_t.transfers lv (n + 1) w =
      write_large_value_msg_t.segments_from lv n
        { w with msg := { w.msg with next_segment := u32 (w.msg.next_segment + 1) },
                 transfer_pending := false } := by
  unfold write_large_value_msg_t.transfers write_large_value_msg_t.segments_from
    write_large_value_msg_t.on_data_transferred
  rw [hp]
  rfl

theorem segments_from_spec (lv : large_buf_t) :
    ∀ (n : Nat) (w : write_run), w.msg.state = .reading → w.transfer_pending = false →
      w.msg.next_segment ≤ u16 lv.get_num_segments →
      write_large_value_msg_t.segments_from lv n w = .ok ()
        { msg := { w.msg with
            next_segment := min (w.msg.next_segment + n) (u16 lv.get_num_segments),
            state := if u16 lv.get_num_segments ≤ w.msg.next_segment + n then .completed
              else .reading },
          events :=
            (if u16 lv.get_num_segments ≤ w.msg.next_segment + n then
              [write_event.continue_on_cpu w.msg.home_cpu, .on_fsm_ready] else []) ++
            ((List.range' w.msg.next_segment
                (min (n + 1) (u16 lv.get_num_segments - w.msg.next_segment))).map
              (fun k => write_event.write_value k (u16 (lv.get_segment_size k)))).reverse ++
            w.events,
          transfer_pending := decide (w.msg.next_segment + n < u16 lv.get_num_segments) } := by
  intro n
  induction n with
  | zero =>
    intro w hst hp hle
    unfold write_large_value_msg_t.segments_from
    by_cases hlt : w.msg.next_segment < u16 lv.get_num_segments
    · rw [read_segments_more lv w hst hlt]
      obtain ⟨⟨rh, home, s, st⟩, events, pending⟩ := w
      simp only at hst hp hle hlt
      subst hst
      have h1 : min 1 (u16 lv.get_num_segments - s) = 1 := by omega
      have h2 : ¬ u16 lv.get_num_segments ≤ s := by omega
      simp [write_large_value_msg_t.transfers, h1, h2, hlt, List.range']
      omega
    · have heq : w.msg.next_segment = u16 lv.get_num_segments := by omega
      rw [read_segments_done lv w hst heq]
      obtain ⟨⟨rh, home, s, st⟩, events, pending⟩ := w
      simp only at hst hp hle hlt heq
      subst hst
      subst hp
      subst heq
      simp [write_large_value_msg_t.transfers]
  | succ n ih =>
    intro w hst hp hle
    unfold write_large_value_msg_t.segments_from
    by_cases hlt : w.msg.next_segment < u16 lv.get_num_segments
    · rw [read_segments_more lv w hst hlt]
      simp only []
      rw [write_transfers_pending lv n _ rfl]
      have h16 := u16_lt lv.get_num_segments
      have hu : u32 (w.msg.next_segment + 1) = w.msg.next_segment + 1 :=
        Nat.mod_eq_of_lt (by omega)
      have hih := ih
        { msg := { w.msg with next_segment := u32 (w.msg.next_segment + 1) },
          events := .write_value w.msg.next_segment
            (u16 (lv.get_segment_size w.msg.next_segment)) :: w.events,
          transfer_pending := false } hst rfl (by simp only [hu]; omega)
      refine Eq.trans hih ?_
      have h1 : min (n + 1 + 1) (u16 lv.get_num_segments - w.msg.next_segment) =
          min (n + 1) (u16 lv.get_num_segments - (w.msg.next_segment + 1)) + 1 := by omega
      have h2 : w.msg.next_segment + 1 + n = w.msg.next_segment + (n + 1) := by omega
      simp only [hu, h1, h2, List.range'_succ, List.map_cons, List.reverse_cons,
        List.append_assoc, List.singleton_append]
    · have heq : w.msg.next_segment = u16 lv.get_num_segments := by omega
      rw [read_segments_done lv w hst heq]
      simp only []
      rw [write_transfers_idle lv (n + 1)
        { w with msg := { w.msg with state := .completed },
                 events := .continue_on_cpu w.msg.home_cpu :: .on_fsm_ready :: w.events } hp]
      obtain ⟨⟨rh, home, s, st⟩, events, pending⟩ := w
      simp only at hst hp hle hlt heq
      subst hst
      subst hp
      subst heq
      simp
theorem write_segments_eq (lv : large_buf_t) (n : Nat) (w : write_run) :
    write_large_value_msg_t.write_segments lv n w =
      write_large_value_msg_t.segments_from lv n
        { w with msg := { w.msg with state := .reading } } := by
  unfold write_large_value_msg_t.write_segments write_large_value_msg_t.begin_write
    write_large_value_msg_t.on_cpu_switch write_large_value_msg_t.segments_from
  simp

theorem write_segments_spec (lv : large_buf_t) (w : write_run)
    (h0 : w.msg.next_segment = 0) (hp : w.transfer_pending = false) (n : Nat) :
    write_large_value_msg_t.write_segments lv n w = .ok ()
      { msg := { w.msg with
          next_segment := min n (u16 lv.get_num_segments),
          state := if u16 lv.get_num_segments ≤ n then .completed else .reading },
        events :=
          (if u16 lv.get_num_segments ≤ n then
            [write_event.continue_on_cpu w.msg.home_cpu, .on_fsm_ready] else []) ++
          ((List.range (min (n + 1) (u16 lv.get_num_segments))).map
            (fun k => write_event.write_value k (u16 (lv.get_segment_size k)))).reverse ++
          w.events,
        transfer_pending := decide (n < u16 lv.get_num_segments) } := by
  rw [write_segments_eq]
  refine Eq.trans (segments_from_spec lv n { w with msg := { w.msg with state := .reading } }
    rfl hp (by simp only [h0]; exact Nat.zero_le _)) ?_
  simp only [h0, Nat.zero_add, Nat.sub_zero, List.range_eq_range']

/-- C29: `write_large_value_msg_t` sends the segments of a large value in order, each
exactly once. For a message whose `next_segment` is 0, as the constructor leaves it, and
a large value with `n = get_num_segments()` segments: `begin_write` puts the message in
state reading, and `read_segments` and the `on_data_transferred` steps that follow call
`write_value` on segments `0, 1, ..., n - 1` in that order, each once, with the length
that `get_segment` reported for it. After `j` completed transfers `next_segment` is
`min(j, n)`, so it never exceeds `n`, and neither `assert(state == reading)` nor
`assert(next_segment == get_num_segments())` fails. The step that finds
`next_segment = n` calls `on_fsm_ready`, sets the state to completed and sends the
message to its home core, where it reports `on_large_value_completed(true)` and is
deleted. -/
theorem C29_write_sends_segments_in_order (large_value : large_buf_t) (w : write_run)
    (h0 : w.msg.next_segment = 0) (hp : w.transfer_pending = false) :
    (∀ j, write_large_value_msg_t.write_segments large_value j w = .ok ()
      { msg := { w.msg with
          next_segment := min j (u16 large_value.get_num_segments),
          state := if u16 large_value.get_num_segments ≤ j then .completed else .reading },
        events :=
          (if u16 large_value.get_num_segments ≤ j then
            [write_event.continue_on_cpu w.msg.home_cpu, .on_fsm_ready] else []) ++
          ((List.range (min (j + 1) (u16 large_value.get_num_segments))).map
            (fun k => write_event.write_value k
              (u16 (large_value.get_segment_size k)))).reverse ++
          w.events,
        transfer_pending := decide (j < u16 large_value.get_num_segments) }) ∧
    (∀ j, (write_large_value_msg_t.write_segments large_value j w).state.msg.next_segment ≤
      u16 large_value.get_num_segments) ∧
    (write_large_value_msg_t.write_all large_value (u16 large_value.get_num_segments) w).is_ok =
      true ∧
    (write_large_value_msg_t.write_all large_value (u16 large_value.get_num_segments)
        w).state.events.reverse =
      w.events.reverse ++
        (List.range (u16 large_value.get_num_segments)).map
          (fun k => write_event.write_value k (u16 (large_value.get_segment_size k))) ++
        [.on_fsm_ready, .continue_on_cpu w.msg.home_cpu, .on_large_value_completed true,
          .deleted] ∧
    (write_large_value_msg_t.write_all large_value (u16 large_value.get_num_segments)
        w).state.msg =
      { w.msg with next_segment := u16 large_value.get_num_segments, state := .completed } ∧
    (write_large_value_msg_t.write_all large_value (u16 large_value.get_num_segments)
        w).state.transfer_pending = false ∧
    (List.range (u16 large_value.get_num_segments)).Nodup := by
  have hseg := write_segments_spec large_value w h0 hp
  have hall : write_large_value_msg_t.write_all large_value
      (u16 large_value.get_num_segments) w = .ok ()
      { msg := { w.msg with
          next_segment := u16 large_value.get_num_segments, state := .completed },
        events := .deleted :: .on_large_value_completed true ::
          .continue_on_cpu w.msg.home_cpu :: .on_fsm_ready ::
          (((List.range (u16 large_value.get_num_segments)).map
            (fun k => write_event.write_value k
              (u16 (large_value.get_segment_size k)))).reverse ++ w.events),
        transfer_pending := false } := by
    unfold write_large_value_msg_t.write_all
    rw [hseg]
    simp [write_large_value_msg_t.on_cpu_switch]
  refine ⟨hseg, ?_, ?_, ?_, ?_, ?_, List.nodup_range _⟩
  · intro j
    rw [hseg]
    exact Nat.min_le_right _ _
  · rw [hall]
    rfl
  · rw [hall]
    simp [Outcome.state]
  · rw [hall]
    rfl
  · rw [hall]
    rfl

/-- C29, witness: a value of three segments of 100, 101 and 102 bytes, sent by a new
message whose request handler is on core 1 and whose home is core 0. -/
theorem C29_write_sends_segments_in_order_witness :
    (write_large_value_msg_t.write_all ⟨3, fun k => 100 + k, id, id⟩
        (u16 (large_buf_t.get_num_segments ⟨3, fun k => 100 + k, id, id⟩))
        ⟨write_large_value_msg_t.new 1 0, [], false⟩).state.events.reverse =
      [.write_value 0 100, .write_value 1 101, .write_value 2 102, .on_fsm_ready,
        .continue_on_cpu 0, .on_large_value_completed true, .deleted] :=
  (C29_write_sends_segments_in_order ⟨3, fun k => 100 + k, id, id⟩
    ⟨write_large_value_msg_t.new 1 0, [], false⟩ rfl rfl).2.2.2.1

/-! ## Theorems: a message that consumes a large value -/

theorem u32_sub_of_le (a b : Nat) (ha : a < 4294967296) (hb : b ≤ a) : u32_sub a b = a - b := by
  unfold u32_sub u32
  rw [Nat.mod_eq_of_lt ha, Nat.mod_eq_of_lt (lt_of_le_of_lt hb ha)]
  omega

theorem consume_chunks_sum (B : Nat) :
    ∀ (n remaining : Nat), (consume_chunks B n remaining).sum = min (n * B) remaining := by
  intro n
  induction n with
  | zero => intro r; simp [consume_chunks]
  | succ n ih =>
    intro r
    unfold consume_chunks
    split
    · rename_i h0
      simp [h0]
    · rw [List.sum_cons, ih, Nat.succ_mul]
      omega

theorem consume_ceil_zero (B : Nat) (hB : 0 < B) : (0 + B - 1) / B = 0 := by
  rw [Nat.zero_add]
  exact Nat.div_eq_of_lt (by omega)

theorem consume_ceil_succ (B L : Nat) (hB : 0 < B) (hL : 0 < L) :
    (L + B - 1) / B = (L - min B L + B - 1) / B + 1 := by
  by_cases h : L ≤ B
  · rw [Nat.min_eq_right h, Nat.sub_self, consume_ceil_zero B hB]
    have h1 : L + B - 1 = (L - 1) + B := by omega
    rw [h1, Nat.add_div_right _ hB, Nat.div_eq_of_lt (by omega)]
  · have hlt : B < L := by omega
    rw [Nat.min_eq_left (le_of_lt hlt)]
    have h1 : L + B - 1 = (L - B + B - 1) + B := by omega
    rw [h1, Nat.add_div_right _ hB]

theorem consume_ceil_spec (B L : Nat) (hB : 0 < B) :
    L ≤ (L + B - 1) / B * B ∧ ∀ m, L ≤ m * B → (L + B - 1) / B ≤ m := by
  have h1 := Nat.div_add_mod (L + B - 1) B
  have h2 := Nat.mod_lt (L + B - 1) hB
  refine ⟨?_, ?_⟩
  · rw [Nat.mul_comm]
    omega
  · intro m hm
    rw [Nat.div_le_iff_le_mul_add_pred hB]
    rw [Nat.mul_comm] at hm
    omega

theorem consume_chunks_eq (B : Nat) (hB : 0 < B) :
    ∀ (n remaining : Nat), consume_chunks B n remaining =
      (List.range (min n ((remaining + B - 1) / B))).map
        fun k => min B (remaining - k * B) := by
  intro n
  induction n with
  | zero => intro r; simp [consume_chunks]
  | succ n ih =>
    intro r
    unfold consume_chunks
    split
    · rename_i h0
      subst h0
      rw [consume_ceil_zero B hB]
      simp
    · rename_i h0
      rw [ih, consume_ceil_succ B r hB (by omega), Nat.succ_min_succ, List.range_succ_eq_map,
        List.map_cons, List.map_map]
      congr 1
      · simp
      · apply List.map_congr_left
        intro k hk
        simp only [Function.comp, Nat.succ_eq_add_one]
        by_cases h : r ≤ B
        · rw [Nat.min_eq_right h, Nat.sub_self, consume_ceil_zero B hB] at hk
          simp at hk
        · have hBr : B ≤ r := by omega
          rw [Nat.min_eq_left hBr, Nat.succ_mul, Nat.sub_sub, Nat.add_comm B]

theorem consume_requests_eq_chunks (B L : Nat) (hB : 0 < B) :
    consume_requests B L = consume_chunks B ((L + B - 1) / B) L := by
  rw [consume_chunks_eq B hB, Nat.min_self]
  rfl

theorem consume_chunks_take (B : Nat) (hB : 0 < B) (n L : Nat) :
    consume_chunks B n L = (consume_requests B L).take n := by
  rw [consume_chunks_eq B hB, consume_requests, ← List.map_take, List.take_range]

theorem consume_chunks_length (B : Nat) (hB : 0 < B) (n L : Nat) :
    (consume_chunks B n L).length = min n ((L + B - 1) / B) := by
  rw [consume_chunks_eq B hB, List.length_map, List.length_range]
theorem fill_step_consume (B : Nat) (lv : large_buf_t) (w : fill_run)
    (hm : w.msg.mode = .consume) (hc : w.msg.completed = false) :
    fill_large_value_msg_t.step B lv w = .ok () (fill_large_value_msg_t.do_consume B w) := by
  unfold fill_large_value_msg_t.step
  rw [hc, hm]
  rfl

theorem do_consume_zero (B : Nat) (w : fill_run) (h0 : w.msg.length = 0) :
    fill_large_value_msg_t.do_consume B w =
      { w with events := .fill_lv_msg_set :: w.events } := by
  unfold fill_large_value_msg_t.do_consume
  simp [h0]

theorem do_consume_pos (B : Nat) (w : fill_run) (hB32 : B < 4294967296)
    (h0 : w.msg.length ≠ 0) (hl : w.msg.length < 4294967296) :
    fill_large_value_msg_t.do_consume B w =
      { msg := { w.msg with length := w.msg.length - min B w.msg.length },
        events := .fill_value none (min B w.msg.length) :: w.events,
        transfer_pending := true } := by
  unfold fill_large_value_msg_t.do_consume
  have hu : u32 B = B := Nat.mod_eq_of_lt hB32
  have hpos : w.msg.length > 0 := Nat.pos_of_ne_zero h0
  rw [if_pos hpos]
  simp only [hu]
  rw [u32_sub_of_le _ _ hl (Nat.min_le_right _ _)]

theorem fill_transfers_idle (B : Nat) (lv : large_buf_t) (n : Nat) (w : fill_run)
    (hp : w.transfer_pending = false) :
    fill_large_value_msg_t.transfers B lv n w = .ok () w := by
  cases n with
  | zero => rfl
  | succ n =>
    unfold fill_large_value_msg_t.transfers
    rw [hp]
    rfl

theorem fill_transfers_pending (B : Nat) (lv : large_buf_t) (n : Nat) (w : fill_run)
    (hp : w.transfer_pending = true) :
    fill_large_value_msg_t.transfers B lv (n + 1) w =
      fill_large_value_msg_t.steps B lv n { w with transfer_pending := false } := by
  unfold fill_large_value_msg_t.transfers fill_large_value_msg_t.steps
    fill_large_value_msg_t.on_data_transferred
  rw [hp]
  rfl

theorem consume_steps_spec (B : Nat) (lv : large_buf_t) (hB32 : B < 4294967296) :
    ∀ (n : Nat) (w : fill_run), w.msg.mode = .consume → w.msg.completed = false →
      w.transfer_pending = false → w.msg.length < 4294967296 →
      fill_large_value_msg_t.steps B lv n w = .ok ()
        { msg := { w.msg with
            length := w.msg.length - (consume_chunks B (n + 1) w.msg.length).sum },
          events :=
            (if (consume_chunks B (n + 1) w.msg.length).length ≤ n then
              [fill_event.fill_lv_msg_set] else []) ++
            ((consume_chunks B (n + 1) w.msg.length).map (fill_event.fill_value none)).reverse
              ++ w.events,
          transfer_pending := decide (n < (consume_chunks B (n + 1) w.msg.length).length) } := by
  intro n
  induction n with
  | zero =>
    intro w hm hc hp hl
    unfold fill_large_value_msg_t.steps
    rw [fill_step_consume B lv w hm hc]
    simp only [fill_large_value_msg_t.transfers]
    by_cases h0 : w.msg.length = 0
    · rw [do_consume_zero B w h0]
      obtain ⟨⟨mode, rh, home, buf, comp, succ, pos, len⟩, events, pending⟩ := w
      simp only at h0 hp
      subst h0
      subst hp
      simp [consume_chunks]
    · rw [do_consume_pos B w hB32 h0 hl]
      simp [consume_chunks, h0]
  | succ n ih =>
    intro w hm hc hp hl
    unfold fill_large_value_msg_t.steps
    rw [fill_step_consume B lv w hm hc]
    simp only []
    by_cases h0 : w.msg.length = 0
    · rw [do_consume_zero B w h0]
      rw [fill_transfers_idle B lv (n + 1) { w with events := .fill_lv_msg_set :: w.events } hp]
      obtain ⟨⟨mode, rh, home, buf, comp, succ, pos, len⟩, events, pending⟩ := w
      simp only at h0 hp
      subst h0
      subst hp
      simp [consume_chunks]
    · rw [do_consume_pos B w hB32 h0 hl, fill_transfers_pending B lv n _ rfl]
      have hih := ih
        { msg := { w.msg with length := w.msg.length - min B w.msg.length },
          events := .fill_value none (min B w.msg.length) :: w.events,
          transfer_pending := false } hm hc rfl (lt_of_le_of_lt (Nat.sub_le _ _) hl)
      refine Eq.trans hih ?_
      have hchunk : consume_chunks B (n + 1 + 1) w.msg.length =
          min B w.msg.length ::
            consume_chunks B (n + 1) (w.msg.length - min B w.msg.length) := by
        rw [consume_chunks, if_neg h0]
      simp only [hchunk, List.sum_cons, List.length_cons, List.map_cons, List.reverse_cons,
        List.append_assoc, List.singleton_append, Nat.add_le_add_iff_right,
        Nat.add_lt_add_iff_right, Nat.sub_sub]
theorem fill_run_eq_steps (B : Nat) (lv : large_buf_t) (n : Nat) (w : fill_run)
    (hc : w.msg.completed = false) :
    fill_large_value_msg_t.run B lv n w = fill_large_value_msg_t.steps B lv n w := by
  unfold fill_large_value_msg_t.run fill_large_value_msg_t.on_cpu_switch
    fill_large_value_msg_t.steps
  simp [hc]

theorem consume_run_spec (B L : Nat) (hB : 0 < B) (hB32 : B < 4294967296)
    (hL : L < 4294967296) (lv : large_buf_t) (rh_cpu home_cpu : Int) (success : Bool)
    (pos n : Nat) :
    fill_large_value_msg_t.run B lv n
        ⟨fill_large_value_msg_t.new_consume rh_cpu home_cpu L success pos, [], false⟩ =
      .ok ()
        { msg := { fill_large_value_msg_t.new_consume rh_cpu home_cpu L success pos with
            length := L - min ((n + 1) * B) L },
          events :=
            (if (L + B - 1) / B ≤ n then [fill_event.fill_lv_msg_set] else []) ++
              (((consume_requests B L).take (n + 1)).map (fill_event.fill_value none)).reverse,
          transfer_pending := decide (n < (L + B - 1) / B) } := by
  have hu : u32 L = L := Nat.mod_eq_of_lt hL
  have hlen : (fill_large_value_msg_t.new_consume rh_cpu home_cpu L success pos).length = L := hu
  rw [fill_run_eq_steps B lv n _ rfl]
  rw [consume_steps_spec B lv hB32 n _ rfl rfl rfl (by rw [hlen]; exact hL)]
  simp only [hlen, consume_chunks_sum, consume_chunks_length B hB, ← consume_chunks_take B hB,
    List.append_nil]
  have h1 : (min (n + 1) ((L + B - 1) / B) ≤ n) = ((L + B - 1) / B ≤ n) := by
    apply propext
    omega
  have h2 : (n < min (n + 1) ((L + B - 1) / B)) = (n < (L + B - 1) / B) := by
    apply propext
    omega
  simp only [h1, h2]

/-- C30: consume mode drains exactly the requested number of bytes. For every initial
length `L` (a `uint32_t`) and buffer size `B = IO_BUFFER_SIZE` with `0 < B < 2^32`, a
consume-mode `fill_large_value_msg_t` run on the core of the request handler issues,
one per step, the requests `min(B, L - k * B)` for `k = 0, 1, ...`: each is positive,
at most `B` and at most what remains (`k * B < L`, the remaining length does not
underflow), there are `ceil(L / B)` of them and they sum to `L`. After `n` completed
transfers the message has issued the first `n + 1` of these requests and its `length`
is `L - min((n + 1) * B, L)`; a request is outstanding exactly while `n < ceil(L / B)`,
and the step after the `ceil(L / B)`-th request finds `length = 0` and registers the
message as `rh->fill_lv_msg`, asking for nothing more. No step aborts. -/
theorem C30_consume_drains_requested_bytes (B L : Nat) (hB : 0 < B) (hB32 : B < 4294967296)
    (hL : L < 4294967296) (large_value : large_buf_t) (rh_cpu home_cpu : Int)
    (success : Bool) (pos : Nat) :
    (consume_requests B L).length = (L + B - 1) / B ∧
    (L ≤ (L + B - 1) / B * B ∧ ∀ m, L ≤ m * B → (L + B - 1) / B ≤ m) ∧
    (∀ k, k < (L + B - 1) / B →
      (consume_requests B L)[k]? = some (min B (L - k * B)) ∧ k * B < L ∧
      0 < min B (L - k * B) ∧ min B (L - k * B) ≤ B ∧ min B (L - k * B) ≤ L - k * B) ∧
    (consume_requests B L).sum = L ∧
    (∀ n, fill_large_value_msg_t.run B large_value n
        ⟨fill_large_value_msg_t.new_consume rh_cpu home_cpu L success pos, [], false⟩ =
      .ok ()
        { msg := { fill_large_value_msg_t.new_consume rh_cpu home_cpu L success pos with
            length := L - min ((n + 1) * B) L },
          events :=
            (if (L + B - 1) / B ≤ n then [fill_event.fill_lv_msg_set] else []) ++
              (((consume_requests B L).take (n + 1)).map (fill_event.fill_value none)).reverse,
          transfer_pending := decide (n < (L + B - 1) / B) }) ∧
    (fill_large_value_msg_t.run B large_value ((L + B - 1) / B)
        ⟨fill_large_value_msg_t.new_consume rh_cpu home_cpu L success pos, [],
          false⟩).state.events.reverse =
      (consume_requests B L).map (fill_event.fill_value none) ++ [.fill_lv_msg_set] ∧
    (fill_large_value_msg_t.run B large_value ((L + B - 1) / B)
        ⟨fill_large_value_msg_t.new_consume rh_cpu home_cpu L success pos, [],
          false⟩).state.msg.length = 0 ∧
    (fill_large_value_msg_t.run B large_value ((L + B - 1) / B)
        ⟨fill_large_value_msg_t.new_consume rh_cpu home_cpu L success pos, [],
          false⟩).state.transfer_pending = false := by
  have hceil := consume_ceil_spec B L hB
  have hlen : (consume_requests B L).length = (L + B - 1) / B := by
    simp [consume_requests]
  have hrun := consume_run_spec B L hB hB32 hL large_value rh_cpu home_cpu success pos
  refine ⟨hlen, hceil, ?_, ?_, hrun, ?_, ?_, ?_⟩
  · intro k hk
    have hkL : k * B < L := by
      by_contra hge
      have := hceil.2 k (by omega)
      omega
    refine ⟨?_, hkL, ?_, Nat.min_le_left _ _, Nat.min_le_right _ _⟩
    · simp [consume_requests, List.getElem?_range hk]
    · have : 0 < L - k * B := by omega
      exact Nat.lt_min.mpr ⟨hB, this⟩
  · rw [consume_requests_eq_chunks B L hB, consume_chunks_sum]
    exact Nat.min_eq_right hceil.1
  · rw [hrun]
    simp only [Outcome.state, le_refl, if_true, List.reverse_append, List.reverse_reverse,
      List.reverse_cons, List.reverse_nil, List.nil_append]
    rw [List.take_of_length_le (by rw [hlen]; omega)]
  · rw [hrun]
    simp only [Outcome.state]
    have : L ≤ ((L + B - 1) / B + 1) * B := by
      rw [Nat.add_mul]
      omega
    omega
  · rw [hrun]
    simp [Outcome.state]

/-- C30, witness: 10 bytes through a buffer of 4: the requests are 4, 4, 2, and the step
after the third registers the message. -/
theorem C30_consume_drains_requested_bytes_witness :
    (fill_large_value_msg_t.run 4 ⟨0, fun _ => 0, id, id⟩ 3
        ⟨fill_large_value_msg_t.new_consume 1 0 10 false 0, [], false⟩).state.events.reverse =
      [.fill_value none 4, .fill_value none 4, .fill_value none 2, .fill_lv_msg_set] ∧
    (consume_requests 4 10).sum = 10 :=
  ⟨by decide,
    (C30_consume_drains_requested_bytes 4 10 (by decide) (by decide) (by decide)
      ⟨0, fun _ => 0, id, id⟩ 1 0 false 0).2.2.2.1⟩

end RethinkDB
